import Mathlib

/-!
# Per-block reward distribution of the emissions module

A shallow embedding of `x/emissions/module/rewards/rewards.go`:
`EmitRewards`, `GenerateRewardsDistributionByTopic`,
`FilterAndInactivateTopicsUpdatingSums`, `CalcTopicRewards`,
`GenerateRewardsDistributionByTopicParticipant`, `payoutRewards` and
`pruneRecordsAfterRewards`, over an explicit keeper state.

Go functions that return `(value, error)` become functions into `Except Err`;
functions that also write to the keeper return the keeper reached, on the
error paths too (the Go code does not undo its writes itself).
-/

set_option linter.dupNamespace false

namespace Allora

/-! ## Basic types -/

/-- Topic identifiers (`uint64` in the source; only compared, never computed with). -/
abbrev TopicId := Nat

/-- Block heights (`int64` in the source). -/
abbrev BlockHeight := Int

/-- Modelled from the spec: the decimal type `alloraMath.Dec`, whose package is
outside the sources at hand. The spec describes it as a signed
arbitrary-precision rational, closed under add, sub and mul, with a division
that fails on a zero divisor, represented as an integer times `10⁻ᵏ` with
fixed `k`; its values are embedded as rational numbers, and `Dec.Round` is the
rounding to the `k` decimals of the representation. -/
abbrev Dec := ℚ

/-- The three kinds of reward entry (`ReputerRewardType`,
`WorkerInferenceRewardType`, `WorkerForecastRewardType`). -/
inductive TaskRewardType where
  | ReputerRewardType
  | WorkerInferenceRewardType
  | WorkerForecastRewardType
  deriving DecidableEq, Repr

/-- A reward distribution entry (`TaskRewards` in the source). -/
structure TaskRewards where
  Address : String
  Reward : Dec
  TopicId : TopicId
  /-- the field `Type` of the source -/
  RewardType : TaskRewardType
  deriving DecidableEq

/-- Bank accounts: a module account by name, or an account address. -/
inductive Account where
  | module (name : String)
  | address (addr : String)
  deriving DecidableEq

/-- Name of the rewards module account (`types.AlloraRewardsAccountName`). -/
def AlloraRewardsAccountName : String := "allorarewards"

/-- Name of the staking module account (`types.AlloraStakingAccountName`). -/
def AlloraStakingAccountName : String := "allorastaking"

/-- The keeper and bank entry points that `rewards.go` calls. -/
inductive Call where
  | GetTotalRewardToDistribute
  | GetParams
  | GetTopicRewardNonce (topicId : TopicId)
  | GetTopicFeeRevenue (topicId : TopicId)
  | GetReputerLossBundlesAtBlock (topicId : TopicId) (block : BlockHeight)
  | GetNetworkLossBundleAtBlock (topicId : TopicId) (block : BlockHeight)
  | GetUnfulfilledReputerNonces (topicId : TopicId)
  | GetTopic (topicId : TopicId)
  | InactivateTopic (topicId : TopicId)
  | ResetTopicFeeRevenue (topicId : TopicId) (block : BlockHeight)
  | SendCoinsFromModuleToModule (sender recipient : String) (amount : Int)
  | SendCoinsFromModuleToAccount (sender : String) (recipient : String) (amount : Int)
  | AddStake (topicId : TopicId) (reputer : String) (amount : Int)
  | DeleteTopicRewardNonce (topicId : TopicId)
  | PruneRecordsAfterRewards (topicId : TopicId) (block : BlockHeight)
  | SetPreviousPercentageRewardToStakedReputers (percentage : Dec)
  deriving DecidableEq

/-- Errors. A wrapped error (`errors.Wrapf`) is identified with the error it wraps. -/
inductive Err where
  /-- the keeper or bank call returned an error -/
  | keeper (c : Call)
  /-- `Dec.Quo` with a zero divisor -/
  | divideByZero
  /-- `types.ErrInvalidReward` -/
  | invalidReward
  /-- a nil weight given to `GetTopicRewardFraction` -/
  | invalidValue
  /-- `sdk.AccAddressFromBech32` rejected the address -/
  | decode (address : String)
  /-- an error raised inside the score, fraction or entropy computations -/
  | engine (code : Nat)
  /-- a Go run-time panic (nil dereference, integer division by zero) -/
  | runtimePanic
  deriving DecidableEq

/-- One entry of the transcript of a block: a keeper or bank write that was
invoked, or a marker that the driver entered `payoutRewards` or
`pruneRecordsAfterRewards` for a topic. -/
inductive Event where
  | write (c : Call)
  | payoutRewards (topicId : TopicId)
  | pruneRecordsAfterRewards (topicId : TopicId)
  deriving DecidableEq

/-- Module parameters read by the reward engine (`types.Params`). -/
structure Params where
  MaxTopicsPerBlock : Nat
  MinTopicWeight : Dec
  MinEpochLengthRecordLimit : Int
  BlocksPerMonth : Nat
  PRewardReputer : Dec
  PRewardInference : Dec
  PRewardForecast : Dec
  CRewardInference : Dec
  CRewardForecast : Dec
  TaskRewardAlpha : Dec
  BetaEntropy : Dec

/-- Fee revenue of a topic with the block of its last reset (`types.TopicFeeRevenue`). -/
structure TopicFeeRevenue where
  Epoch : BlockHeight
  Revenue : Int
  deriving DecidableEq

/-- The attributes of a topic that the reward engine reads (`types.Topic`). -/
structure Topic where
  EpochLength : Int
  GroundTruthLag : Int
  deriving DecidableEq

/-- A network loss bundle (`types.ValueBundle`). -/
structure ValueBundle where
  NaiveValue : Dec
  CombinedValue : Dec
  InfererValues : List (String × Dec)
  ForecasterValues : List (String × Dec)
  deriving DecidableEq

/-- The reputers' reported bundles at a block (`types.ReputerValueBundles`). -/
abbrev ReputerValueBundles := List (String × ValueBundle)

/-- A persisted score (`types.Score`). -/
structure Score where
  TopicId : TopicId
  BlockHeight : BlockHeight
  Address : String
  Score : Dec
  deriving DecidableEq

/-- Per-topic, per-kind, per-block, per-actor decimal records (scores and the
previous reward fractions and entropies the engine keeps). -/
abbrev ScoreStore := TopicId → String → BlockHeight → String → Option Dec

/-! ## Maps keyed by topic -/

/-- A Go `map[uint64]*Dec` as an association list; the first binding of a key
is the value of the map at that key. -/
abbrev DecMap := List (TopicId × Dec)

/-- Map lookup `m[t]`: `none` is the nil pointer of an absent key. -/
def DecMap.get (m : DecMap) (t : TopicId) : Option Dec :=
  match m with
  | [] => none
  | (k, v) :: rest => if k = t then some v else DecMap.get rest t

/-- Map assignment `m[t] = v`. -/
def DecMap.set (m : DecMap) (t : TopicId) (v : Dec) : DecMap :=
  (t, v) :: m.filter (fun p => !decide (p.1 = t))

/-- Modelled from the spec: `alloraMath.GetSortedKeys`, outside the sources at
hand; returns the keys of the map, each once, in ascending order. -/
def GetSortedKeys (m : DecMap) : List TopicId :=
  ((m.map Prod.fst).dedup).insertionSort (fun a b => a ≤ b)

/-! ## Decimal arithmetic -/

/-- Modelled from the spec: `Dec.Add` (exact, never fails). -/
def Dec.Add (x y : Dec) : Except Err Dec := .ok (x + y)

/-- Modelled from the spec: `Dec.Sub` (exact, never fails). -/
def Dec.Sub (x y : Dec) : Except Err Dec := .ok (x - y)

/-- Modelled from the spec: the number `k` of decimals of a `Dec`, which is an
integer times `10⁻ᵏ` with fixed `k`. -/
def Dec.Precision : Nat := 18

/-- Modelled from the spec: the `Dec` nearest to a number, that is the nearest
integer multiple of `10⁻ᵏ`; a number half way between two of them goes to the
one away from zero (half up). A number that is such a multiple is unchanged. -/
def Dec.Round (x : Dec) : Dec :=
  if 0 ≤ x then (⌊x * 10 ^ Dec.Precision + 1 / 2⌋ : Dec) / 10 ^ Dec.Precision
  else -((⌊-x * 10 ^ Dec.Precision + 1 / 2⌋ : Dec) / 10 ^ Dec.Precision)

/-- Modelled from the spec: `Dec.Mul` (never fails): the product, rounded to the
`k` decimals of a `Dec`. -/
def Dec.Mul (x y : Dec) : Except Err Dec := .ok (Dec.Round (x * y))

/-- Modelled from the spec: `Dec.Quo` fails with `DivideByZero` when the
divisor is zero. -/
def Dec.Quo (x y : Dec) : Except Err Dec :=
  if y = 0 then .error Err.divideByZero else .ok (x / y)

/-- Modelled from the spec: conversion `Dec → Int` truncating toward zero
(`SdkIntTrim`). -/
def Dec.SdkIntTrim (x : Dec) : Int := Int.tdiv x.num (x.den : Int)

/-- Modelled from the spec: `GetTopicRewardFraction`, outside the sources at
hand: the weight of the topic divided by the total weight; the fraction it
returns is a `Dec`, the quotient rounded to `k` decimals. -/
def GetTopicRewardFraction (topicWeight : Option Dec) (totalWeight : Dec) : Except Err Dec :=
  match topicWeight with
  | none => .error Err.invalidValue
  | some w =>
    match Dec.Quo w totalWeight with
    | .error e => .error e
    | .ok topicRewardFraction => .ok (Dec.Round topicRewardFraction)

/-- Modelled from the spec: `GetTopicReward`, outside the sources at hand: the
fraction of the topic times the total reward, a product of two `Dec`. -/
def GetTopicReward (topicRewardFraction totalReward : Dec) : Except Err Dec :=
  Dec.Mul topicRewardFraction totalReward

/-! ## The keeper -/

/-- Modelled from the spec: the keeper (storage, bank and staking), whose
package is outside the sources at hand. The state holds the persisted values
the engine reads and writes, `fails`, which says which calls return an error,
and the transcript of the writes invoked so far. -/
structure Keeper where
  totalRewardToDistribute : Dec
  params : Params
  rewardNonce : TopicId → Int
  active : TopicId → Bool
  feeRevenue : TopicId → TopicFeeRevenue
  balance : Account → Int
  stake : TopicId → String → Int
  unfulfilledNonces : TopicId → List BlockHeight
  topic : TopicId → Topic
  networkLossBundle : TopicId → BlockHeight → Option ValueBundle
  reputerLossBundles : TopicId → BlockHeight → Option ReputerValueBundles
  scores : ScoreStore
  previousPercentageRewardToStakedReputers : Dec
  fails : Call → Bool
  transcript : List Event

namespace Keeper

/-- Modelled from the spec: a keeper read: the stored value, or an error when
the call fails. -/
def read {α : Type} (k : Keeper) (c : Call) (v : α) : Except Err α :=
  if k.fails c then .error (Err.keeper c) else .ok v

/-- Modelled from the spec: a keeper write: the invocation is appended to the
transcript; the effect takes place unless the call fails. -/
def write (k : Keeper) (c : Call) (effect : Keeper → Keeper) : Option Err × Keeper :=
  let k1 := { k with transcript := k.transcript ++ [Event.write c] }
  if k.fails c then (some (Err.keeper c), k1) else (none, effect k1)

/-- Append a driver marker to the transcript. -/
def mark (k : Keeper) (e : Event) : Keeper :=
  { k with transcript := k.transcript ++ [e] }

def GetTotalRewardToDistribute (k : Keeper) : Except Err Dec :=
  k.read Call.GetTotalRewardToDistribute k.totalRewardToDistribute

def GetParams (k : Keeper) : Except Err Params :=
  k.read Call.GetParams k.params

/-- The nonce and the error, as the Go pair; the nonce is 0 when the read fails. -/
def GetTopicRewardNonce (k : Keeper) (topicId : TopicId) : Int × Option Err :=
  if k.fails (Call.GetTopicRewardNonce topicId)
  then (0, some (Err.keeper (Call.GetTopicRewardNonce topicId)))
  else (k.rewardNonce topicId, none)

def GetTopicFeeRevenue (k : Keeper) (topicId : TopicId) : Except Err TopicFeeRevenue :=
  k.read (Call.GetTopicFeeRevenue topicId) (k.feeRevenue topicId)

def GetUnfulfilledReputerNonces (k : Keeper) (topicId : TopicId) : Except Err (List BlockHeight) :=
  k.read (Call.GetUnfulfilledReputerNonces topicId) (k.unfulfilledNonces topicId)

def GetTopic (k : Keeper) (topicId : TopicId) : Except Err Topic :=
  k.read (Call.GetTopic topicId) (k.topic topicId)

def GetReputerLossBundlesAtBlock (k : Keeper) (topicId : TopicId) (block : BlockHeight) :
    Except Err ReputerValueBundles :=
  match k.reputerLossBundles topicId block with
  | none => .error (Err.keeper (Call.GetReputerLossBundlesAtBlock topicId block))
  | some b => k.read (Call.GetReputerLossBundlesAtBlock topicId block) b

def GetNetworkLossBundleAtBlock (k : Keeper) (topicId : TopicId) (block : BlockHeight) :
    Except Err ValueBundle :=
  match k.networkLossBundle topicId block with
  | none => .error (Err.keeper (Call.GetNetworkLossBundleAtBlock topicId block))
  | some b => k.read (Call.GetNetworkLossBundleAtBlock topicId block) b

def InactivateTopic (k : Keeper) (topicId : TopicId) : Option Err × Keeper :=
  k.write (Call.InactivateTopic topicId)
    (fun s => { s with active := fun t => if t = topicId then false else s.active t })

def ResetTopicFeeRevenue (k : Keeper) (topicId : TopicId) (block : BlockHeight) :
    Option Err × Keeper :=
  k.write (Call.ResetTopicFeeRevenue topicId block)
    (fun s => { s with feeRevenue := fun t =>
      if t = topicId then { Epoch := block, Revenue := 0 } else s.feeRevenue t })

def SendCoinsFromModuleToModule (k : Keeper) (sender recipient : String) (amount : Int) :
    Option Err × Keeper :=
  k.write (Call.SendCoinsFromModuleToModule sender recipient amount)
    (fun s => { s with balance := fun a =>
      (if a = Account.module recipient then amount else 0)
        + ((if a = Account.module sender then -amount else 0) + s.balance a) })

def SendCoinsFromModuleToAccount (k : Keeper) (sender : String) (recipient : String)
    (amount : Int) : Option Err × Keeper :=
  k.write (Call.SendCoinsFromModuleToAccount sender recipient amount)
    (fun s => { s with balance := fun a =>
      (if a = Account.address recipient then amount else 0)
        + ((if a = Account.module sender then -amount else 0) + s.balance a) })

def AddStake (k : Keeper) (topicId : TopicId) (reputer : String) (amount : Int) :
    Option Err × Keeper :=
  k.write (Call.AddStake topicId reputer amount)
    (fun s => { s with stake := fun t r =>
      if t = topicId ∧ r = reputer then s.stake t r + amount else s.stake t r })

def DeleteTopicRewardNonce (k : Keeper) (topicId : TopicId) : Option Err × Keeper :=
  k.write (Call.DeleteTopicRewardNonce topicId)
    (fun s => { s with rewardNonce := fun t => if t = topicId then 0 else s.rewardNonce t })

/-- Prunes the per-block records of the topic with a block height strictly
below the given block. -/
def PruneRecordsAfterRewards (k : Keeper) (topicId : TopicId) (block : BlockHeight) :
    Option Err × Keeper :=
  k.write (Call.PruneRecordsAfterRewards topicId block)
    (fun s => { s with
      networkLossBundle := fun t b =>
        if t = topicId ∧ b < block then none else s.networkLossBundle t b
      reputerLossBundles := fun t b =>
        if t = topicId ∧ b < block then none else s.reputerLossBundles t b
      scores := fun t kind b a =>
        if t = topicId ∧ b < block then none else s.scores t kind b a })

def SetPreviousPercentageRewardToStakedReputers (k : Keeper) (percentage : Dec) :
    Option Err × Keeper :=
  k.write (Call.SetPreviousPercentageRewardToStakedReputers percentage)
    (fun s => { s with previousPercentageRewardToStakedReputers := percentage })

end Keeper

/-! ## Selection of the topics to reward -/

/-- `removeFromSumWeightAndRevenue`. -/
def removeFromSumWeightAndRevenue (sumWeight : Dec) (weight : Dec) : Except Err Dec :=
  match Dec.Sub sumWeight weight with
  | .error e => .error e
  | .ok s => .ok s

/-- The block `if weight.Lt(moduleParams.MinTopicWeight) { ... }` of the loop
of `FilterAndInactivateTopicsUpdatingSums`: returns the value of
`filterOutTopic` after the block. -/
def FilterAndInactivateTopicsUpdatingSums.belowMinimum (k : Keeper) (MinTopicWeight : Dec)
    (blockHeight : BlockHeight) (topicId : TopicId) (weight : Dec) (filterOutTopic : Bool) :
    Except Err Bool × Keeper :=
  if weight < MinTopicWeight then
    match k.InactivateTopic topicId with
    | (some e, k1) => (.error e, k1)
    | (none, k1) =>
      match k1.ResetTopicFeeRevenue topicId blockHeight with
      | (some e, k2) => (.error e, k2)
      | (none, k2) => (.ok true, k2)
  else (.ok filterOutTopic, k)

/-- The loop `for _, topicId := range sortedTopics` of
`FilterAndInactivateTopicsUpdatingSums`, with the loop variables
`weightsOfActiveTopics` and `sumWeight`. -/
def FilterAndInactivateTopicsUpdatingSums.loop (weights : DecMap) (MinTopicWeight : Dec)
    (blockHeight : BlockHeight) :
    List TopicId → DecMap → Dec → Keeper → Except Err (DecMap × Dec) × Keeper
  | [], weightsOfActiveTopics, sumWeight, k => (.ok (weightsOfActiveTopics, sumWeight), k)
  | topicId :: rest, weightsOfActiveTopics, sumWeight, k =>
    let nonce := k.GetTopicRewardNonce topicId
    let filterOutTopic := false
    let filterOutTopic := if nonce.2.isSome then true else filterOutTopic
    let filterOutTopic := if nonce.1 = 0 then true else filterOutTopic
    match weights.get topicId with
    | none => (.error Err.runtimePanic, k)
    | some weight =>
      match FilterAndInactivateTopicsUpdatingSums.belowMinimum k MinTopicWeight blockHeight
          topicId weight filterOutTopic with
      | (.error e, k1) => (.error e, k1)
      | (.ok filterOutTopic, k1) =>
        if filterOutTopic then
          match removeFromSumWeightAndRevenue sumWeight weight with
          | .error e => (.error e, k1)
          | .ok sumWeight1 =>
            FilterAndInactivateTopicsUpdatingSums.loop weights MinTopicWeight blockHeight
              rest weightsOfActiveTopics sumWeight1 k1
        else
          FilterAndInactivateTopicsUpdatingSums.loop weights MinTopicWeight blockHeight
            rest (weightsOfActiveTopics.set topicId weight) sumWeight k1

/-- `FilterAndInactivateTopicsUpdatingSums`. -/
def FilterAndInactivateTopicsUpdatingSums (k : Keeper) (weights : DecMap)
    (sortedTopics : List TopicId) (sumWeight : Dec) (_totalReward : Dec)
    (blockHeight : BlockHeight) : Except Err (DecMap × Dec) × Keeper :=
  match k.GetParams with
  | .error e => (.error e, k)
  | .ok moduleParams =>
    FilterAndInactivateTopicsUpdatingSums.loop weights moduleParams.MinTopicWeight blockHeight
      sortedTopics [] sumWeight k

/-- The loop of `CalcTopicRewards`, with the loop variable `topicRewards`. -/
def CalcTopicRewards.loop (weights : DecMap) (sumWeight totalReward : Dec) :
    List TopicId → DecMap → Except Err DecMap
  | [], topicRewards => .ok topicRewards
  | topicId :: rest, topicRewards =>
    let weight := weights.get topicId
    match GetTopicRewardFraction weight sumWeight with
    | .error e => .error e
    | .ok topicRewardFraction =>
      match GetTopicReward topicRewardFraction totalReward with
      | .error e => .error e
      | .ok topicReward =>
        CalcTopicRewards.loop weights sumWeight totalReward rest
          (topicRewards.set topicId topicReward)

/-- `CalcTopicRewards` (it takes the keeper but does not use it). -/
def CalcTopicRewards (weights : DecMap) (sortedTopics : List TopicId)
    (sumWeight totalReward : Dec) : Except Err DecMap :=
  CalcTopicRewards.loop weights sumWeight totalReward sortedTopics []

/-- The loop of `GenerateRewardsDistributionByTopic` over `sortedTopics` that
sums the revenue and weight of the active topics that missed the cut and
resets the fee revenue of the active topics that made it; the loop variables
are `sumRevenueOfBottomTopics` and `sumWeightOfBottomTopics`. -/
def GenerateRewardsDistributionByTopic.loop (weights weightsOfActiveTopics
    weightsOfTopActiveTopics : DecMap) (blockHeight : BlockHeight) :
    List TopicId → Int → Dec → Keeper → Except Err (Int × Dec) × Keeper
  | [], sumRevenueOfBottomTopics, sumWeightOfBottomTopics, k =>
    (.ok (sumRevenueOfBottomTopics, sumWeightOfBottomTopics), k)
  | topicId :: rest, sumRevenueOfBottomTopics, sumWeightOfBottomTopics, k =>
    if (weightsOfActiveTopics.get topicId).isSome then
      if ¬ (weightsOfTopActiveTopics.get topicId).isSome then
        match k.GetTopicFeeRevenue topicId with
        | .error e => (.error e, k)
        | .ok topicFeeRevenue =>
          match weights.get topicId with
          | none => (.error Err.runtimePanic, k)
          | some weight =>
            match Dec.Add sumWeightOfBottomTopics weight with
            | .error e => (.error e, k)
            | .ok sumWeightOfBottomTopics1 =>
              GenerateRewardsDistributionByTopic.loop weights weightsOfActiveTopics
                weightsOfTopActiveTopics blockHeight rest
                (sumRevenueOfBottomTopics + topicFeeRevenue.Revenue) sumWeightOfBottomTopics1 k
      else
        match k.ResetTopicFeeRevenue topicId blockHeight with
        | (some e, k1) => (.error e, k1)
        | (none, k1) =>
          GenerateRewardsDistributionByTopic.loop weights weightsOfActiveTopics
            weightsOfTopActiveTopics blockHeight rest
            sumRevenueOfBottomTopics sumWeightOfBottomTopics k1
    else
      GenerateRewardsDistributionByTopic.loop weights weightsOfActiveTopics
        weightsOfTopActiveTopics blockHeight rest
        sumRevenueOfBottomTopics sumWeightOfBottomTopics k

/-- `GenerateRewardsDistributionByTopic`. The skimmer
`SkimTopTopicsByWeightDesc`, outside the sources at hand, is the argument
`skim`. The result `none` is the nil map of the source. -/
def GenerateRewardsDistributionByTopic (skim : DecMap → Nat → BlockHeight → DecMap)
    (k : Keeper) (maxTopicsPerBlock : Nat) (blockHeight : BlockHeight) (totalReward : Dec)
    (weights : DecMap) (sortedTopics : List TopicId) (sumWeight : Dec) (_totalRevenue : Int) :
    Except Err (Option DecMap) × Keeper :=
  if sumWeight = 0 then (.ok none, k)
  else
    match FilterAndInactivateTopicsUpdatingSums k weights sortedTopics sumWeight totalReward
        blockHeight with
    | (.error e, k1) => (.error e, k1)
    | (.ok (weightsOfActiveTopics, sumWeight1), k1) =>
      if sumWeight1 = 0 then (.ok none, k1)
      else
        let weightsOfTopActiveTopics := skim weightsOfActiveTopics maxTopicsPerBlock blockHeight
        match GenerateRewardsDistributionByTopic.loop weights weightsOfActiveTopics
            weightsOfTopActiveTopics blockHeight sortedTopics 0 0 k1 with
        | (.error e, k2) => (.error e, k2)
        | (.ok (_sumRevenueOfBottomTopics, sumWeightOfBottomTopics), k2) =>
          let sortedTopTopics := GetSortedKeys weightsOfTopActiveTopics
          match Dec.Sub sumWeight1 sumWeightOfBottomTopics with
          | .error e => (.error e, k2)
          | .ok weightOfTopTopics =>
            match CalcTopicRewards weightsOfTopActiveTopics sortedTopTopics weightOfTopTopics
                totalReward with
            | .error e => (.error e, k2)
            | .ok topicRewards => (.ok (some topicRewards), k2)

/-! ## Rewards of the participants of a topic -/

/-- The functions of the score, reward-fraction and task-reward engine and the
other collaborators that `rewards.go` calls and that lie outside the sources
at hand. A function that receives the keeper may read all of it and returns
the decimal records (`scores`) it leaves behind, also when it fails. -/
structure External where
  SkimTopTopicsByWeightDesc : DecMap → Nat → BlockHeight → DecMap
  AccAddressFromBech32 : String → Except Err String
  GenerateReputerScores :
    Keeper → TopicId → BlockHeight → ReputerValueBundles → Except Err (List Score) × ScoreStore
  GenerateInferenceScores :
    Keeper → TopicId → BlockHeight → ValueBundle → Except Err (List Score) × ScoreStore
  GenerateForecastScores :
    Keeper → TopicId → BlockHeight → ValueBundle → Except Err (List Score) × ScoreStore
  GetReputersRewardFractions :
    Keeper → TopicId → Dec → List Score → Except Err (List String × List Dec) × ScoreStore
  GetReputerTaskEntropy :
    Keeper → TopicId → Dec → Dec → List String → List Dec → Except Err Dec × ScoreStore
  GetInferenceTaskRewardFractions :
    Keeper → TopicId → BlockHeight → Dec → Dec → List Score →
      Except Err (List String × List Dec) × ScoreStore
  GetInferenceTaskEntropy :
    Keeper → TopicId → Dec → Dec → List String → List Dec → Except Err Dec × ScoreStore
  GetForecastingTaskRewardFractions :
    Keeper → TopicId → BlockHeight → Dec → Dec → List Score →
      Except Err (List String × List Dec) × ScoreStore
  GetForecastingTaskEntropy :
    Keeper → TopicId → Dec → Dec → List String → List Dec → Except Err Dec × ScoreStore
  GetRewardForReputerTaskInTopic : Dec → Dec → Dec → Dec → Except Err Dec
  GetRewardForInferenceTaskInTopic : Dec → Dec → Dec → Dec → Dec → Dec → Except Err Dec
  GetRewardForForecastingTaskInTopic : Dec → Dec → Dec → Dec → Dec → Dec → Except Err Dec
  GetRewardPerReputer :
    Keeper → TopicId → Dec → List String → List Dec → Except Err (List TaskRewards) × ScoreStore
  GetRewardPerWorker :
    TopicId → TaskRewardType → Dec → List String → List Dec → Except Err (List TaskRewards)

/-- Sequencing of two steps on the keeper: an error of the first step is
returned with the keeper it reached. -/
def andThen {α β : Type} (r : Except Err α × Keeper)
    (f : α → Keeper → Except Err β × Keeper) : Except Err β × Keeper :=
  match r with
  | (.error e, k) => (.error e, k)
  | (.ok a, k) => f a k

/-- The result of an engine function, with the records it left put into the keeper. -/
def withScores {α : Type} (k : Keeper) (r : Except Err α × ScoreStore) :
    Except Err α × Keeper :=
  (r.1, { k with scores := r.2 })

/-- `GenerateRewardsDistributionByTopicParticipant`: returns
`(totalRewardsDistribution, taskReputerReward)` or an error. -/
def GenerateRewardsDistributionByTopicParticipant (X : External) (k : Keeper)
    (topicId : TopicId) (topicReward : Option Dec) (blockHeight : BlockHeight)
    (moduleParams : Params) : Except Err (List TaskRewards × Dec) × Keeper :=
  match topicReward with
  | none => (.error Err.invalidReward, k)
  | some topicReward =>
  andThen (k.GetReputerLossBundlesAtBlock topicId blockHeight, k) fun bundles k =>
  andThen (k.GetNetworkLossBundleAtBlock topicId blockHeight, k) fun lossBundles k =>
  andThen (withScores k (X.GenerateReputerScores k topicId blockHeight bundles))
    fun reputerScores k =>
  andThen (withScores k (X.GenerateInferenceScores k topicId blockHeight lossBundles))
    fun infererScores k =>
  andThen (withScores k (X.GenerateForecastScores k topicId blockHeight lossBundles))
    fun forecasterScores k =>
  andThen (withScores k (X.GetReputersRewardFractions k topicId moduleParams.PRewardReputer
    reputerScores)) fun reputersAndFractions k =>
  let reputers := reputersAndFractions.1
  let reputersRewardFractions := reputersAndFractions.2
  andThen (withScores k (X.GetReputerTaskEntropy k topicId moduleParams.TaskRewardAlpha
    moduleParams.BetaEntropy reputers reputersRewardFractions)) fun reputerEntropy k =>
  andThen (withScores k (X.GetInferenceTaskRewardFractions k topicId blockHeight
    moduleParams.PRewardInference moduleParams.CRewardInference infererScores))
    fun inferersAndFractions k =>
  let inferers := inferersAndFractions.1
  let inferersRewardFractions := inferersAndFractions.2
  andThen (withScores k (X.GetInferenceTaskEntropy k topicId moduleParams.TaskRewardAlpha
    moduleParams.BetaEntropy inferers inferersRewardFractions)) fun inferenceEntropy k =>
  andThen (withScores k (X.GetForecastingTaskRewardFractions k topicId blockHeight
    moduleParams.PRewardForecast moduleParams.CRewardForecast forecasterScores))
    fun forecastersAndFractions k =>
  let forecasters := forecastersAndFractions.1
  let forecastersRewardFractions := forecastersAndFractions.2
  andThen
    (if forecasters.length > 0 ∧ inferers.length > 1 then
      withScores k (X.GetForecastingTaskEntropy k topicId moduleParams.TaskRewardAlpha
        moduleParams.BetaEntropy forecasters forecastersRewardFractions)
    else (.ok 0, k)) fun forecastingEntropy k =>
  andThen (X.GetRewardForReputerTaskInTopic inferenceEntropy forecastingEntropy
    reputerEntropy topicReward, k) fun taskReputerReward k =>
  andThen (X.GetRewardForInferenceTaskInTopic lossBundles.NaiveValue lossBundles.CombinedValue
    inferenceEntropy forecastingEntropy reputerEntropy topicReward, k)
    fun taskInferenceReward k =>
  andThen (X.GetRewardForForecastingTaskInTopic lossBundles.NaiveValue
    lossBundles.CombinedValue inferenceEntropy forecastingEntropy reputerEntropy topicReward, k)
    fun taskForecastingReward k =>
  let totalRewardsDistribution : List TaskRewards := []
  andThen (withScores k (X.GetRewardPerReputer k topicId taskReputerReward reputers
    reputersRewardFractions)) fun reputerRewards k =>
  let totalRewardsDistribution := totalRewardsDistribution ++ reputerRewards
  andThen (X.GetRewardPerWorker topicId TaskRewardType.WorkerInferenceRewardType
    taskInferenceReward inferers inferersRewardFractions, k) fun inferenceRewards k =>
  let totalRewardsDistribution := totalRewardsDistribution ++ inferenceRewards
  andThen (X.GetRewardPerWorker topicId TaskRewardType.WorkerForecastRewardType
    taskForecastingReward forecasters forecastersRewardFractions, k) fun forecastRewards k =>
  let totalRewardsDistribution := totalRewardsDistribution ++ forecastRewards
  (.ok (totalRewardsDistribution, taskReputerReward), k)

/-! ## Payout and pruning -/

/-- The loop of `payoutRewards`, with the loop variable `ret`. -/
def payoutRewards.loop (AccAddressFromBech32 : String → Except Err String) :
    List TaskRewards → List Err → Keeper → List Err × Keeper
  | [], ret, k => (ret, k)
  | reward :: rest, ret, k =>
    if reward.Reward = 0 then payoutRewards.loop AccAddressFromBech32 rest ret k
    else
      let rewardInt := Dec.SdkIntTrim |reward.Reward|
      if reward.RewardType = TaskRewardType.ReputerRewardType then
        match k.SendCoinsFromModuleToModule AlloraRewardsAccountName AlloraStakingAccountName
            rewardInt with
        | (some e, k1) => payoutRewards.loop AccAddressFromBech32 rest (ret ++ [e]) k1
        | (none, k1) =>
          match k1.AddStake reward.TopicId reward.Address rewardInt with
          | (some e, k2) => payoutRewards.loop AccAddressFromBech32 rest (ret ++ [e]) k2
          | (none, k2) => payoutRewards.loop AccAddressFromBech32 rest ret k2
      else
        match AccAddressFromBech32 reward.Address with
        | .error e => payoutRewards.loop AccAddressFromBech32 rest (ret ++ [e]) k
        | .ok accAddress =>
          match k.SendCoinsFromModuleToAccount AlloraRewardsAccountName accAddress rewardInt with
          | (some e, k1) => payoutRewards.loop AccAddressFromBech32 rest (ret ++ [e]) k1
          | (none, k1) => payoutRewards.loop AccAddressFromBech32 rest ret k1

/-- `payoutRewards`: returns the list of the errors of the entries. -/
def payoutRewards (AccAddressFromBech32 : String → Except Err String) (k : Keeper)
    (rewards : List TaskRewards) : List Err × Keeper :=
  payoutRewards.loop AccAddressFromBech32 rewards [] k

/-- Two's-complement wrap-around of `int64` arithmetic. -/
def wrapInt64 (x : Int) : Int := (x + 2 ^ 63) % 2 ^ 64 - 2 ^ 63

/-- The search of `pruneRecordsAfterRewards` for the oldest unfulfilled nonce. -/
def pruneRecordsAfterRewards.oldest (topicRewardNonce : BlockHeight)
    (nonces : List BlockHeight) : BlockHeight :=
  match nonces with
  | [] => topicRewardNonce
  | first :: _ =>
    nonces.foldl (fun oldestNonce nonce => if nonce < oldestNonce then nonce else oldestNonce)
      first

/-- `pruneRecordsAfterRewards`. -/
def pruneRecordsAfterRewards (k : Keeper) (minEpochLengthRecordLimit : Int)
    (topicId : TopicId) (topicRewardNonce : BlockHeight) : Option Err × Keeper :=
  match k.DeleteTopicRewardNonce topicId with
  | (some e, k1) => (some e, k1)
  | (none, k1) =>
    match k1.GetUnfulfilledReputerNonces topicId with
    | .error e => (some e, k1)
    | .ok unfulfilledNonces =>
      let oldestNonce := pruneRecordsAfterRewards.oldest topicRewardNonce unfulfilledNonces
      match k1.GetTopic topicId with
      | .error e => (some e, k1)
      | .ok topic =>
        let oldestNonce :=
          wrapInt64 (oldestNonce - wrapInt64 (minEpochLengthRecordLimit * topic.EpochLength))
        k1.PruneRecordsAfterRewards topicId oldestNonce

/-! ## The driver -/

/-- The loop `for _, topicId := range sortedTopics` of `EmitRewards`, with the
loop variable `totalRewardToStakedReputers`. -/
def EmitRewards.loop (X : External) (moduleParams : Params) (topicRewards : DecMap) :
    List TopicId → Dec → Keeper → Except Err Dec × Keeper
  | [], totalRewardToStakedReputers, k => (.ok totalRewardToStakedReputers, k)
  | topicId :: rest, totalRewardToStakedReputers, k =>
    match topicRewards.get topicId with
    | none => EmitRewards.loop X moduleParams topicRewards rest totalRewardToStakedReputers k
    | some topicReward =>
      let nonce := k.GetTopicRewardNonce topicId
      if nonce.2.isSome ∨ nonce.1 = 0 then
        EmitRewards.loop X moduleParams topicRewards rest totalRewardToStakedReputers k
      else
        match GenerateRewardsDistributionByTopicParticipant X k topicId (some topicReward)
            nonce.1 moduleParams with
        | (.error _, k1) =>
          EmitRewards.loop X moduleParams topicRewards rest totalRewardToStakedReputers k1
        | (.ok (totalRewardsDistribution, rewardInTopicToReputers), k1) =>
          match Dec.Add totalRewardToStakedReputers rewardInTopicToReputers with
          | .error e => (.error e, k1)
          | .ok totalRewardToStakedReputers1 =>
            match payoutRewards X.AccAddressFromBech32 (k1.mark (Event.payoutRewards topicId))
                totalRewardsDistribution with
            | (payoutErrors, k2) =>
              if payoutErrors.length > 0 then
                EmitRewards.loop X moduleParams topicRewards rest totalRewardToStakedReputers1 k2
              else
                match pruneRecordsAfterRewards (k2.mark (Event.pruneRecordsAfterRewards topicId))
                    moduleParams.MinEpochLengthRecordLimit topicId nonce.1 with
                | (some _, k3) =>
                  EmitRewards.loop X moduleParams topicRewards rest
                    totalRewardToStakedReputers1 k3
                | (none, k3) =>
                  EmitRewards.loop X moduleParams topicRewards rest
                    totalRewardToStakedReputers1 k3

/-- The end of `EmitRewards`: on the monthly boundary, store the share of the
total reward that went to the staked reputers. The conversion
`uint64(blockHeight)` wraps, and a zero `BlocksPerMonth` is a division by zero. -/
def EmitRewards.monthly (k : Keeper) (moduleParams : Params) (blockHeight : BlockHeight)
    (totalReward totalRewardToStakedReputers : Dec) : Except Err Unit × Keeper :=
  if totalReward = 0 then (.ok (), k)
  else if moduleParams.BlocksPerMonth = 0 then (.error Err.runtimePanic, k)
  else if (blockHeight % 2 ^ 64).toNat % moduleParams.BlocksPerMonth = 0 then
    match Dec.Quo totalRewardToStakedReputers totalReward with
    | .error e => (.error e, k)
    | .ok percentageToStakedReputers =>
      match k.SetPreviousPercentageRewardToStakedReputers percentageToStakedReputers with
      | (some e, k1) => (.error e, k1)
      | (none, k1) => (.ok (), k1)
  else (.ok (), k)

/-- `EmitRewards`: `.ok ()` is the nil error of the source. -/
def EmitRewards (X : External) (k : Keeper) (blockHeight : BlockHeight) (weights : DecMap)
    (sumWeight : Dec) (totalRevenue : Int) : Except Err Unit × Keeper :=
  match k.GetTotalRewardToDistribute with
  | .error e => (.error e, k)
  | .ok totalReward =>
    if totalReward = 0 then (.ok (), k)
    else
      match k.GetParams with
      | .error e => (.error e, k)
      | .ok moduleParams =>
        let sortedTopics := GetSortedKeys weights
        match GenerateRewardsDistributionByTopic X.SkimTopTopicsByWeightDesc k
            moduleParams.MaxTopicsPerBlock blockHeight totalReward weights sortedTopics
            sumWeight totalRevenue with
        | (.error e, k1) => (.error e, k1)
        | (.ok none, k1) => (.ok (), k1)
        | (.ok (some topicRewards), k1) =>
          match EmitRewards.loop X moduleParams topicRewards sortedTopics 0 k1 with
          | (.error e, k2) => (.error e, k2)
          | (.ok totalRewardToStakedReputers, k2) =>
            EmitRewards.monthly k2 moduleParams blockHeight totalReward
              totalRewardToStakedReputers

/-! ## Notions used in the statements -/

/-- The events appended to the transcript between the keeper `k` and the later keeper `k1`. -/
def Keeper.since (k k1 : Keeper) : List Event :=
  k1.transcript.drop k.transcript.length

/-- The reward nonce of the topic is read without error and is not zero. -/
def Keeper.nonceReady (k : Keeper) (t : TopicId) : Bool :=
  !(k.fails (Call.GetTopicRewardNonce t)) && decide (k.rewardNonce t ≠ 0)

/-- The weight of a topic in a map, 0 for an absent key. -/
def DecMap.weightOf (m : DecMap) (t : TopicId) : Dec := (m.get t).getD 0

/-- The sum of the values of a map, over its keys. -/
def DecMap.total (m : DecMap) : Dec := ((GetSortedKeys m).map m.weightOf).sum

/-- The weight of the topic in `weights` is strictly below the minimum. -/
def weightBelowMinimum (weights : DecMap) (MinTopicWeight : Dec) (t : TopicId) : Bool :=
  decide (weights.weightOf t < MinTopicWeight)

/-- The topic stays in the active set of the filter: its nonce is ready and
its weight is not below the minimum. -/
def staysActive (k : Keeper) (weights : DecMap) (t : TopicId) : Bool :=
  k.nonceReady t && !(weightBelowMinimum weights k.params.MinTopicWeight t)

/-! ## Example data -/

/-- Modelled from the spec: a top-N skimmer, the `N` heaviest topics; among
equal weights the earlier entries of the map come first. -/
def skimTopN (m : DecMap) (N : Nat) (_blockHeight : BlockHeight) : DecMap :=
  (m.insertionSort (fun a b => b.2 ≤ a.2)).take N

def exampleParams : Params :=
  { MaxTopicsPerBlock := 2, MinTopicWeight := 1 / 100, MinEpochLengthRecordLimit := 3,
    BlocksPerMonth := 100, PRewardReputer := 1, PRewardInference := 1, PRewardForecast := 1,
    CRewardInference := 1, CRewardForecast := 1, TaskRewardAlpha := 1 / 10, BetaEntropy := 1 }

def exampleBundle : ValueBundle :=
  { NaiveValue := 1, CombinedValue := 1, InfererValues := [], ForecasterValues := [] }

/-- A keeper in which every topic has the reward nonce 10 and loss bundles at
every block, no call fails and the total reward is 400. -/
def exampleKeeper : Keeper :=
  { totalRewardToDistribute := 400
    params := exampleParams
    rewardNonce := fun _ => 10
    active := fun _ => true
    feeRevenue := fun _ => { Epoch := 0, Revenue := 50 }
    balance := fun a => if a = Account.module AlloraRewardsAccountName then 1000 else 0
    stake := fun _ _ => 0
    unfulfilledNonces := fun _ => []
    topic := fun _ => { EpochLength := 100, GroundTruthLag := 10 }
    networkLossBundle := fun _ _ => some exampleBundle
    reputerLossBundles := fun _ _ => some []
    scores := fun _ _ _ _ => none
    previousPercentageRewardToStakedReputers := 0
    fails := fun _ => false
    transcript := [] }

/-- Collaborators for the examples: the top-N skimmer, an address decoder that
accepts every address, and an engine with one reputer `"r"` and one inferer
`"w"` that splits the reward of a topic in two halves. -/
def exampleExternal : External :=
  { SkimTopTopicsByWeightDesc := skimTopN
    AccAddressFromBech32 := fun a => .ok a
    GenerateReputerScores := fun k _ _ _ => (.ok [], k.scores)
    GenerateInferenceScores := fun k _ _ _ => (.ok [], k.scores)
    GenerateForecastScores := fun k _ _ _ => (.ok [], k.scores)
    GetReputersRewardFractions := fun k _ _ _ => (.ok (["r"], [1]), k.scores)
    GetReputerTaskEntropy := fun k _ _ _ _ _ => (.ok 1, k.scores)
    GetInferenceTaskRewardFractions := fun k _ _ _ _ _ => (.ok (["w"], [1]), k.scores)
    GetInferenceTaskEntropy := fun k _ _ _ _ _ => (.ok 1, k.scores)
    GetForecastingTaskRewardFractions := fun k _ _ _ _ _ => (.ok ([], []), k.scores)
    GetForecastingTaskEntropy := fun k _ _ _ _ _ => (.ok 0, k.scores)
    GetRewardForReputerTaskInTopic := fun _ _ _ r => .ok (r / 2)
    GetRewardForInferenceTaskInTopic := fun _ _ _ _ _ r => .ok (r / 2)
    GetRewardForForecastingTaskInTopic := fun _ _ _ _ _ _ => .ok 0
    GetRewardPerReputer := fun k t r reputers _ =>
      (.ok (reputers.map fun a =>
        { Address := a, Reward := r, TopicId := t,
          RewardType := TaskRewardType.ReputerRewardType }), k.scores)
    GetRewardPerWorker := fun t ty r workers _ =>
      .ok (workers.map fun a => { Address := a, Reward := r, TopicId := t, RewardType := ty }) }

/-- The keeper `k1` agrees with `k` on everything that the selection of the
topics does not write: all fields but `active`, `feeRevenue` and `transcript`. -/
structure SelectionFrame (k k1 : Keeper) : Prop where
  totalRewardToDistribute : k1.totalRewardToDistribute = k.totalRewardToDistribute
  params : k1.params = k.params
  rewardNonce : k1.rewardNonce = k.rewardNonce
  balance : k1.balance = k.balance
  stake : k1.stake = k.stake
  unfulfilledNonces : k1.unfulfilledNonces = k.unfulfilledNonces
  topic : k1.topic = k.topic
  networkLossBundle : k1.networkLossBundle = k.networkLossBundle
  reputerLossBundles : k1.reputerLossBundles = k.reputerLossBundles
  scores : k1.scores = k.scores
  previousPercentage :
    k1.previousPercentageRewardToStakedReputers = k.previousPercentageRewardToStakedReputers
  fails : k1.fails = k.fails

/-- The two writes of the filter on a topic below the minimum weight. -/
def inactivationEvents (blockHeight : BlockHeight) (t : TopicId) : List Event :=
  [Event.write (Call.InactivateTopic t), Event.write (Call.ResetTopicFeeRevenue t blockHeight)]

/-- The keeper `k1` is reached from `k` by writes of the selection only: the
fields outside `active`, `feeRevenue` and `transcript` agree, the transcript
grew by events that are all `allowed`, and the activity and fee revenue of
every topic that is not `touched` are unchanged. -/
def WritesOnly (touched : TopicId → Prop) (allowed : Event → Prop) (k k1 : Keeper) : Prop :=
  SelectionFrame k k1
    ∧ (∃ evs, k1.transcript = k.transcript ++ evs ∧ ∀ e ∈ evs, allowed e)
    ∧ ∀ t, ¬ touched t → k1.active t = k.active t ∧ k1.feeRevenue t = k.feeRevenue t

/-- The set of the topics of `sortedTopics` that the filter drops: the nonce
is not ready, or the weight is below the minimum. -/
def droppedTopics (k : Keeper) (weights : DecMap) (sortedTopics : List TopicId) :
    Finset TopicId :=
  sortedTopics.toFinset.filter (fun t => staysActive k weights t = false)

/-- The example keeper with fee revenue 70 everywhere and no reward nonce for topic 2. -/
def filterExampleKeeper : Keeper :=
  { exampleKeeper with
    feeRevenue := fun _ => { Epoch := 0, Revenue := 70 }
    rewardNonce := fun t => if t = 2 then 0 else 10 }

/-- The topic is active after the filter and was returned by the skimmer. -/
def isWinner (weightsOfActiveTopics weightsOfTopActiveTopics : DecMap) (t : TopicId) : Bool :=
  (weightsOfActiveTopics.get t).isSome && (weightsOfTopActiveTopics.get t).isSome

/-- The topic is active after the filter and missed the cut of the skimmer. -/
def isBottom (weightsOfActiveTopics weightsOfTopActiveTopics : DecMap) (t : TopicId) : Bool :=
  (weightsOfActiveTopics.get t).isSome && !(weightsOfTopActiveTopics.get t).isSome

deriving instance DecidableEq for Except

/-- The transcript of `k1` is the transcript of `k` followed by events that
are all `allowed`. -/
def Appends (allowed : Event → Prop) (k k1 : Keeper) : Prop :=
  ∃ evs, k1.transcript = k.transcript ++ evs ∧ ∀ e ∈ evs, allowed e

/-- The event is a step of the driver on the topic `T`: the marker of its
payout or of its pruning, the deletion of its reward nonce, or the pruning of
its records. -/
def aboutTopic (T : TopicId) (e : Event) : Prop :=
  e = Event.payoutRewards T ∨ e = Event.pruneRecordsAfterRewards T
    ∨ e = Event.write (Call.DeleteTopicRewardNonce T)
    ∨ ∃ b, e = Event.write (Call.PruneRecordsAfterRewards T b)

/-- The keeper `k1` is reached from `k` by the driver working on the topic
`t`: the failing calls are the same, the reward nonces of the other topics are
unchanged, and every driver step appended to the transcript is on `t`. -/
def TopicStep (t : TopicId) (k k1 : Keeper) : Prop :=
  k1.fails = k.fails
    ∧ (∀ u, u ≠ t → k1.rewardNonce u = k.rewardNonce u)
    ∧ Appends (fun e => ∀ u, aboutTopic u e → u = t) k k1

/-- The keeper `k1` differs from `k` at most in the decimal records `scores`. -/
def OnlyScores (k k1 : Keeper) : Prop := ∃ s, k1 = { k with scores := s }

/-- The example keeper without reputer loss bundles for topic 1: the rewards
of the participants of topic 1 cannot be generated. -/
def missingBundlesKeeper : Keeper :=
  { exampleKeeper with reputerLossBundles := fun t _ => if t = 1 then none else some [] }

/-- The integer amount that `payoutRewards` pays for an entry, the local
`rewardInt` of the source: `reward.Reward.Abs().SdkIntTrim()`. -/
def rewardInt (reward : TaskRewards) : Int := Dec.SdkIntTrim |reward.Reward|

/-- The transfer out of the rewards account that `payoutRewards` invokes for an
entry, if it invokes one. -/
def entryTransfer (AccAddressFromBech32 : String → Except Err String) (reward : TaskRewards) :
    Option Call :=
  if reward.Reward = 0 then none
  else if reward.RewardType = TaskRewardType.ReputerRewardType then
    some (Call.SendCoinsFromModuleToModule AlloraRewardsAccountName AlloraStakingAccountName
      (rewardInt reward))
  else
    match AccAddressFromBech32 reward.Address with
    | .error _ => none
    | .ok accAddress =>
      some (Call.SendCoinsFromModuleToAccount AlloraRewardsAccountName accAddress
        (rewardInt reward))

/-- The error that `payoutRewards` records for an entry, if it records one,
given which calls fail. -/
def entryError (AccAddressFromBech32 : String → Except Err String) (fails : Call → Bool)
    (reward : TaskRewards) : Option Err :=
  if reward.Reward = 0 then none
  else if reward.RewardType = TaskRewardType.ReputerRewardType then
    if fails (Call.SendCoinsFromModuleToModule AlloraRewardsAccountName AlloraStakingAccountName
        (rewardInt reward)) then
      some (Err.keeper (Call.SendCoinsFromModuleToModule AlloraRewardsAccountName
        AlloraStakingAccountName (rewardInt reward)))
    else if fails (Call.AddStake reward.TopicId reward.Address (rewardInt reward)) then
      some (Err.keeper (Call.AddStake reward.TopicId reward.Address (rewardInt reward)))
    else none
  else
    match AccAddressFromBech32 reward.Address with
    | .error e => some e
    | .ok accAddress =>
      if fails (Call.SendCoinsFromModuleToAccount AlloraRewardsAccountName accAddress
          (rewardInt reward)) then
        some (Err.keeper (Call.SendCoinsFromModuleToAccount AlloraRewardsAccountName accAddress
          (rewardInt reward)))
      else none

/-- The keeper and bank writes that `payoutRewards` invokes for an entry, in
order, given which calls fail. -/
def entryEvents (AccAddressFromBech32 : String → Except Err String) (fails : Call → Bool)
    (reward : TaskRewards) : List Event :=
  if reward.Reward = 0 then []
  else if reward.RewardType = TaskRewardType.ReputerRewardType then
    if fails (Call.SendCoinsFromModuleToModule AlloraRewardsAccountName AlloraStakingAccountName
        (rewardInt reward)) then
      [Event.write (Call.SendCoinsFromModuleToModule AlloraRewardsAccountName
        AlloraStakingAccountName (rewardInt reward))]
    else
      [Event.write (Call.SendCoinsFromModuleToModule AlloraRewardsAccountName
        AlloraStakingAccountName (rewardInt reward)),
       Event.write (Call.AddStake reward.TopicId reward.Address (rewardInt reward))]
  else
    match AccAddressFromBech32 reward.Address with
    | .error _ => []
    | .ok accAddress =>
      [Event.write (Call.SendCoinsFromModuleToAccount AlloraRewardsAccountName accAddress
        (rewardInt reward))]

/-- The number of tokens that leave the rewards account for an entry: its
integer amount when its transfer is invoked and succeeds, and 0 otherwise. -/
def entryPaid (AccAddressFromBech32 : String → Except Err String) (fails : Call → Bool)
    (reward : TaskRewards) : Int :=
  match entryTransfer AccAddressFromBech32 reward with
  | none => 0
  | some c => if fails c then 0 else rewardInt reward

/-- An address decoder for the examples: it rejects the address `"bad"`. -/
def exampleDecode (address : String) : Except Err String :=
  if address = "bad" then .error (Err.decode address) else .ok address

/-- A reputer entry of 10 for the examples. -/
def exampleReputerReward : TaskRewards :=
  { Address := "r", Reward := 10, TopicId := 1, RewardType := TaskRewardType.ReputerRewardType }

/-- An inferer entry of 7/2 for the examples. -/
def exampleWorkerReward : TaskRewards :=
  { Address := "w", Reward := 7 / 2, TopicId := 1,
    RewardType := TaskRewardType.WorkerInferenceRewardType }

/-- The example keeper in which `AddStake` fails. -/
def stakeFailsKeeper : Keeper :=
  { exampleKeeper with fails := fun c => decide (c = Call.AddStake 1 "r" 10) }

/-- An inferer entry of 5 with an address that does not decode. -/
def badAddressReward : TaskRewards :=
  { Address := "bad", Reward := 5, TopicId := 1,
    RewardType := TaskRewardType.WorkerInferenceRewardType }

/-- An inferer entry of 1/2 for the examples. -/
def halfTokenReward : TaskRewards :=
  { Address := "w", Reward := 1 / 2, TopicId := 1,
    RewardType := TaskRewardType.WorkerInferenceRewardType }

/-- The number of entries with a non-zero amount. -/
def nonZeroEntries (rewards : List TaskRewards) : Nat :=
  (rewards.filter fun r => decide (r.Reward ≠ 0)).length

/-- The example keeper with the unfulfilled reputer nonces 1200, 1000 and 1100
on every topic; the oldest one is neither first nor last. -/
def unfulfilledKeeper : Keeper :=
  { exampleKeeper with unfulfilledNonces := fun _ => [1200, 1000, 1100] }

/-- The relation `R` holds along the steps of `payoutRewards`: it is reflexive
and transitive and it relates a keeper to the keeper after each of the three
writes of the payout. -/
structure PayoutInvariant (R : Keeper → Keeper → Prop) : Prop where
  inv_refl : ∀ k, R k k
  inv_trans : ∀ a b c, R a b → R b c → R a c
  inv_sendToModule : ∀ k sender recipient amount,
    R k (k.SendCoinsFromModuleToModule sender recipient amount).2
  inv_sendToAccount : ∀ k sender recipient amount,
    R k (k.SendCoinsFromModuleToAccount sender recipient amount).2
  inv_addStake : ∀ k t reputer amount, R k (k.AddStake t reputer amount).2

/-- The relation `R` holds along the steps of the loop of `EmitRewards`: the
steps of the payout, the update of the decimal records, the two markers and
the two writes of the pruning. -/
structure DriverInvariant (R : Keeper → Keeper → Prop) : Prop where
  inv_payout : PayoutInvariant R
  inv_scores : ∀ (k : Keeper) (s : ScoreStore), R k { k with scores := s }
  inv_payoutMark : ∀ (k : Keeper) t, R k (k.mark (Event.payoutRewards t))
  inv_pruneMark : ∀ (k : Keeper) t, R k (k.mark (Event.pruneRecordsAfterRewards t))
  inv_deleteNonce : ∀ (k : Keeper) t, R k (k.DeleteTopicRewardNonce t).2
  inv_pruneRecords : ∀ (k : Keeper) t b, R k (k.PruneRecordsAfterRewards t b).2

/-- The event is a pruning step on the topic `T`: the marker of its pruning,
the deletion of its reward nonce, or the pruning of its records. -/
def pruningStep (T : TopicId) (e : Event) : Prop :=
  e = Event.pruneRecordsAfterRewards T
    ∨ e = Event.write (Call.DeleteTopicRewardNonce T)
    ∨ ∃ b, e = Event.write (Call.PruneRecordsAfterRewards T b)

/-- No reward nonce differs between `k` and `k1`, and no pruning step was
appended to the transcript. -/
def NoPruning (k k1 : Keeper) : Prop :=
  k1.rewardNonce = k.rewardNonce ∧ Appends (fun e => ∀ u, ¬ pruningStep u e) k k1

/-- The stored percentage of the reward to the staked reputers is the same in
`k1` as in `k`, and no write of it was appended to the transcript. -/
def PercentageUntouched (k k1 : Keeper) : Prop :=
  k1.previousPercentageRewardToStakedReputers = k.previousPercentageRewardToStakedReputers
    ∧ Appends (fun e => ∀ d,
        e ≠ Event.write (Call.SetPreviousPercentageRewardToStakedReputers d)) k k1

/-- The example keeper with the stored percentage 1/4. -/
def storedPercentageKeeper : Keeper :=
  { exampleKeeper with previousPercentageRewardToStakedReputers := 1 / 4 }

/-- The reputer task reward that a round of the loop of `EmitRewards` on the
topic adds to the running total from the keeper `k`: the second result of
`GenerateRewardsDistributionByTopicParticipant` when the topic has a reward and
a ready nonce and its participant rewards are generated, and nothing
otherwise. -/
def reputerRewardOf (X : External) (moduleParams : Params) (topicRewards : DecMap)
    (topicId : TopicId) (k : Keeper) : Dec :=
  match topicRewards.get topicId with
  | none => 0
  | some topicReward =>
    if k.nonceReady topicId then
      match (GenerateRewardsDistributionByTopicParticipant X k topicId (some topicReward)
          (k.rewardNonce topicId) moduleParams).1 with
      | .ok (_, rewardInTopicToReputers) => rewardInTopicToReputers
      | .error _ => 0
    else 0

/-- The sum of `reputerRewardOf` over the topics of the list, each from the
keeper that the rounds of the loop of `EmitRewards` on the topics before it
leave. -/
def accumulatedReputerRewards (X : External) (moduleParams : Params) (topicRewards : DecMap) :
    List TopicId → Keeper → Dec
  | [], _ => 0
  | topicId :: rest, k =>
    reputerRewardOf X moduleParams topicRewards topicId k
      + accumulatedReputerRewards X moduleParams topicRewards rest
          (EmitRewards.loop X moduleParams topicRewards [topicId] 0 k).2

/-- The example keeper in which the stake of the reputer of topic 1 cannot be
added (`AddStake` of 150 fails). -/
def payoutFailsKeeper : Keeper :=
  { exampleKeeper with fails := fun c => decide (c = Call.AddStake 1 "r" 150) }

/-- The example collaborators with a reputer task reward whose computation
divides by zero. -/
def divideByZeroExternal : External :=
  { exampleExternal with
    GetRewardForReputerTaskInTopic := fun _ _ _ _ => .error Err.divideByZero }

/-! ## Emission of the mint module -/

/-- Modelled from the spec: `LegacyDec.TruncateInt`, the conversion of a
decimal to an integer by truncation toward zero. -/
def Dec.TruncateInt (x : Dec) : Int := Int.tdiv x.num (x.den : Int)

/-- Modelled from the spec: `GetTotalEmissionPerTimestep` of the mint keeper
(`x/mint/keeper/emissions.go` is outside the sources at hand, only its test
is): the emission per unit of staked token times the number of staked tokens,
as an integer (`E_i = e_i * N_staked`). -/
def GetTotalEmissionPerTimestep (rewardEmissionPerUnitStakedToken : Dec)
    (numStakedTokens : Int) : Int :=
  Dec.TruncateInt (rewardEmissionPerUnitStakedToken * (numStakedTokens : Dec))

/-- The example collaborators with one forecaster `"f"`, whose task gets a
quarter of the reward of the topic. -/
def forecastExternal : External :=
  { exampleExternal with
    GetForecastingTaskRewardFractions := fun k _ _ _ _ _ => (.ok (["f"], [1]), k.scores)
    GetRewardForForecastingTaskInTopic := fun _ _ _ _ _ r => .ok (r / 4) }

/-- A reputer entry with the negative amount -10. -/
def negativeReputerReward : TaskRewards :=
  { Address := "r", Reward := -10, TopicId := 1,
    RewardType := TaskRewardType.ReputerRewardType }

/-- The example keeper in which the topic 1 cannot be read. -/
def topicReadFailsKeeper : Keeper :=
  { exampleKeeper with fails := fun c => decide (c = Call.GetTopic 1) }

/-- The topics inactivated, in the order of the invocations of `InactivateTopic`. -/
def inactivatedTopics (evs : List Event) : List TopicId :=
  evs.filterMap fun e =>
    match e with
    | Event.write (Call.InactivateTopic t) => some t
    | _ => none

/-- The topics whose fee revenue is reset, in the order of the invocations of
`ResetTopicFeeRevenue`. -/
def resetTopics (evs : List Event) : List TopicId :=
  evs.filterMap fun e =>
    match e with
    | Event.write (Call.ResetTopicFeeRevenue t _) => some t
    | _ => none

/-- The topics for which `payoutRewards` is run, in the order of the runs. -/
def payoutTopics (evs : List Event) : List TopicId :=
  evs.filterMap fun e =>
    match e with
    | Event.payoutRewards t => some t
    | _ => none

/-- The topics for which `pruneRecordsAfterRewards` is run, in the order of the runs. -/
def prunedTopics (evs : List Event) : List TopicId :=
  evs.filterMap fun e =>
    match e with
    | Event.pruneRecordsAfterRewards t => some t
    | _ => none

/-- The topics whose reward nonce is deleted, in the order of the invocations
of `DeleteTopicRewardNonce`. -/
def deletedNonceTopics (evs : List Event) : List TopicId :=
  evs.filterMap fun e =>
    match e with
    | Event.write (Call.DeleteTopicRewardNonce t) => some t
    | _ => none

/-- The topics whose records are pruned, in the order of the invocations of
`PruneRecordsAfterRewards`. -/
def prunedRecordTopics (evs : List Event) : List TopicId :=
  evs.filterMap fun e =>
    match e with
    | Event.write (Call.PruneRecordsAfterRewards t _) => some t
    | _ => none

/-- The list of events is the concatenation of one trace for each topic of
the list, in the order of the list, each trace being a `round` of its topic. -/
inductive Rounds (round : TopicId → List Event → Prop) : List TopicId → List Event → Prop
  | nil : Rounds round [] []
  | cons {t : TopicId} {ts : List TopicId} {e es : List Event} :
      round t e → Rounds round ts es → Rounds round (t :: ts) (e ++ es)

/-- The writes of a round of the filter on a topic: none, the inactivation
alone (when it or the reset fails to be reached), or the inactivation and the
reset of the fee revenue. -/
def filterRound (blockHeight : BlockHeight) (t : TopicId) (e : List Event) : Prop :=
  e = [] ∨ e = [Event.write (Call.InactivateTopic t)]
    ∨ e = [Event.write (Call.InactivateTopic t),
        Event.write (Call.ResetTopicFeeRevenue t blockHeight)]

/-- The writes of a round of the loop of `GenerateRewardsDistributionByTopic`
on a topic: none, or the reset of the fee revenue of the winner. -/
def winnerRound (blockHeight : BlockHeight) (t : TopicId) (e : List Event) : Prop :=
  e = [] ∨ e = [Event.write (Call.ResetTopicFeeRevenue t blockHeight)]

/-- The event is one of the writes of `payoutRewards`. -/
def payoutWrite (e : Event) : Prop :=
  (∃ sender recipient amount,
      e = Event.write (Call.SendCoinsFromModuleToModule sender recipient amount))
    ∨ (∃ sender recipient amount,
      e = Event.write (Call.SendCoinsFromModuleToAccount sender recipient amount))
    ∨ ∃ t reputer amount, e = Event.write (Call.AddStake t reputer amount)

/-- The steps of a round of the loop of `EmitRewards` on a topic: none, or the
payout with its writes, followed or not by the pruning, which invokes the
deletion of the reward nonce and then, or not, the pruning of the records. -/
def driverRound (t : TopicId) (e : List Event) : Prop :=
  e = [] ∨ ∃ pay : List Event, (∀ x ∈ pay, payoutWrite x)
    ∧ (e = Event.payoutRewards t :: pay
      ∨ e = Event.payoutRewards t :: pay
          ++ [Event.pruneRecordsAfterRewards t, Event.write (Call.DeleteTopicRewardNonce t)]
      ∨ ∃ b, e = Event.payoutRewards t :: pay
          ++ [Event.pruneRecordsAfterRewards t, Event.write (Call.DeleteTopicRewardNonce t),
            Event.write (Call.PruneRecordsAfterRewards t b)])

/-- The example keeper with the epoch length 2^62 on every topic and the single
unfulfilled reputer nonce 1000: three epoch lengths do not fit in an `int64`. -/
def longEpochKeeper : Keeper :=
  { exampleKeeper with
    unfulfilledNonces := fun _ => [1000]
    topic := fun _ => { EpochLength := 4611686018427387904, GroundTruthLag := 10 } }

/-! ## Theorems -/

/-- C1: when `GetTotalRewardToDistribute` returns zero, `EmitRewards` returns
nil and the keeper, transcript of writes included, is the keeper it started
from: no keeper or bank write is invoked. -/
theorem EmitRewards_zero_total_reward (X : External) (k : Keeper) (blockHeight : BlockHeight)
    (weights : DecMap) (sumWeight : Dec) (totalRevenue : Int)
    (h : k.GetTotalRewardToDistribute = .ok 0) :
    EmitRewards X k blockHeight weights sumWeight totalRevenue = (.ok (), k) := by
  simp [EmitRewards, h]

theorem EmitRewards_zero_total_reward_witness :
    ({ exampleKeeper with totalRewardToDistribute := 0 } : Keeper).GetTotalRewardToDistribute
        = .ok 0
      ∧ EmitRewards exampleExternal { exampleKeeper with totalRewardToDistribute := 0 } 100
          [(1, 3), (2, 1)] 4 0
        = (.ok (), { exampleKeeper with totalRewardToDistribute := 0 }) :=
  ⟨rfl, EmitRewards_zero_total_reward _ _ _ _ _ _ rfl⟩

/-- C2: with a non-zero total reward and a zero `sumWeight`,
`GenerateRewardsDistributionByTopic` returns `(nil, nil)` with the keeper
untouched, and `EmitRewards` returns nil with the keeper, transcript of writes
included, equal to the keeper it started from, whatever the block height. -/
theorem zero_sum_weight_no_write (X : External) (k : Keeper) (blockHeight : BlockHeight)
    (weights : DecMap) (totalRevenue : Int) (totalReward : Dec) (moduleParams : Params)
    (hreward : k.GetTotalRewardToDistribute = .ok totalReward) (hne : totalReward ≠ 0)
    (hparams : k.GetParams = .ok moduleParams) :
    GenerateRewardsDistributionByTopic X.SkimTopTopicsByWeightDesc k
        moduleParams.MaxTopicsPerBlock blockHeight totalReward weights
        (GetSortedKeys weights) 0 totalRevenue = (.ok none, k)
      ∧ EmitRewards X k blockHeight weights 0 totalRevenue = (.ok (), k) := by
  constructor
  · simp [GenerateRewardsDistributionByTopic]
  · simp [EmitRewards, hreward, hne, hparams, GenerateRewardsDistributionByTopic]

theorem zero_sum_weight_no_write_witness :
    exampleKeeper.GetTotalRewardToDistribute = .ok 400 ∧ (400 : Dec) ≠ 0
      ∧ exampleKeeper.GetParams = .ok exampleParams
      ∧ GenerateRewardsDistributionByTopic exampleExternal.SkimTopTopicsByWeightDesc
          exampleKeeper exampleParams.MaxTopicsPerBlock 100 400 [(1, 0), (2, 0)]
          (GetSortedKeys [(1, 0), (2, 0)]) 0 0 = (.ok none, exampleKeeper)
      ∧ EmitRewards exampleExternal exampleKeeper 100 [(1, 0), (2, 0)] 0 0
        = (.ok (), exampleKeeper) :=
  ⟨rfl, by norm_num, rfl,
    zero_sum_weight_no_write exampleExternal exampleKeeper 100 [(1, 0), (2, 0)] 0 400
      exampleParams rfl (by norm_num) rfl⟩

/-! ### Maps -/

theorem DecMap.get_filter_ne (m : DecMap) (t t1 : TopicId) (h : t1 ≠ t) :
    DecMap.get (m.filter (fun p => !decide (p.1 = t))) t1 = DecMap.get m t1 := by
  induction m with
  | nil => rfl
  | cons p rest ih =>
    obtain ⟨a, v⟩ := p
    by_cases ha : a = t
    · subst ha
      have : ¬ a = t1 := fun e => h e.symm
      simp [List.filter_cons, DecMap.get, this, ih]
    · by_cases hb : a = t1
      · subst hb
        simp [List.filter_cons, DecMap.get, h]
      · simp [List.filter_cons, DecMap.get, ha, hb, ih]

theorem DecMap.get_set (m : DecMap) (t t1 : TopicId) (v : Dec) :
    (m.set t v).get t1 = if t1 = t then some v else m.get t1 := by
  by_cases h : t1 = t
  · subst h
    simp [DecMap.set, DecMap.get]
  · have h1 : ¬ t = t1 := fun e => h e.symm
    simp [DecMap.set, DecMap.get, h, h1, DecMap.get_filter_ne m t t1 h]

/-! ### Keeper writes -/

theorem SelectionFrame.frame_refl (k : Keeper) : SelectionFrame k k :=
  ⟨rfl, rfl, rfl, rfl, rfl, rfl, rfl, rfl, rfl, rfl, rfl, rfl⟩

theorem SelectionFrame.frame_trans {k k1 k2 : Keeper} (h1 : SelectionFrame k k1)
    (h2 : SelectionFrame k1 k2) : SelectionFrame k k2 :=
  ⟨h2.1.trans h1.1, h2.2.trans h1.2, h2.3.trans h1.3, h2.4.trans h1.4, h2.5.trans h1.5,
    h2.6.trans h1.6, h2.7.trans h1.7, h2.8.trans h1.8, h2.9.trans h1.9, h2.10.trans h1.10,
    h2.11.trans h1.11, h2.12.trans h1.12⟩

theorem Keeper.InactivateTopic_eq (k : Keeper) (t : TopicId) :
    k.InactivateTopic t =
      if k.fails (Call.InactivateTopic t) then
        (some (Err.keeper (Call.InactivateTopic t)),
          { k with transcript := k.transcript ++ [Event.write (Call.InactivateTopic t)] })
      else
        (none, { k with
          active := fun t1 => if t1 = t then false else k.active t1
          transcript := k.transcript ++ [Event.write (Call.InactivateTopic t)] }) := rfl

theorem Keeper.ResetTopicFeeRevenue_eq (k : Keeper) (t : TopicId) (b : BlockHeight) :
    k.ResetTopicFeeRevenue t b =
      if k.fails (Call.ResetTopicFeeRevenue t b) then
        (some (Err.keeper (Call.ResetTopicFeeRevenue t b)),
          { k with transcript := k.transcript ++ [Event.write (Call.ResetTopicFeeRevenue t b)] })
      else
        (none, { k with
          feeRevenue := fun t1 => if t1 = t then { Epoch := b, Revenue := 0 } else k.feeRevenue t1
          transcript := k.transcript ++ [Event.write (Call.ResetTopicFeeRevenue t b)] }) := rfl

theorem Keeper.nonceReady_eq_false_iff (k : Keeper) (t : TopicId) :
    ((k.GetTopicRewardNonce t).2.isSome = true ∨ (k.GetTopicRewardNonce t).1 = 0)
      ↔ k.nonceReady t = false := by
  unfold Keeper.GetTopicRewardNonce Keeper.nonceReady
  by_cases h : k.fails (Call.GetTopicRewardNonce t) = true
  · simp [h]
  · simp [h]

theorem Keeper.nonceReady_congr {k k1 : Keeper} (hf : k1.fails = k.fails)
    (hn : k1.rewardNonce = k.rewardNonce) (t : TopicId) : k1.nonceReady t = k.nonceReady t := by
  simp [Keeper.nonceReady, hf, hn]

theorem WritesOnly.writes_refl (touched : TopicId → Prop) (allowed : Event → Prop) (k : Keeper) :
    WritesOnly touched allowed k k :=
  ⟨SelectionFrame.frame_refl k, ⟨[], by simp, by simp⟩, fun _ _ => ⟨rfl, rfl⟩⟩

theorem WritesOnly.writes_trans {touched : TopicId → Prop} {allowed : Event → Prop} {k k1 k2 : Keeper}
    (h1 : WritesOnly touched allowed k k1) (h2 : WritesOnly touched allowed k1 k2) :
    WritesOnly touched allowed k k2 := by
  obtain ⟨f1, ⟨e1, t1, a1⟩, u1⟩ := h1
  obtain ⟨f2, ⟨e2, t2, a2⟩, u2⟩ := h2
  refine ⟨f1.frame_trans f2, ⟨e1 ++ e2, by rw [t2, t1, List.append_assoc], ?_⟩, ?_⟩
  · intro e he
    rcases List.mem_append.mp he with h | h
    · exact a1 e h
    · exact a2 e h
  · intro t ht
    exact ⟨(u2 t ht).1.trans (u1 t ht).1, (u2 t ht).2.trans (u1 t ht).2⟩

theorem WritesOnly.mono {touched touched1 : TopicId → Prop} {allowed allowed1 : Event → Prop}
    {k k1 : Keeper} (h : WritesOnly touched allowed k k1)
    (ht : ∀ t, touched t → touched1 t) (ha : ∀ e, allowed e → allowed1 e) :
    WritesOnly touched1 allowed1 k k1 := by
  obtain ⟨f1, ⟨e1, t1, a1⟩, u1⟩ := h
  exact ⟨f1, ⟨e1, t1, fun e he => ha e (a1 e he)⟩, fun t hn => u1 t (fun hc => hn (ht t hc))⟩

theorem WritesOnly.inactivate (touched : TopicId → Prop) (allowed : Event → Prop) (k : Keeper)
    (t : TopicId) (ht : touched t) (ha : allowed (Event.write (Call.InactivateTopic t))) :
    WritesOnly touched allowed k (k.InactivateTopic t).2 := by
  rw [Keeper.InactivateTopic_eq]
  split
  · refine ⟨⟨rfl, rfl, rfl, rfl, rfl, rfl, rfl, rfl, rfl, rfl, rfl, rfl⟩, ⟨_, rfl, ?_⟩, ?_⟩
    · simpa using ha
    · intro t1 _
      exact ⟨rfl, rfl⟩
  · refine ⟨⟨rfl, rfl, rfl, rfl, rfl, rfl, rfl, rfl, rfl, rfl, rfl, rfl⟩, ⟨_, rfl, ?_⟩, ?_⟩
    · simpa using ha
    · intro t1 h1
      have : t1 ≠ t := fun e => h1 (e ▸ ht)
      simp [this]

theorem WritesOnly.reset (touched : TopicId → Prop) (allowed : Event → Prop) (k : Keeper)
    (t : TopicId) (b : BlockHeight) (ht : touched t)
    (ha : allowed (Event.write (Call.ResetTopicFeeRevenue t b))) :
    WritesOnly touched allowed k (k.ResetTopicFeeRevenue t b).2 := by
  rw [Keeper.ResetTopicFeeRevenue_eq]
  split
  · refine ⟨⟨rfl, rfl, rfl, rfl, rfl, rfl, rfl, rfl, rfl, rfl, rfl, rfl⟩, ⟨_, rfl, ?_⟩, ?_⟩
    · simpa using ha
    · intro t1 _
      exact ⟨rfl, rfl⟩
  · refine ⟨⟨rfl, rfl, rfl, rfl, rfl, rfl, rfl, rfl, rfl, rfl, rfl, rfl⟩, ⟨_, rfl, ?_⟩, ?_⟩
    · simpa using ha
    · intro t1 h1
      have : t1 ≠ t := fun e => h1 (e ▸ ht)
      simp [this]

/-! ### The filter -/

theorem FilterAndInactivateTopicsUpdatingSums.loop_cons_none {weights : DecMap}
    {MinTopicWeight : Dec} {blockHeight : BlockHeight} {t : TopicId} (rest : List TopicId)
    (act : DecMap) (s : Dec) (k : Keeper) (hw : weights.get t = none) :
    FilterAndInactivateTopicsUpdatingSums.loop weights MinTopicWeight blockHeight (t :: rest)
      act s k = (.error Err.runtimePanic, k) := by
  simp [FilterAndInactivateTopicsUpdatingSums.loop, hw]

theorem FilterAndInactivateTopicsUpdatingSums.loop_cons_below {weights : DecMap}
    {MinTopicWeight : Dec} {blockHeight : BlockHeight} {t : TopicId} {w : Dec}
    (rest : List TopicId) (act : DecMap) (s : Dec) (k : Keeper)
    (hw : weights.get t = some w) (hlt : w < MinTopicWeight) :
    FilterAndInactivateTopicsUpdatingSums.loop weights MinTopicWeight blockHeight (t :: rest)
      act s k =
      match k.InactivateTopic t with
      | (some e, k1) => (.error e, k1)
      | (none, k1) =>
        match k1.ResetTopicFeeRevenue t blockHeight with
        | (some e, k2) => (.error e, k2)
        | (none, k2) =>
          FilterAndInactivateTopicsUpdatingSums.loop weights MinTopicWeight blockHeight rest
            act (s - w) k2 := by
  simp only [FilterAndInactivateTopicsUpdatingSums.loop, hw,
    FilterAndInactivateTopicsUpdatingSums.belowMinimum, hlt, if_true]
  rcases k.InactivateTopic t with ⟨_ | e, k1⟩
  · dsimp only
    rcases k1.ResetTopicFeeRevenue t blockHeight with ⟨_ | e, k2⟩
    · simp [removeFromSumWeightAndRevenue, Dec.Sub]
    · simp
  · simp

theorem FilterAndInactivateTopicsUpdatingSums.loop_cons_notReady {weights : DecMap}
    {MinTopicWeight : Dec} {blockHeight : BlockHeight} {t : TopicId} {w : Dec}
    (rest : List TopicId) (act : DecMap) (s : Dec) (k : Keeper)
    (hw : weights.get t = some w) (hge : ¬ w < MinTopicWeight)
    (hr : k.nonceReady t = false) :
    FilterAndInactivateTopicsUpdatingSums.loop weights MinTopicWeight blockHeight (t :: rest)
      act s k =
      FilterAndInactivateTopicsUpdatingSums.loop weights MinTopicWeight blockHeight rest
        act (s - w) k := by
  have h := (Keeper.nonceReady_eq_false_iff k t).mpr hr
  simp only [FilterAndInactivateTopicsUpdatingSums.loop, hw,
    FilterAndInactivateTopicsUpdatingSums.belowMinimum, hge, if_false]
  rcases h with h | h
  · simp [h, removeFromSumWeightAndRevenue, Dec.Sub]
  · simp [h, removeFromSumWeightAndRevenue, Dec.Sub]

theorem FilterAndInactivateTopicsUpdatingSums.loop_cons_keep {weights : DecMap}
    {MinTopicWeight : Dec} {blockHeight : BlockHeight} {t : TopicId} {w : Dec}
    (rest : List TopicId) (act : DecMap) (s : Dec) (k : Keeper)
    (hw : weights.get t = some w) (hge : ¬ w < MinTopicWeight)
    (hr : k.nonceReady t = true) :
    FilterAndInactivateTopicsUpdatingSums.loop weights MinTopicWeight blockHeight (t :: rest)
      act s k =
      FilterAndInactivateTopicsUpdatingSums.loop weights MinTopicWeight blockHeight rest
        (act.set t w) s k := by
  have h : ¬ ((k.GetTopicRewardNonce t).2.isSome = true ∨ (k.GetTopicRewardNonce t).1 = 0) := by
    rw [Keeper.nonceReady_eq_false_iff]; simp [hr]
  push_neg at h
  simp only [FilterAndInactivateTopicsUpdatingSums.loop, hw,
    FilterAndInactivateTopicsUpdatingSums.belowMinimum, hge, if_false]
  simp [h.1, h.2]

theorem weightBelowMinimum_of_get {weights : DecMap} {MinTopicWeight : Dec} {t : TopicId} {w : Dec}
    (hw : weights.get t = some w) :
    weightBelowMinimum weights MinTopicWeight t = decide (w < MinTopicWeight) := by
  simp [weightBelowMinimum, DecMap.weightOf, hw]

theorem FilterAndInactivateTopicsUpdatingSums.filter_loop_writesOnly (weights : DecMap)
    (MinTopicWeight : Dec) (blockHeight : BlockHeight) (ts : List TopicId) :
    ∀ (act : DecMap) (s : Dec) (k : Keeper),
      WritesOnly (fun t => t ∈ ts ∧ weightBelowMinimum weights MinTopicWeight t = true)
        (fun e => ∃ t ∈ ts, weightBelowMinimum weights MinTopicWeight t = true
          ∧ e ∈ inactivationEvents blockHeight t)
        k (FilterAndInactivateTopicsUpdatingSums.loop weights MinTopicWeight blockHeight ts
          act s k).2 := by
  induction ts with
  | nil => intro act s k; exact WritesOnly.writes_refl _ _ k
  | cons t rest ih =>
    intro act s k
    have hmono : ∀ {ka kb : Keeper},
        WritesOnly (fun t => t ∈ rest ∧ weightBelowMinimum weights MinTopicWeight t = true)
          (fun e => ∃ t ∈ rest, weightBelowMinimum weights MinTopicWeight t = true
            ∧ e ∈ inactivationEvents blockHeight t) ka kb →
        WritesOnly (fun t1 => t1 ∈ t :: rest ∧ weightBelowMinimum weights MinTopicWeight t1 = true)
          (fun e => ∃ t1 ∈ t :: rest, weightBelowMinimum weights MinTopicWeight t1 = true
            ∧ e ∈ inactivationEvents blockHeight t1) ka kb := by
      intro ka kb h
      refine h.mono ?_ ?_
      · intro t1 h1; exact ⟨List.mem_cons_of_mem _ h1.1, h1.2⟩
      · rintro e ⟨t1, h1, h2, h3⟩; exact ⟨t1, List.mem_cons_of_mem _ h1, h2, h3⟩
    rcases hw : weights.get t with _ | w
    · rw [FilterAndInactivateTopicsUpdatingSums.loop_cons_none rest act s k hw]
      exact WritesOnly.writes_refl _ _ k
    · by_cases hlt : w < MinTopicWeight
      · have hb : weightBelowMinimum weights MinTopicWeight t = true := by
          rw [weightBelowMinimum_of_get hw]; simpa using hlt
        rw [FilterAndInactivateTopicsUpdatingSums.loop_cons_below rest act s k hw hlt]
        have hI := WritesOnly.inactivate
          (fun t1 => t1 ∈ t :: rest ∧ weightBelowMinimum weights MinTopicWeight t1 = true)
          (fun e => ∃ t1 ∈ t :: rest, weightBelowMinimum weights MinTopicWeight t1 = true
            ∧ e ∈ inactivationEvents blockHeight t1) k t ⟨List.mem_cons_self _ _, hb⟩
          ⟨t, List.mem_cons_self _ _, hb, by simp [inactivationEvents]⟩
        rcases hk1 : k.InactivateTopic t with ⟨_ | e, k1⟩
        · rw [hk1] at hI
          dsimp only
          have hR := WritesOnly.reset
            (fun t1 => t1 ∈ t :: rest ∧ weightBelowMinimum weights MinTopicWeight t1 = true)
            (fun e => ∃ t1 ∈ t :: rest, weightBelowMinimum weights MinTopicWeight t1 = true
              ∧ e ∈ inactivationEvents blockHeight t1) k1 t blockHeight
            ⟨List.mem_cons_self _ _, hb⟩
            ⟨t, List.mem_cons_self _ _, hb, by simp [inactivationEvents]⟩
          rcases hk2 : k1.ResetTopicFeeRevenue t blockHeight with ⟨_ | e, k2⟩
          · rw [hk2] at hR
            dsimp only
            exact (hI.writes_trans hR).writes_trans (hmono (ih act (s - w) k2))
          · rw [hk2] at hR
            exact hI.writes_trans hR
        · rw [hk1] at hI
          exact hI
      · rcases hr : k.nonceReady t with _ | _
        · rw [FilterAndInactivateTopicsUpdatingSums.loop_cons_notReady rest act s k hw hlt hr]
          exact hmono (ih act (s - w) k)
        · rw [FilterAndInactivateTopicsUpdatingSums.loop_cons_keep rest act s k hw hlt hr]
          exact hmono (ih (act.set t w) s k)

theorem Keeper.InactivateTopic_ok (k : Keeper) (t : TopicId)
    (h : k.fails (Call.InactivateTopic t) = false) :
    k.InactivateTopic t = (none, { k with
      active := fun t1 => if t1 = t then false else k.active t1
      transcript := k.transcript ++ [Event.write (Call.InactivateTopic t)] }) := by
  rw [Keeper.InactivateTopic_eq, h]; rfl

theorem Keeper.ResetTopicFeeRevenue_ok (k : Keeper) (t : TopicId) (b : BlockHeight)
    (h : k.fails (Call.ResetTopicFeeRevenue t b) = false) :
    k.ResetTopicFeeRevenue t b = (none, { k with
      feeRevenue := fun t1 => if t1 = t then { Epoch := b, Revenue := 0 } else k.feeRevenue t1
      transcript := k.transcript ++ [Event.write (Call.ResetTopicFeeRevenue t b)] }) := by
  rw [Keeper.ResetTopicFeeRevenue_eq, h]; rfl

theorem DecMap.keys_set_nodup (m : DecMap) (t : TopicId) (v : Dec)
    (h : (m.map Prod.fst).Nodup) : ((m.set t v).map Prod.fst).Nodup := by
  unfold DecMap.set
  rw [List.map_cons, List.nodup_cons]
  constructor
  · intro hmem
    obtain ⟨p, hp, hpt⟩ := List.mem_map.mp hmem
    have := (List.mem_filter.mp hp).2
    simp at this
    exact this hpt
  · exact (List.filter_sublist m).map Prod.fst |>.nodup h

theorem Keeper.InactivateTopic_fail (k : Keeper) (t : TopicId)
    (h : k.fails (Call.InactivateTopic t) = true) :
    k.InactivateTopic t = (some (Err.keeper (Call.InactivateTopic t)),
      { k with transcript := k.transcript ++ [Event.write (Call.InactivateTopic t)] }) := by
  rw [Keeper.InactivateTopic_eq, h]; rfl

theorem Keeper.ResetTopicFeeRevenue_fail (k : Keeper) (t : TopicId) (b : BlockHeight)
    (h : k.fails (Call.ResetTopicFeeRevenue t b) = true) :
    k.ResetTopicFeeRevenue t b = (some (Err.keeper (Call.ResetTopicFeeRevenue t b)),
      { k with transcript := k.transcript ++ [Event.write (Call.ResetTopicFeeRevenue t b)] }) := by
  rw [Keeper.ResetTopicFeeRevenue_eq, h]; rfl

/-- The loop of the filter either stops on an error, because a weight is
missing or a write on a topic below the minimum failed, or returns the result
given here in closed form. -/
theorem FilterAndInactivateTopicsUpdatingSums.loop_cases (weights : DecMap)
    (MinTopicWeight : Dec) (blockHeight : BlockHeight) (ready : TopicId → Bool)
    (ts : List TopicId) :
    ∀ (act : DecMap) (s : Dec) (k : Keeper),
      (∀ t, k.nonceReady t = ready t) →
      (∃ e k1,
        FilterAndInactivateTopicsUpdatingSums.loop weights MinTopicWeight blockHeight ts act s k
          = (.error e, k1)
        ∧ ((∃ t ∈ ts, weights.get t = none)
          ∨ ∃ t ∈ ts, weightBelowMinimum weights MinTopicWeight t = true
              ∧ (k.fails (Call.InactivateTopic t) = true
                ∨ k.fails (Call.ResetTopicFeeRevenue t blockHeight) = true)))
      ∨ ∃ act1 k1,
        FilterAndInactivateTopicsUpdatingSums.loop weights MinTopicWeight blockHeight ts act s k
          = (.ok (act1,
              s - ((ts.filter fun t =>
                !(ready t && !(weightBelowMinimum weights MinTopicWeight t))).map
                  weights.weightOf).sum), k1)
        ∧ (∀ t, act1.get t =
            if t ∈ ts ∧ (ready t && !(weightBelowMinimum weights MinTopicWeight t)) = true
            then weights.get t else act.get t)
        ∧ ((act.map Prod.fst).Nodup → (act1.map Prod.fst).Nodup)
        ∧ k1.transcript = k.transcript
            ++ (ts.filter (weightBelowMinimum weights MinTopicWeight)).flatMap
                (inactivationEvents blockHeight)
        ∧ ∀ t ∈ ts, weightBelowMinimum weights MinTopicWeight t = true →
            k1.active t = false ∧ k1.feeRevenue t = { Epoch := blockHeight, Revenue := 0 } := by
  induction ts with
  | nil =>
    intro act s k _
    exact Or.inr ⟨act, k, by simp [FilterAndInactivateTopicsUpdatingSums.loop], by simp,
      fun h => h, by simp, by simp⟩
  | cons t rest ih =>
    intro act s k hready
    have lift : ∀ {ka : Keeper}, ka.fails = k.fails →
        ((∃ t1 ∈ rest, weights.get t1 = none)
          ∨ ∃ t1 ∈ rest, weightBelowMinimum weights MinTopicWeight t1 = true
              ∧ (ka.fails (Call.InactivateTopic t1) = true
                ∨ ka.fails (Call.ResetTopicFeeRevenue t1 blockHeight) = true)) →
        ((∃ t1 ∈ t :: rest, weights.get t1 = none)
          ∨ ∃ t1 ∈ t :: rest, weightBelowMinimum weights MinTopicWeight t1 = true
              ∧ (k.fails (Call.InactivateTopic t1) = true
                ∨ k.fails (Call.ResetTopicFeeRevenue t1 blockHeight) = true)) := by
      intro ka hka h
      rcases h with ⟨t1, h1, h2⟩ | ⟨t1, h1, h2, h3⟩
      · exact Or.inl ⟨t1, List.mem_cons_of_mem _ h1, h2⟩
      · rw [hka] at h3
        exact Or.inr ⟨t1, List.mem_cons_of_mem _ h1, h2, h3⟩
    rcases hw : weights.get t with _ | w
    · exact Or.inl ⟨_, _, FilterAndInactivateTopicsUpdatingSums.loop_cons_none rest act s k hw,
        Or.inl ⟨t, List.mem_cons_self _ _, hw⟩⟩
    · have hwt : weights.weightOf t = w := by simp [DecMap.weightOf, hw]
      by_cases hlt : w < MinTopicWeight
      · have hb : weightBelowMinimum weights MinTopicWeight t = true := by
          rw [weightBelowMinimum_of_get hw]; simpa using hlt
        rw [FilterAndInactivateTopicsUpdatingSums.loop_cons_below rest act s k hw hlt]
        rcases hfI : k.fails (Call.InactivateTopic t) with _ | _
        swap
        · rw [Keeper.InactivateTopic_fail k t hfI]
          exact Or.inl ⟨_, _, rfl, Or.inr ⟨t, List.mem_cons_self _ _, hb, Or.inl hfI⟩⟩
        rw [Keeper.InactivateTopic_ok k t hfI]
        dsimp only
        rcases hfR : k.fails (Call.ResetTopicFeeRevenue t blockHeight) with _ | _
        swap
        · rw [Keeper.ResetTopicFeeRevenue_fail { k with
              active := fun t1 => if t1 = t then false else k.active t1
              transcript := k.transcript ++ [Event.write (Call.InactivateTopic t)] }
            t blockHeight hfR]
          exact Or.inl ⟨_, _, rfl, Or.inr ⟨t, List.mem_cons_self _ _, hb, Or.inr hfR⟩⟩
        rw [Keeper.ResetTopicFeeRevenue_ok { k with
            active := fun t1 => if t1 = t then false else k.active t1
            transcript := k.transcript ++ [Event.write (Call.InactivateTopic t)] }
          t blockHeight hfR]
        dsimp only
        have hwo := FilterAndInactivateTopicsUpdatingSums.filter_loop_writesOnly weights MinTopicWeight
          blockHeight rest act (s - w) { k with
            active := fun t1 => if t1 = t then false else k.active t1
            feeRevenue := fun t1 =>
              if t1 = t then { Epoch := blockHeight, Revenue := 0 } else k.feeRevenue t1
            transcript := k.transcript ++ [Event.write (Call.InactivateTopic t)]
              ++ [Event.write (Call.ResetTopicFeeRevenue t blockHeight)] }
        rcases ih act (s - w)
          { k with
            active := fun t1 => if t1 = t then false else k.active t1
            feeRevenue := fun t1 =>
              if t1 = t then { Epoch := blockHeight, Revenue := 0 } else k.feeRevenue t1
            transcript := k.transcript ++ [Event.write (Call.InactivateTopic t)]
              ++ [Event.write (Call.ResetTopicFeeRevenue t blockHeight)] }
          (fun t1 => hready t1) with ⟨e, k1, heq, hc⟩ | ⟨act1, k1, heq, hget, hnd, htr, hst⟩
        · exact Or.inl ⟨e, k1, heq, lift rfl hc⟩
        refine Or.inr ⟨act1, k1, ?_, ?_, hnd, ?_, ?_⟩
        · rw [heq]
          simp [List.filter_cons, hb, hwt]
          ring
        · intro t1
          rw [hget t1]
          by_cases h1 : t1 = t
          · subst h1
            simp [hb]
          · simp [h1]
        · rw [htr]
          simp [List.filter_cons, hb, inactivationEvents, List.flatMap_cons]
        · intro t1 h1 hb1
          by_cases hin : t1 ∈ rest
          · exact hst t1 hin hb1
          · have h1t : t1 = t := by
              rcases List.mem_cons.mp h1 with h | h
              · exact h
              · exact absurd h hin
            subst h1t
            rw [heq] at hwo
            have := hwo.2.2 t1 (fun hc => hin hc.1)
            simpa using this
      · have hb : weightBelowMinimum weights MinTopicWeight t = false := by
          rw [weightBelowMinimum_of_get hw]; simpa using hlt
        rcases hr : k.nonceReady t with _ | _
        · have hrt : ready t = false := by rw [← hready t, hr]
          rw [FilterAndInactivateTopicsUpdatingSums.loop_cons_notReady rest act s k hw hlt hr]
          rcases ih act (s - w) k hready with
            ⟨e, k1, heq, hc⟩ | ⟨act1, k1, heq, hget, hnd, htr, hst⟩
          · exact Or.inl ⟨e, k1, heq, lift rfl hc⟩
          refine Or.inr ⟨act1, k1, ?_, ?_, hnd, ?_, ?_⟩
          · rw [heq]
            simp [List.filter_cons, hb, hwt, hrt]
            ring
          · intro t1
            rw [hget t1]
            by_cases h1 : t1 = t
            · subst h1
              simp [hb, hrt]
            · simp [h1]
          · rw [htr]
            simp [List.filter_cons, hb]
          · intro t1 h1 hb1
            rcases List.mem_cons.mp h1 with h | h
            · subst h; rw [hb] at hb1; cases hb1
            · exact hst t1 h hb1
        · have hrt : ready t = true := by rw [← hready t, hr]
          rw [FilterAndInactivateTopicsUpdatingSums.loop_cons_keep rest act s k hw hlt hr]
          rcases ih (act.set t w) s k hready with
            ⟨e, k1, heq, hc⟩ | ⟨act1, k1, heq, hget, hnd, htr, hst⟩
          · exact Or.inl ⟨e, k1, heq, lift rfl hc⟩
          refine Or.inr ⟨act1, k1, ?_, ?_, ?_, ?_, ?_⟩
          · rw [heq]
            simp [List.filter_cons, hb, hrt]
          · intro t1
            rw [hget t1, DecMap.get_set]
            by_cases h1 : t1 = t
            · subst h1
              simp [hb, hrt, hw]
            · simp [h1]
          · intro h
            exact hnd (DecMap.keys_set_nodup act t w h)
          · rw [htr]
            simp [List.filter_cons, hb]
          · intro t1 h1 hb1
            rcases List.mem_cons.mp h1 with h | h
            · subst h; rw [hb] at hb1; cases hb1
            · exact hst t1 h hb1

/-! ### The filter as a whole -/

theorem Keeper.since_of_append {k k1 : Keeper} {evs : List Event}
    (h : k1.transcript = k.transcript ++ evs) : k.since k1 = evs := by
  simp [Keeper.since, h]

theorem Keeper.GetParams_ok (k : Keeper) (h : k.fails Call.GetParams = false) :
    k.GetParams = .ok k.params := by
  simp [Keeper.GetParams, Keeper.read, h]

theorem sum_droppedTopics (k : Keeper) (weights : DecMap) (sortedTopics : List TopicId)
    (hnodup : sortedTopics.Nodup) :
    ((sortedTopics.filter fun t =>
        !(k.nonceReady t && !(weightBelowMinimum weights k.params.MinTopicWeight t))).map
          weights.weightOf).sum
      = ∑ t ∈ droppedTopics k weights sortedTopics, weights.weightOf t := by
  have h : droppedTopics k weights sortedTopics
      = (sortedTopics.filter fun t => !(staysActive k weights t)).toFinset := by
    ext t
    simp [droppedTopics]
  rw [h, List.sum_toFinset _ (hnodup.filter _)]
  rfl

theorem FilterAndInactivateTopicsUpdatingSums_writesOnly (k : Keeper) (weights : DecMap)
    (sortedTopics : List TopicId) (sumWeight totalReward : Dec) (blockHeight : BlockHeight) :
    WritesOnly
      (fun t => t ∈ sortedTopics ∧ weightBelowMinimum weights k.params.MinTopicWeight t = true)
      (fun e => ∃ t ∈ sortedTopics, weightBelowMinimum weights k.params.MinTopicWeight t = true
        ∧ e ∈ inactivationEvents blockHeight t)
      k (FilterAndInactivateTopicsUpdatingSums k weights sortedTopics sumWeight totalReward
        blockHeight).2 := by
  unfold FilterAndInactivateTopicsUpdatingSums
  rcases hf : k.fails Call.GetParams with _ | _
  · rw [Keeper.GetParams_ok k hf]
    exact FilterAndInactivateTopicsUpdatingSums.filter_loop_writesOnly weights _ blockHeight
      sortedTopics [] sumWeight k
  · simp only [Keeper.GetParams, Keeper.read, hf, if_true]
    exact WritesOnly.writes_refl _ _ k

/-- The filter either stops on an error or returns the result in closed form. -/
theorem FilterAndInactivateTopicsUpdatingSums_cases (k : Keeper) (weights : DecMap)
    (sortedTopics : List TopicId) (sumWeight totalReward : Dec) (blockHeight : BlockHeight) :
    (∃ e k1,
      FilterAndInactivateTopicsUpdatingSums k weights sortedTopics sumWeight totalReward
        blockHeight = (.error e, k1)
      ∧ (k.fails Call.GetParams = true
        ∨ (∃ t ∈ sortedTopics, weights.get t = none)
        ∨ ∃ t ∈ sortedTopics, weightBelowMinimum weights k.params.MinTopicWeight t = true
            ∧ (k.fails (Call.InactivateTopic t) = true
              ∨ k.fails (Call.ResetTopicFeeRevenue t blockHeight) = true)))
    ∨ ∃ act1 k1,
      FilterAndInactivateTopicsUpdatingSums k weights sortedTopics sumWeight totalReward
        blockHeight
        = (.ok (act1,
            sumWeight - ((sortedTopics.filter fun t =>
              !(k.nonceReady t && !(weightBelowMinimum weights k.params.MinTopicWeight t))).map
                weights.weightOf).sum), k1)
      ∧ (∀ t, act1.get t =
          if t ∈ sortedTopics ∧ staysActive k weights t = true then weights.get t else none)
      ∧ (act1.map Prod.fst).Nodup
      ∧ k1.transcript = k.transcript
          ++ (sortedTopics.filter (weightBelowMinimum weights k.params.MinTopicWeight)).flatMap
              (inactivationEvents blockHeight)
      ∧ ∀ t ∈ sortedTopics, weightBelowMinimum weights k.params.MinTopicWeight t = true →
          k1.active t = false ∧ k1.feeRevenue t = { Epoch := blockHeight, Revenue := 0 } := by
  unfold FilterAndInactivateTopicsUpdatingSums
  rcases hf : k.fails Call.GetParams with _ | _
  · rw [Keeper.GetParams_ok k hf]
    rcases FilterAndInactivateTopicsUpdatingSums.loop_cases weights k.params.MinTopicWeight
        blockHeight k.nonceReady sortedTopics [] sumWeight k (fun _ => rfl) with
      ⟨e, k1, heq, hc⟩ | ⟨act1, k1, heq, hget, hnd, htr, hst⟩
    · exact Or.inl ⟨e, k1, heq, Or.inr hc⟩
    · refine Or.inr ⟨act1, k1, heq, ?_, hnd (by simp), htr, hst⟩
      intro t
      rw [hget t]
      simp [staysActive, DecMap.get]
  · simp only [Keeper.GetParams, Keeper.read, hf, if_true]
    exact Or.inl ⟨_, _, rfl, Or.inl trivial⟩

/-- The filter returns its result when the parameters are read, every topic
of the list has a weight and no write fails. -/
theorem FilterAndInactivateTopicsUpdatingSums_ok (k : Keeper) (weights : DecMap)
    (sortedTopics : List TopicId) (sumWeight totalReward : Dec) (blockHeight : BlockHeight)
    (hkeys : ∀ t ∈ sortedTopics, weights.get t ≠ none)
    (hparams : k.fails Call.GetParams = false)
    (hwrites : ∀ t b, k.fails (Call.InactivateTopic t) = false
      ∧ k.fails (Call.ResetTopicFeeRevenue t b) = false) :
    ∃ act1 k1,
      FilterAndInactivateTopicsUpdatingSums k weights sortedTopics sumWeight totalReward
        blockHeight
        = (.ok (act1,
            sumWeight - ((sortedTopics.filter fun t =>
              !(k.nonceReady t && !(weightBelowMinimum weights k.params.MinTopicWeight t))).map
                weights.weightOf).sum), k1)
      ∧ (∀ t, act1.get t =
          if t ∈ sortedTopics ∧ staysActive k weights t = true then weights.get t else none)
      ∧ (act1.map Prod.fst).Nodup
      ∧ k1.transcript = k.transcript
          ++ (sortedTopics.filter (weightBelowMinimum weights k.params.MinTopicWeight)).flatMap
              (inactivationEvents blockHeight)
      ∧ ∀ t ∈ sortedTopics, weightBelowMinimum weights k.params.MinTopicWeight t = true →
          k1.active t = false ∧ k1.feeRevenue t = { Epoch := blockHeight, Revenue := 0 } := by
  rcases FilterAndInactivateTopicsUpdatingSums_cases k weights sortedTopics sumWeight
      totalReward blockHeight with ⟨e, k1, _, hc⟩ | h
  · exfalso
    rcases hc with hc | ⟨t, ht, hn⟩ | ⟨t, _, _, hI | hR⟩
    · rw [hparams] at hc; cases hc
    · exact hkeys t ht hn
    · rw [(hwrites t blockHeight).1] at hI; cases hI
    · rw [(hwrites t blockHeight).2] at hR; cases hR
  · exact h

/-- C9: when `sortedTopics` lists distinct topics that are all keys of
`weights`, the parameters are read and no write fails,
`FilterAndInactivateTopicsUpdatingSums` returns a map that holds exactly the
topics of the list whose reward nonce is read without error and is not zero
and whose weight is not below `MinTopicWeight`, each with its input weight,
and a sum equal to the input `sumWeight` minus the sum, over the set of the
dropped topics, of their weights: each dropped weight is subtracted once. -/
theorem FilterAndInactivateTopicsUpdatingSums_result (k : Keeper) (weights : DecMap)
    (sortedTopics : List TopicId) (sumWeight totalReward : Dec) (blockHeight : BlockHeight)
    (hnodup : sortedTopics.Nodup)
    (hkeys : ∀ t ∈ sortedTopics, weights.get t ≠ none)
    (hparams : k.fails Call.GetParams = false)
    (hwrites : ∀ t b, k.fails (Call.InactivateTopic t) = false
      ∧ k.fails (Call.ResetTopicFeeRevenue t b) = false) :
    ∃ weightsOfActiveTopics k1,
      FilterAndInactivateTopicsUpdatingSums k weights sortedTopics sumWeight totalReward
        blockHeight
        = (.ok (weightsOfActiveTopics,
            sumWeight - ∑ t ∈ droppedTopics k weights sortedTopics, weights.weightOf t), k1)
      ∧ ∀ t, weightsOfActiveTopics.get t =
          if t ∈ sortedTopics
            ∧ (k.fails (Call.GetTopicRewardNonce t) = false ∧ k.rewardNonce t ≠ 0)
            ∧ ¬ weights.weightOf t < k.params.MinTopicWeight
          then weights.get t else none := by
  obtain ⟨act1, k1, heq, hget, -, -, -⟩ := FilterAndInactivateTopicsUpdatingSums_ok k weights
    sortedTopics sumWeight totalReward blockHeight hkeys hparams hwrites
  refine ⟨act1, k1, ?_, ?_⟩
  · rw [heq, sum_droppedTopics k weights sortedTopics hnodup]
  · intro t
    rw [hget t]
    simp [staysActive, Keeper.nonceReady, weightBelowMinimum, and_assoc]

theorem FilterAndInactivateTopicsUpdatingSums_result_witness :
    [1, 2, 3].Nodup
      ∧ (∀ t ∈ [1, 2, 3], DecMap.get [(1, 3), (2, 1 / 1000), (3, 1 / 1000)] t ≠ none)
      ∧ filterExampleKeeper.fails Call.GetParams = false
      ∧ (∀ t b, filterExampleKeeper.fails (Call.InactivateTopic t) = false
          ∧ filterExampleKeeper.fails (Call.ResetTopicFeeRevenue t b) = false)
      ∧ ∃ weightsOfActiveTopics k1,
        FilterAndInactivateTopicsUpdatingSums filterExampleKeeper
            [(1, 3), (2, 1 / 1000), (3, 1 / 1000)] [1, 2, 3] (3002 / 1000) 400 5
          = (.ok (weightsOfActiveTopics,
              3002 / 1000 - ∑ t ∈ droppedTopics filterExampleKeeper
                [(1, 3), (2, 1 / 1000), (3, 1 / 1000)] [1, 2, 3],
                  DecMap.weightOf [(1, 3), (2, 1 / 1000), (3, 1 / 1000)] t), k1)
        ∧ ∀ t, weightsOfActiveTopics.get t =
            if t ∈ [1, 2, 3]
              ∧ (filterExampleKeeper.fails (Call.GetTopicRewardNonce t) = false
                ∧ filterExampleKeeper.rewardNonce t ≠ 0)
              ∧ ¬ DecMap.weightOf [(1, 3), (2, 1 / 1000), (3, 1 / 1000)] t
                  < filterExampleKeeper.params.MinTopicWeight
            then DecMap.get [(1, 3), (2, 1 / 1000), (3, 1 / 1000)] t else none :=
  ⟨by decide, by decide, rfl, fun _ _ => ⟨rfl, rfl⟩,
    FilterAndInactivateTopicsUpdatingSums_result filterExampleKeeper
      [(1, 3), (2, 1 / 1000), (3, 1 / 1000)] [1, 2, 3] (3002 / 1000) 400 5
      (by decide) (by decide) rfl (fun _ _ => ⟨rfl, rfl⟩)⟩

theorem flatMap_inactivationEvents_split (blockHeight : BlockHeight) (t : TopicId)
    (l : List TopicId) (h : t ∈ l) :
    ∃ pre post, l.flatMap (inactivationEvents blockHeight)
      = pre ++ inactivationEvents blockHeight t ++ post := by
  obtain ⟨l1, l2, rfl⟩ := List.append_of_mem h
  exact ⟨l1.flatMap (inactivationEvents blockHeight),
    l2.flatMap (inactivationEvents blockHeight), by simp [List.flatMap_append]⟩

/-- C8: when the filter runs to its end (distinct topics with weights, the
parameters read, no write failing), a nonce-ready topic of `sortedTopics` whose
weight is strictly below `MinTopicWeight` has `InactivateTopic` called on it,
immediately followed by `ResetTopicFeeRevenue(topicId, blockHeight)`; it ends
inactive with fee revenue 0, is absent from the returned map and is in the set
of topics whose weights are subtracted from the sum. A topic whose weight
equals `MinTopicWeight` is not inactivated and stays in the map. -/
theorem FilterAndInactivateTopicsUpdatingSums_below_minimum (k : Keeper) (weights : DecMap)
    (sortedTopics : List TopicId) (sumWeight totalReward : Dec) (blockHeight : BlockHeight)
    (t : TopicId)
    (hnodup : sortedTopics.Nodup)
    (hkeys : ∀ u ∈ sortedTopics, weights.get u ≠ none)
    (hparams : k.fails Call.GetParams = false)
    (hwrites : ∀ u b, k.fails (Call.InactivateTopic u) = false
      ∧ k.fails (Call.ResetTopicFeeRevenue u b) = false)
    (ht : t ∈ sortedTopics) (hready : k.nonceReady t = true) :
    ∃ weightsOfActiveTopics k1,
      FilterAndInactivateTopicsUpdatingSums k weights sortedTopics sumWeight totalReward
        blockHeight
        = (.ok (weightsOfActiveTopics,
            sumWeight - ∑ u ∈ droppedTopics k weights sortedTopics, weights.weightOf u), k1)
      ∧ (weights.weightOf t < k.params.MinTopicWeight →
          (∃ pre post, k.since k1 = pre
            ++ [Event.write (Call.InactivateTopic t),
                Event.write (Call.ResetTopicFeeRevenue t blockHeight)] ++ post)
          ∧ k1.active t = false
          ∧ k1.feeRevenue t = { Epoch := blockHeight, Revenue := 0 }
          ∧ weightsOfActiveTopics.get t = none
          ∧ t ∈ droppedTopics k weights sortedTopics)
      ∧ (weights.weightOf t = k.params.MinTopicWeight →
          Event.write (Call.InactivateTopic t) ∉ k.since k1
          ∧ k1.active t = k.active t
          ∧ weightsOfActiveTopics.get t = weights.get t) := by
  obtain ⟨act1, k1, heq, hget, -, htr, hst⟩ := FilterAndInactivateTopicsUpdatingSums_ok k
    weights sortedTopics sumWeight totalReward blockHeight hkeys hparams hwrites
  have hwo := FilterAndInactivateTopicsUpdatingSums_writesOnly k weights sortedTopics sumWeight
    totalReward blockHeight
  rw [heq] at hwo
  refine ⟨act1, k1, ?_, ?_, ?_⟩
  · rw [heq, sum_droppedTopics k weights sortedTopics hnodup]
  · intro hlt
    have hb : weightBelowMinimum weights k.params.MinTopicWeight t = true := by
      simpa [weightBelowMinimum] using hlt
    refine ⟨?_, (hst t ht hb).1, (hst t ht hb).2, ?_, ?_⟩
    · rw [Keeper.since_of_append htr]
      exact flatMap_inactivationEvents_split blockHeight t _
        (List.mem_filter.mpr ⟨ht, hb⟩)
    · rw [hget t]
      simp [staysActive, hb]
    · simp [droppedTopics, ht, staysActive, hb]
  · intro heqw
    have hb : weightBelowMinimum weights k.params.MinTopicWeight t = false := by
      simp [weightBelowMinimum, heqw]
    refine ⟨?_, ?_, ?_⟩
    · rw [Keeper.since_of_append htr]
      intro hmem
      obtain ⟨u, hu, he⟩ := List.mem_flatMap.mp hmem
      have hub := (List.mem_filter.mp hu).2
      simp [inactivationEvents] at he
      rw [← he, hb] at hub
      cases hub
    · refine (hwo.2.2 t (fun hc => ?_)).1
      have h2 := hc.2
      rw [hb] at h2
      cases h2
    · rw [hget t]
      simp [staysActive, hb, hready, ht]

theorem FilterAndInactivateTopicsUpdatingSums_below_minimum_witness :
    [4].Nodup
      ∧ (∀ u ∈ [4], DecMap.get [(4, 1 / 1000)] u ≠ none)
      ∧ filterExampleKeeper.fails Call.GetParams = false
      ∧ (∀ u b, filterExampleKeeper.fails (Call.InactivateTopic u) = false
          ∧ filterExampleKeeper.fails (Call.ResetTopicFeeRevenue u b) = false)
      ∧ 4 ∈ [4] ∧ filterExampleKeeper.nonceReady 4 = true
      ∧ filterExampleKeeper.feeRevenue 4 = { Epoch := 0, Revenue := 70 }
      ∧ filterExampleKeeper.params.MinTopicWeight = 1 / 100
      ∧ ∃ weightsOfActiveTopics k1,
        FilterAndInactivateTopicsUpdatingSums filterExampleKeeper [(4, 1 / 1000)] [4]
            (1 / 1000) 400 5
          = (.ok (weightsOfActiveTopics,
              1 / 1000 - ∑ u ∈ droppedTopics filterExampleKeeper [(4, 1 / 1000)] [4],
                DecMap.weightOf [(4, 1 / 1000)] u), k1)
        ∧ (DecMap.weightOf [(4, 1 / 1000)] 4 < filterExampleKeeper.params.MinTopicWeight →
            (∃ pre post, filterExampleKeeper.since k1 = pre
              ++ [Event.write (Call.InactivateTopic 4),
                  Event.write (Call.ResetTopicFeeRevenue 4 5)] ++ post)
            ∧ k1.active 4 = false
            ∧ k1.feeRevenue 4 = { Epoch := 5, Revenue := 0 }
            ∧ weightsOfActiveTopics.get 4 = none
            ∧ 4 ∈ droppedTopics filterExampleKeeper [(4, 1 / 1000)] [4])
        ∧ (DecMap.weightOf [(4, 1 / 1000)] 4 = filterExampleKeeper.params.MinTopicWeight →
            Event.write (Call.InactivateTopic 4) ∉ filterExampleKeeper.since k1
            ∧ k1.active 4 = filterExampleKeeper.active 4
            ∧ weightsOfActiveTopics.get 4 = DecMap.get [(4, 1 / 1000)] 4) :=
  ⟨by decide, by decide, rfl, fun _ _ => ⟨rfl, rfl⟩, by decide, by decide, rfl, rfl,
    FilterAndInactivateTopicsUpdatingSums_below_minimum filterExampleKeeper [(4, 1 / 1000)] [4]
      (1 / 1000) 400 5 4 (by decide) (by decide) rfl (fun _ _ => ⟨rfl, rfl⟩) (by decide)
      (by decide)⟩

/-- C7 (as stated, refuted): a topic whose reward nonce is 0 and whose weight
is below `MinTopicWeight` is inactivated by the filter and has its fee revenue
reset: topic 2 has nonce 0, weight 0.001 under the minimum 0.01 and revenue 70,
and after the filter `InactivateTopic` and `ResetTopicFeeRevenue` are in the
transcript, the topic is inactive and its revenue is 0. -/
theorem FilterAndInactivateTopicsUpdatingSums_nonce_zero_below_minimum_resets :
    filterExampleKeeper.rewardNonce 2 = 0
      ∧ filterExampleKeeper.feeRevenue 2 = { Epoch := 0, Revenue := 70 }
      ∧ filterExampleKeeper.active 2 = true
      ∧ Event.write (Call.InactivateTopic 2) ∈ filterExampleKeeper.since
          (FilterAndInactivateTopicsUpdatingSums filterExampleKeeper [(2, 1 / 1000)] [2]
            (1 / 1000) 400 5).2
      ∧ Event.write (Call.ResetTopicFeeRevenue 2 5) ∈ filterExampleKeeper.since
          (FilterAndInactivateTopicsUpdatingSums filterExampleKeeper [(2, 1 / 1000)] [2]
            (1 / 1000) 400 5).2
      ∧ (FilterAndInactivateTopicsUpdatingSums filterExampleKeeper [(2, 1 / 1000)] [2]
            (1 / 1000) 400 5).2.feeRevenue 2 = { Epoch := 5, Revenue := 0 }
      ∧ (FilterAndInactivateTopicsUpdatingSums filterExampleKeeper [(2, 1 / 1000)] [2]
            (1 / 1000) 400 5).2.active 2 = false := by
  decide!

/-- C7 (amended): when the filter runs to its end, a topic of `sortedTopics`
whose reward nonce is 0 or cannot be read and whose weight is not below
`MinTopicWeight` is dropped from the active set and is in the set of topics
whose weights are subtracted from the sum, and neither `InactivateTopic` nor
`ResetTopicFeeRevenue` is called for it: its activity and its fee revenue are
unchanged. -/
theorem FilterAndInactivateTopicsUpdatingSums_nonce_not_ready (k : Keeper) (weights : DecMap)
    (sortedTopics : List TopicId) (sumWeight totalReward : Dec) (blockHeight : BlockHeight)
    (t : TopicId)
    (hnodup : sortedTopics.Nodup)
    (hkeys : ∀ u ∈ sortedTopics, weights.get u ≠ none)
    (hparams : k.fails Call.GetParams = false)
    (hwrites : ∀ u b, k.fails (Call.InactivateTopic u) = false
      ∧ k.fails (Call.ResetTopicFeeRevenue u b) = false)
    (ht : t ∈ sortedTopics)
    (hnonce : k.fails (Call.GetTopicRewardNonce t) = true ∨ k.rewardNonce t = 0)
    (hweight : ¬ weights.weightOf t < k.params.MinTopicWeight) :
    ∃ weightsOfActiveTopics k1,
      FilterAndInactivateTopicsUpdatingSums k weights sortedTopics sumWeight totalReward
        blockHeight
        = (.ok (weightsOfActiveTopics,
            sumWeight - ∑ u ∈ droppedTopics k weights sortedTopics, weights.weightOf u), k1)
      ∧ weightsOfActiveTopics.get t = none
      ∧ t ∈ droppedTopics k weights sortedTopics
      ∧ Event.write (Call.InactivateTopic t) ∉ k.since k1
      ∧ (∀ b, Event.write (Call.ResetTopicFeeRevenue t b) ∉ k.since k1)
      ∧ k1.active t = k.active t
      ∧ k1.feeRevenue t = k.feeRevenue t := by
  obtain ⟨act1, k1, heq, hget, -, htr, -⟩ := FilterAndInactivateTopicsUpdatingSums_ok k
    weights sortedTopics sumWeight totalReward blockHeight hkeys hparams hwrites
  have hwo := FilterAndInactivateTopicsUpdatingSums_writesOnly k weights sortedTopics sumWeight
    totalReward blockHeight
  rw [heq] at hwo
  have hb : weightBelowMinimum weights k.params.MinTopicWeight t = false := by
    simpa [weightBelowMinimum] using hweight
  have hr : k.nonceReady t = false := by
    rcases hnonce with h | h
    · simp [Keeper.nonceReady, h]
    · simp [Keeper.nonceReady, h]
  have hun := hwo.2.2 t (fun hc => by
    have h2 := hc.2
    rw [hb] at h2
    cases h2)
  have hev : ∀ e, e ∈ k.since k1 → ∀ u, e ∈ inactivationEvents blockHeight u →
      weightBelowMinimum weights k.params.MinTopicWeight u = true := by
    intro e he u hu
    rw [Keeper.since_of_append htr] at he
    obtain ⟨v, hv, hve⟩ := List.mem_flatMap.mp he
    have hvb := (List.mem_filter.mp hv).2
    have : v = u := by
      simp [inactivationEvents] at hve hu
      rcases hve with h1 | h1 <;> rcases hu with h2 | h2 <;> rw [h1] at h2 <;> simp at h2
      · exact h2
      · exact h2
    rw [← this]
    exact hvb
  refine ⟨act1, k1, ?_, ?_, ?_, ?_, ?_, hun.1, hun.2⟩
  · rw [heq, sum_droppedTopics k weights sortedTopics hnodup]
  · rw [hget t]
    simp [staysActive, hr]
  · simp [droppedTopics, ht, staysActive, hr]
  · intro hmem
    have := hev _ hmem t (by simp [inactivationEvents])
    rw [hb] at this
    cases this
  · intro b hmem
    have hbe : b = blockHeight := by
      rw [Keeper.since_of_append htr] at hmem
      obtain ⟨v, _, hve⟩ := List.mem_flatMap.mp hmem
      simp [inactivationEvents] at hve
      exact hve.2
    subst hbe
    have := hev _ hmem t (by simp [inactivationEvents])
    rw [hb] at this
    cases this

theorem FilterAndInactivateTopicsUpdatingSums_nonce_not_ready_witness :
    [1, 2].Nodup
      ∧ (∀ u ∈ [1, 2], DecMap.get [(1, 3), (2, 1)] u ≠ none)
      ∧ filterExampleKeeper.fails Call.GetParams = false
      ∧ (∀ u b, filterExampleKeeper.fails (Call.InactivateTopic u) = false
          ∧ filterExampleKeeper.fails (Call.ResetTopicFeeRevenue u b) = false)
      ∧ 2 ∈ [1, 2]
      ∧ (filterExampleKeeper.fails (Call.GetTopicRewardNonce 2) = true
          ∨ filterExampleKeeper.rewardNonce 2 = 0)
      ∧ ¬ DecMap.weightOf [(1, 3), (2, 1)] 2 < filterExampleKeeper.params.MinTopicWeight
      ∧ ∃ weightsOfActiveTopics k1,
        FilterAndInactivateTopicsUpdatingSums filterExampleKeeper [(1, 3), (2, 1)] [1, 2] 4 400 5
          = (.ok (weightsOfActiveTopics,
              4 - ∑ u ∈ droppedTopics filterExampleKeeper [(1, 3), (2, 1)] [1, 2],
                DecMap.weightOf [(1, 3), (2, 1)] u), k1)
        ∧ weightsOfActiveTopics.get 2 = none
        ∧ 2 ∈ droppedTopics filterExampleKeeper [(1, 3), (2, 1)] [1, 2]
        ∧ Event.write (Call.InactivateTopic 2) ∉ filterExampleKeeper.since k1
        ∧ (∀ b, Event.write (Call.ResetTopicFeeRevenue 2 b) ∉ filterExampleKeeper.since k1)
        ∧ k1.active 2 = filterExampleKeeper.active 2
        ∧ k1.feeRevenue 2 = filterExampleKeeper.feeRevenue 2 :=
  ⟨by decide, by decide, rfl, fun _ _ => ⟨rfl, rfl⟩, by decide, Or.inr rfl, by decide!,
    FilterAndInactivateTopicsUpdatingSums_nonce_not_ready filterExampleKeeper [(1, 3), (2, 1)]
      [1, 2] 4 400 5 2 (by decide) (by decide) rfl (fun _ _ => ⟨rfl, rfl⟩) (by decide)
      (Or.inr rfl) (by decide!)⟩

/-! ### The loop over the active topics -/

theorem GenerateRewardsDistributionByTopic.loop_cons_other {weights act top : DecMap}
    {blockHeight : BlockHeight} {t : TopicId} (rest : List TopicId) (rev : Int) (w : Dec)
    (k : Keeper) (h : act.get t = none) :
    GenerateRewardsDistributionByTopic.loop weights act top blockHeight (t :: rest) rev w k
      = GenerateRewardsDistributionByTopic.loop weights act top blockHeight rest rev w k := by
  simp [GenerateRewardsDistributionByTopic.loop, h]

theorem GenerateRewardsDistributionByTopic.loop_cons_winner {weights act top : DecMap}
    {blockHeight : BlockHeight} {t : TopicId} (rest : List TopicId) (rev : Int) (w : Dec)
    (k : Keeper) (h : isWinner act top t = true) :
    GenerateRewardsDistributionByTopic.loop weights act top blockHeight (t :: rest) rev w k
      = match k.ResetTopicFeeRevenue t blockHeight with
        | (some e, k1) => (.error e, k1)
        | (none, k1) =>
          GenerateRewardsDistributionByTopic.loop weights act top blockHeight rest rev w k1 := by
  simp only [isWinner, Bool.and_eq_true] at h
  simp [GenerateRewardsDistributionByTopic.loop, h.1, h.2]

theorem GenerateRewardsDistributionByTopic.loop_cons_bottom {weights act top : DecMap}
    {blockHeight : BlockHeight} {t : TopicId} (rest : List TopicId) (rev : Int) (w : Dec)
    (k : Keeper) (h : isBottom act top t = true) :
    GenerateRewardsDistributionByTopic.loop weights act top blockHeight (t :: rest) rev w k
      = match k.GetTopicFeeRevenue t with
        | .error e => (.error e, k)
        | .ok topicFeeRevenue =>
          match weights.get t with
          | none => (.error Err.runtimePanic, k)
          | some weight =>
            GenerateRewardsDistributionByTopic.loop weights act top blockHeight rest
              (rev + topicFeeRevenue.Revenue) (w + weight) k := by
  simp only [isBottom, Bool.and_eq_true, Bool.not_eq_true'] at h
  simp only [GenerateRewardsDistributionByTopic.loop, h.1, h.2]
  simp only [Bool.false_eq_true, not_false_eq_true, if_true]
  rcases k.GetTopicFeeRevenue t with e | fr
  · simp
  · rcases weights.get t with _ | wt
    · simp
    · simp [Dec.Add]

theorem isWinner_or_isBottom_or (act top : DecMap) (t : TopicId) :
    act.get t = none ∨ isWinner act top t = true ∨ isBottom act top t = true := by
  unfold isWinner isBottom
  rcases act.get t with _ | a
  · exact Or.inl rfl
  · rcases top.get t with _ | b
    · exact Or.inr (Or.inr rfl)
    · exact Or.inr (Or.inl rfl)

theorem GenerateRewardsDistributionByTopic.topic_loop_writesOnly (weights act top : DecMap)
    (blockHeight : BlockHeight) (ts : List TopicId) :
    ∀ (rev : Int) (w : Dec) (k : Keeper),
      WritesOnly (fun t => t ∈ ts ∧ isWinner act top t = true)
        (fun e => ∃ t ∈ ts, isWinner act top t = true
          ∧ e = Event.write (Call.ResetTopicFeeRevenue t blockHeight))
        k (GenerateRewardsDistributionByTopic.loop weights act top blockHeight ts rev w k).2 := by
  induction ts with
  | nil => intro rev w k; exact WritesOnly.writes_refl _ _ k
  | cons t rest ih =>
    intro rev w k
    have hmono : ∀ {ka kb : Keeper},
        WritesOnly (fun t => t ∈ rest ∧ isWinner act top t = true)
          (fun e => ∃ t ∈ rest, isWinner act top t = true
            ∧ e = Event.write (Call.ResetTopicFeeRevenue t blockHeight)) ka kb →
        WritesOnly (fun t1 => t1 ∈ t :: rest ∧ isWinner act top t1 = true)
          (fun e => ∃ t1 ∈ t :: rest, isWinner act top t1 = true
            ∧ e = Event.write (Call.ResetTopicFeeRevenue t1 blockHeight)) ka kb := by
      intro ka kb h
      refine h.mono ?_ ?_
      · intro t1 h1; exact ⟨List.mem_cons_of_mem _ h1.1, h1.2⟩
      · rintro e ⟨t1, h1, h2, h3⟩; exact ⟨t1, List.mem_cons_of_mem _ h1, h2, h3⟩
    rcases isWinner_or_isBottom_or act top t with h | h | h
    · rw [GenerateRewardsDistributionByTopic.loop_cons_other rest rev w k h]
      exact hmono (ih rev w k)
    · rw [GenerateRewardsDistributionByTopic.loop_cons_winner rest rev w k h]
      have hR := WritesOnly.reset
        (fun t1 => t1 ∈ t :: rest ∧ isWinner act top t1 = true)
        (fun e => ∃ t1 ∈ t :: rest, isWinner act top t1 = true
          ∧ e = Event.write (Call.ResetTopicFeeRevenue t1 blockHeight)) k t blockHeight
        ⟨List.mem_cons_self _ _, h⟩ ⟨t, List.mem_cons_self _ _, h, rfl⟩
      rcases hk1 : k.ResetTopicFeeRevenue t blockHeight with ⟨_ | e, k1⟩
      · rw [hk1] at hR
        exact hR.writes_trans (hmono (ih rev w k1))
      · rw [hk1] at hR
        exact hR
    · rw [GenerateRewardsDistributionByTopic.loop_cons_bottom rest rev w k h]
      rcases k.GetTopicFeeRevenue t with e | fr
      · exact WritesOnly.writes_refl _ _ k
      · rcases weights.get t with _ | wt
        · exact WritesOnly.writes_refl _ _ k
        · exact hmono (ih _ _ k)

/-- When the loop over the active topics returns, the weight it returns is
the weight it started with plus the weights of the topics that missed the
cut, and the transcript grew by the resets of the winners. -/
theorem GenerateRewardsDistributionByTopic.topic_loop_ok (weights act top : DecMap)
    (blockHeight : BlockHeight) (ts : List TopicId) :
    ∀ (rev : Int) (w : Dec) (k : Keeper) (rev1 : Int) (w1 : Dec) (k1 : Keeper),
      GenerateRewardsDistributionByTopic.loop weights act top blockHeight ts rev w k
        = (.ok (rev1, w1), k1) →
      w1 = w + ((ts.filter (isBottom act top)).map weights.weightOf).sum
      ∧ k1.transcript = k.transcript ++ (ts.filter (isWinner act top)).map
          (fun t => Event.write (Call.ResetTopicFeeRevenue t blockHeight))
      ∧ ∀ t ∈ ts, isWinner act top t = true →
          k1.feeRevenue t = { Epoch := blockHeight, Revenue := 0 } := by
  induction ts with
  | nil =>
    intro rev w k rev1 w1 k1 h
    simp only [GenerateRewardsDistributionByTopic.loop, Prod.mk.injEq, Except.ok.injEq] at h
    obtain ⟨⟨-, rfl⟩, rfl⟩ := h
    simp
  | cons t rest ih =>
    intro rev w k rev1 w1 k1 h
    rcases isWinner_or_isBottom_or act top t with hc | hc | hc
    · rw [GenerateRewardsDistributionByTopic.loop_cons_other rest rev w k hc] at h
      have hnw : isWinner act top t = false := by simp [isWinner, hc]
      have hnb : isBottom act top t = false := by simp [isBottom, hc]
      obtain ⟨h1, h2, h3⟩ := ih rev w k rev1 w1 k1 h
      refine ⟨by simp [List.filter_cons, hnb, h1], by simp [List.filter_cons, hnw, h2], ?_⟩
      intro t1 ht1 hw1
      rcases List.mem_cons.mp ht1 with e | e
      · subst e; rw [hnw] at hw1; cases hw1
      · exact h3 t1 e hw1
    · rw [GenerateRewardsDistributionByTopic.loop_cons_winner rest rev w k hc] at h
      have hnb : isBottom act top t = false := by
        simp only [isWinner, Bool.and_eq_true] at hc
        simp [isBottom, hc.2]
      rcases hf : k.fails (Call.ResetTopicFeeRevenue t blockHeight) with _ | _
      · rw [Keeper.ResetTopicFeeRevenue_ok k t blockHeight hf] at h
        dsimp only at h
        obtain ⟨h1, h2, h3⟩ := ih rev w _ rev1 w1 k1 h
        have hwo := GenerateRewardsDistributionByTopic.topic_loop_writesOnly weights act top
          blockHeight rest rev w { k with
            feeRevenue := fun t1 =>
              if t1 = t then { Epoch := blockHeight, Revenue := 0 } else k.feeRevenue t1
            transcript := k.transcript
              ++ [Event.write (Call.ResetTopicFeeRevenue t blockHeight)] }
        rw [h] at hwo
        refine ⟨by simp [List.filter_cons, hnb, h1], by simp [List.filter_cons, hc, h2], ?_⟩
        intro t1 ht1 hw1
        by_cases hin : t1 ∈ rest
        · exact h3 t1 hin hw1
        · have h1t : t1 = t := by
            rcases List.mem_cons.mp ht1 with e | e
            · exact e
            · exact absurd e hin
          subst h1t
          have := (hwo.2.2 t1 (fun hx => hin hx.1)).2
          simpa using this
      · rw [Keeper.ResetTopicFeeRevenue_fail k t blockHeight hf] at h
        simp at h
    · rw [GenerateRewardsDistributionByTopic.loop_cons_bottom rest rev w k hc] at h
      have hnw : isWinner act top t = false := by
        simp only [isBottom, Bool.and_eq_true, Bool.not_eq_true'] at hc
        simp [isWinner, hc.2]
      rcases hfr : k.GetTopicFeeRevenue t with e | fr
      · rw [hfr] at h; simp at h
      · rw [hfr] at h
        dsimp only at h
        rcases hw : weights.get t with _ | wt
        · rw [hw] at h; simp at h
        · rw [hw] at h
          dsimp only at h
          have hwt : weights.weightOf t = wt := by simp [DecMap.weightOf, hw]
          obtain ⟨h1, h2, h3⟩ := ih _ _ k rev1 w1 k1 h
          refine ⟨by simp [List.filter_cons, hc, h1, hwt, add_assoc],
            by simp [List.filter_cons, hnw, h2], ?_⟩
          intro t1 ht1 hw1
          rcases List.mem_cons.mp ht1 with e | e
          · subst e; rw [hnw] at hw1; cases hw1
          · exact h3 t1 e hw1

/-! ### Sorted keys and the rewards of the topics -/

theorem DecMap.get_isSome_iff_mem_keys (m : DecMap) (t : TopicId) :
    (m.get t).isSome = true ↔ t ∈ m.map Prod.fst := by
  induction m with
  | nil => simp [DecMap.get]
  | cons p rest ih =>
    obtain ⟨a, v⟩ := p
    by_cases h : a = t
    · simp [DecMap.get, h]
    · have h1 : ¬ t = a := fun e => h e.symm
      simp only [DecMap.get, h, if_false, ih]
      simp [h1]

theorem mem_GetSortedKeys (m : DecMap) (t : TopicId) :
    t ∈ GetSortedKeys m ↔ (m.get t).isSome = true := by
  unfold GetSortedKeys
  rw [(List.perm_insertionSort _ _).mem_iff, List.mem_dedup, DecMap.get_isSome_iff_mem_keys]

theorem CalcTopicRewards.calc_loop_ok (weights : DecMap) (sumWeight totalReward : Dec)
    (ts : List TopicId) :
    ∀ (acc m : DecMap),
      CalcTopicRewards.loop weights sumWeight totalReward ts acc = .ok m →
      (ts = [] ∨ sumWeight ≠ 0)
      ∧ ∀ t, m.get t =
          if t ∈ ts then
            (weights.get t).map (fun w => Dec.Round (Dec.Round (w / sumWeight) * totalReward))
          else acc.get t := by
  induction ts with
  | nil =>
    intro acc m h
    simp only [CalcTopicRewards.loop, Except.ok.injEq] at h
    subst h
    simp
  | cons t rest ih =>
    intro acc m h
    rcases hw : weights.get t with _ | w
    · simp [CalcTopicRewards.loop, hw, GetTopicRewardFraction] at h
    · by_cases hz : sumWeight = 0
      · simp [CalcTopicRewards.loop, hw, GetTopicRewardFraction, Dec.Quo, hz] at h
      · simp only [CalcTopicRewards.loop, hw, GetTopicRewardFraction, Dec.Quo, hz, if_false,
          GetTopicReward, Dec.Mul] at h
        obtain ⟨-, hget⟩ := ih _ m h
        refine ⟨Or.inr hz, ?_⟩
        intro t1
        rw [hget t1, DecMap.get_set]
        by_cases h1 : t1 = t
        · subst h1
          by_cases h2 : t1 ∈ rest
          · simp [h2]
          · simp [h2, hw]
        · simp [h1]

theorem GenerateRewardsDistributionByTopic_some
    {skim : DecMap → Nat → BlockHeight → DecMap} {k k2 : Keeper} {N : Nat}
    {blockHeight : BlockHeight} {totalReward : Dec} {weights : DecMap}
    {sortedTopics : List TopicId} {sumWeight : Dec} {totalRevenue : Int} {rewards : DecMap}
    (h : GenerateRewardsDistributionByTopic skim k N blockHeight totalReward weights
      sortedTopics sumWeight totalRevenue = (.ok (some rewards), k2)) :
    sumWeight ≠ 0 ∧ ∃ act s1 k1 rev1 bw,
      FilterAndInactivateTopicsUpdatingSums k weights sortedTopics sumWeight totalReward
        blockHeight = (.ok (act, s1), k1)
      ∧ s1 ≠ 0
      ∧ GenerateRewardsDistributionByTopic.loop weights act (skim act N blockHeight) blockHeight
          sortedTopics 0 0 k1 = (.ok (rev1, bw), k2)
      ∧ CalcTopicRewards (skim act N blockHeight) (GetSortedKeys (skim act N blockHeight))
          (s1 - bw) totalReward = .ok rewards := by
  unfold GenerateRewardsDistributionByTopic at h
  by_cases hs : sumWeight = 0
  · simp [hs] at h
  refine ⟨hs, ?_⟩
  simp only [hs, if_false] at h
  rcases hF : FilterAndInactivateTopicsUpdatingSums k weights sortedTopics sumWeight totalReward
      blockHeight with ⟨e | ⟨act, s1⟩, k1⟩
  · rw [hF] at h; simp at h
  rw [hF] at h
  dsimp only at h
  by_cases hs1 : s1 = 0
  · simp [hs1] at h
  simp only [hs1, if_false] at h
  rcases hL : GenerateRewardsDistributionByTopic.loop weights act (skim act N blockHeight)
      blockHeight sortedTopics 0 0 k1 with ⟨e | ⟨rev1, bw⟩, k3⟩
  · rw [hL] at h; simp at h
  rw [hL] at h
  simp only [Dec.Sub] at h
  rcases hC : CalcTopicRewards (skim act N blockHeight) (GetSortedKeys (skim act N blockHeight))
      (s1 - bw) totalReward with e | m
  · rw [hC] at h; simp at h
  rw [hC] at h
  simp only [Prod.mk.injEq, Except.ok.injEq, Option.some.injEq] at h
  obtain ⟨rfl, rfl⟩ := h
  exact ⟨act, s1, k1, rev1, bw, rfl, hs1, hL, hC⟩

theorem GenerateRewardsDistributionByTopic_writesOnly
    (skim : DecMap → Nat → BlockHeight → DecMap) (k : Keeper) (N : Nat)
    (blockHeight : BlockHeight) (totalReward : Dec) (weights : DecMap)
    (sortedTopics : List TopicId) (sumWeight : Dec) (totalRevenue : Int) :
    WritesOnly (fun t => t ∈ sortedTopics)
      (fun e => ∃ t ∈ sortedTopics, e ∈ inactivationEvents blockHeight t)
      k (GenerateRewardsDistributionByTopic skim k N blockHeight totalReward weights
        sortedTopics sumWeight totalRevenue).2 := by
  have hF : WritesOnly (fun t => t ∈ sortedTopics)
      (fun e => ∃ t ∈ sortedTopics, e ∈ inactivationEvents blockHeight t) k
      (FilterAndInactivateTopicsUpdatingSums k weights sortedTopics sumWeight totalReward
        blockHeight).2 :=
    (FilterAndInactivateTopicsUpdatingSums_writesOnly k weights sortedTopics sumWeight
      totalReward blockHeight).mono (fun t h => h.1) (fun e ⟨t, h1, _, h3⟩ => ⟨t, h1, h3⟩)
  unfold GenerateRewardsDistributionByTopic
  by_cases hs : sumWeight = 0
  · simp only [hs, if_true]
    exact WritesOnly.writes_refl _ _ k
  simp only [hs, if_false]
  rcases hFe : FilterAndInactivateTopicsUpdatingSums k weights sortedTopics sumWeight totalReward
      blockHeight with ⟨e | ⟨act, s1⟩, k1⟩
  · rw [hFe] at hF; exact hF
  rw [hFe] at hF
  dsimp only
  by_cases hs1 : s1 = 0
  · simp only [hs1, if_true]; exact hF
  simp only [hs1, if_false]
  have hL : WritesOnly (fun t => t ∈ sortedTopics)
      (fun e => ∃ t ∈ sortedTopics, e ∈ inactivationEvents blockHeight t) k1
      (GenerateRewardsDistributionByTopic.loop weights act (skim act N blockHeight) blockHeight
        sortedTopics 0 0 k1).2 :=
    (GenerateRewardsDistributionByTopic.topic_loop_writesOnly weights act
      (skim act N blockHeight) blockHeight sortedTopics 0 0 k1).mono
      (fun t h => h.1) (fun e ⟨t, h1, _, h3⟩ => ⟨t, h1, by simp [inactivationEvents, h3]⟩)
  rcases hLe : GenerateRewardsDistributionByTopic.loop weights act (skim act N blockHeight)
      blockHeight sortedTopics 0 0 k1 with ⟨e | ⟨rev1, bw⟩, k3⟩
  · rw [hLe] at hL; exact hF.writes_trans hL
  rw [hLe] at hL
  simp only [Dec.Sub]
  rcases CalcTopicRewards (skim act N blockHeight) (GetSortedKeys (skim act N blockHeight))
      (s1 - bw) totalReward with e | m
  · exact hF.writes_trans hL
  · exact hF.writes_trans hL

theorem DecMap.mem_of_get {m : DecMap} {t : TopicId} {w : Dec} (h : m.get t = some w) :
    (t, w) ∈ m := by
  induction m with
  | nil => simp [DecMap.get] at h
  | cons p rest ih =>
    obtain ⟨a, v⟩ := p
    by_cases ha : a = t
    · simp only [DecMap.get, ha, if_true, Option.some.injEq] at h
      simp [ha, h]
    · simp only [DecMap.get, ha, if_false] at h
      exact List.mem_cons_of_mem _ (ih h)

theorem DecMap.get_of_mem_nodup {m : DecMap} {t : TopicId} {w : Dec}
    (hn : (m.map Prod.fst).Nodup) (h : (t, w) ∈ m) : m.get t = some w := by
  induction m with
  | nil => simp at h
  | cons p rest ih =>
    obtain ⟨a, v⟩ := p
    rw [List.map_cons, List.nodup_cons] at hn
    rcases List.mem_cons.mp h with e | e
    · simp only [Prod.mk.injEq] at e
      simp [DecMap.get, e.1, e.2]
    · have hne : a ≠ t := by
        intro hat
        apply hn.1
        rw [hat]
        exact List.mem_map.mpr ⟨(t, w), e, rfl⟩
      simp only [DecMap.get, hne, if_false]
      exact ih hn.2 e

theorem skimTopN_subMap (N : Nat) (blockHeight : BlockHeight) (m : DecMap)
    (hn : (m.map Prod.fst).Nodup) (t : TopicId) (w : Dec)
    (h : (skimTopN m N blockHeight).get t = some w) : m.get t = some w := by
  apply DecMap.get_of_mem_nodup hn
  have h1 := DecMap.mem_of_get h
  unfold skimTopN at h1
  exact (List.perm_insertionSort _ _).mem_iff.mp (List.mem_of_mem_take h1)

/-- What a successful run of `GenerateRewardsDistributionByTopic` did, with the
skimmer returning a sub-map of the map it is given. -/
theorem GenerateRewardsDistributionByTopic_some_spec
    {skim : DecMap → Nat → BlockHeight → DecMap} {k k2 : Keeper} {N : Nat}
    {blockHeight : BlockHeight} {totalReward : Dec} {weights : DecMap}
    {sortedTopics : List TopicId} {sumWeight : Dec} {totalRevenue : Int} {rewards : DecMap}
    (hskim : ∀ m : DecMap, (m.map Prod.fst).Nodup →
      ∀ t w, (skim m N blockHeight).get t = some w → m.get t = some w)
    (h : GenerateRewardsDistributionByTopic skim k N blockHeight totalReward weights
      sortedTopics sumWeight totalRevenue = (.ok (some rewards), k2)) :
    ∃ act k1,
      FilterAndInactivateTopicsUpdatingSums k weights sortedTopics sumWeight totalReward
        blockHeight
        = (.ok (act, sumWeight - ((sortedTopics.filter fun t =>
              !(k.nonceReady t && !(weightBelowMinimum weights k.params.MinTopicWeight t))).map
                weights.weightOf).sum), k1)
      ∧ (∀ t, act.get t =
          if t ∈ sortedTopics ∧ staysActive k weights t = true then weights.get t else none)
      ∧ (∀ t w, (skim act N blockHeight).get t = some w → weights.get t = some w
          ∧ isWinner act (skim act N blockHeight) t = true)
      ∧ (GetSortedKeys (skim act N blockHeight) = []
        ∨ sumWeight - ((sortedTopics.filter fun t =>
              !(k.nonceReady t && !(weightBelowMinimum weights k.params.MinTopicWeight t))).map
                weights.weightOf).sum
            - ((sortedTopics.filter (isBottom act (skim act N blockHeight))).map
                weights.weightOf).sum ≠ 0)
      ∧ ∀ t, rewards.get t =
          if isWinner act (skim act N blockHeight) t = true then
            some (Dec.Round (Dec.Round (weights.weightOf t
              / (sumWeight - ((sortedTopics.filter fun t =>
                  !(k.nonceReady t
                    && !(weightBelowMinimum weights k.params.MinTopicWeight t))).map
                    weights.weightOf).sum
                - ((sortedTopics.filter (isBottom act (skim act N blockHeight))).map
                    weights.weightOf).sum)) * totalReward))
          else none := by
  obtain ⟨-, act, s1, k1, rev1, bw, hF, -, hL, hC⟩ :=
    GenerateRewardsDistributionByTopic_some h
  rcases FilterAndInactivateTopicsUpdatingSums_cases k weights sortedTopics sumWeight
      totalReward blockHeight with ⟨e, k1', heq, -⟩ | ⟨act', k1', heq, hget, hnd, -, -⟩
  · rw [heq] at hF; simp at hF
  rw [heq] at hF
  simp only [Prod.mk.injEq, Except.ok.injEq] at hF
  obtain ⟨⟨rfl, rfl⟩, rfl⟩ := hF
  obtain ⟨hbw, -, -⟩ := GenerateRewardsDistributionByTopic.topic_loop_ok weights act'
    (skim act' N blockHeight) blockHeight sortedTopics 0 0 k1' rev1 bw k2 hL
  rw [zero_add] at hbw
  obtain ⟨hnz, hrew⟩ := CalcTopicRewards.calc_loop_ok _ _ _ _ _ _ hC
  subst hbw
  have hwin : ∀ t w, (skim act' N blockHeight).get t = some w → weights.get t = some w
      ∧ isWinner act' (skim act' N blockHeight) t = true := by
    intro t w htop
    have hact := hskim act' hnd t w htop
    have hg := hget t
    rw [hact] at hg
    constructor
    · by_cases hcnd : t ∈ sortedTopics ∧ staysActive k weights t = true
      · rw [if_pos hcnd] at hg; exact hg.symm
      · rw [if_neg hcnd] at hg; cases hg
    · simp [isWinner, hact, htop]
  refine ⟨act', k1', heq, hget, hwin, hnz, ?_⟩
  intro t
  rw [hrew t]
  rcases htop : (skim act' N blockHeight).get t with _ | w
  · have h1 : t ∉ GetSortedKeys (skim act' N blockHeight) := by
      rw [mem_GetSortedKeys, htop]; simp
    simp [h1, isWinner, htop, DecMap.get]
  · have h1 : t ∈ GetSortedKeys (skim act' N blockHeight) := by
      rw [mem_GetSortedKeys, htop]; simp
    obtain ⟨hwt, hw⟩ := hwin t w htop
    have hwo : weights.weightOf t = w := by simp [DecMap.weightOf, hwt]
    simp only [h1, if_true, hw, hwo, Option.map_some']

theorem Keeper.since_self (k : Keeper) : k.since k = [] := by
  simp [Keeper.since]

/-- The writes of `GenerateRewardsDistributionByTopic` after a filter that
returned: inactivations and resets of the topics below the minimum weight, and
resets of the winners. -/
theorem GenerateRewardsDistributionByTopic_writes
    (skim : DecMap → Nat → BlockHeight → DecMap) (k k1 : Keeper) (N : Nat)
    (blockHeight : BlockHeight) (totalReward : Dec) (weights : DecMap)
    (sortedTopics : List TopicId) (sumWeight : Dec) (totalRevenue : Int)
    (act : DecMap) (s1 : Dec)
    (hfilter : FilterAndInactivateTopicsUpdatingSums k weights sortedTopics sumWeight
      totalReward blockHeight = (.ok (act, s1), k1)) :
    WritesOnly
      (fun t => t ∈ sortedTopics
        ∧ (weightBelowMinimum weights k.params.MinTopicWeight t = true
          ∨ isWinner act (skim act N blockHeight) t = true))
      (fun e => ∃ t ∈ sortedTopics,
        (weightBelowMinimum weights k.params.MinTopicWeight t = true
          ∧ e ∈ inactivationEvents blockHeight t)
        ∨ (isWinner act (skim act N blockHeight) t = true
          ∧ e = Event.write (Call.ResetTopicFeeRevenue t blockHeight)))
      k (GenerateRewardsDistributionByTopic skim k N blockHeight totalReward weights
        sortedTopics sumWeight totalRevenue).2
    ∧ ∀ rewards,
        (GenerateRewardsDistributionByTopic skim k N blockHeight totalReward weights
          sortedTopics sumWeight totalRevenue).1 = .ok (some rewards) →
        (GenerateRewardsDistributionByTopic skim k N blockHeight totalReward weights
          sortedTopics sumWeight totalRevenue).2.transcript
          = k.transcript
            ++ (sortedTopics.filter
                (weightBelowMinimum weights k.params.MinTopicWeight)).flatMap
                  (inactivationEvents blockHeight)
            ++ (sortedTopics.filter (isWinner act (skim act N blockHeight))).map
                (fun t => Event.write (Call.ResetTopicFeeRevenue t blockHeight)) := by
  have hF : WritesOnly
      (fun t => t ∈ sortedTopics
        ∧ (weightBelowMinimum weights k.params.MinTopicWeight t = true
          ∨ isWinner act (skim act N blockHeight) t = true))
      (fun e => ∃ t ∈ sortedTopics,
        (weightBelowMinimum weights k.params.MinTopicWeight t = true
          ∧ e ∈ inactivationEvents blockHeight t)
        ∨ (isWinner act (skim act N blockHeight) t = true
          ∧ e = Event.write (Call.ResetTopicFeeRevenue t blockHeight)))
      k (FilterAndInactivateTopicsUpdatingSums k weights sortedTopics sumWeight totalReward
        blockHeight).2 :=
    (FilterAndInactivateTopicsUpdatingSums_writesOnly k weights sortedTopics sumWeight
      totalReward blockHeight).mono (fun t h => ⟨h.1, Or.inl h.2⟩)
      (fun e ⟨t, h1, h2, h3⟩ => ⟨t, h1, Or.inl ⟨h2, h3⟩⟩)
  have htr : k1.transcript = k.transcript
      ++ (sortedTopics.filter (weightBelowMinimum weights k.params.MinTopicWeight)).flatMap
          (inactivationEvents blockHeight) := by
    rcases FilterAndInactivateTopicsUpdatingSums_cases k weights sortedTopics sumWeight
        totalReward blockHeight with ⟨e, k1', heq, -⟩ | ⟨act', k1', heq, -, -, htr, -⟩
    · rw [heq] at hfilter; simp at hfilter
    · rw [heq] at hfilter
      simp only [Prod.mk.injEq] at hfilter
      rw [← hfilter.2]
      exact htr
  rw [hfilter] at hF
  unfold GenerateRewardsDistributionByTopic
  by_cases hs : sumWeight = 0
  · simp only [hs, if_true]
    exact ⟨WritesOnly.writes_refl _ _ k, fun _ hc => by simp at hc⟩
  simp only [hs, if_false, hfilter]
  by_cases hs1 : s1 = 0
  · simp only [hs1, if_true]
    exact ⟨hF, fun _ hc => by simp at hc⟩
  simp only [hs1, if_false]
  have hL : WritesOnly
      (fun t => t ∈ sortedTopics
        ∧ (weightBelowMinimum weights k.params.MinTopicWeight t = true
          ∨ isWinner act (skim act N blockHeight) t = true))
      (fun e => ∃ t ∈ sortedTopics,
        (weightBelowMinimum weights k.params.MinTopicWeight t = true
          ∧ e ∈ inactivationEvents blockHeight t)
        ∨ (isWinner act (skim act N blockHeight) t = true
          ∧ e = Event.write (Call.ResetTopicFeeRevenue t blockHeight)))
      k1 (GenerateRewardsDistributionByTopic.loop weights act (skim act N blockHeight)
        blockHeight sortedTopics 0 0 k1).2 :=
    (GenerateRewardsDistributionByTopic.topic_loop_writesOnly weights act
      (skim act N blockHeight) blockHeight sortedTopics 0 0 k1).mono
      (fun t h => ⟨h.1, Or.inr h.2⟩) (fun e ⟨t, h1, h2, h3⟩ => ⟨t, h1, Or.inr ⟨h2, h3⟩⟩)
  rcases hLe : GenerateRewardsDistributionByTopic.loop weights act (skim act N blockHeight)
      blockHeight sortedTopics 0 0 k1 with ⟨e | ⟨rev1, bw⟩, k3⟩
  · rw [hLe] at hL
    exact ⟨hF.writes_trans hL, fun _ hc => by simp at hc⟩
  rw [hLe] at hL
  obtain ⟨-, htr2, -⟩ := GenerateRewardsDistributionByTopic.topic_loop_ok weights act
    (skim act N blockHeight) blockHeight sortedTopics 0 0 k1 rev1 bw k3 hLe
  simp only [Dec.Sub]
  rcases CalcTopicRewards (skim act N blockHeight) (GetSortedKeys (skim act N blockHeight))
      (s1 - bw) totalReward with e | m
  · exact ⟨hF.writes_trans hL, fun _ hc => by simp at hc⟩
  · refine ⟨hF.writes_trans hL, fun _ _ => ?_⟩
    show k3.transcript = _
    rw [htr2, htr]

/-- C5: after a filter that returned, every `ResetTopicFeeRevenue` that
`GenerateRewardsDistributionByTopic` invokes is at the block height and on a
topic of `sortedTopics` that the filter inactivated (weight below the minimum)
or that is active and won the cut; when the function returns rewards, every
such topic is reset. For an active topic that misses the cut (it is
nonce-ready with a weight not below the minimum), neither
`ResetTopicFeeRevenue` nor `InactivateTopic` is invoked: its fee revenue and
its activity are unchanged. -/
theorem GenerateRewardsDistributionByTopic_fee_revenue_resets
    (skim : DecMap → Nat → BlockHeight → DecMap) (k k1 : Keeper) (N : Nat)
    (blockHeight : BlockHeight) (totalReward : Dec) (weights : DecMap)
    (sortedTopics : List TopicId) (sumWeight : Dec) (totalRevenue : Int)
    (weightsOfActiveTopics : DecMap) (filteredSumWeight : Dec)
    (hfilter : FilterAndInactivateTopicsUpdatingSums k weights sortedTopics sumWeight
      totalReward blockHeight = (.ok (weightsOfActiveTopics, filteredSumWeight), k1)) :
    (∀ t b, Event.write (Call.ResetTopicFeeRevenue t b) ∈ k.since
        (GenerateRewardsDistributionByTopic skim k N blockHeight totalReward weights
          sortedTopics sumWeight totalRevenue).2 →
      b = blockHeight ∧ t ∈ sortedTopics
        ∧ (weights.weightOf t < k.params.MinTopicWeight
          ∨ isWinner weightsOfActiveTopics (skim weightsOfActiveTopics N blockHeight) t = true))
    ∧ (∀ rewards,
        (GenerateRewardsDistributionByTopic skim k N blockHeight totalReward weights
          sortedTopics sumWeight totalRevenue).1 = .ok (some rewards) →
        ∀ t ∈ sortedTopics,
          (weights.weightOf t < k.params.MinTopicWeight
            ∨ isWinner weightsOfActiveTopics (skim weightsOfActiveTopics N blockHeight) t
                = true) →
          Event.write (Call.ResetTopicFeeRevenue t blockHeight) ∈ k.since
            (GenerateRewardsDistributionByTopic skim k N blockHeight totalReward weights
              sortedTopics sumWeight totalRevenue).2)
    ∧ ∀ t, isBottom weightsOfActiveTopics (skim weightsOfActiveTopics N blockHeight) t = true →
        (k.nonceReady t = true ∧ ¬ weights.weightOf t < k.params.MinTopicWeight)
        ∧ Event.write (Call.InactivateTopic t) ∉ k.since
            (GenerateRewardsDistributionByTopic skim k N blockHeight totalReward weights
              sortedTopics sumWeight totalRevenue).2
        ∧ (∀ b, Event.write (Call.ResetTopicFeeRevenue t b) ∉ k.since
            (GenerateRewardsDistributionByTopic skim k N blockHeight totalReward weights
              sortedTopics sumWeight totalRevenue).2)
        ∧ (GenerateRewardsDistributionByTopic skim k N blockHeight totalReward weights
            sortedTopics sumWeight totalRevenue).2.feeRevenue t = k.feeRevenue t
        ∧ (GenerateRewardsDistributionByTopic skim k N blockHeight totalReward weights
            sortedTopics sumWeight totalRevenue).2.active t = k.active t := by
  obtain ⟨⟨-, ⟨evs, htr, hall⟩, hun⟩, hex⟩ := GenerateRewardsDistributionByTopic_writes skim k k1
    N blockHeight totalReward weights sortedTopics sumWeight totalRevenue
    weightsOfActiveTopics filteredSumWeight hfilter
  have hget : ∀ t, weightsOfActiveTopics.get t =
      if t ∈ sortedTopics ∧ staysActive k weights t = true then weights.get t else none := by
    rcases FilterAndInactivateTopicsUpdatingSums_cases k weights sortedTopics sumWeight
        totalReward blockHeight with ⟨e, k1', heq, -⟩ | ⟨act', k1', heq, hget, -, -, -⟩
    · rw [heq] at hfilter; simp at hfilter
    · rw [heq] at hfilter
      simp only [Prod.mk.injEq, Except.ok.injEq] at hfilter
      rw [← hfilter.1.1]
      exact hget
  have hbelow : ∀ t, weightBelowMinimum weights k.params.MinTopicWeight t = true
      ↔ weights.weightOf t < k.params.MinTopicWeight := by
    intro t; simp [weightBelowMinimum]
  rw [Keeper.since_of_append htr]
  refine ⟨?_, ?_, ?_⟩
  · intro t b hmem
    obtain ⟨u, hu, hc⟩ := hall _ hmem
    rcases hc with ⟨hb, he⟩ | ⟨hw, he⟩
    · simp only [inactivationEvents, List.mem_cons, Event.write.injEq, Call.ResetTopicFeeRevenue.injEq,
        List.mem_singleton, reduceCtorEq, false_or, List.not_mem_nil, or_false] at he
      obtain ⟨rfl, rfl⟩ := he
      exact ⟨rfl, hu, Or.inl ((hbelow _).mp hb)⟩
    · simp only [Event.write.injEq, Call.ResetTopicFeeRevenue.injEq] at he
      obtain ⟨rfl, rfl⟩ := he
      exact ⟨rfl, hu, Or.inr hw⟩
  · intro rewards hok t ht hc
    have h2 := hex rewards hok
    rw [htr, List.append_assoc] at h2
    have h3 := List.append_cancel_left h2
    rw [h3]
    rcases hc with hb | hw
    · apply List.mem_append_left
      exact List.mem_flatMap.mpr ⟨t, List.mem_filter.mpr ⟨ht, (hbelow t).mpr hb⟩,
        by simp [inactivationEvents]⟩
    · apply List.mem_append_right
      exact List.mem_map.mpr ⟨t, List.mem_filter.mpr ⟨ht, hw⟩, rfl⟩
  · intro t hbot
    simp only [isBottom, Bool.and_eq_true, Bool.not_eq_true'] at hbot
    have hact := hbot.1
    rw [hget t] at hact
    have hst : t ∈ sortedTopics ∧ staysActive k weights t = true := by
      by_cases hc : t ∈ sortedTopics ∧ staysActive k weights t = true
      · exact hc
      · rw [if_neg hc] at hact; cases hact
    have hst2 := hst.2
    simp only [staysActive, Bool.and_eq_true, Bool.not_eq_true'] at hst2
    have hnb : ¬ weights.weightOf t < k.params.MinTopicWeight := by
      rw [← hbelow t, hst2.2]; simp
    have hnw : ¬ isWinner weightsOfActiveTopics (skim weightsOfActiveTopics N blockHeight) t
        = true := by
      simp [isWinner, hbot.2]
    have hnt : ¬ (t ∈ sortedTopics
        ∧ (weightBelowMinimum weights k.params.MinTopicWeight t = true
          ∨ isWinner weightsOfActiveTopics (skim weightsOfActiveTopics N blockHeight) t
              = true)) := by
      rintro ⟨-, hb | hw⟩
      · exact hnb ((hbelow t).mp hb)
      · exact hnw hw
    refine ⟨⟨hst2.1, hnb⟩, ?_, ?_, (hun t hnt).2, (hun t hnt).1⟩
    · intro hmem
      obtain ⟨u, -, hc⟩ := hall _ hmem
      rcases hc with ⟨hb, he⟩ | ⟨hw, he⟩
      · simp only [inactivationEvents, List.mem_cons, Event.write.injEq,
          Call.InactivateTopic.injEq, List.mem_singleton, reduceCtorEq, or_false,
          List.not_mem_nil] at he
        subst he
        exact hnb ((hbelow _).mp hb)
      · simp at he
    · intro b hmem
      obtain ⟨u, -, hc⟩ := hall _ hmem
      rcases hc with ⟨hb, he⟩ | ⟨hw, he⟩
      · simp only [inactivationEvents, List.mem_cons, Event.write.injEq,
          Call.ResetTopicFeeRevenue.injEq, List.mem_singleton, reduceCtorEq, false_or,
          List.not_mem_nil, or_false] at he
        obtain ⟨rfl, rfl⟩ := he
        exact hnb ((hbelow _).mp hb)
      · simp only [Event.write.injEq, Call.ResetTopicFeeRevenue.injEq] at he
        obtain ⟨rfl, rfl⟩ := he
        exact hnw hw

theorem GenerateRewardsDistributionByTopic_fee_revenue_resets_witness :
    FilterAndInactivateTopicsUpdatingSums exampleKeeper [(1, 3), (2, 1), (3, 2 / 5)] [1, 2, 3]
        (22 / 5) 400 100
      = (.ok ([(3, 2 / 5), (2, 1), (1, 3)], 22 / 5),
          (FilterAndInactivateTopicsUpdatingSums exampleKeeper [(1, 3), (2, 1), (3, 2 / 5)]
            [1, 2, 3] (22 / 5) 400 100).2)
      ∧ isBottom [(3, 2 / 5), (2, 1), (1, 3)]
          (skimTopN [(3, 2 / 5), (2, 1), (1, 3)] 2 100) 3 = true
      ∧ exampleKeeper.feeRevenue 3 = { Epoch := 0, Revenue := 50 }
      ∧ (∀ t b, Event.write (Call.ResetTopicFeeRevenue t b) ∈ exampleKeeper.since
          (GenerateRewardsDistributionByTopic skimTopN exampleKeeper 2 100 400
            [(1, 3), (2, 1), (3, 2 / 5)] [1, 2, 3] (22 / 5) 0).2 →
        b = 100 ∧ t ∈ [1, 2, 3]
          ∧ (DecMap.weightOf [(1, 3), (2, 1), (3, 2 / 5)] t
              < exampleKeeper.params.MinTopicWeight
            ∨ isWinner [(3, 2 / 5), (2, 1), (1, 3)]
                (skimTopN [(3, 2 / 5), (2, 1), (1, 3)] 2 100) t = true))
      ∧ (∀ rewards,
          (GenerateRewardsDistributionByTopic skimTopN exampleKeeper 2 100 400
            [(1, 3), (2, 1), (3, 2 / 5)] [1, 2, 3] (22 / 5) 0).1 = .ok (some rewards) →
          ∀ t ∈ [1, 2, 3],
            (DecMap.weightOf [(1, 3), (2, 1), (3, 2 / 5)] t
                < exampleKeeper.params.MinTopicWeight
              ∨ isWinner [(3, 2 / 5), (2, 1), (1, 3)]
                  (skimTopN [(3, 2 / 5), (2, 1), (1, 3)] 2 100) t = true) →
            Event.write (Call.ResetTopicFeeRevenue t 100) ∈ exampleKeeper.since
              (GenerateRewardsDistributionByTopic skimTopN exampleKeeper 2 100 400
                [(1, 3), (2, 1), (3, 2 / 5)] [1, 2, 3] (22 / 5) 0).2)
      ∧ ∀ t, isBottom [(3, 2 / 5), (2, 1), (1, 3)]
            (skimTopN [(3, 2 / 5), (2, 1), (1, 3)] 2 100) t = true →
          (exampleKeeper.nonceReady t = true
            ∧ ¬ DecMap.weightOf [(1, 3), (2, 1), (3, 2 / 5)] t
                < exampleKeeper.params.MinTopicWeight)
          ∧ Event.write (Call.InactivateTopic t) ∉ exampleKeeper.since
              (GenerateRewardsDistributionByTopic skimTopN exampleKeeper 2 100 400
                [(1, 3), (2, 1), (3, 2 / 5)] [1, 2, 3] (22 / 5) 0).2
          ∧ (∀ b, Event.write (Call.ResetTopicFeeRevenue t b) ∉ exampleKeeper.since
              (GenerateRewardsDistributionByTopic skimTopN exampleKeeper 2 100 400
                [(1, 3), (2, 1), (3, 2 / 5)] [1, 2, 3] (22 / 5) 0).2)
          ∧ (GenerateRewardsDistributionByTopic skimTopN exampleKeeper 2 100 400
              [(1, 3), (2, 1), (3, 2 / 5)] [1, 2, 3] (22 / 5) 0).2.feeRevenue t
              = exampleKeeper.feeRevenue t
          ∧ (GenerateRewardsDistributionByTopic skimTopN exampleKeeper 2 100 400
              [(1, 3), (2, 1), (3, 2 / 5)] [1, 2, 3] (22 / 5) 0).2.active t
              = exampleKeeper.active t :=
  ⟨Prod.ext (by decide!) rfl, by decide!, rfl,
    GenerateRewardsDistributionByTopic_fee_revenue_resets skimTopN exampleKeeper _ 2 100 400
      [(1, 3), (2, 1), (3, 2 / 5)] [1, 2, 3] (22 / 5) 0 [(3, 2 / 5), (2, 1), (1, 3)] (22 / 5)
      (Prod.ext (by decide!) rfl)⟩

/-! ### The driver -/

theorem Appends.appends_refl (allowed : Event → Prop) (k : Keeper) : Appends allowed k k :=
  ⟨[], by simp, by simp⟩

theorem Appends.appends_trans {allowed : Event → Prop} {k k1 k2 : Keeper}
    (h1 : Appends allowed k k1) (h2 : Appends allowed k1 k2) : Appends allowed k k2 := by
  obtain ⟨e1, t1, a1⟩ := h1
  obtain ⟨e2, t2, a2⟩ := h2
  refine ⟨e1 ++ e2, by rw [t2, t1, List.append_assoc], ?_⟩
  intro e he
  rcases List.mem_append.mp he with h | h
  · exact a1 e h
  · exact a2 e h

theorem Appends.appends_mono {allowed allowed1 : Event → Prop} {k k1 : Keeper}
    (h : Appends allowed k k1) (ha : ∀ e, allowed e → allowed1 e) : Appends allowed1 k k1 := by
  obtain ⟨e1, t1, a1⟩ := h
  exact ⟨e1, t1, fun e he => ha e (a1 e he)⟩

theorem Appends.of_mem_since {allowed : Event → Prop} {k k1 : Keeper}
    (h : Appends allowed k k1) {e : Event} (he : e ∈ k.since k1) : allowed e := by
  obtain ⟨e1, t1, a1⟩ := h
  rw [Keeper.since_of_append t1] at he
  exact a1 e he

theorem Appends.mark (allowed : Event → Prop) (k : Keeper) (e : Event) (h : allowed e) :
    Appends allowed k (k.mark e) :=
  ⟨[e], rfl, by simpa using h⟩

theorem Appends.write (allowed : Event → Prop) (k : Keeper) (c : Call)
    (effect : Keeper → Keeper) (heff : ∀ s, (effect s).transcript = s.transcript)
    (h : allowed (Event.write c)) : Appends allowed k (k.write c effect).2 := by
  unfold Keeper.write
  split
  · exact ⟨[Event.write c], rfl, by simpa using h⟩
  · exact ⟨[Event.write c], by rw [heff], by simpa using h⟩

theorem TopicStep.step_refl (t : TopicId) (k : Keeper) : TopicStep t k k :=
  ⟨rfl, fun _ _ => rfl, Appends.appends_refl _ k⟩

theorem TopicStep.step_trans {t : TopicId} {k k1 k2 : Keeper} (h1 : TopicStep t k k1)
    (h2 : TopicStep t k1 k2) : TopicStep t k k2 :=
  ⟨h2.1.trans h1.1, fun u hu => (h2.2.1 u hu).trans (h1.2.1 u hu),
    h1.2.2.appends_trans h2.2.2⟩

theorem TopicStep.of_write (t : TopicId) (k : Keeper) (c : Call) (effect : Keeper → Keeper)
    (heff : ∀ s, (effect s).transcript = s.transcript ∧ (effect s).fails = s.fails
      ∧ ∀ u, u ≠ t → (effect s).rewardNonce u = s.rewardNonce u)
    (h : ∀ u, aboutTopic u (Event.write c) → u = t) : TopicStep t k (k.write c effect).2 := by
  refine ⟨?_, ?_, Appends.write _ k c effect (fun s => (heff s).1) h⟩
  · unfold Keeper.write
    split
    · rfl
    · exact (heff _).2.1
  · intro u hu
    unfold Keeper.write
    split
    · rfl
    · exact (heff _).2.2 u hu

theorem TopicStep.of_mark (t : TopicId) (k : Keeper) (e : Event)
    (h : ∀ u, aboutTopic u e → u = t) : TopicStep t k (k.mark e) :=
  ⟨rfl, fun _ _ => rfl, Appends.mark _ k e h⟩

theorem OnlyScores.scores_refl (k : Keeper) : OnlyScores k k := ⟨k.scores, rfl⟩

theorem OnlyScores.withScores {α : Type} {k0 k : Keeper} (h : OnlyScores k0 k)
    (r : Except Err α × ScoreStore) : OnlyScores k0 (withScores k r).2 := by
  obtain ⟨s, rfl⟩ := h
  exact ⟨r.2, rfl⟩

theorem OnlyScores.andThen {α β : Type} {k0 : Keeper} {r : Except Err α × Keeper}
    {f : α → Keeper → Except Err β × Keeper} (hr : OnlyScores k0 r.2)
    (hf : ∀ a k, OnlyScores k0 k → OnlyScores k0 (f a k).2) :
    OnlyScores k0 (andThen r f).2 := by
  rcases r with ⟨e | a, k⟩
  · exact hr
  · exact hf a k hr

theorem OnlyScores.topicStep {k k1 : Keeper} (h : OnlyScores k k1) (t : TopicId) :
    TopicStep t k k1 := by
  obtain ⟨s, rfl⟩ := h
  exact ⟨rfl, fun _ _ => rfl, ⟨[], by simp, by simp⟩⟩

theorem GenerateRewardsDistributionByTopicParticipant_onlyScores (X : External) (k : Keeper)
    (topicId : TopicId) (topicReward : Option Dec) (blockHeight : BlockHeight)
    (moduleParams : Params) :
    OnlyScores k (GenerateRewardsDistributionByTopicParticipant X k topicId topicReward
      blockHeight moduleParams).2 := by
  unfold GenerateRewardsDistributionByTopicParticipant
  rcases topicReward with _ | topicReward
  · exact OnlyScores.scores_refl k
  · dsimp only
    have h0 := OnlyScores.scores_refl k
    refine OnlyScores.andThen h0 (fun bundles k1 h1 => ?_)
    refine OnlyScores.andThen h1 (fun lossBundles k2 h2 => ?_)
    refine OnlyScores.andThen (h2.withScores _) (fun reputerScores k3 h3 => ?_)
    refine OnlyScores.andThen (h3.withScores _) (fun infererScores k4 h4 => ?_)
    refine OnlyScores.andThen (h4.withScores _) (fun forecasterScores k5 h5 => ?_)
    refine OnlyScores.andThen (h5.withScores _) (fun reputersAndFractions k6 h6 => ?_)
    refine OnlyScores.andThen (h6.withScores _) (fun reputerEntropy k7 h7 => ?_)
    refine OnlyScores.andThen (h7.withScores _) (fun inferersAndFractions k8 h8 => ?_)
    refine OnlyScores.andThen (h8.withScores _) (fun inferenceEntropy k9 h9 => ?_)
    refine OnlyScores.andThen (h9.withScores _) (fun forecastersAndFractions k10 h10 => ?_)
    refine OnlyScores.andThen ?_ (fun forecastingEntropy k11 h11 => ?_)
    · split
      · exact h10.withScores _
      · exact h10
    refine OnlyScores.andThen h11 (fun taskReputerReward k12 h12 => ?_)
    refine OnlyScores.andThen h12 (fun taskInferenceReward k13 h13 => ?_)
    refine OnlyScores.andThen h13 (fun taskForecastingReward k14 h14 => ?_)
    refine OnlyScores.andThen (h14.withScores _) (fun reputerRewards k15 h15 => ?_)
    refine OnlyScores.andThen h15 (fun inferenceRewards k16 h16 => ?_)
    refine OnlyScores.andThen h16 (fun forecastRewards k17 h17 => ?_)
    exact h17

theorem payoutRewards.loop_topicStep (decode : String → Except Err String) (t : TopicId)
    (rewards : List TaskRewards) :
    ∀ (ret : List Err) (k : Keeper), TopicStep t k (payoutRewards.loop decode rewards ret k).2 := by
  induction rewards with
  | nil => intro ret k; exact TopicStep.step_refl t k
  | cons reward rest ih =>
    intro ret k
    unfold payoutRewards.loop
    split
    · exact ih ret k
    · dsimp only
      split
      · have h1 : TopicStep t k (k.SendCoinsFromModuleToModule AlloraRewardsAccountName
            AlloraStakingAccountName (Dec.SdkIntTrim |reward.Reward|)).2 :=
          TopicStep.of_write t k _ _ (fun s => ⟨rfl, rfl, fun _ _ => rfl⟩)
            (fun u hu => by simp [aboutTopic] at hu)
        rcases hs : k.SendCoinsFromModuleToModule AlloraRewardsAccountName
            AlloraStakingAccountName (Dec.SdkIntTrim |reward.Reward|) with ⟨_ | e, k1⟩
        · rw [hs] at h1
          dsimp only
          have h2 : TopicStep t k1 (k1.AddStake reward.TopicId reward.Address
              (Dec.SdkIntTrim |reward.Reward|)).2 :=
            TopicStep.of_write t k1 _ _ (fun s => ⟨rfl, rfl, fun _ _ => rfl⟩)
              (fun u hu => by simp [aboutTopic] at hu)
          rcases ha : k1.AddStake reward.TopicId reward.Address
              (Dec.SdkIntTrim |reward.Reward|) with ⟨_ | e, k2⟩
          · rw [ha] at h2
            exact (h1.step_trans h2).step_trans (ih _ k2)
          · rw [ha] at h2
            exact (h1.step_trans h2).step_trans (ih _ k2)
        · rw [hs] at h1
          exact h1.step_trans (ih _ k1)
      · rcases decode reward.Address with e | accAddress
        · exact ih _ k
        · dsimp only
          have h1 : TopicStep t k (k.SendCoinsFromModuleToAccount AlloraRewardsAccountName
              accAddress (Dec.SdkIntTrim |reward.Reward|)).2 :=
            TopicStep.of_write t k _ _ (fun s => ⟨rfl, rfl, fun _ _ => rfl⟩)
              (fun u hu => by simp [aboutTopic] at hu)
          rcases hs : k.SendCoinsFromModuleToAccount AlloraRewardsAccountName accAddress
              (Dec.SdkIntTrim |reward.Reward|) with ⟨_ | e, k1⟩
          · rw [hs] at h1
            exact h1.step_trans (ih _ k1)
          · rw [hs] at h1
            exact h1.step_trans (ih _ k1)

theorem pruneRecordsAfterRewards_topicStep (k : Keeper) (minEpochLengthRecordLimit : Int)
    (t : TopicId) (topicRewardNonce : BlockHeight) :
    TopicStep t k (pruneRecordsAfterRewards k minEpochLengthRecordLimit t topicRewardNonce).2 := by
  unfold pruneRecordsAfterRewards
  have h1 : TopicStep t k (k.DeleteTopicRewardNonce t).2 :=
    TopicStep.of_write t k _ _
      (fun s => ⟨rfl, rfl, fun u hu => by simp [hu]⟩)
      (fun u hu => by simpa [aboutTopic, eq_comm] using hu)
  rcases hd : k.DeleteTopicRewardNonce t with ⟨_ | e, k1⟩
  · rw [hd] at h1
    dsimp only
    rcases k1.GetUnfulfilledReputerNonces t with e | nonces
    · exact h1
    · dsimp only
      rcases k1.GetTopic t with e | topic
      · exact h1
      · dsimp only
        exact h1.step_trans (TopicStep.of_write t k1 _ _
          (fun s => ⟨rfl, rfl, fun _ _ => rfl⟩)
          (fun u hu => by
            simp only [aboutTopic, reduceCtorEq, Event.write.injEq,
              Call.PruneRecordsAfterRewards.injEq, false_or, exists_and_left,
              exists_eq', and_true] at hu
            exact hu.symm))
  · rw [hd] at h1
    exact h1

/-- One round of the loop of `EmitRewards`: the topic is skipped with the
keeper untouched, or it has a reward and a ready nonce and the driver works on
it; the loop then goes on with the rest of the topics. -/
theorem EmitRewards.loop_cons_step (X : External) (moduleParams : Params)
    (topicRewards : DecMap) (t : TopicId) (rest : List TopicId) (total : Dec) (k : Keeper) :
    ∃ total1 k1,
      EmitRewards.loop X moduleParams topicRewards (t :: rest) total k
        = EmitRewards.loop X moduleParams topicRewards rest total1 k1
      ∧ ((total1 = total ∧ k1 = k)
        ∨ ((topicRewards.get t).isSome = true ∧ k.nonceReady t = true ∧ TopicStep t k k1)) := by
  simp only [EmitRewards.loop]
  rcases hr : topicRewards.get t with _ | topicReward
  · exact ⟨total, k, rfl, Or.inl ⟨rfl, rfl⟩⟩
  · dsimp only
    by_cases hn : (k.GetTopicRewardNonce t).2.isSome = true ∨ (k.GetTopicRewardNonce t).1 = 0
    · rw [if_pos hn]
      exact ⟨total, k, rfl, Or.inl ⟨rfl, rfl⟩⟩
    · rw [if_neg hn]
      have hready : k.nonceReady t = true := by
        rw [Keeper.nonceReady_eq_false_iff] at hn
        simpa using hn
      have hp := (GenerateRewardsDistributionByTopicParticipant_onlyScores X k t
        (some topicReward) (k.GetTopicRewardNonce t).1 moduleParams).topicStep t
      rcases hpe : GenerateRewardsDistributionByTopicParticipant X k t (some topicReward)
          (k.GetTopicRewardNonce t).1 moduleParams with ⟨e | ⟨dist, rr⟩, k1⟩
      · rw [hpe] at hp
        exact ⟨total, k1, rfl, Or.inr ⟨rfl, hready, hp⟩⟩
      · rw [hpe] at hp
        simp only [Dec.Add]
        have hm : TopicStep t k1 (k1.mark (Event.payoutRewards t)) :=
          TopicStep.of_mark t k1 _ (fun u hu => by simpa [aboutTopic, eq_comm] using hu)
        have hpay := payoutRewards.loop_topicStep X.AccAddressFromBech32 t dist []
          (k1.mark (Event.payoutRewards t))
        rcases hpye : payoutRewards X.AccAddressFromBech32 (k1.mark (Event.payoutRewards t))
            dist with ⟨payoutErrors, k2⟩
        have hpay2 : TopicStep t (k1.mark (Event.payoutRewards t)) k2 := by
          unfold payoutRewards at hpye
          rw [hpye] at hpay
          exact hpay
        have h2 : TopicStep t k k2 := (hp.step_trans hm).step_trans hpay2
        dsimp only
        by_cases hlen : payoutErrors.length > 0
        · rw [if_pos hlen]
          exact ⟨_, k2, rfl, Or.inr ⟨rfl, hready, h2⟩⟩
        · rw [if_neg hlen]
          have hm2 : TopicStep t k2 (k2.mark (Event.pruneRecordsAfterRewards t)) :=
            TopicStep.of_mark t k2 _ (fun u hu => by simpa [aboutTopic, eq_comm] using hu)
          have hpr := pruneRecordsAfterRewards_topicStep
            (k2.mark (Event.pruneRecordsAfterRewards t)) moduleParams.MinEpochLengthRecordLimit
            t (k.GetTopicRewardNonce t).1
          rcases hpre : pruneRecordsAfterRewards (k2.mark (Event.pruneRecordsAfterRewards t))
              moduleParams.MinEpochLengthRecordLimit t (k.GetTopicRewardNonce t).1
            with ⟨_ | e, k3⟩
          · rw [hpre] at hpr
            exact ⟨_, k3, rfl, Or.inr ⟨rfl, hready, (h2.step_trans hm2).step_trans hpr⟩⟩
          · rw [hpre] at hpr
            exact ⟨_, k3, rfl, Or.inr ⟨rfl, hready, (h2.step_trans hm2).step_trans hpr⟩⟩

/-- Every driver step on a topic `T` that the loop of `EmitRewards` appends to
the transcript is on a topic of the list that has a reward and whose nonce is
ready. -/
theorem EmitRewards.loop_steps (X : External) (moduleParams : Params) (topicRewards : DecMap)
    (T : TopicId) (ts : List TopicId) :
    ∀ (total : Dec) (k : Keeper),
      (EmitRewards.loop X moduleParams topicRewards ts total k).2.fails = k.fails
      ∧ Appends (fun e => aboutTopic T e →
          T ∈ ts ∧ (topicRewards.get T).isSome = true ∧ k.nonceReady T = true)
        k (EmitRewards.loop X moduleParams topicRewards ts total k).2 := by
  induction ts with
  | nil =>
    intro total k
    exact ⟨rfl, Appends.appends_refl _ k⟩
  | cons t rest ih =>
    intro total k
    obtain ⟨total1, k1, heq, hc⟩ := EmitRewards.loop_cons_step X moduleParams topicRewards t
      rest total k
    rw [heq]
    obtain ⟨hf, ha⟩ := ih total1 k1
    rcases hc with ⟨-, rfl⟩ | ⟨hentry, hready, hstep⟩
    · exact ⟨hf, ha.appends_mono (fun e he hab =>
        ⟨List.mem_cons_of_mem _ (he hab).1, (he hab).2⟩)⟩
    · refine ⟨hf.trans hstep.1, ?_⟩
      have h1 : Appends (fun e => aboutTopic T e →
          T ∈ t :: rest ∧ (topicRewards.get T).isSome = true ∧ k.nonceReady T = true) k k1 :=
        hstep.2.2.appends_mono (fun e he hab => by
          have := he T hab
          subst this
          exact ⟨List.mem_cons_self _ _, hentry, hready⟩)
      refine h1.appends_trans (ha.appends_mono (fun e he hab => ?_))
      obtain ⟨h2, h3, h4⟩ := he hab
      refine ⟨List.mem_cons_of_mem _ h2, h3, ?_⟩
      by_cases hT : T = t
      · subst hT; exact hready
      · rw [← h4]
        simp [Keeper.nonceReady, hstep.1, hstep.2.1 T hT]

theorem EmitRewards.monthly_appends (k : Keeper) (moduleParams : Params)
    (blockHeight : BlockHeight) (totalReward total : Dec) :
    Appends (fun e => ∃ d, e = Event.write (Call.SetPreviousPercentageRewardToStakedReputers d))
      k (EmitRewards.monthly k moduleParams blockHeight totalReward total).2 := by
  unfold EmitRewards.monthly
  split
  · exact Appends.appends_refl _ k
  · split
    · exact Appends.appends_refl _ k
    · split
      · rcases Dec.Quo total totalReward with e | d
        · exact Appends.appends_refl _ k
        · dsimp only
          have h := Appends.write
            (fun e => ∃ d, e = Event.write (Call.SetPreviousPercentageRewardToStakedReputers d))
            k (Call.SetPreviousPercentageRewardToStakedReputers d)
            (fun s => { s with previousPercentageRewardToStakedReputers := d })
            (fun _ => rfl) ⟨d, rfl⟩
          rcases hs : k.SetPreviousPercentageRewardToStakedReputers d with ⟨_ | e, k1⟩
          · have h2 : (k.write (Call.SetPreviousPercentageRewardToStakedReputers d)
                (fun s => { s with previousPercentageRewardToStakedReputers := d })) = (none, k1) :=
              hs
            rw [h2] at h
            exact h
          · have h2 : (k.write (Call.SetPreviousPercentageRewardToStakedReputers d)
                (fun s => { s with previousPercentageRewardToStakedReputers := d }))
                = (some e, k1) := hs
            rw [h2] at h
            exact h
      · exact Appends.appends_refl _ k

theorem WritesOnly.appends {touched : TopicId → Prop} {allowed : Event → Prop} {k k1 : Keeper}
    (h : WritesOnly touched allowed k k1) : Appends allowed k k1 := h.2.1

theorem not_aboutTopic_of_selection {T : TopicId} {e : Event} {blockHeight : BlockHeight}
    {sortedTopics : List TopicId}
    (h : ∃ t ∈ sortedTopics, e ∈ inactivationEvents blockHeight t) : ¬ aboutTopic T e := by
  obtain ⟨t, -, he⟩ := h
  simp only [inactivationEvents, List.mem_cons, List.mem_singleton, List.not_mem_nil,
    or_false] at he
  rcases he with rfl | rfl <;> simp [aboutTopic]

/-- The driver steps of `EmitRewards` on a topic: each is on a topic that has
an entry in the reward map returned by `GenerateRewardsDistributionByTopic`
and whose reward nonce is ready. -/
theorem EmitRewards_steps (X : External) (k : Keeper) (blockHeight : BlockHeight)
    (weights : DecMap) (sumWeight : Dec) (totalRevenue : Int) (T : TopicId) (e : Event)
    (habout : aboutTopic T e)
    (hmem : e ∈ k.since (EmitRewards X k blockHeight weights sumWeight totalRevenue).2) :
    ∃ totalReward moduleParams topicRewards k1,
      k.GetTotalRewardToDistribute = .ok totalReward
      ∧ k.GetParams = .ok moduleParams
      ∧ GenerateRewardsDistributionByTopic X.SkimTopTopicsByWeightDesc k
          moduleParams.MaxTopicsPerBlock blockHeight totalReward weights
          (GetSortedKeys weights) sumWeight totalRevenue = (.ok (some topicRewards), k1)
      ∧ (topicRewards.get T).isSome = true
      ∧ k.nonceReady T = true := by
  unfold EmitRewards at hmem
  rcases hT : k.GetTotalRewardToDistribute with e1 | totalReward
  · rw [hT] at hmem; simp [Keeper.since_self] at hmem
  rw [hT] at hmem
  dsimp only at hmem
  by_cases hz : totalReward = 0
  · rw [if_pos hz] at hmem; simp [Keeper.since_self] at hmem
  rw [if_neg hz] at hmem
  rcases hP : k.GetParams with e1 | moduleParams
  · rw [hP] at hmem; simp [Keeper.since_self] at hmem
  rw [hP] at hmem
  dsimp only at hmem
  have hG := GenerateRewardsDistributionByTopic_writesOnly X.SkimTopTopicsByWeightDesc k
    moduleParams.MaxTopicsPerBlock blockHeight totalReward weights (GetSortedKeys weights)
    sumWeight totalRevenue
  rcases hGe : GenerateRewardsDistributionByTopic X.SkimTopTopicsByWeightDesc k
      moduleParams.MaxTopicsPerBlock blockHeight totalReward weights (GetSortedKeys weights)
      sumWeight totalRevenue with ⟨e1 | (_ | topicRewards), k1⟩
  · rw [hGe] at hmem hG
    exact absurd habout (not_aboutTopic_of_selection (hG.appends.of_mem_since hmem))
  · rw [hGe] at hmem hG
    exact absurd habout (not_aboutTopic_of_selection (hG.appends.of_mem_since hmem))
  rw [hGe] at hmem hG
  dsimp only at hmem
  refine ⟨totalReward, moduleParams, topicRewards, k1, rfl, rfl, hGe, ?_⟩
  have hL := (EmitRewards.loop_steps X moduleParams topicRewards T (GetSortedKeys weights) 0
    k1).2
  have hready : k1.nonceReady T = k.nonceReady T :=
    Keeper.nonceReady_congr hG.1.fails hG.1.rewardNonce T
  have hA : Appends (fun e => aboutTopic T e →
      (topicRewards.get T).isSome = true ∧ k.nonceReady T = true) k
      (match EmitRewards.loop X moduleParams topicRewards (GetSortedKeys weights) 0 k1 with
        | (Except.error e, k2) => ((Except.error e : Except Err Unit), k2)
        | (Except.ok totalRewardToStakedReputers, k2) =>
          EmitRewards.monthly k2 moduleParams blockHeight totalReward
            totalRewardToStakedReputers).2 := by
    have h1 : Appends (fun e => aboutTopic T e →
        (topicRewards.get T).isSome = true ∧ k.nonceReady T = true) k k1 :=
      hG.appends.appends_mono (fun e he hab => absurd hab (not_aboutTopic_of_selection he))
    have h2 : Appends (fun e => aboutTopic T e →
        (topicRewards.get T).isSome = true ∧ k.nonceReady T = true) k1
        (EmitRewards.loop X moduleParams topicRewards (GetSortedKeys weights) 0 k1).2 :=
      hL.appends_mono (fun e he hab => ⟨(he hab).2.1, hready ▸ (he hab).2.2⟩)
    rcases hLe : EmitRewards.loop X moduleParams topicRewards (GetSortedKeys weights) 0 k1
      with ⟨e1 | tot, k2⟩
    · rw [hLe] at h2
      exact h1.appends_trans h2
    · rw [hLe] at h2
      dsimp only
      refine (h1.appends_trans h2).appends_trans
        ((EmitRewards.monthly_appends k2 moduleParams blockHeight totalReward tot).appends_mono
          (fun e he hab => ?_))
      obtain ⟨d, rfl⟩ := he
      simp [aboutTopic] at hab
  exact hA.of_mem_since hmem habout

/-- C10: every step that `EmitRewards` takes on a topic `T` after the
selection (the run of `payoutRewards` on it, marked in the transcript, the run
of the pruning, the deletion of its reward nonce, the pruning of its records)
happens only if `T` has an entry in the reward map returned by
`GenerateRewardsDistributionByTopic`, so that `T` is active after the filter
and was returned by the skimmer, and the reward nonce of `T` is read without
error and is not zero. In the loop of the driver, a topic without an entry or
whose nonce is 0 or unreadable at its turn is skipped: the loop goes on from
the same keeper and the same running total, so nothing is transferred, staked,
deleted or pruned for it. -/
theorem EmitRewards_payout_only_ready_winners (X : External) (k : Keeper)
    (blockHeight : BlockHeight) (weights : DecMap) (sumWeight : Dec) (totalRevenue : Int)
    (T : TopicId) (e : Event)
    (hskim : ∀ (N : Nat) (m : DecMap), (m.map Prod.fst).Nodup →
      ∀ t w, (X.SkimTopTopicsByWeightDesc m N blockHeight).get t = some w → m.get t = some w)
    (habout : e = Event.payoutRewards T ∨ e = Event.pruneRecordsAfterRewards T
      ∨ e = Event.write (Call.DeleteTopicRewardNonce T)
      ∨ ∃ b, e = Event.write (Call.PruneRecordsAfterRewards T b))
    (hmem : e ∈ k.since (EmitRewards X k blockHeight weights sumWeight totalRevenue).2) :
    (∃ totalReward moduleParams topicRewards k1 weightsOfActiveTopics filteredSumWeight kf,
      k.GetTotalRewardToDistribute = .ok totalReward
      ∧ k.GetParams = .ok moduleParams
      ∧ GenerateRewardsDistributionByTopic X.SkimTopTopicsByWeightDesc k
          moduleParams.MaxTopicsPerBlock blockHeight totalReward weights
          (GetSortedKeys weights) sumWeight totalRevenue = (.ok (some topicRewards), k1)
      ∧ FilterAndInactivateTopicsUpdatingSums k weights (GetSortedKeys weights) sumWeight
          totalReward blockHeight = (.ok (weightsOfActiveTopics, filteredSumWeight), kf)
      ∧ (topicRewards.get T).isSome = true
      ∧ isWinner weightsOfActiveTopics (X.SkimTopTopicsByWeightDesc weightsOfActiveTopics
          moduleParams.MaxTopicsPerBlock blockHeight) T = true
      ∧ k.fails (Call.GetTopicRewardNonce T) = false
      ∧ k.rewardNonce T ≠ 0)
    ∧ ∀ (moduleParams : Params) (topicRewards : DecMap) (rest : List TopicId) (total : Dec)
        (k1 : Keeper),
        (topicRewards.get T = none ∨ k1.fails (Call.GetTopicRewardNonce T) = true
          ∨ k1.rewardNonce T = 0) →
        EmitRewards.loop X moduleParams topicRewards (T :: rest) total k1
          = EmitRewards.loop X moduleParams topicRewards rest total k1 := by
  constructor
  · obtain ⟨totalReward, moduleParams, topicRewards, k1, hT, hP, hG, hentry, hready⟩ :=
      EmitRewards_steps X k blockHeight weights sumWeight totalRevenue T e habout hmem
    obtain ⟨act, kf, hF, -, -, -, hrew⟩ :=
      GenerateRewardsDistributionByTopic_some_spec (hskim moduleParams.MaxTopicsPerBlock) hG
    refine ⟨totalReward, moduleParams, topicRewards, k1, act, _, kf, hT, hP, hG, hF, hentry,
      ?_, ?_, ?_⟩
    · rw [hrew T] at hentry
      by_cases hw : isWinner act (X.SkimTopTopicsByWeightDesc act
          moduleParams.MaxTopicsPerBlock blockHeight) T = true
      · exact hw
      · rw [if_neg hw] at hentry; cases hentry
    · simp only [Keeper.nonceReady, Bool.and_eq_true, Bool.not_eq_true',
        decide_eq_true_eq] at hready
      exact hready.1
    · simp only [Keeper.nonceReady, Bool.and_eq_true, Bool.not_eq_true',
        decide_eq_true_eq] at hready
      exact hready.2
  · intro moduleParams topicRewards rest total k1 h
    simp only [EmitRewards.loop]
    rcases hr : topicRewards.get T with _ | topicReward
    · rfl
    · have hn : (k1.GetTopicRewardNonce T).2.isSome = true ∨ (k1.GetTopicRewardNonce T).1 = 0 := by
        rw [Keeper.nonceReady_eq_false_iff]
        rcases h with h | h | h
        · rw [hr] at h; cases h
        · simp [Keeper.nonceReady, h]
        · simp [Keeper.nonceReady, h]
      dsimp only
      rw [if_pos hn]

theorem EmitRewards_payout_only_ready_winners_witness :
    (∀ (N : Nat) (m : DecMap), (m.map Prod.fst).Nodup →
        ∀ t w, (exampleExternal.SkimTopTopicsByWeightDesc m N 5).get t = some w →
          m.get t = some w)
      ∧ (Event.payoutRewards 1 = Event.payoutRewards 1
          ∨ Event.payoutRewards 1 = Event.pruneRecordsAfterRewards 1
          ∨ Event.payoutRewards 1 = Event.write (Call.DeleteTopicRewardNonce 1)
          ∨ ∃ b, Event.payoutRewards 1 = Event.write (Call.PruneRecordsAfterRewards 1 b))
      ∧ Event.payoutRewards 1 ∈ exampleKeeper.since
          (EmitRewards exampleExternal exampleKeeper 5 [(1, 3), (2, 1)] 4 0).2
      ∧ (∃ totalReward moduleParams topicRewards k1 weightsOfActiveTopics filteredSumWeight kf,
          exampleKeeper.GetTotalRewardToDistribute = .ok totalReward
          ∧ exampleKeeper.GetParams = .ok moduleParams
          ∧ GenerateRewardsDistributionByTopic exampleExternal.SkimTopTopicsByWeightDesc
              exampleKeeper moduleParams.MaxTopicsPerBlock 5 totalReward [(1, 3), (2, 1)]
              (GetSortedKeys [(1, 3), (2, 1)]) 4 0 = (.ok (some topicRewards), k1)
          ∧ FilterAndInactivateTopicsUpdatingSums exampleKeeper [(1, 3), (2, 1)]
              (GetSortedKeys [(1, 3), (2, 1)]) 4 totalReward 5
              = (.ok (weightsOfActiveTopics, filteredSumWeight), kf)
          ∧ (topicRewards.get 1).isSome = true
          ∧ isWinner weightsOfActiveTopics (exampleExternal.SkimTopTopicsByWeightDesc
              weightsOfActiveTopics moduleParams.MaxTopicsPerBlock 5) 1 = true
          ∧ exampleKeeper.fails (Call.GetTopicRewardNonce 1) = false
          ∧ exampleKeeper.rewardNonce 1 ≠ 0)
      ∧ ∀ (moduleParams : Params) (topicRewards : DecMap) (rest : List TopicId) (total : Dec)
          (k1 : Keeper),
          (topicRewards.get 1 = none ∨ k1.fails (Call.GetTopicRewardNonce 1) = true
            ∨ k1.rewardNonce 1 = 0) →
          EmitRewards.loop exampleExternal moduleParams topicRewards (1 :: rest) total k1
            = EmitRewards.loop exampleExternal moduleParams topicRewards rest total k1 :=
  ⟨fun N m => skimTopN_subMap N 5 m, Or.inl rfl, by decide!,
    EmitRewards_payout_only_ready_winners exampleExternal exampleKeeper 5 [(1, 3), (2, 1)] 4 0 1
      (Event.payoutRewards 1) (fun N m => skimTopN_subMap N 5 m) (Or.inl rfl) (by decide!)⟩

/-- C6 (the code at the failing input): topic 1 wins the cut but the rewards of
its participants cannot be generated (its reputer loss bundles are missing);
`EmitRewards` returns nil, the fee revenue of topic 1 has been reset from 50 to
0, and topic 1 was neither inactivated nor paid out: `payoutRewards` was not
run for it, while it was run for topic 2. -/
theorem EmitRewards_reset_without_payout :
    (EmitRewards exampleExternal missingBundlesKeeper 5 [(1, 3), (2, 1)] 4 0).1 = .ok ()
      ∧ missingBundlesKeeper.feeRevenue 1 = { Epoch := 0, Revenue := 50 }
      ∧ (EmitRewards exampleExternal missingBundlesKeeper 5 [(1, 3), (2, 1)] 4 0).2.feeRevenue 1
          = { Epoch := 5, Revenue := 0 }
      ∧ Event.write (Call.ResetTopicFeeRevenue 1 5) ∈ missingBundlesKeeper.since
          (EmitRewards exampleExternal missingBundlesKeeper 5 [(1, 3), (2, 1)] 4 0).2
      ∧ Event.write (Call.InactivateTopic 1) ∉ missingBundlesKeeper.since
          (EmitRewards exampleExternal missingBundlesKeeper 5 [(1, 3), (2, 1)] 4 0).2
      ∧ (EmitRewards exampleExternal missingBundlesKeeper 5 [(1, 3), (2, 1)] 4 0).2.active 1
          = true
      ∧ Event.payoutRewards 1 ∉ missingBundlesKeeper.since
          (EmitRewards exampleExternal missingBundlesKeeper 5 [(1, 3), (2, 1)] 4 0).2
      ∧ Event.payoutRewards 2 ∈ missingBundlesKeeper.since
          (EmitRewards exampleExternal missingBundlesKeeper 5 [(1, 3), (2, 1)] 4 0).2 := by
  decide!

/-! ### Payout -/

theorem Keeper.write_ok (k : Keeper) (c : Call) (effect : Keeper → Keeper)
    (h : k.fails c = false) :
    k.write c effect
      = (none, effect { k with transcript := k.transcript ++ [Event.write c] }) := by
  simp [Keeper.write, h]

theorem Keeper.write_fail (k : Keeper) (c : Call) (effect : Keeper → Keeper)
    (h : k.fails c = true) :
    k.write c effect
      = (some (Err.keeper c), { k with transcript := k.transcript ++ [Event.write c] }) := by
  simp [Keeper.write, h]

theorem payoutRewards.loop_cons_zero (decode : String → Except Err String)
    (reward : TaskRewards) (rest : List TaskRewards) (ret : List Err) (k : Keeper)
    (hz : reward.Reward = 0) :
    payoutRewards.loop decode (reward :: rest) ret k = payoutRewards.loop decode rest ret k := by
  simp [payoutRewards.loop, hz]

theorem payoutRewards.loop_cons_transfer_fail (decode : String → Except Err String)
    (reward : TaskRewards) (rest : List TaskRewards) (ret : List Err) (k : Keeper)
    (hz : reward.Reward ≠ 0) (hty : reward.RewardType = TaskRewardType.ReputerRewardType)
    (hf : k.fails (Call.SendCoinsFromModuleToModule AlloraRewardsAccountName
      AlloraStakingAccountName (rewardInt reward)) = true) :
    payoutRewards.loop decode (reward :: rest) ret k
      = payoutRewards.loop decode rest
          (ret ++ [Err.keeper (Call.SendCoinsFromModuleToModule AlloraRewardsAccountName
            AlloraStakingAccountName (rewardInt reward))])
          { k with transcript := k.transcript
              ++ [Event.write (Call.SendCoinsFromModuleToModule AlloraRewardsAccountName
                AlloraStakingAccountName (rewardInt reward))] } := by
  simp only [rewardInt] at *
  simp only [payoutRewards.loop, hz, if_false, hty, if_true,
    Keeper.SendCoinsFromModuleToModule]
  rw [Keeper.write_fail k _ _ hf]

theorem payoutRewards.loop_cons_stake_fail (decode : String → Except Err String)
    (reward : TaskRewards) (rest : List TaskRewards) (ret : List Err) (k : Keeper)
    (hz : reward.Reward ≠ 0) (hty : reward.RewardType = TaskRewardType.ReputerRewardType)
    (hf : k.fails (Call.SendCoinsFromModuleToModule AlloraRewardsAccountName
      AlloraStakingAccountName (rewardInt reward)) = false)
    (hs : k.fails (Call.AddStake reward.TopicId reward.Address (rewardInt reward)) = true) :
    payoutRewards.loop decode (reward :: rest) ret k
      = payoutRewards.loop decode rest
          (ret ++ [Err.keeper (Call.AddStake reward.TopicId reward.Address (rewardInt reward))])
          { k with
            balance := fun a =>
              (if a = Account.module AlloraStakingAccountName then rewardInt reward else 0)
                + ((if a = Account.module AlloraRewardsAccountName then -rewardInt reward else 0)
                  + k.balance a)
            transcript := k.transcript
              ++ [Event.write (Call.SendCoinsFromModuleToModule AlloraRewardsAccountName
                AlloraStakingAccountName (rewardInt reward))]
              ++ [Event.write (Call.AddStake reward.TopicId reward.Address
                (rewardInt reward))] } := by
  simp only [rewardInt] at *
  simp only [payoutRewards.loop, hz, if_false, hty, if_true,
    Keeper.SendCoinsFromModuleToModule, Keeper.AddStake]
  rw [Keeper.write_ok k _ _ hf]
  simp [Keeper.write, hs]

theorem payoutRewards.loop_cons_reputer_ok (decode : String → Except Err String)
    (reward : TaskRewards) (rest : List TaskRewards) (ret : List Err) (k : Keeper)
    (hz : reward.Reward ≠ 0) (hty : reward.RewardType = TaskRewardType.ReputerRewardType)
    (hf : k.fails (Call.SendCoinsFromModuleToModule AlloraRewardsAccountName
      AlloraStakingAccountName (rewardInt reward)) = false)
    (hs : k.fails (Call.AddStake reward.TopicId reward.Address (rewardInt reward)) = false) :
    payoutRewards.loop decode (reward :: rest) ret k
      = payoutRewards.loop decode rest ret
          { k with
            balance := fun a =>
              (if a = Account.module AlloraStakingAccountName then rewardInt reward else 0)
                + ((if a = Account.module AlloraRewardsAccountName then -rewardInt reward else 0)
                  + k.balance a)
            stake := fun t r =>
              if t = reward.TopicId ∧ r = reward.Address then k.stake t r + rewardInt reward
              else k.stake t r
            transcript := k.transcript
              ++ [Event.write (Call.SendCoinsFromModuleToModule AlloraRewardsAccountName
                AlloraStakingAccountName (rewardInt reward))]
              ++ [Event.write (Call.AddStake reward.TopicId reward.Address
                (rewardInt reward))] } := by
  simp only [rewardInt] at *
  simp only [payoutRewards.loop, hz, if_false, hty, if_true,
    Keeper.SendCoinsFromModuleToModule, Keeper.AddStake]
  rw [Keeper.write_ok k _ _ hf]
  simp [Keeper.write, hs]

theorem payoutRewards.loop_cons_decode_fail (decode : String → Except Err String)
    (reward : TaskRewards) (rest : List TaskRewards) (ret : List Err) (k : Keeper) (e : Err)
    (hz : reward.Reward ≠ 0) (hty : reward.RewardType ≠ TaskRewardType.ReputerRewardType)
    (hd : decode reward.Address = .error e) :
    payoutRewards.loop decode (reward :: rest) ret k
      = payoutRewards.loop decode rest (ret ++ [e]) k := by
  simp only [payoutRewards.loop, hz, if_false, hty, hd]

theorem payoutRewards.loop_cons_send_fail (decode : String → Except Err String)
    (reward : TaskRewards) (rest : List TaskRewards) (ret : List Err) (k : Keeper)
    (accAddress : String)
    (hz : reward.Reward ≠ 0) (hty : reward.RewardType ≠ TaskRewardType.ReputerRewardType)
    (hd : decode reward.Address = .ok accAddress)
    (hf : k.fails (Call.SendCoinsFromModuleToAccount AlloraRewardsAccountName accAddress
      (rewardInt reward)) = true) :
    payoutRewards.loop decode (reward :: rest) ret k
      = payoutRewards.loop decode rest
          (ret ++ [Err.keeper (Call.SendCoinsFromModuleToAccount AlloraRewardsAccountName
            accAddress (rewardInt reward))])
          { k with transcript := k.transcript
              ++ [Event.write (Call.SendCoinsFromModuleToAccount AlloraRewardsAccountName
                accAddress (rewardInt reward))] } := by
  simp only [rewardInt] at *
  simp only [payoutRewards.loop, hz, if_false, hty, hd, Keeper.SendCoinsFromModuleToAccount]
  rw [Keeper.write_fail k _ _ hf]

theorem payoutRewards.loop_cons_send_ok (decode : String → Except Err String)
    (reward : TaskRewards) (rest : List TaskRewards) (ret : List Err) (k : Keeper)
    (accAddress : String)
    (hz : reward.Reward ≠ 0) (hty : reward.RewardType ≠ TaskRewardType.ReputerRewardType)
    (hd : decode reward.Address = .ok accAddress)
    (hf : k.fails (Call.SendCoinsFromModuleToAccount AlloraRewardsAccountName accAddress
      (rewardInt reward)) = false) :
    payoutRewards.loop decode (reward :: rest) ret k
      = payoutRewards.loop decode rest ret
          { k with
            balance := fun a =>
              (if a = Account.address accAddress then rewardInt reward else 0)
                + ((if a = Account.module AlloraRewardsAccountName then -rewardInt reward else 0)
                  + k.balance a)
            transcript := k.transcript
              ++ [Event.write (Call.SendCoinsFromModuleToAccount AlloraRewardsAccountName
                accAddress (rewardInt reward))] } := by
  simp only [rewardInt] at *
  simp only [payoutRewards.loop, hz, if_false, hty, hd, Keeper.SendCoinsFromModuleToAccount]
  rw [Keeper.write_ok k _ _ hf]

theorem rewards_account_ne_staking :
    Account.module AlloraRewardsAccountName ≠ Account.module AlloraStakingAccountName := by
  decide

theorem rewards_name_ne_staking : AlloraRewardsAccountName ≠ AlloraStakingAccountName := by
  decide

theorem rewards_account_ne_address (a : String) :
    Account.module AlloraRewardsAccountName ≠ Account.address a := by
  intro h; cases h

/-- The errors that the loop of `payoutRewards` returns, the writes it invokes
and what it takes out of the rewards account, entry by entry. -/
theorem payoutRewards.loop_spec (decode : String → Except Err String)
    (rewards : List TaskRewards) :
    ∀ (ret : List Err) (k : Keeper),
      (payoutRewards.loop decode rewards ret k).1
        = ret ++ rewards.filterMap (entryError decode k.fails)
      ∧ (payoutRewards.loop decode rewards ret k).2.transcript
        = k.transcript ++ rewards.flatMap (entryEvents decode k.fails)
      ∧ (payoutRewards.loop decode rewards ret k).2.fails = k.fails
      ∧ (payoutRewards.loop decode rewards ret k).2.balance
          (Account.module AlloraRewardsAccountName)
        = k.balance (Account.module AlloraRewardsAccountName)
          - (rewards.map (entryPaid decode k.fails)).sum := by
  induction rewards with
  | nil => intro ret k; simp [payoutRewards.loop]
  | cons reward rest ih =>
    intro ret k
    by_cases hz : reward.Reward = 0
    · rw [payoutRewards.loop_cons_zero decode reward rest ret k hz]
      obtain ⟨h1, h2, h3, h4⟩ := ih ret k
      refine ⟨?_, ?_, h3, ?_⟩
      · rw [h1]; simp [List.filterMap_cons, entryError, hz]
      · rw [h2]; simp [List.flatMap_cons, entryEvents, hz]
      · rw [h4]; simp [entryPaid, entryTransfer, hz]
    · by_cases hty : reward.RewardType = TaskRewardType.ReputerRewardType
      · rcases hf : k.fails (Call.SendCoinsFromModuleToModule AlloraRewardsAccountName
            AlloraStakingAccountName (rewardInt reward)) with _ | _
        · rcases hs : k.fails (Call.AddStake reward.TopicId reward.Address (rewardInt reward))
            with _ | _
          · rw [payoutRewards.loop_cons_reputer_ok decode reward rest ret k hz hty hf hs]
            obtain ⟨h1, h2, h3, h4⟩ := ih ret _
            refine ⟨?_, ?_, h3, ?_⟩
            · rw [h1]; simp [List.filterMap_cons, entryError, hz, hty, hf, hs]
            · rw [h2]; simp [List.flatMap_cons, entryEvents, hz, hty, hf]
            · rw [h4]
              simp [entryPaid, entryTransfer, hz, hty, hf, rewards_name_ne_staking]
              ring
          · rw [payoutRewards.loop_cons_stake_fail decode reward rest ret k hz hty hf hs]
            obtain ⟨h1, h2, h3, h4⟩ := ih _ _
            refine ⟨?_, ?_, h3, ?_⟩
            · rw [h1]; simp [List.filterMap_cons, entryError, hz, hty, hf, hs]
            · rw [h2]; simp [List.flatMap_cons, entryEvents, hz, hty, hf]
            · rw [h4]
              simp [entryPaid, entryTransfer, hz, hty, hf, rewards_name_ne_staking]
              ring
        · rw [payoutRewards.loop_cons_transfer_fail decode reward rest ret k hz hty hf]
          obtain ⟨h1, h2, h3, h4⟩ := ih _ _
          refine ⟨?_, ?_, h3, ?_⟩
          · rw [h1]; simp [List.filterMap_cons, entryError, hz, hty, hf]
          · rw [h2]; simp [List.flatMap_cons, entryEvents, hz, hty, hf]
          · rw [h4]
            simp [entryPaid, entryTransfer, hz, hty, hf]
      · rcases hd : decode reward.Address with e | accAddress
        · rw [payoutRewards.loop_cons_decode_fail decode reward rest ret k e hz hty hd]
          obtain ⟨h1, h2, h3, h4⟩ := ih _ k
          refine ⟨?_, ?_, h3, ?_⟩
          · rw [h1]; simp [List.filterMap_cons, entryError, hz, hty, hd]
          · rw [h2]; simp [List.flatMap_cons, entryEvents, hz, hty, hd]
          · rw [h4]
            simp [entryPaid, entryTransfer, hz, hty, hd]
        · rcases hf : k.fails (Call.SendCoinsFromModuleToAccount AlloraRewardsAccountName
              accAddress (rewardInt reward)) with _ | _
          · rw [payoutRewards.loop_cons_send_ok decode reward rest ret k accAddress hz hty hd hf]
            obtain ⟨h1, h2, h3, h4⟩ := ih ret _
            refine ⟨?_, ?_, h3, ?_⟩
            · rw [h1]; simp [List.filterMap_cons, entryError, hz, hty, hd, hf]
            · rw [h2]; simp [List.flatMap_cons, entryEvents, hz, hty, hd]
            · rw [h4]
              simp [entryPaid, entryTransfer, hz, hty, hd, hf, rewards_account_ne_address]
              ring
          · rw [payoutRewards.loop_cons_send_fail decode reward rest ret k accAddress hz hty hd
              hf]
            obtain ⟨h1, h2, h3, h4⟩ := ih _ _
            refine ⟨?_, ?_, h3, ?_⟩
            · rw [h1]; simp [List.filterMap_cons, entryError, hz, hty, hd, hf]
            · rw [h2]; simp [List.flatMap_cons, entryEvents, hz, hty, hd]
            · rw [h4]
              simp [entryPaid, entryTransfer, hz, hty, hd, hf]

theorem Dec.SdkIntTrim_eq_floor (x : Dec) (hx : 0 ≤ x) : Dec.SdkIntTrim x = ⌊x⌋ := by
  unfold Dec.SdkIntTrim
  rw [Rat.floor_def, Int.tdiv_eq_ediv (Rat.num_nonneg.mpr hx) (Int.ofNat_nonneg _)]

theorem Dec.SdkIntTrim_nonneg (x : Dec) (hx : 0 ≤ x) : 0 ≤ Dec.SdkIntTrim x := by
  rw [Dec.SdkIntTrim_eq_floor x hx]
  exact Int.floor_nonneg.mpr hx

theorem Dec.SdkIntTrim_le (x : Dec) (hx : 0 ≤ x) : ((Dec.SdkIntTrim x : Int) : ℚ) ≤ x := by
  rw [Dec.SdkIntTrim_eq_floor x hx]
  exact Int.floor_le x

theorem Dec.lt_SdkIntTrim_add_one (x : Dec) (hx : 0 ≤ x) :
    x < ((Dec.SdkIntTrim x : Int) : ℚ) + 1 := by
  rw [Dec.SdkIntTrim_eq_floor x hx]
  exact Int.lt_floor_add_one x

/-- C11: for a Reputer entry with a non-zero amount whose two keeper calls
succeed, `payoutRewards` invokes the transfer of the integer amount from the
rewards module account to the staking module account, then `AddStake` of the
same amount under `(topicId, address)`, records no error and goes on with the
next entry: the rewards account decreases by the amount, the staking account
and the stake of the reputer in the topic increase by it, and the balance of
every account address is unchanged. -/
theorem payoutRewards_reputer_entry (decode : String → Except Err String)
    (reward : TaskRewards) (rest : List TaskRewards) (ret : List Err) (k : Keeper)
    (hz : reward.Reward ≠ 0) (hty : reward.RewardType = TaskRewardType.ReputerRewardType)
    (hf : k.fails (Call.SendCoinsFromModuleToModule AlloraRewardsAccountName
      AlloraStakingAccountName (Dec.SdkIntTrim |reward.Reward|)) = false)
    (hs : k.fails (Call.AddStake reward.TopicId reward.Address
      (Dec.SdkIntTrim |reward.Reward|)) = false) :
    ∃ k1,
      payoutRewards.loop decode (reward :: rest) ret k = payoutRewards.loop decode rest ret k1
      ∧ payoutRewards decode k [reward] = ([], k1)
      ∧ k.since k1
        = [Event.write (Call.SendCoinsFromModuleToModule AlloraRewardsAccountName
            AlloraStakingAccountName (Dec.SdkIntTrim |reward.Reward|)),
           Event.write (Call.AddStake reward.TopicId reward.Address
            (Dec.SdkIntTrim |reward.Reward|))]
      ∧ k1.balance (Account.module AlloraRewardsAccountName)
        = k.balance (Account.module AlloraRewardsAccountName) - Dec.SdkIntTrim |reward.Reward|
      ∧ k1.balance (Account.module AlloraStakingAccountName)
        = k.balance (Account.module AlloraStakingAccountName) + Dec.SdkIntTrim |reward.Reward|
      ∧ k1.stake reward.TopicId reward.Address
        = k.stake reward.TopicId reward.Address + Dec.SdkIntTrim |reward.Reward|
      ∧ ∀ a, k1.balance (Account.address a) = k.balance (Account.address a) := by
  refine ⟨_, payoutRewards.loop_cons_reputer_ok decode reward rest ret k hz hty hf hs, ?_, ?_, ?_,
    ?_, ?_, ?_⟩
  · unfold payoutRewards
    rw [payoutRewards.loop_cons_reputer_ok decode reward [] [] k hz hty hf hs]
    rfl
  · simp [Keeper.since, rewardInt]
  · simp [rewardInt, rewards_name_ne_staking]
    ring
  · simp [rewardInt, rewards_name_ne_staking.symm]
    ring
  · simp [rewardInt]
  · intro a
    simp

theorem payoutRewards_reputer_entry_witness :
    exampleReputerReward.Reward ≠ 0
      ∧ exampleReputerReward.RewardType = TaskRewardType.ReputerRewardType
      ∧ exampleKeeper.fails (Call.SendCoinsFromModuleToModule AlloraRewardsAccountName
          AlloraStakingAccountName (Dec.SdkIntTrim |exampleReputerReward.Reward|)) = false
      ∧ exampleKeeper.fails (Call.AddStake exampleReputerReward.TopicId
          exampleReputerReward.Address (Dec.SdkIntTrim |exampleReputerReward.Reward|)) = false
      ∧ Dec.SdkIntTrim |exampleReputerReward.Reward| = 10
      ∧ ∃ k1,
        payoutRewards.loop exampleDecode (exampleReputerReward :: []) [] exampleKeeper
          = payoutRewards.loop exampleDecode [] [] k1
        ∧ payoutRewards exampleDecode exampleKeeper [exampleReputerReward] = ([], k1)
        ∧ exampleKeeper.since k1
          = [Event.write (Call.SendCoinsFromModuleToModule AlloraRewardsAccountName
              AlloraStakingAccountName (Dec.SdkIntTrim |exampleReputerReward.Reward|)),
             Event.write (Call.AddStake exampleReputerReward.TopicId
              exampleReputerReward.Address (Dec.SdkIntTrim |exampleReputerReward.Reward|))]
        ∧ k1.balance (Account.module AlloraRewardsAccountName)
          = exampleKeeper.balance (Account.module AlloraRewardsAccountName)
            - Dec.SdkIntTrim |exampleReputerReward.Reward|
        ∧ k1.balance (Account.module AlloraStakingAccountName)
          = exampleKeeper.balance (Account.module AlloraStakingAccountName)
            + Dec.SdkIntTrim |exampleReputerReward.Reward|
        ∧ k1.stake exampleReputerReward.TopicId exampleReputerReward.Address
          = exampleKeeper.stake exampleReputerReward.TopicId exampleReputerReward.Address
            + Dec.SdkIntTrim |exampleReputerReward.Reward|
        ∧ ∀ a, k1.balance (Account.address a) = exampleKeeper.balance (Account.address a) :=
  ⟨by decide!, rfl, rfl, rfl, by decide!,
    payoutRewards_reputer_entry exampleDecode exampleReputerReward [] [] exampleKeeper
      (by decide!) rfl rfl rfl⟩

/-- C13: for a Reputer entry with a non-zero amount, when the transfer from the
rewards account to the staking account succeeds and `AddStake` then fails,
`payoutRewards` records one error for the entry and does not undo the
transfer: the staking account holds the transferred amount, the rewards
account has lost it, the stakes are unchanged, and the loop goes on with the
next entry. -/
theorem payoutRewards_stake_failure (decode : String → Except Err String)
    (reward : TaskRewards) (rest : List TaskRewards) (ret : List Err) (k : Keeper)
    (hz : reward.Reward ≠ 0) (hty : reward.RewardType = TaskRewardType.ReputerRewardType)
    (hf : k.fails (Call.SendCoinsFromModuleToModule AlloraRewardsAccountName
      AlloraStakingAccountName (Dec.SdkIntTrim |reward.Reward|)) = false)
    (hs : k.fails (Call.AddStake reward.TopicId reward.Address
      (Dec.SdkIntTrim |reward.Reward|)) = true) :
    ∃ k1,
      payoutRewards.loop decode (reward :: rest) ret k
        = payoutRewards.loop decode rest
            (ret ++ [Err.keeper (Call.AddStake reward.TopicId reward.Address
              (Dec.SdkIntTrim |reward.Reward|))]) k1
      ∧ payoutRewards decode k [reward]
        = ([Err.keeper (Call.AddStake reward.TopicId reward.Address
            (Dec.SdkIntTrim |reward.Reward|))], k1)
      ∧ k.since k1
        = [Event.write (Call.SendCoinsFromModuleToModule AlloraRewardsAccountName
            AlloraStakingAccountName (Dec.SdkIntTrim |reward.Reward|)),
           Event.write (Call.AddStake reward.TopicId reward.Address
            (Dec.SdkIntTrim |reward.Reward|))]
      ∧ k1.balance (Account.module AlloraRewardsAccountName)
        = k.balance (Account.module AlloraRewardsAccountName) - Dec.SdkIntTrim |reward.Reward|
      ∧ k1.balance (Account.module AlloraStakingAccountName)
        = k.balance (Account.module AlloraStakingAccountName) + Dec.SdkIntTrim |reward.Reward|
      ∧ k1.stake = k.stake := by
  refine ⟨_, payoutRewards.loop_cons_stake_fail decode reward rest ret k hz hty hf hs, ?_, ?_, ?_,
    ?_, rfl⟩
  · unfold payoutRewards
    rw [payoutRewards.loop_cons_stake_fail decode reward [] [] k hz hty hf hs]
    rfl
  · simp [Keeper.since, rewardInt]
  · simp [rewardInt, rewards_name_ne_staking]
    ring
  · simp [rewardInt, rewards_name_ne_staking.symm]
    ring

theorem payoutRewards_stake_failure_witness :
    exampleReputerReward.Reward ≠ 0
      ∧ exampleReputerReward.RewardType = TaskRewardType.ReputerRewardType
      ∧ stakeFailsKeeper.fails (Call.SendCoinsFromModuleToModule AlloraRewardsAccountName
          AlloraStakingAccountName (Dec.SdkIntTrim |exampleReputerReward.Reward|)) = false
      ∧ stakeFailsKeeper.fails (Call.AddStake exampleReputerReward.TopicId
          exampleReputerReward.Address (Dec.SdkIntTrim |exampleReputerReward.Reward|)) = true
      ∧ ∃ k1,
        payoutRewards.loop exampleDecode (exampleReputerReward :: [exampleWorkerReward]) []
            stakeFailsKeeper
          = payoutRewards.loop exampleDecode [exampleWorkerReward]
              ([] ++ [Err.keeper (Call.AddStake exampleReputerReward.TopicId
                exampleReputerReward.Address (Dec.SdkIntTrim |exampleReputerReward.Reward|))]) k1
        ∧ payoutRewards exampleDecode stakeFailsKeeper [exampleReputerReward]
          = ([Err.keeper (Call.AddStake exampleReputerReward.TopicId
              exampleReputerReward.Address (Dec.SdkIntTrim |exampleReputerReward.Reward|))], k1)
        ∧ stakeFailsKeeper.since k1
          = [Event.write (Call.SendCoinsFromModuleToModule AlloraRewardsAccountName
              AlloraStakingAccountName (Dec.SdkIntTrim |exampleReputerReward.Reward|)),
             Event.write (Call.AddStake exampleReputerReward.TopicId
              exampleReputerReward.Address (Dec.SdkIntTrim |exampleReputerReward.Reward|))]
        ∧ k1.balance (Account.module AlloraRewardsAccountName)
          = stakeFailsKeeper.balance (Account.module AlloraRewardsAccountName)
            - Dec.SdkIntTrim |exampleReputerReward.Reward|
        ∧ k1.balance (Account.module AlloraStakingAccountName)
          = stakeFailsKeeper.balance (Account.module AlloraStakingAccountName)
            + Dec.SdkIntTrim |exampleReputerReward.Reward|
        ∧ k1.stake = stakeFailsKeeper.stake :=
  ⟨by decide!, rfl, by decide!, by decide!,
    payoutRewards_stake_failure exampleDecode exampleReputerReward [exampleWorkerReward] []
      stakeFailsKeeper (by decide!) rfl (by decide!) (by decide!)⟩

/-- C14: for an entry that is not of the Reputer type and has a non-zero
amount: when the address does not decode, `payoutRewards` records the decode
error, invokes no keeper or bank call and leaves the keeper as it is; when it
decodes, the only call invoked is the transfer of the integer amount from the
rewards account to the decoded account address, which leaves the staking
account and the stakes unchanged (no `AddStake`), moves the amount when it
succeeds and records one error when it fails. -/
theorem payoutRewards_worker_entry (decode : String → Except Err String)
    (reward : TaskRewards) (rest : List TaskRewards) (ret : List Err) (k : Keeper)
    (hz : reward.Reward ≠ 0) (hty : reward.RewardType ≠ TaskRewardType.ReputerRewardType) :
    (∀ e, decode reward.Address = .error e →
      payoutRewards.loop decode (reward :: rest) ret k
        = payoutRewards.loop decode rest (ret ++ [e]) k
      ∧ payoutRewards decode k [reward] = ([e], k))
    ∧ ∀ accAddress, decode reward.Address = .ok accAddress →
      ∃ k1,
        k.since k1
          = [Event.write (Call.SendCoinsFromModuleToAccount AlloraRewardsAccountName accAddress
              (Dec.SdkIntTrim |reward.Reward|))]
        ∧ k1.balance (Account.module AlloraStakingAccountName)
          = k.balance (Account.module AlloraStakingAccountName)
        ∧ k1.stake = k.stake
        ∧ (k.fails (Call.SendCoinsFromModuleToAccount AlloraRewardsAccountName accAddress
              (Dec.SdkIntTrim |reward.Reward|)) = false →
            payoutRewards.loop decode (reward :: rest) ret k
              = payoutRewards.loop decode rest ret k1
            ∧ k1.balance (Account.module AlloraRewardsAccountName)
              = k.balance (Account.module AlloraRewardsAccountName)
                - Dec.SdkIntTrim |reward.Reward|
            ∧ k1.balance (Account.address accAddress)
              = k.balance (Account.address accAddress) + Dec.SdkIntTrim |reward.Reward|)
        ∧ (k.fails (Call.SendCoinsFromModuleToAccount AlloraRewardsAccountName accAddress
              (Dec.SdkIntTrim |reward.Reward|)) = true →
            payoutRewards.loop decode (reward :: rest) ret k
              = payoutRewards.loop decode rest
                  (ret ++ [Err.keeper (Call.SendCoinsFromModuleToAccount
                    AlloraRewardsAccountName accAddress (Dec.SdkIntTrim |reward.Reward|))]) k1
            ∧ k1.balance = k.balance) := by
  constructor
  · intro e hd
    refine ⟨payoutRewards.loop_cons_decode_fail decode reward rest ret k e hz hty hd, ?_⟩
    unfold payoutRewards
    rw [payoutRewards.loop_cons_decode_fail decode reward [] [] k e hz hty hd]
    rfl
  · intro accAddress hd
    rcases hf : k.fails (Call.SendCoinsFromModuleToAccount AlloraRewardsAccountName accAddress
        (Dec.SdkIntTrim |reward.Reward|)) with _ | _
    · refine ⟨_, ?_, ?_, ?_, fun _ => ⟨payoutRewards.loop_cons_send_ok decode reward rest ret k
        accAddress hz hty hd hf, ?_, ?_⟩, fun hc => by cases hc⟩
      · simp [Keeper.since, rewardInt]
      · have h1 : Account.module AlloraStakingAccountName ≠ Account.address accAddress := by
          intro h; cases h
        simp [h1, rewards_name_ne_staking.symm]
      · rfl
      · simp [rewardInt, rewards_account_ne_address]
        ring
      · have h1 : Account.address accAddress ≠ Account.module AlloraRewardsAccountName := by
          intro h; cases h
        simp [rewardInt, h1]
        ring
    · refine ⟨_, ?_, ?_, ?_, (fun hc => by cases hc), fun _ =>
        ⟨payoutRewards.loop_cons_send_fail decode reward rest ret k accAddress hz hty hd hf, rfl⟩⟩
      · simp [Keeper.since, rewardInt]
      · rfl
      · rfl

theorem payoutRewards_worker_entry_witness :
    badAddressReward.Reward ≠ 0
      ∧ badAddressReward.RewardType ≠ TaskRewardType.ReputerRewardType
      ∧ exampleDecode badAddressReward.Address = .error (Err.decode "bad")
      ∧ exampleKeeper.since
          (payoutRewards exampleDecode exampleKeeper [badAddressReward, exampleWorkerReward]).2
        = [Event.write (Call.SendCoinsFromModuleToAccount AlloraRewardsAccountName "w" 3)]
      ∧ (payoutRewards exampleDecode exampleKeeper
          [badAddressReward, exampleWorkerReward]).2.balance (Account.address "w") = 3
      ∧ (∀ e, exampleDecode badAddressReward.Address = .error e →
          payoutRewards.loop exampleDecode (badAddressReward :: [exampleWorkerReward]) []
              exampleKeeper
            = payoutRewards.loop exampleDecode [exampleWorkerReward] ([] ++ [e]) exampleKeeper
          ∧ payoutRewards exampleDecode exampleKeeper [badAddressReward] = ([e], exampleKeeper))
      ∧ ∀ accAddress, exampleDecode badAddressReward.Address = .ok accAddress →
        ∃ k1,
          exampleKeeper.since k1
            = [Event.write (Call.SendCoinsFromModuleToAccount AlloraRewardsAccountName accAddress
                (Dec.SdkIntTrim |badAddressReward.Reward|))]
          ∧ k1.balance (Account.module AlloraStakingAccountName)
            = exampleKeeper.balance (Account.module AlloraStakingAccountName)
          ∧ k1.stake = exampleKeeper.stake
          ∧ (exampleKeeper.fails (Call.SendCoinsFromModuleToAccount AlloraRewardsAccountName
                accAddress (Dec.SdkIntTrim |badAddressReward.Reward|)) = false →
              payoutRewards.loop exampleDecode (badAddressReward :: [exampleWorkerReward]) []
                  exampleKeeper
                = payoutRewards.loop exampleDecode [exampleWorkerReward] [] k1
              ∧ k1.balance (Account.module AlloraRewardsAccountName)
                = exampleKeeper.balance (Account.module AlloraRewardsAccountName)
                  - Dec.SdkIntTrim |badAddressReward.Reward|
              ∧ k1.balance (Account.address accAddress)
                = exampleKeeper.balance (Account.address accAddress)
                  + Dec.SdkIntTrim |badAddressReward.Reward|)
          ∧ (exampleKeeper.fails (Call.SendCoinsFromModuleToAccount AlloraRewardsAccountName
                accAddress (Dec.SdkIntTrim |badAddressReward.Reward|)) = true →
              payoutRewards.loop exampleDecode (badAddressReward :: [exampleWorkerReward]) []
                  exampleKeeper
                = payoutRewards.loop exampleDecode [exampleWorkerReward]
                    ([] ++ [Err.keeper (Call.SendCoinsFromModuleToAccount
                      AlloraRewardsAccountName accAddress
                      (Dec.SdkIntTrim |badAddressReward.Reward|))]) k1
              ∧ k1.balance = exampleKeeper.balance) :=
  ⟨by decide!, by decide, by decide, by decide!, by decide!,
    payoutRewards_worker_entry exampleDecode badAddressReward [exampleWorkerReward] []
      exampleKeeper (by decide!) (by decide)⟩

/-- C12: `payoutRewards` goes through the entries in list order whatever
happened before: running the loop on `l1 ++ l2` is running it on `l1` and then
on `l2` from the errors and keeper reached. When the transfer of a Reputer
entry with a non-zero amount fails, one error is appended, the only call
invoked for the entry is the transfer (no `AddStake`), nothing else of the
keeper changes and the loop goes on with the rest. The errors returned are,
in entry order, the error of each entry that has one (at most one per entry),
and the errors and the writes of the remaining entries are the same from any
two keepers in which the same calls fail. -/
theorem payoutRewards_continues_after_failure (decode : String → Except Err String) :
    (∀ (l1 l2 : List TaskRewards) (ret : List Err) (k : Keeper),
      payoutRewards.loop decode (l1 ++ l2) ret k
        = payoutRewards.loop decode l2 (payoutRewards.loop decode l1 ret k).1
            (payoutRewards.loop decode l1 ret k).2)
    ∧ (∀ (reward : TaskRewards) (rest : List TaskRewards) (ret : List Err) (k : Keeper),
        reward.Reward ≠ 0 → reward.RewardType = TaskRewardType.ReputerRewardType →
        k.fails (Call.SendCoinsFromModuleToModule AlloraRewardsAccountName
          AlloraStakingAccountName (Dec.SdkIntTrim |reward.Reward|)) = true →
        payoutRewards.loop decode (reward :: rest) ret k
          = payoutRewards.loop decode rest
              (ret ++ [Err.keeper (Call.SendCoinsFromModuleToModule AlloraRewardsAccountName
                AlloraStakingAccountName (Dec.SdkIntTrim |reward.Reward|))])
              { k with transcript := k.transcript
                  ++ [Event.write (Call.SendCoinsFromModuleToModule AlloraRewardsAccountName
                    AlloraStakingAccountName (Dec.SdkIntTrim |reward.Reward|))] })
    ∧ (∀ (rewards : List TaskRewards) (k : Keeper),
        (payoutRewards decode k rewards).1 = rewards.filterMap (entryError decode k.fails)
        ∧ (payoutRewards decode k rewards).1.length ≤ rewards.length
        ∧ k.since (payoutRewards decode k rewards).2
          = rewards.flatMap (entryEvents decode k.fails))
    ∧ ∀ (rest : List TaskRewards) (ret ret1 : List Err) (k k1 : Keeper),
        k1.fails = k.fails →
        (payoutRewards.loop decode rest ret k).1
            = ret ++ rest.filterMap (entryError decode k.fails)
          ∧ (payoutRewards.loop decode rest ret1 k1).1
            = ret1 ++ rest.filterMap (entryError decode k.fails)
          ∧ k1.since (payoutRewards.loop decode rest ret1 k1).2
            = k.since (payoutRewards.loop decode rest ret k).2 := by
  refine ⟨?_, ?_, ?_, ?_⟩
  · intro l1
    induction l1 with
    | nil => intro l2 ret k; simp [payoutRewards.loop]
    | cons reward l1 ih =>
      intro l2 ret k
      rw [List.cons_append]
      simp only [payoutRewards.loop]
      split
      · exact ih l2 ret k
      · split
        · rcases k.SendCoinsFromModuleToModule AlloraRewardsAccountName
            AlloraStakingAccountName (Dec.SdkIntTrim |reward.Reward|) with ⟨_ | e, k1⟩
          · dsimp only
            rcases k1.AddStake reward.TopicId reward.Address (Dec.SdkIntTrim |reward.Reward|)
              with ⟨_ | e, k2⟩
            · exact ih l2 _ k2
            · exact ih l2 _ k2
          · exact ih l2 _ k1
        · rcases decode reward.Address with e | accAddress
          · exact ih l2 _ k
          · dsimp only
            rcases k.SendCoinsFromModuleToAccount AlloraRewardsAccountName accAddress
              (Dec.SdkIntTrim |reward.Reward|) with ⟨_ | e, k1⟩
            · exact ih l2 _ k1
            · exact ih l2 _ k1
  · intro reward rest ret k hz hty hf
    exact payoutRewards.loop_cons_transfer_fail decode reward rest ret k hz hty hf
  · intro rewards k
    obtain ⟨h1, h2, -, -⟩ := payoutRewards.loop_spec decode rewards [] k
    refine ⟨by simpa [payoutRewards] using h1, ?_, ?_⟩
    · have : (payoutRewards decode k rewards).1
          = rewards.filterMap (entryError decode k.fails) := by
        simpa [payoutRewards] using h1
      rw [this]
      exact List.length_filterMap_le _ _
    · exact Keeper.since_of_append h2
  · intro rest ret ret1 k k1 hfails
    obtain ⟨h1, h2, -, -⟩ := payoutRewards.loop_spec decode rest ret k
    obtain ⟨h3, h4, -, -⟩ := payoutRewards.loop_spec decode rest ret1 k1
    rw [hfails] at h3 h4
    exact ⟨h1, h3, by rw [Keeper.since_of_append h2, Keeper.since_of_append h4]⟩

theorem entryPaid_cases (decode : String → Except Err String) (fails : Call → Bool)
    (reward : TaskRewards) :
    (entryPaid decode fails reward = 0 ∨ entryPaid decode fails reward = rewardInt reward)
    ∧ (reward.Reward = 0 → entryPaid decode fails reward = 0)
    ∧ (entryTransfer decode reward = none → entryPaid decode fails reward = 0)
    ∧ (∀ c, entryTransfer decode reward = some c → fails c = true →
        entryPaid decode fails reward = 0)
    ∧ (∀ c, entryTransfer decode reward = some c → fails c = false →
        entryPaid decode fails reward = rewardInt reward) := by
  unfold entryPaid
  rcases ht : entryTransfer decode reward with _ | c
  · refine ⟨Or.inl rfl, fun _ => rfl, fun _ => rfl, ?_, ?_⟩
    · intro c hc
      cases hc
    · intro c hc
      cases hc
  · refine ⟨?_, ?_, (fun hc => by cases hc), ?_, ?_⟩
    · dsimp only
      split
      · exact Or.inl rfl
      · exact Or.inr rfl
    · intro hz
      simp [entryTransfer, hz] at ht
    · intro c1 hc hf
      cases hc
      simp [hf]
    · intro c1 hc hf
      cases hc
      simp [hf]

theorem entryPaid_bounds (decode : String → Except Err String) (fails : Call → Bool)
    (reward : TaskRewards) (h : 0 ≤ reward.Reward) :
    0 ≤ entryPaid decode fails reward
    ∧ ((entryPaid decode fails reward : Int) : ℚ) ≤ reward.Reward := by
  have habs : |reward.Reward| = reward.Reward := abs_of_nonneg h
  rcases (entryPaid_cases decode fails reward).1 with h0 | h1
  · rw [h0]
    exact ⟨le_refl _, by simpa using h⟩
  · rw [h1, rewardInt, habs]
    exact ⟨Dec.SdkIntTrim_nonneg _ h, Dec.SdkIntTrim_le _ h⟩

theorem entryPaid_stake_failure (decode : String → Except Err String) (fails : Call → Bool)
    (reward : TaskRewards) (hz : reward.Reward ≠ 0)
    (hty : reward.RewardType = TaskRewardType.ReputerRewardType)
    (hsend : fails (Call.SendCoinsFromModuleToModule AlloraRewardsAccountName
      AlloraStakingAccountName (rewardInt reward)) = false)
    (hstake : fails (Call.AddStake reward.TopicId reward.Address (rewardInt reward)) = true) :
    entryError decode fails reward
        = some (Err.keeper (Call.AddStake reward.TopicId reward.Address (rewardInt reward)))
      ∧ entryPaid decode fails reward = rewardInt reward := by
  constructor
  · simp [entryError, hz, hty, hsend, hstake]
  · simp [entryPaid, entryTransfer, hz, hty, hsend]

/-- C15 (amended): for a reward list with non-negative amounts, the number of
tokens that `payoutRewards` takes out of the rewards module account is the sum
over the entries of what each entry pays, which is its amount truncated toward
zero when its transfer is invoked and succeeds and 0 otherwise (an entry with a
zero amount, an address that does not decode or a failing transfer pays
nothing); this total is non-negative and at most the sum of the decimal
amounts, so the remainder is not negative. The errors returned are those of the
entries, and an entry with an error may have paid: a Reputer entry whose
transfer succeeds and whose `AddStake` fails records the error of `AddStake`
and has paid its truncated amount. -/
theorem payoutRewards_moves_at_most_rewards (decode : String → Except Err String)
    (k : Keeper) (rewards : List TaskRewards) (hnonneg : ∀ r ∈ rewards, 0 ≤ r.Reward) :
    k.balance (Account.module AlloraRewardsAccountName)
        - (payoutRewards decode k rewards).2.balance (Account.module AlloraRewardsAccountName)
      = (rewards.map (entryPaid decode k.fails)).sum
    ∧ (∀ r ∈ rewards,
        (entryPaid decode k.fails r = 0
          ∨ entryPaid decode k.fails r = Dec.SdkIntTrim r.Reward)
        ∧ (r.Reward = 0 → entryPaid decode k.fails r = 0)
        ∧ (entryTransfer decode r = none → entryPaid decode k.fails r = 0)
        ∧ (∀ c, entryTransfer decode r = some c → k.fails c = true →
            entryPaid decode k.fails r = 0)
        ∧ (∀ c, entryTransfer decode r = some c → k.fails c = false →
            entryPaid decode k.fails r = Dec.SdkIntTrim r.Reward))
    ∧ 0 ≤ k.balance (Account.module AlloraRewardsAccountName)
        - (payoutRewards decode k rewards).2.balance (Account.module AlloraRewardsAccountName)
    ∧ (((k.balance (Account.module AlloraRewardsAccountName)
        - (payoutRewards decode k rewards).2.balance
            (Account.module AlloraRewardsAccountName) : Int)) : ℚ)
      ≤ (rewards.map fun r => r.Reward).sum
    ∧ (payoutRewards decode k rewards).1 = rewards.filterMap (entryError decode k.fails)
    ∧ (∀ r ∈ rewards, r.Reward ≠ 0 → r.RewardType = TaskRewardType.ReputerRewardType →
        k.fails (Call.SendCoinsFromModuleToModule AlloraRewardsAccountName
          AlloraStakingAccountName (Dec.SdkIntTrim r.Reward)) = false →
        k.fails (Call.AddStake r.TopicId r.Address (Dec.SdkIntTrim r.Reward)) = true →
        entryError decode k.fails r
            = some (Err.keeper (Call.AddStake r.TopicId r.Address (Dec.SdkIntTrim r.Reward)))
          ∧ entryPaid decode k.fails r = Dec.SdkIntTrim r.Reward) := by
  have hbal := (payoutRewards.loop_spec decode rewards [] k).2.2.2
  have herr := (payoutRewards.loop_spec decode rewards [] k).1
  have hmoved : k.balance (Account.module AlloraRewardsAccountName)
      - (payoutRewards decode k rewards).2.balance (Account.module AlloraRewardsAccountName)
      = (rewards.map (entryPaid decode k.fails)).sum := by
    unfold payoutRewards
    rw [hbal]
    ring
  refine ⟨hmoved, ?_, ?_, ?_, ?_, ?_⟩
  · intro r hr
    have habs : |r.Reward| = r.Reward := abs_of_nonneg (hnonneg r hr)
    have hc := entryPaid_cases decode k.fails r
    simp only [rewardInt, habs] at hc
    exact hc
  · rw [hmoved]
    apply List.sum_nonneg
    intro x hx
    obtain ⟨r, hr, rfl⟩ := List.mem_map.mp hx
    exact (entryPaid_bounds decode k.fails r (hnonneg r hr)).1
  · rw [hmoved, Int.cast_list_sum, List.map_map]
    apply List.sum_le_sum
    intro r hr
    exact (entryPaid_bounds decode k.fails r (hnonneg r hr)).2
  · unfold payoutRewards
    rw [herr]
    rfl
  · intro r hr hz hty hsend hstake
    have habs : |r.Reward| = r.Reward := abs_of_nonneg (hnonneg r hr)
    have hc := entryPaid_stake_failure decode k.fails r hz hty
    simp only [rewardInt, habs] at hc
    exact hc hsend hstake

theorem payoutRewards_moves_at_most_rewards_witness :
    (∀ r ∈ [exampleReputerReward, exampleWorkerReward, badAddressReward], 0 ≤ r.Reward)
      ∧ stakeFailsKeeper.balance (Account.module AlloraRewardsAccountName)
          - (payoutRewards exampleDecode stakeFailsKeeper
              [exampleReputerReward, exampleWorkerReward, badAddressReward]).2.balance
              (Account.module AlloraRewardsAccountName) = 13
      ∧ (payoutRewards exampleDecode stakeFailsKeeper
            [exampleReputerReward, exampleWorkerReward, badAddressReward]).1
          = [Err.keeper (Call.AddStake 1 "r" 10), Err.decode "bad"]
      ∧ stakeFailsKeeper.balance (Account.module AlloraRewardsAccountName)
          - (payoutRewards exampleDecode stakeFailsKeeper
              [exampleReputerReward, exampleWorkerReward, badAddressReward]).2.balance
              (Account.module AlloraRewardsAccountName)
        = ([exampleReputerReward, exampleWorkerReward, badAddressReward].map
            (entryPaid exampleDecode stakeFailsKeeper.fails)).sum
      ∧ (∀ r ∈ [exampleReputerReward, exampleWorkerReward, badAddressReward],
          (entryPaid exampleDecode stakeFailsKeeper.fails r = 0
            ∨ entryPaid exampleDecode stakeFailsKeeper.fails r = Dec.SdkIntTrim r.Reward)
          ∧ (r.Reward = 0 → entryPaid exampleDecode stakeFailsKeeper.fails r = 0)
          ∧ (entryTransfer exampleDecode r = none →
              entryPaid exampleDecode stakeFailsKeeper.fails r = 0)
          ∧ (∀ c, entryTransfer exampleDecode r = some c → stakeFailsKeeper.fails c = true →
              entryPaid exampleDecode stakeFailsKeeper.fails r = 0)
          ∧ (∀ c, entryTransfer exampleDecode r = some c → stakeFailsKeeper.fails c = false →
              entryPaid exampleDecode stakeFailsKeeper.fails r = Dec.SdkIntTrim r.Reward))
      ∧ 0 ≤ stakeFailsKeeper.balance (Account.module AlloraRewardsAccountName)
          - (payoutRewards exampleDecode stakeFailsKeeper
              [exampleReputerReward, exampleWorkerReward, badAddressReward]).2.balance
              (Account.module AlloraRewardsAccountName)
      ∧ (((stakeFailsKeeper.balance (Account.module AlloraRewardsAccountName)
          - (payoutRewards exampleDecode stakeFailsKeeper
              [exampleReputerReward, exampleWorkerReward, badAddressReward]).2.balance
              (Account.module AlloraRewardsAccountName) : Int)) : ℚ)
        ≤ ([exampleReputerReward, exampleWorkerReward, badAddressReward].map
            fun r => r.Reward).sum
      ∧ (payoutRewards exampleDecode stakeFailsKeeper
            [exampleReputerReward, exampleWorkerReward, badAddressReward]).1
          = [exampleReputerReward, exampleWorkerReward, badAddressReward].filterMap
              (entryError exampleDecode stakeFailsKeeper.fails)
      ∧ (∀ r ∈ [exampleReputerReward, exampleWorkerReward, badAddressReward],
          r.Reward ≠ 0 → r.RewardType = TaskRewardType.ReputerRewardType →
          stakeFailsKeeper.fails (Call.SendCoinsFromModuleToModule AlloraRewardsAccountName
            AlloraStakingAccountName (Dec.SdkIntTrim r.Reward)) = false →
          stakeFailsKeeper.fails
            (Call.AddStake r.TopicId r.Address (Dec.SdkIntTrim r.Reward)) = true →
          entryError exampleDecode stakeFailsKeeper.fails r
              = some (Err.keeper
                  (Call.AddStake r.TopicId r.Address (Dec.SdkIntTrim r.Reward)))
            ∧ entryPaid exampleDecode stakeFailsKeeper.fails r = Dec.SdkIntTrim r.Reward) :=
  ⟨by decide!, by decide!, by decide!,
    payoutRewards_moves_at_most_rewards exampleDecode stakeFailsKeeper
      [exampleReputerReward, exampleWorkerReward, badAddressReward] (by decide!)⟩

/-- C15 (counterexample): a failed entry pays. With `AddStake` failing, the
Reputer entry of 10 (a non-negative amount) is a failed entry, `payoutRewards`
returns the error of its `AddStake`, and yet 10 tokens have left the rewards
module account: they are in the staking module account and the stake of the
reputer is still 0. -/
theorem payoutRewards_failed_entry_pays :
    (∀ r ∈ [exampleReputerReward], 0 ≤ r.Reward)
      ∧ (payoutRewards exampleDecode stakeFailsKeeper [exampleReputerReward]).1
          = [Err.keeper (Call.AddStake 1 "r" 10)]
      ∧ stakeFailsKeeper.balance (Account.module AlloraRewardsAccountName)
          - (payoutRewards exampleDecode stakeFailsKeeper [exampleReputerReward]).2.balance
              (Account.module AlloraRewardsAccountName) = 10
      ∧ stakeFailsKeeper.balance (Account.module AlloraRewardsAccountName) = 1000
      ∧ (payoutRewards exampleDecode stakeFailsKeeper [exampleReputerReward]).2.balance
          (Account.module AlloraRewardsAccountName) = 990
      ∧ (payoutRewards exampleDecode stakeFailsKeeper [exampleReputerReward]).2.balance
          (Account.module AlloraStakingAccountName) = 10
      ∧ (payoutRewards exampleDecode stakeFailsKeeper [exampleReputerReward]).2.stake 1 "r" = 0
      ∧ ¬ ((payoutRewards exampleDecode stakeFailsKeeper [exampleReputerReward]).1 ≠ [] →
          stakeFailsKeeper.balance (Account.module AlloraRewardsAccountName)
            - (payoutRewards exampleDecode stakeFailsKeeper [exampleReputerReward]).2.balance
                (Account.module AlloraRewardsAccountName) = 0) := by
  decide!

theorem Dec.SdkIntTrim_zero : Dec.SdkIntTrim 0 = 0 := by
  simp [Dec.SdkIntTrim]

theorem entryPaid_of_no_error (decode : String → Except Err String) (fails : Call → Bool)
    (reward : TaskRewards) (h : entryError decode fails reward = none) :
    entryPaid decode fails reward = rewardInt reward := by
  unfold entryError at h
  unfold entryPaid entryTransfer
  by_cases hz : reward.Reward = 0
  · simp [hz, rewardInt, Dec.SdkIntTrim_zero]
  · simp only [hz, if_false] at h ⊢
    by_cases hty : reward.RewardType = TaskRewardType.ReputerRewardType
    · simp only [hty, if_true] at h ⊢
      by_cases hf : fails (Call.SendCoinsFromModuleToModule AlloraRewardsAccountName
          AlloraStakingAccountName (rewardInt reward)) = true
      · simp [hf] at h
      · simp [hf]
    · simp only [hty, if_false] at h ⊢
      rcases hd : decode reward.Address with e | accAddress
      · simp [hd] at h
      · simp only [hd] at h ⊢
        by_cases hf : fails (Call.SendCoinsFromModuleToAccount AlloraRewardsAccountName
            accAddress (rewardInt reward)) = true
        · simp [hf] at h
        · simp [hf]

theorem nonZeroEntries_cons (r : TaskRewards) (l : List TaskRewards) :
    nonZeroEntries (r :: l)
      = if r.Reward = 0 then nonZeroEntries l else nonZeroEntries l + 1 := by
  unfold nonZeroEntries
  by_cases hz : r.Reward = 0
  · simp [List.filter_cons, hz]
  · simp [List.filter_cons, hz]

theorem truncation_dust_bounds (l : List TaskRewards) (h : ∀ r ∈ l, 0 ≤ r.Reward) :
    0 ≤ (l.map fun r => r.Reward).sum
        - (((l.map fun r => Dec.SdkIntTrim r.Reward).sum : Int) : ℚ)
    ∧ (l.map fun r => r.Reward).sum
        - (((l.map fun r => Dec.SdkIntTrim r.Reward).sum : Int) : ℚ)
      ≤ (nonZeroEntries l : ℚ)
    ∧ (0 < nonZeroEntries l →
        (l.map fun r => r.Reward).sum
          - (((l.map fun r => Dec.SdkIntTrim r.Reward).sum : Int) : ℚ)
        < (nonZeroEntries l : ℚ)) := by
  induction l with
  | nil => simp [nonZeroEntries]
  | cons r l ih =>
    have hr : 0 ≤ r.Reward := h r (List.mem_cons_self _ _)
    obtain ⟨ih0, ih1, ih2⟩ := ih (fun x hx => h x (List.mem_cons_of_mem _ hx))
    have hle := Dec.SdkIntTrim_le r.Reward hr
    have hlt := Dec.lt_SdkIntTrim_add_one r.Reward hr
    rw [nonZeroEntries_cons]
    simp only [List.map_cons, List.sum_cons, Int.cast_add]
    by_cases hz : r.Reward = 0
    · simp only [hz, if_true, Dec.SdkIntTrim_zero, Int.cast_zero, zero_add]
      exact ⟨ih0, ih1, ih2⟩
    · simp only [hz, if_false, Nat.cast_add, Nat.cast_one]
      refine ⟨by linarith, by linarith, fun _ => by linarith⟩

/-- C16 (counterexample): three inferer entries of 1/2 each are paid without
an error, each transfer moves the truncated amount 0, and the difference
between the sum of the decimal amounts and the tokens moved is 3/2, which is
above 10⁻¹⁸ and above 1. -/
theorem payoutRewards_dust_exceeds_bound :
    (∀ r ∈ [halfTokenReward, halfTokenReward, halfTokenReward], 0 ≤ r.Reward)
    ∧ (payoutRewards exampleDecode exampleKeeper
        [halfTokenReward, halfTokenReward, halfTokenReward]).1 = []
    ∧ exampleKeeper.since (payoutRewards exampleDecode exampleKeeper
        [halfTokenReward, halfTokenReward, halfTokenReward]).2
      = [Event.write (Call.SendCoinsFromModuleToAccount AlloraRewardsAccountName "w" 0),
         Event.write (Call.SendCoinsFromModuleToAccount AlloraRewardsAccountName "w" 0),
         Event.write (Call.SendCoinsFromModuleToAccount AlloraRewardsAccountName "w" 0)]
    ∧ exampleKeeper.balance (Account.module AlloraRewardsAccountName)
        - (payoutRewards exampleDecode exampleKeeper
            [halfTokenReward, halfTokenReward, halfTokenReward]).2.balance
            (Account.module AlloraRewardsAccountName) = 0
    ∧ ([halfTokenReward, halfTokenReward, halfTokenReward].map fun r => r.Reward).sum
        - (((exampleKeeper.balance (Account.module AlloraRewardsAccountName)
            - (payoutRewards exampleDecode exampleKeeper
                [halfTokenReward, halfTokenReward, halfTokenReward]).2.balance
                (Account.module AlloraRewardsAccountName) : Int)) : ℚ) = 3 / 2
    ∧ ¬ (([halfTokenReward, halfTokenReward, halfTokenReward].map fun r => r.Reward).sum
        - (((exampleKeeper.balance (Account.module AlloraRewardsAccountName)
            - (payoutRewards exampleDecode exampleKeeper
                [halfTokenReward, halfTokenReward, halfTokenReward]).2.balance
                (Account.module AlloraRewardsAccountName) : Int)) : ℚ)
          ≤ 1 / 1000000000000000000)
    ∧ ¬ (([halfTokenReward, halfTokenReward, halfTokenReward].map fun r => r.Reward).sum
        - (((exampleKeeper.balance (Account.module AlloraRewardsAccountName)
            - (payoutRewards exampleDecode exampleKeeper
                [halfTokenReward, halfTokenReward, halfTokenReward]).2.balance
                (Account.module AlloraRewardsAccountName) : Int)) : ℚ)
          ≤ 1) := by
  refine ⟨by decide!, by decide!, by decide!, by decide!, by decide!, by decide!, by decide!⟩

/-- C16 (amended): when a reward list with non-negative amounts is paid
without an error, the tokens taken out of the rewards module account are the
sum of the amounts each truncated toward zero, and the difference between the
sum of the decimal amounts and the tokens paid is at least 0, at most the number
of entries with a non-zero amount, and strictly below that number when there is
such an entry: every entry leaves less than one token unpaid. -/
theorem payoutRewards_dust_below_entry_count (decode : String → Except Err String)
    (k : Keeper) (rewards : List TaskRewards) (hnonneg : ∀ r ∈ rewards, 0 ≤ r.Reward)
    (hpaid : (payoutRewards decode k rewards).1 = []) :
    k.balance (Account.module AlloraRewardsAccountName)
        - (payoutRewards decode k rewards).2.balance (Account.module AlloraRewardsAccountName)
      = (rewards.map fun r => Dec.SdkIntTrim r.Reward).sum
    ∧ 0 ≤ (rewards.map fun r => r.Reward).sum
        - (((k.balance (Account.module AlloraRewardsAccountName)
            - (payoutRewards decode k rewards).2.balance
                (Account.module AlloraRewardsAccountName) : Int)) : ℚ)
    ∧ (rewards.map fun r => r.Reward).sum
        - (((k.balance (Account.module AlloraRewardsAccountName)
            - (payoutRewards decode k rewards).2.balance
                (Account.module AlloraRewardsAccountName) : Int)) : ℚ)
      ≤ (nonZeroEntries rewards : ℚ)
    ∧ (0 < nonZeroEntries rewards →
        (rewards.map fun r => r.Reward).sum
          - (((k.balance (Account.module AlloraRewardsAccountName)
              - (payoutRewards decode k rewards).2.balance
                  (Account.module AlloraRewardsAccountName) : Int)) : ℚ)
        < (nonZeroEntries rewards : ℚ)) := by
  have hspec := payoutRewards.loop_spec decode rewards [] k
  have herr : rewards.filterMap (entryError decode k.fails) = [] := by
    have h1 := hspec.1
    unfold payoutRewards at hpaid
    rw [hpaid] at h1
    simpa using h1.symm
  have hnone : ∀ r ∈ rewards, entryError decode k.fails r = none := by
    intro r hr
    rcases he : entryError decode k.fails r with _ | e
    · rfl
    · have hmem : e ∈ rewards.filterMap (entryError decode k.fails) :=
        List.mem_filterMap.mpr ⟨r, hr, he⟩
      rw [herr] at hmem
      cases hmem
  have hmap : rewards.map (entryPaid decode k.fails)
      = rewards.map fun r => Dec.SdkIntTrim r.Reward := by
    apply List.map_congr_left
    intro r hr
    rw [entryPaid_of_no_error decode k.fails r (hnone r hr), rewardInt,
      abs_of_nonneg (hnonneg r hr)]
  have hmoved : k.balance (Account.module AlloraRewardsAccountName)
      - (payoutRewards decode k rewards).2.balance (Account.module AlloraRewardsAccountName)
      = (rewards.map fun r => Dec.SdkIntTrim r.Reward).sum := by
    unfold payoutRewards
    rw [hspec.2.2.2, hmap]
    ring
  rw [hmoved]
  exact ⟨rfl, truncation_dust_bounds rewards hnonneg⟩

theorem payoutRewards_dust_below_entry_count_witness :
    (∀ r ∈ [halfTokenReward, exampleWorkerReward, exampleReputerReward], 0 ≤ r.Reward)
    ∧ (payoutRewards exampleDecode exampleKeeper
        [halfTokenReward, exampleWorkerReward, exampleReputerReward]).1 = []
    ∧ nonZeroEntries [halfTokenReward, exampleWorkerReward, exampleReputerReward] = 3
    ∧ ([halfTokenReward, exampleWorkerReward, exampleReputerReward].map
        fun r => r.Reward).sum = 14
    ∧ exampleKeeper.balance (Account.module AlloraRewardsAccountName)
        - (payoutRewards exampleDecode exampleKeeper
            [halfTokenReward, exampleWorkerReward, exampleReputerReward]).2.balance
            (Account.module AlloraRewardsAccountName) = 13
    ∧ (exampleKeeper.balance (Account.module AlloraRewardsAccountName)
        - (payoutRewards exampleDecode exampleKeeper
            [halfTokenReward, exampleWorkerReward, exampleReputerReward]).2.balance
            (Account.module AlloraRewardsAccountName)
        = ([halfTokenReward, exampleWorkerReward, exampleReputerReward].map
            fun r => Dec.SdkIntTrim r.Reward).sum
      ∧ 0 ≤ ([halfTokenReward, exampleWorkerReward, exampleReputerReward].map
            fun r => r.Reward).sum
          - (((exampleKeeper.balance (Account.module AlloraRewardsAccountName)
              - (payoutRewards exampleDecode exampleKeeper
                  [halfTokenReward, exampleWorkerReward, exampleReputerReward]).2.balance
                  (Account.module AlloraRewardsAccountName) : Int)) : ℚ)
      ∧ ([halfTokenReward, exampleWorkerReward, exampleReputerReward].map
            fun r => r.Reward).sum
          - (((exampleKeeper.balance (Account.module AlloraRewardsAccountName)
              - (payoutRewards exampleDecode exampleKeeper
                  [halfTokenReward, exampleWorkerReward, exampleReputerReward]).2.balance
                  (Account.module AlloraRewardsAccountName) : Int)) : ℚ)
        ≤ (nonZeroEntries [halfTokenReward, exampleWorkerReward, exampleReputerReward] : ℚ)
      ∧ (0 < nonZeroEntries [halfTokenReward, exampleWorkerReward, exampleReputerReward] →
          ([halfTokenReward, exampleWorkerReward, exampleReputerReward].map
              fun r => r.Reward).sum
            - (((exampleKeeper.balance (Account.module AlloraRewardsAccountName)
                - (payoutRewards exampleDecode exampleKeeper
                    [halfTokenReward, exampleWorkerReward, exampleReputerReward]).2.balance
                    (Account.module AlloraRewardsAccountName) : Int)) : ℚ)
          < (nonZeroEntries [halfTokenReward, exampleWorkerReward, exampleReputerReward]
              : ℚ))) :=
  ⟨by decide!, by decide!, by decide!, by decide!, by decide!,
    payoutRewards_dust_below_entry_count exampleDecode exampleKeeper
      [halfTokenReward, exampleWorkerReward, exampleReputerReward] (by decide!) (by decide!)⟩

theorem wrapInt64_of_range (x : Int) (hlo : -2 ^ 63 ≤ x) (hhi : x < 2 ^ 63) :
    wrapInt64 x = x := by
  unfold wrapInt64
  norm_num at hlo hhi ⊢
  omega

theorem pruneRecordsAfterRewards.oldest_foldl (nonces : List BlockHeight) :
    ∀ first : BlockHeight,
      (nonces.foldl (fun oldestNonce nonce => if nonce < oldestNonce then nonce else oldestNonce)
          first = first
        ∨ nonces.foldl (fun oldestNonce nonce =>
            if nonce < oldestNonce then nonce else oldestNonce) first ∈ nonces)
      ∧ nonces.foldl (fun oldestNonce nonce => if nonce < oldestNonce then nonce else oldestNonce)
          first ≤ first
      ∧ ∀ m ∈ nonces,
          nonces.foldl (fun oldestNonce nonce =>
            if nonce < oldestNonce then nonce else oldestNonce) first ≤ m := by
  induction nonces with
  | nil => intro first; simp
  | cons n rest ih =>
    intro first
    simp only [List.foldl_cons]
    obtain ⟨h1, h2, h3⟩ := ih (if n < first then n else first)
    refine ⟨?_, ?_, ?_⟩
    · rcases h1 with h | h
      · by_cases hn : n < first
        · rw [if_pos hn] at h ⊢
          exact Or.inr (by rw [h]; exact List.mem_cons_self _ _)
        · rw [if_neg hn] at h ⊢
          exact Or.inl h
      · exact Or.inr (List.mem_cons_of_mem _ h)
    · refine le_trans h2 ?_
      by_cases hn : n < first
      · rw [if_pos hn]; exact le_of_lt hn
      · rw [if_neg hn]
    · intro m hm
      rcases List.mem_cons.mp hm with hm | hm
      · subst hm
        refine le_trans h2 ?_
        by_cases hn : m < first
        · rw [if_pos hn]
        · rw [if_neg hn]; exact not_lt.mp hn
      · exact h3 m hm

/-- The search for the oldest unfulfilled nonce returns the reward nonce on an
empty list, and otherwise a member of the list that no member is below. -/
theorem pruneRecordsAfterRewards.oldest_spec (topicRewardNonce : BlockHeight)
    (nonces : List BlockHeight) :
    (nonces = [] → pruneRecordsAfterRewards.oldest topicRewardNonce nonces = topicRewardNonce)
    ∧ (nonces ≠ [] →
        pruneRecordsAfterRewards.oldest topicRewardNonce nonces ∈ nonces
        ∧ ∀ m ∈ nonces, pruneRecordsAfterRewards.oldest topicRewardNonce nonces ≤ m) := by
  rcases nonces with _ | ⟨first, rest⟩
  · exact ⟨fun _ => rfl, fun h => absurd rfl h⟩
  · refine ⟨(fun h => by cases h), fun _ => ?_⟩
    obtain ⟨h1, -, h3⟩ := pruneRecordsAfterRewards.oldest_foldl (first :: rest) first
    unfold pruneRecordsAfterRewards.oldest
    dsimp only
    refine ⟨?_, h3⟩
    rcases h1 with h | h
    · rw [h]; exact List.mem_cons_self _ _
    · exact h

/-- With the deletion of the nonce and the two reads succeeding,
`pruneRecordsAfterRewards` is the keeper pruning at the computed cutoff, on the
keeper in which the reward nonce of the topic is deleted. -/
theorem pruneRecordsAfterRewards_reads_ok (k : Keeper) (minEpochLengthRecordLimit : Int)
    (topicId : TopicId) (topicRewardNonce : BlockHeight)
    (hdelete : k.fails (Call.DeleteTopicRewardNonce topicId) = false)
    (hnonces : k.fails (Call.GetUnfulfilledReputerNonces topicId) = false)
    (htopic : k.fails (Call.GetTopic topicId) = false) :
    pruneRecordsAfterRewards k minEpochLengthRecordLimit topicId topicRewardNonce
      = Keeper.PruneRecordsAfterRewards
          { k with
            transcript := k.transcript ++ [Event.write (Call.DeleteTopicRewardNonce topicId)]
            rewardNonce := fun t => if t = topicId then 0 else k.rewardNonce t }
          topicId
          (wrapInt64 (pruneRecordsAfterRewards.oldest topicRewardNonce
              (k.unfulfilledNonces topicId)
            - wrapInt64 (minEpochLengthRecordLimit * (k.topic topicId).EpochLength))) := by
  unfold pruneRecordsAfterRewards
  simp only [Keeper.DeleteTopicRewardNonce, Keeper.write_ok k _ _ hdelete,
    Keeper.GetUnfulfilledReputerNonces, Keeper.GetTopic, Keeper.read, hnonces, htopic]
  simp

/-- C19 (amended): for a topic with at least one unfulfilled reputer nonce, and
with the product `MinEpochLengthRecordLimit * EpochLength` and the differences
`n - MinEpochLengthRecordLimit * EpochLength` in the `int64` range (outside it
the `int64` arithmetic of the source wraps around), every cutoff that
`pruneRecordsAfterRewards` passes to the keeper is
`oldest - MinEpochLengthRecordLimit * EpochLength` for the oldest unfulfilled
nonce, hence at most `n - MinEpochLengthRecordLimit * EpochLength`
for every unfulfilled nonce `n`, whatever the reward nonce just paid; and every
record at or after that height is the same after the call as before it. -/
theorem pruneRecordsAfterRewards_keeps_recent (k : Keeper) (minEpochLengthRecordLimit : Int)
    (topicId : TopicId) (topicRewardNonce : BlockHeight)
    (hne : k.unfulfilledNonces topicId ≠ [])
    (hprod : -2 ^ 63 ≤ minEpochLengthRecordLimit * (k.topic topicId).EpochLength
      ∧ minEpochLengthRecordLimit * (k.topic topicId).EpochLength < 2 ^ 63)
    (hdiff : ∀ n ∈ k.unfulfilledNonces topicId,
      -2 ^ 63 ≤ n - minEpochLengthRecordLimit * (k.topic topicId).EpochLength
      ∧ n - minEpochLengthRecordLimit * (k.topic topicId).EpochLength < 2 ^ 63) :
    (pruneRecordsAfterRewards.oldest topicRewardNonce (k.unfulfilledNonces topicId)
        ∈ k.unfulfilledNonces topicId
      ∧ ∀ n ∈ k.unfulfilledNonces topicId,
          pruneRecordsAfterRewards.oldest topicRewardNonce (k.unfulfilledNonces topicId) ≤ n)
    ∧ (∀ t cutoff, Event.write (Call.PruneRecordsAfterRewards t cutoff)
          ∈ k.since (pruneRecordsAfterRewards k minEpochLengthRecordLimit topicId
              topicRewardNonce).2 →
        t = topicId
        ∧ cutoff = pruneRecordsAfterRewards.oldest topicRewardNonce (k.unfulfilledNonces topicId)
            - minEpochLengthRecordLimit * (k.topic topicId).EpochLength
        ∧ ∀ n ∈ k.unfulfilledNonces topicId,
            cutoff ≤ n - minEpochLengthRecordLimit * (k.topic topicId).EpochLength)
    ∧ ∀ t b,
        pruneRecordsAfterRewards.oldest topicRewardNonce (k.unfulfilledNonces topicId)
            - minEpochLengthRecordLimit * (k.topic topicId).EpochLength ≤ b →
        (pruneRecordsAfterRewards k minEpochLengthRecordLimit topicId
            topicRewardNonce).2.networkLossBundle t b = k.networkLossBundle t b
        ∧ (pruneRecordsAfterRewards k minEpochLengthRecordLimit topicId
            topicRewardNonce).2.reputerLossBundles t b = k.reputerLossBundles t b
        ∧ ∀ kind a,
          (pruneRecordsAfterRewards k minEpochLengthRecordLimit topicId
              topicRewardNonce).2.scores t kind b a = k.scores t kind b a := by
  obtain ⟨hmem, hmin⟩ := (pruneRecordsAfterRewards.oldest_spec topicRewardNonce
    (k.unfulfilledNonces topicId)).2 hne
  have hcut : wrapInt64 (pruneRecordsAfterRewards.oldest topicRewardNonce
        (k.unfulfilledNonces topicId)
      - wrapInt64 (minEpochLengthRecordLimit * (k.topic topicId).EpochLength))
      = pruneRecordsAfterRewards.oldest topicRewardNonce (k.unfulfilledNonces topicId)
        - minEpochLengthRecordLimit * (k.topic topicId).EpochLength := by
    rw [wrapInt64_of_range _ hprod.1 hprod.2,
      wrapInt64_of_range _ (hdiff _ hmem).1 (hdiff _ hmem).2]
  refine ⟨⟨hmem, hmin⟩, ?_⟩
  by_cases hd : k.fails (Call.DeleteTopicRewardNonce topicId) = true
  · have he : pruneRecordsAfterRewards k minEpochLengthRecordLimit topicId topicRewardNonce
        = (some (Err.keeper (Call.DeleteTopicRewardNonce topicId)),
          { k with transcript := k.transcript
              ++ [Event.write (Call.DeleteTopicRewardNonce topicId)] }) := by
      unfold pruneRecordsAfterRewards
      simp [Keeper.DeleteTopicRewardNonce, Keeper.write, hd]
    rw [he]
    refine ⟨fun t cutoff hmem => ?_, fun t b _ => ⟨rfl, rfl, fun _ _ => rfl⟩⟩
    simp [Keeper.since] at hmem
  · have hd1 : k.fails (Call.DeleteTopicRewardNonce topicId) = false := by simpa using hd
    by_cases hu : k.fails (Call.GetUnfulfilledReputerNonces topicId) = true
    · have he : pruneRecordsAfterRewards k minEpochLengthRecordLimit topicId topicRewardNonce
          = (some (Err.keeper (Call.GetUnfulfilledReputerNonces topicId)),
            { k with
              transcript := k.transcript ++ [Event.write (Call.DeleteTopicRewardNonce topicId)]
              rewardNonce := fun t => if t = topicId then 0 else k.rewardNonce t }) := by
        unfold pruneRecordsAfterRewards
        simp [Keeper.DeleteTopicRewardNonce, Keeper.write, hd1,
          Keeper.GetUnfulfilledReputerNonces, Keeper.read, hu]
      rw [he]
      refine ⟨fun t cutoff hmem => ?_, fun t b _ => ⟨rfl, rfl, fun _ _ => rfl⟩⟩
      simp [Keeper.since] at hmem
    · have hu1 : k.fails (Call.GetUnfulfilledReputerNonces topicId) = false := by simpa using hu
      by_cases ht : k.fails (Call.GetTopic topicId) = true
      · have he : pruneRecordsAfterRewards k minEpochLengthRecordLimit topicId topicRewardNonce
            = (some (Err.keeper (Call.GetTopic topicId)),
              { k with
                transcript := k.transcript
                  ++ [Event.write (Call.DeleteTopicRewardNonce topicId)]
                rewardNonce := fun t => if t = topicId then 0 else k.rewardNonce t }) := by
          unfold pruneRecordsAfterRewards
          simp [Keeper.DeleteTopicRewardNonce, Keeper.write, hd1,
            Keeper.GetUnfulfilledReputerNonces, Keeper.GetTopic, Keeper.read, hu1, ht]
        rw [he]
        refine ⟨fun t cutoff hmem => ?_, fun t b _ => ⟨rfl, rfl, fun _ _ => rfl⟩⟩
        simp [Keeper.since] at hmem
      · have ht1 : k.fails (Call.GetTopic topicId) = false := by simpa using ht
        rw [pruneRecordsAfterRewards_reads_ok k minEpochLengthRecordLimit topicId
          topicRewardNonce hd1 hu1 ht1, hcut]
        unfold Keeper.PruneRecordsAfterRewards Keeper.write
        refine ⟨fun t cutoff hmem => ?_, fun t b hb => ?_⟩
        · have hev : t = topicId
              ∧ cutoff = pruneRecordsAfterRewards.oldest topicRewardNonce
                  (k.unfulfilledNonces topicId)
                - minEpochLengthRecordLimit * (k.topic topicId).EpochLength := by
            split at hmem <;> simpa [Keeper.since] using hmem
          refine ⟨hev.1, hev.2, fun n hn => ?_⟩
          rw [hev.2]
          exact Int.sub_le_sub_right (hmin n hn) _
        · have hnot : ¬ (t = topicId ∧ b < pruneRecordsAfterRewards.oldest topicRewardNonce
                (k.unfulfilledNonces topicId)
              - minEpochLengthRecordLimit * (k.topic topicId).EpochLength) :=
            fun h => absurd h.2 (not_lt.mpr hb)
          split
          · exact ⟨rfl, rfl, fun _ _ => rfl⟩
          · simp [hnot]

theorem pruneRecordsAfterRewards_keeps_recent_witness :
    unfulfilledKeeper.unfulfilledNonces 1 ≠ []
    ∧ (-2 ^ 63 ≤ (3 : Int) * (unfulfilledKeeper.topic 1).EpochLength
      ∧ (3 : Int) * (unfulfilledKeeper.topic 1).EpochLength < 2 ^ 63)
    ∧ (∀ n ∈ unfulfilledKeeper.unfulfilledNonces 1,
      -2 ^ 63 ≤ n - 3 * (unfulfilledKeeper.topic 1).EpochLength
      ∧ n - 3 * (unfulfilledKeeper.topic 1).EpochLength < 2 ^ 63)
    ∧ Event.write (Call.PruneRecordsAfterRewards 1 700)
        ∈ unfulfilledKeeper.since (pruneRecordsAfterRewards unfulfilledKeeper 3 1 900).2
    ∧ (∀ n ∈ unfulfilledKeeper.unfulfilledNonces 1,
        (700 : Int) ≤ n - 3 * (unfulfilledKeeper.topic 1).EpochLength)
    ∧ (pruneRecordsAfterRewards unfulfilledKeeper 3 1 900).2.networkLossBundle 1 700
      = unfulfilledKeeper.networkLossBundle 1 700
    ∧ (pruneRecordsAfterRewards unfulfilledKeeper 3 1 900).2.reputerLossBundles 1 900
      = unfulfilledKeeper.reputerLossBundles 1 900 := by
  have h := pruneRecordsAfterRewards_keeps_recent unfulfilledKeeper 3 1 900 (by decide!)
    (by decide!) (by decide!)
  exact ⟨by decide!, by decide!, by decide!, by decide!,
    (h.2.1 1 700 (by decide!)).2.2, (h.2.2 1 700 (by decide!)).1,
    (h.2.2 1 900 (by decide!)).2.1⟩

/-! ### Invariants of the loop of the driver -/

theorem payoutRewards.payout_loop_inv (R : Keeper → Keeper → Prop) (hR : PayoutInvariant R)
    (decode : String → Except Err String) (rewards : List TaskRewards) :
    ∀ (ret : List Err) (k : Keeper), R k (payoutRewards.loop decode rewards ret k).2 := by
  induction rewards with
  | nil => intro ret k; exact hR.inv_refl k
  | cons reward rest ih =>
    intro ret k
    unfold payoutRewards.loop
    split
    · exact ih ret k
    · dsimp only
      split
      · have h1 := hR.inv_sendToModule k AlloraRewardsAccountName AlloraStakingAccountName
          (Dec.SdkIntTrim |reward.Reward|)
        rcases hs : k.SendCoinsFromModuleToModule AlloraRewardsAccountName
            AlloraStakingAccountName (Dec.SdkIntTrim |reward.Reward|) with ⟨_ | e, k1⟩
        · rw [hs] at h1
          dsimp only
          have h2 := hR.inv_addStake k1 reward.TopicId reward.Address
            (Dec.SdkIntTrim |reward.Reward|)
          rcases ha : k1.AddStake reward.TopicId reward.Address
              (Dec.SdkIntTrim |reward.Reward|) with ⟨_ | e, k2⟩
          · rw [ha] at h2
            exact hR.inv_trans _ _ _ (hR.inv_trans _ _ _ h1 h2) (ih _ k2)
          · rw [ha] at h2
            exact hR.inv_trans _ _ _ (hR.inv_trans _ _ _ h1 h2) (ih _ k2)
        · rw [hs] at h1
          exact hR.inv_trans _ _ _ h1 (ih _ k1)
      · rcases decode reward.Address with e | accAddress
        · exact ih _ k
        · dsimp only
          have h1 := hR.inv_sendToAccount k AlloraRewardsAccountName accAddress
            (Dec.SdkIntTrim |reward.Reward|)
          rcases hs : k.SendCoinsFromModuleToAccount AlloraRewardsAccountName accAddress
              (Dec.SdkIntTrim |reward.Reward|) with ⟨_ | e, k1⟩
          · rw [hs] at h1
            exact hR.inv_trans _ _ _ h1 (ih _ k1)
          · rw [hs] at h1
            exact hR.inv_trans _ _ _ h1 (ih _ k1)

theorem pruneRecordsAfterRewards_inv (R : Keeper → Keeper → Prop) (hR : DriverInvariant R)
    (k : Keeper) (minEpochLengthRecordLimit : Int) (t : TopicId)
    (topicRewardNonce : BlockHeight) :
    R k (pruneRecordsAfterRewards k minEpochLengthRecordLimit t topicRewardNonce).2 := by
  unfold pruneRecordsAfterRewards
  have h1 := hR.inv_deleteNonce k t
  rcases hd : k.DeleteTopicRewardNonce t with ⟨_ | e, k1⟩
  · rw [hd] at h1
    dsimp only
    rcases k1.GetUnfulfilledReputerNonces t with e | nonces
    · exact h1
    · dsimp only
      rcases k1.GetTopic t with e | topic
      · exact h1
      · dsimp only
        exact hR.inv_payout.inv_trans _ _ _ h1 (hR.inv_pruneRecords k1 t _)
  · rw [hd] at h1
    exact h1

theorem EmitRewards.loop_cons_inv (R : Keeper → Keeper → Prop) (hR : DriverInvariant R)
    (X : External) (moduleParams : Params) (topicRewards : DecMap) (t : TopicId)
    (rest : List TopicId) (total : Dec) (k : Keeper) :
    ∃ total1 k1,
      EmitRewards.loop X moduleParams topicRewards (t :: rest) total k
        = EmitRewards.loop X moduleParams topicRewards rest total1 k1
      ∧ R k k1 := by
  simp only [EmitRewards.loop]
  rcases hr : topicRewards.get t with _ | topicReward
  · exact ⟨total, k, rfl, hR.inv_payout.inv_refl k⟩
  · dsimp only
    by_cases hn : (k.GetTopicRewardNonce t).2.isSome = true ∨ (k.GetTopicRewardNonce t).1 = 0
    · rw [if_pos hn]
      exact ⟨total, k, rfl, hR.inv_payout.inv_refl k⟩
    · rw [if_neg hn]
      have hp : R k (GenerateRewardsDistributionByTopicParticipant X k t
          (some topicReward) (k.GetTopicRewardNonce t).1 moduleParams).2 := by
        obtain ⟨s, hs⟩ := GenerateRewardsDistributionByTopicParticipant_onlyScores X k t
          (some topicReward) (k.GetTopicRewardNonce t).1 moduleParams
        rw [hs]
        exact hR.inv_scores k s
      rcases hpe : GenerateRewardsDistributionByTopicParticipant X k t (some topicReward)
          (k.GetTopicRewardNonce t).1 moduleParams with ⟨e | ⟨dist, rr⟩, k1⟩
      · rw [hpe] at hp
        exact ⟨total, k1, rfl, hp⟩
      · rw [hpe] at hp
        simp only [Dec.Add]
        have hm := hR.inv_payoutMark k1 t
        have hpay := payoutRewards.payout_loop_inv R hR.inv_payout X.AccAddressFromBech32 dist []
          (k1.mark (Event.payoutRewards t))
        rcases hpye : payoutRewards X.AccAddressFromBech32 (k1.mark (Event.payoutRewards t))
            dist with ⟨payoutErrors, k2⟩
        have hpay2 : R (k1.mark (Event.payoutRewards t)) k2 := by
          unfold payoutRewards at hpye
          rw [hpye] at hpay
          exact hpay
        have h2 : R k k2 :=
          hR.inv_payout.inv_trans _ _ _ (hR.inv_payout.inv_trans _ _ _ hp hm) hpay2
        dsimp only
        by_cases hlen : payoutErrors.length > 0
        · rw [if_pos hlen]
          exact ⟨_, k2, rfl, h2⟩
        · rw [if_neg hlen]
          have hm2 := hR.inv_pruneMark k2 t
          have hpr := pruneRecordsAfterRewards_inv R hR
            (k2.mark (Event.pruneRecordsAfterRewards t)) moduleParams.MinEpochLengthRecordLimit
            t (k.GetTopicRewardNonce t).1
          have h3 := hR.inv_payout.inv_trans _ _ _
            (hR.inv_payout.inv_trans _ _ _ h2 hm2) hpr
          rcases hpre : pruneRecordsAfterRewards (k2.mark (Event.pruneRecordsAfterRewards t))
              moduleParams.MinEpochLengthRecordLimit t (k.GetTopicRewardNonce t).1
            with ⟨_ | e, k3⟩
          · rw [hpre] at h3
            exact ⟨_, k3, rfl, h3⟩
          · rw [hpre] at h3
            exact ⟨_, k3, rfl, h3⟩

/-- A relation that holds along every step of the loop of `EmitRewards` holds
between the keeper before the loop and the keeper after it. -/
theorem EmitRewards.driver_loop_inv (R : Keeper → Keeper → Prop) (hR : DriverInvariant R)
    (X : External) (moduleParams : Params) (topicRewards : DecMap) (ts : List TopicId) :
    ∀ (total : Dec) (k : Keeper),
      R k (EmitRewards.loop X moduleParams topicRewards ts total k).2 := by
  induction ts with
  | nil => intro total k; exact hR.inv_payout.inv_refl k
  | cons t rest ih =>
    intro total k
    obtain ⟨total1, k1, heq, h1⟩ := EmitRewards.loop_cons_inv R hR X moduleParams
      topicRewards t rest total k
    rw [heq]
    exact hR.inv_payout.inv_trans _ _ _ h1 (ih total1 k1)

theorem NoPruning.payoutInvariant : PayoutInvariant NoPruning where
  inv_refl k := ⟨rfl, Appends.appends_refl _ k⟩
  inv_trans a b c h1 h2 := ⟨h2.1.trans h1.1, h1.2.appends_trans h2.2⟩
  inv_sendToModule k sender recipient amount := by
    refine ⟨?_, Appends.write _ k _ _ (fun _ => rfl) (fun u h => by simp [pruningStep] at h)⟩
    unfold Keeper.SendCoinsFromModuleToModule Keeper.write
    split <;> rfl
  inv_sendToAccount k sender recipient amount := by
    refine ⟨?_, Appends.write _ k _ _ (fun _ => rfl) (fun u h => by simp [pruningStep] at h)⟩
    unfold Keeper.SendCoinsFromModuleToAccount Keeper.write
    split <;> rfl
  inv_addStake k t reputer amount := by
    refine ⟨?_, Appends.write _ k _ _ (fun _ => rfl) (fun u h => by simp [pruningStep] at h)⟩
    unfold Keeper.AddStake Keeper.write
    split <;> rfl

theorem PercentageUntouched.untouched_of_write (k : Keeper) (c : Call) (effect : Keeper → Keeper)
    (heff : ∀ s, (effect s).transcript = s.transcript
      ∧ (effect s).previousPercentageRewardToStakedReputers
        = s.previousPercentageRewardToStakedReputers)
    (hc : ∀ d, c ≠ Call.SetPreviousPercentageRewardToStakedReputers d) :
    PercentageUntouched k (k.write c effect).2 := by
  refine ⟨?_, Appends.write _ k c effect (fun s => (heff s).1)
    (fun d h => hc d (Event.write.inj h))⟩
  unfold Keeper.write
  split
  · rfl
  · exact (heff _).2

theorem PercentageUntouched.driverInvariant : DriverInvariant PercentageUntouched where
  inv_payout :=
    { inv_refl := fun k => ⟨rfl, Appends.appends_refl _ k⟩
      inv_trans := fun a b c h1 h2 => ⟨h2.1.trans h1.1, h1.2.appends_trans h2.2⟩
      inv_sendToModule := fun k _ _ _ =>
        PercentageUntouched.untouched_of_write k _ _ (fun _ => ⟨rfl, rfl⟩) (fun d h => by cases h)
      inv_sendToAccount := fun k _ _ _ =>
        PercentageUntouched.untouched_of_write k _ _ (fun _ => ⟨rfl, rfl⟩) (fun d h => by cases h)
      inv_addStake := fun k _ _ _ =>
        PercentageUntouched.untouched_of_write k _ _ (fun _ => ⟨rfl, rfl⟩) (fun d h => by cases h) }
  inv_scores k s := ⟨rfl, ⟨[], by simp, by simp⟩⟩
  inv_payoutMark k t := ⟨rfl, Appends.mark _ k _ (fun d h => by cases h)⟩
  inv_pruneMark k t := ⟨rfl, Appends.mark _ k _ (fun d h => by cases h)⟩
  inv_deleteNonce k t :=
    PercentageUntouched.untouched_of_write k _ _ (fun _ => ⟨rfl, rfl⟩) (fun d h => by cases h)
  inv_pruneRecords k t b :=
    PercentageUntouched.untouched_of_write k _ _ (fun _ => ⟨rfl, rfl⟩) (fun d h => by cases h)

theorem pruningStep.aboutTopic {T : TopicId} {e : Event} (h : pruningStep T e) :
    aboutTopic T e := by
  rcases h with h | h | h
  · exact Or.inr (Or.inl h)
  · exact Or.inr (Or.inr (Or.inl h))
  · exact Or.inr (Or.inr (Or.inr h))

/-- The loop of `EmitRewards` leaves the reward nonce of a topic that is not
in its list as it is. -/
theorem EmitRewards.loop_rewardNonce (X : External) (moduleParams : Params)
    (topicRewards : DecMap) (T : TopicId) (ts : List TopicId) :
    ∀ (total : Dec) (k : Keeper), T ∉ ts →
      (EmitRewards.loop X moduleParams topicRewards ts total k).2.rewardNonce T
        = k.rewardNonce T := by
  induction ts with
  | nil => intro total k _; rfl
  | cons t rest ih =>
    intro total k hT
    obtain ⟨total1, k1, heq, hc⟩ := EmitRewards.loop_cons_step X moduleParams topicRewards t
      rest total k
    rw [heq, ih total1 k1 (fun h => hT (List.mem_cons_of_mem _ h))]
    rcases hc with ⟨-, rfl⟩ | ⟨-, -, hstep⟩
    · rfl
    · exact hstep.2.1 T (fun h => hT (h ▸ List.mem_cons_self _ _))

/-- A round of the loop of `EmitRewards` on a topic with a reward and a ready
nonce whose participant rewards were generated and whose payout returned
errors: the loop goes on with the rest of the topics from the keeper that the
payout left, and that keeper has the reward nonces of before the round and no
pruning step in its transcript. -/
theorem EmitRewards.loop_cons_payout_errors (X : External) (moduleParams : Params)
    (topicRewards : DecMap) (T : TopicId) (rest : List TopicId) (total : Dec) (k : Keeper)
    (topicReward : Dec) (dist : List TaskRewards) (rr : Dec)
    (hreward : topicRewards.get T = some topicReward)
    (hready : k.nonceReady T = true)
    (hgen : (GenerateRewardsDistributionByTopicParticipant X k T (some topicReward)
      (k.rewardNonce T) moduleParams).1 = .ok (dist, rr))
    (herrors : (payoutRewards X.AccAddressFromBech32
      ((GenerateRewardsDistributionByTopicParticipant X k T (some topicReward)
        (k.rewardNonce T) moduleParams).2.mark (Event.payoutRewards T)) dist).1 ≠ []) :
    EmitRewards.loop X moduleParams topicRewards (T :: rest) total k
      = EmitRewards.loop X moduleParams topicRewards rest (total + rr)
          (payoutRewards X.AccAddressFromBech32
            ((GenerateRewardsDistributionByTopicParticipant X k T (some topicReward)
              (k.rewardNonce T) moduleParams).2.mark (Event.payoutRewards T)) dist).2
    ∧ NoPruning k (payoutRewards X.AccAddressFromBech32
        ((GenerateRewardsDistributionByTopicParticipant X k T (some topicReward)
          (k.rewardNonce T) moduleParams).2.mark (Event.payoutRewards T)) dist).2 := by
  have hf : k.fails (Call.GetTopicRewardNonce T) = false ∧ k.rewardNonce T ≠ 0 := by
    simpa [Keeper.nonceReady] using hready
  have hnonce : k.GetTopicRewardNonce T = (k.rewardNonce T, none) := by
    simp [Keeper.GetTopicRewardNonce, hf.1]
  have hscores := GenerateRewardsDistributionByTopicParticipant_onlyScores X k T
    (some topicReward) (k.rewardNonce T) moduleParams
  rcases hfull : GenerateRewardsDistributionByTopicParticipant X k T (some topicReward)
      (k.rewardNonce T) moduleParams with ⟨res, k1⟩
  rw [hfull] at hgen herrors hscores
  dsimp only at hgen herrors hscores
  subst hgen
  have hpay := payoutRewards.payout_loop_inv NoPruning NoPruning.payoutInvariant
    X.AccAddressFromBech32 dist [] (k1.mark (Event.payoutRewards T))
  rcases hpye : payoutRewards X.AccAddressFromBech32 (k1.mark (Event.payoutRewards T))
      dist with ⟨payoutErrors, k2⟩
  rw [hpye] at herrors
  dsimp only at herrors
  have hlen : payoutErrors.length > 0 := List.length_pos.mpr herrors
  refine ⟨?_, ?_⟩
  · simp only [EmitRewards.loop, hreward, hnonce]
    have hn : ¬ ((none : Option Err).isSome = true ∨ k.rewardNonce T = 0) := by
      simp [hf.2]
    rw [if_neg hn, hfull]
    simp only [Dec.Add, hpye]
    rw [if_pos hlen]
  · have h1 : NoPruning k k1 := by
      obtain ⟨s, rfl⟩ := hscores
      exact ⟨rfl, ⟨[], by simp, by simp⟩⟩
    have h2 : NoPruning k1 (k1.mark (Event.payoutRewards T)) :=
      ⟨rfl, Appends.mark _ k1 _ (fun u h => by simp [pruningStep] at h)⟩
    have h3 : NoPruning (k1.mark (Event.payoutRewards T)) k2 := by
      unfold payoutRewards at hpye
      rw [hpye] at hpay
      exact hpay
    exact NoPruning.payoutInvariant.inv_trans _ _ _
      (NoPruning.payoutInvariant.inv_trans _ _ _ h1 h2) h3

/-- C17: when the loop of `EmitRewards` reaches a topic `T` that has a reward
and a ready nonce, the rewards of its participants are generated and
`payoutRewards` returns a non-empty list of errors, the loop goes on with the
rest of the topics and returns what it returns on them, from the keeper that
the payout left and with the reputer reward of `T` added to the running total;
in that keeper every reward nonce is as before the round and no pruning step
(the marker of the pruning, `DeleteTopicRewardNonce`, `PruneRecordsAfterRewards`)
was invoked for any topic; and when `T` does not occur again in the rest of the
list, no pruning step for `T` is invoked up to the end of the loop and the
reward nonce of `T` at the end of the loop is the one before the round. -/
theorem EmitRewards_payout_errors_skip_pruning (X : External) (moduleParams : Params)
    (topicRewards : DecMap) (T : TopicId) (rest : List TopicId) (total : Dec) (k : Keeper)
    (topicReward : Dec) (dist : List TaskRewards) (rr : Dec)
    (hreward : topicRewards.get T = some topicReward)
    (hready : k.nonceReady T = true)
    (hgen : (GenerateRewardsDistributionByTopicParticipant X k T (some topicReward)
      (k.rewardNonce T) moduleParams).1 = .ok (dist, rr))
    (herrors : (payoutRewards X.AccAddressFromBech32
      ((GenerateRewardsDistributionByTopicParticipant X k T (some topicReward)
        (k.rewardNonce T) moduleParams).2.mark (Event.payoutRewards T)) dist).1 ≠ []) :
    EmitRewards.loop X moduleParams topicRewards (T :: rest) total k
      = EmitRewards.loop X moduleParams topicRewards rest (total + rr)
          (payoutRewards X.AccAddressFromBech32
            ((GenerateRewardsDistributionByTopicParticipant X k T (some topicReward)
              (k.rewardNonce T) moduleParams).2.mark (Event.payoutRewards T)) dist).2
    ∧ (payoutRewards X.AccAddressFromBech32
        ((GenerateRewardsDistributionByTopicParticipant X k T (some topicReward)
          (k.rewardNonce T) moduleParams).2.mark (Event.payoutRewards T)) dist).2.rewardNonce
      = k.rewardNonce
    ∧ (∀ e ∈ k.since (payoutRewards X.AccAddressFromBech32
        ((GenerateRewardsDistributionByTopicParticipant X k T (some topicReward)
          (k.rewardNonce T) moduleParams).2.mark (Event.payoutRewards T)) dist).2,
        ∀ u, e ≠ Event.pruneRecordsAfterRewards u
          ∧ e ≠ Event.write (Call.DeleteTopicRewardNonce u)
          ∧ ∀ b, e ≠ Event.write (Call.PruneRecordsAfterRewards u b))
    ∧ (T ∉ rest →
        (∀ e ∈ k.since (EmitRewards.loop X moduleParams topicRewards (T :: rest) total k).2,
          e ≠ Event.pruneRecordsAfterRewards T
            ∧ e ≠ Event.write (Call.DeleteTopicRewardNonce T)
            ∧ ∀ b, e ≠ Event.write (Call.PruneRecordsAfterRewards T b))
        ∧ (EmitRewards.loop X moduleParams topicRewards (T :: rest) total k).2.rewardNonce T
          = k.rewardNonce T) := by
  obtain ⟨heq, hno⟩ := EmitRewards.loop_cons_payout_errors X moduleParams topicRewards T rest
    total k topicReward dist rr hreward hready hgen herrors
  have hsplit : ∀ (u : TopicId) (e : Event), ¬ pruningStep u e →
      e ≠ Event.pruneRecordsAfterRewards u
        ∧ e ≠ Event.write (Call.DeleteTopicRewardNonce u)
        ∧ ∀ b, e ≠ Event.write (Call.PruneRecordsAfterRewards u b) :=
    fun u e h => ⟨fun h1 => h (Or.inl h1), fun h1 => h (Or.inr (Or.inl h1)),
      fun b h1 => h (Or.inr (Or.inr ⟨b, h1⟩))⟩
  refine ⟨heq, hno.1, fun e he u => hsplit u e (hno.2.of_mem_since he u), fun hT => ?_⟩
  rw [heq]
  refine ⟨fun e he => hsplit T e ?_, ?_⟩
  · have hrest := (EmitRewards.loop_steps X moduleParams topicRewards T rest (total + rr)
      (payoutRewards X.AccAddressFromBech32
        ((GenerateRewardsDistributionByTopicParticipant X k T (some topicReward)
          (k.rewardNonce T) moduleParams).2.mark (Event.payoutRewards T)) dist).2).2
    have hall : Appends (fun e => ¬ pruningStep T e) k
        (EmitRewards.loop X moduleParams topicRewards rest (total + rr)
          (payoutRewards X.AccAddressFromBech32
            ((GenerateRewardsDistributionByTopicParticipant X k T (some topicReward)
              (k.rewardNonce T) moduleParams).2.mark (Event.payoutRewards T)) dist).2).2 :=
      (hno.2.appends_mono (fun e h => h T)).appends_trans
        (hrest.appends_mono (fun e h hp => hT (h hp.aboutTopic).1))
    exact hall.of_mem_since he
  · rw [EmitRewards.loop_rewardNonce X moduleParams topicRewards T rest _ _ hT]
    exact congrFun hno.1 T

theorem EmitRewards_payout_errors_skip_pruning_witness :
    DecMap.get [(1, 20), (2, 20)] 1 = some 20
    ∧ stakeFailsKeeper.nonceReady 1 = true
    ∧ (GenerateRewardsDistributionByTopicParticipant exampleExternal stakeFailsKeeper 1
        (some 20) (stakeFailsKeeper.rewardNonce 1) exampleParams).1
      = .ok ([exampleReputerReward,
          { Address := "w", Reward := 10, TopicId := 1,
            RewardType := TaskRewardType.WorkerInferenceRewardType }], 10)
    ∧ (payoutRewards exampleExternal.AccAddressFromBech32
        ((GenerateRewardsDistributionByTopicParticipant exampleExternal stakeFailsKeeper 1
          (some 20) (stakeFailsKeeper.rewardNonce 1) exampleParams).2.mark
            (Event.payoutRewards 1))
        [exampleReputerReward,
          { Address := "w", Reward := 10, TopicId := 1,
            RewardType := TaskRewardType.WorkerInferenceRewardType }]).1
      = [Err.keeper (Call.AddStake 1 "r" 10)]
    ∧ (EmitRewards.loop exampleExternal exampleParams [(1, 20), (2, 20)] [1, 2] 0
        stakeFailsKeeper).1 = .ok 20
    ∧ Event.payoutRewards 1 ∈ stakeFailsKeeper.since
        (EmitRewards.loop exampleExternal exampleParams [(1, 20), (2, 20)] [1, 2] 0
          stakeFailsKeeper).2
    ∧ Event.pruneRecordsAfterRewards 2 ∈ stakeFailsKeeper.since
        (EmitRewards.loop exampleExternal exampleParams [(1, 20), (2, 20)] [1, 2] 0
          stakeFailsKeeper).2
    ∧ (∀ e ∈ stakeFailsKeeper.since
          (EmitRewards.loop exampleExternal exampleParams [(1, 20), (2, 20)] [1, 2] 0
            stakeFailsKeeper).2,
        e ≠ Event.pruneRecordsAfterRewards 1
          ∧ e ≠ Event.write (Call.DeleteTopicRewardNonce 1)
          ∧ ∀ b, e ≠ Event.write (Call.PruneRecordsAfterRewards 1 b))
    ∧ (EmitRewards.loop exampleExternal exampleParams [(1, 20), (2, 20)] [1, 2] 0
        stakeFailsKeeper).2.rewardNonce 1 = stakeFailsKeeper.rewardNonce 1
    ∧ (EmitRewards.loop exampleExternal exampleParams [(1, 20), (2, 20)] [1, 2] 0
        stakeFailsKeeper).2.rewardNonce 2 = 0 := by
  have h := EmitRewards_payout_errors_skip_pruning exampleExternal exampleParams
    [(1, 20), (2, 20)] 1 [2] 0 stakeFailsKeeper 20
    [exampleReputerReward,
      { Address := "w", Reward := 10, TopicId := 1,
        RewardType := TaskRewardType.WorkerInferenceRewardType }] 10
    (by decide!) (by decide!) (by decide!) (by decide!)
  exact ⟨by decide!, by decide!, by decide!, by decide!, by decide!, by decide!, by decide!,
    (h.2.2.2 (by decide!)).1, (h.2.2.2 (by decide!)).2, by decide!⟩

/-- The end of `EmitRewards` returns the keeper it was given when the height,
converted to `uint64`, is not a multiple of `BlocksPerMonth`. -/
theorem EmitRewards.monthly_off_boundary (k : Keeper) (moduleParams : Params)
    (blockHeight : BlockHeight) (totalReward total : Dec)
    (hoff : (blockHeight % 2 ^ 64).toNat % moduleParams.BlocksPerMonth ≠ 0) :
    (EmitRewards.monthly k moduleParams blockHeight totalReward total).2 = k := by
  unfold EmitRewards.monthly
  rw [if_neg hoff]
  split_ifs <;> rfl

/-- On a block whose height, converted to `uint64`, is not a multiple of the
`BlocksPerMonth` of the stored parameters, `EmitRewards` neither changes the
stored percentage nor invokes its write. -/
theorem EmitRewards_percentageUntouched (X : External) (k : Keeper)
    (blockHeight : BlockHeight) (weights : DecMap) (sumWeight : Dec) (totalRevenue : Int)
    (hoff : (blockHeight % 2 ^ 64).toNat % k.params.BlocksPerMonth ≠ 0) :
    PercentageUntouched k (EmitRewards X k blockHeight weights sumWeight totalRevenue).2 := by
  have hI := PercentageUntouched.driverInvariant
  unfold EmitRewards
  rcases hT : k.GetTotalRewardToDistribute with e | totalReward
  · exact hI.inv_payout.inv_refl k
  · dsimp only
    split
    · exact hI.inv_payout.inv_refl k
    · rcases hP : k.GetParams with e | moduleParams
      · exact hI.inv_payout.inv_refl k
      · have hparams : moduleParams = k.params := by
          unfold Keeper.GetParams Keeper.read at hP
          split at hP
          · cases hP
          · exact (Except.ok.inj hP).symm
        subst hparams
        dsimp only
        have hW := GenerateRewardsDistributionByTopic_writesOnly X.SkimTopTopicsByWeightDesc k
          k.params.MaxTopicsPerBlock blockHeight totalReward weights (GetSortedKeys weights)
          sumWeight totalRevenue
        have h1 : PercentageUntouched k (GenerateRewardsDistributionByTopic
            X.SkimTopTopicsByWeightDesc k k.params.MaxTopicsPerBlock blockHeight totalReward
            weights (GetSortedKeys weights) sumWeight totalRevenue).2 := by
          refine ⟨hW.1.previousPercentage, ?_⟩
          obtain ⟨evs, htr, hall⟩ := hW.2.1
          refine ⟨evs, htr, fun e he d hd => ?_⟩
          obtain ⟨t, -, hmem⟩ := hall e he
          subst hd
          simp [inactivationEvents] at hmem
        rcases hG : GenerateRewardsDistributionByTopic X.SkimTopTopicsByWeightDesc k
            k.params.MaxTopicsPerBlock blockHeight totalReward weights (GetSortedKeys weights)
            sumWeight totalRevenue with ⟨e | _ | topicRewards, k1⟩
        · rw [hG] at h1; exact h1
        · rw [hG] at h1; exact h1
        · rw [hG] at h1
          dsimp only at h1 ⊢
          have h2 := EmitRewards.driver_loop_inv PercentageUntouched hI X k.params topicRewards
            (GetSortedKeys weights) 0 k1
          rcases hL : EmitRewards.loop X k.params topicRewards (GetSortedKeys weights) 0 k1
            with ⟨e | total, k2⟩
          · rw [hL] at h2
            exact hI.inv_payout.inv_trans _ _ _ h1 h2
          · rw [hL] at h2
            dsimp only at h2 ⊢
            rw [EmitRewards.monthly_off_boundary k2 k.params blockHeight totalReward total hoff]
            exact hI.inv_payout.inv_trans _ _ _ h1 h2

/-- C20: on a block whose height is in the non-negative `int64` range and is
not a multiple of the `BlocksPerMonth` of the stored parameters, the stored
`PreviousPercentageRewardToStakedReputers` after `EmitRewards` is the one
before it, and `EmitRewards` does not invoke
`SetPreviousPercentageRewardToStakedReputers`. -/
theorem EmitRewards_percentage_only_on_boundary (X : External) (k : Keeper)
    (blockHeight : BlockHeight) (weights : DecMap) (sumWeight : Dec) (totalRevenue : Int)
    (hlo : 0 ≤ blockHeight) (hhi : blockHeight < 2 ^ 63)
    (hoff : blockHeight % (k.params.BlocksPerMonth : Int) ≠ 0) :
    (EmitRewards X k blockHeight weights sumWeight
        totalRevenue).2.previousPercentageRewardToStakedReputers
      = k.previousPercentageRewardToStakedReputers
    ∧ ∀ d, Event.write (Call.SetPreviousPercentageRewardToStakedReputers d)
        ∉ k.since (EmitRewards X k blockHeight weights sumWeight totalRevenue).2 := by
  have hu : (blockHeight % 2 ^ 64).toNat % k.params.BlocksPerMonth ≠ 0 := by
    have h1 : blockHeight % 2 ^ 64 = blockHeight :=
      Int.emod_eq_of_lt hlo (lt_trans hhi (by norm_num))
    rw [h1]
    intro h0
    apply hoff
    have h2 : ((blockHeight.toNat % k.params.BlocksPerMonth : Nat) : Int) = 0 := by
      rw [h0]; rfl
    rw [Int.natCast_mod, Int.toNat_of_nonneg hlo] at h2
    exact h2
  have h := EmitRewards_percentageUntouched X k blockHeight weights sumWeight totalRevenue hu
  exact ⟨h.1, fun d hmem => h.2.of_mem_since hmem d rfl⟩

theorem EmitRewards_percentage_only_on_boundary_witness :
    (0 : Int) ≤ 5 ∧ (5 : Int) < 2 ^ 63
    ∧ (5 : Int) % (storedPercentageKeeper.params.BlocksPerMonth : Int) ≠ 0
    ∧ storedPercentageKeeper.previousPercentageRewardToStakedReputers = 1 / 4
    ∧ Event.payoutRewards 1 ∈ storedPercentageKeeper.since
        (EmitRewards exampleExternal storedPercentageKeeper 5 [(1, 3), (2, 1)] 4 0).2
    ∧ (EmitRewards exampleExternal storedPercentageKeeper 200 [(1, 3), (2, 1)] 4
        0).2.previousPercentageRewardToStakedReputers = 1 / 2
    ∧ (EmitRewards exampleExternal storedPercentageKeeper 5 [(1, 3), (2, 1)] 4
        0).2.previousPercentageRewardToStakedReputers
      = storedPercentageKeeper.previousPercentageRewardToStakedReputers
    ∧ ∀ d, Event.write (Call.SetPreviousPercentageRewardToStakedReputers d)
        ∉ storedPercentageKeeper.since
          (EmitRewards exampleExternal storedPercentageKeeper 5 [(1, 3), (2, 1)] 4 0).2 :=
  ⟨by decide, by decide, by decide!, by decide!, by decide!, by decide!,
    EmitRewards_percentage_only_on_boundary exampleExternal storedPercentageKeeper 5
      [(1, 3), (2, 1)] 4 0 (by decide) (by decide) (by decide!)⟩

/-! ### The monthly percentage -/

/-- A round of the loop of `EmitRewards`: the loop goes on with the rest of
the topics from the keeper that the round alone leaves, with the reputer reward
of the round added to the running total. -/
theorem EmitRewards.loop_cons_total (X : External) (moduleParams : Params)
    (topicRewards : DecMap) (t : TopicId) (rest : List TopicId) (total : Dec) (k : Keeper) :
    EmitRewards.loop X moduleParams topicRewards (t :: rest) total k
      = EmitRewards.loop X moduleParams topicRewards rest
          (total + reputerRewardOf X moduleParams topicRewards t k)
          (EmitRewards.loop X moduleParams topicRewards [t] 0 k).2 := by
  simp only [EmitRewards.loop, reputerRewardOf]
  rcases hr : topicRewards.get t with _ | topicReward
  · simp
  · dsimp only
    by_cases hn : (k.GetTopicRewardNonce t).2.isSome = true ∨ (k.GetTopicRewardNonce t).1 = 0
    · have hready : k.nonceReady t = false := (Keeper.nonceReady_eq_false_iff k t).mp hn
      rw [if_pos hn, if_pos hn]
      simp [hready]
    · have hready : k.nonceReady t = true := by
        rw [Keeper.nonceReady_eq_false_iff] at hn
        simpa using hn
      have hf : k.fails (Call.GetTopicRewardNonce t) = false ∧ k.rewardNonce t ≠ 0 := by
        simpa [Keeper.nonceReady] using hready
      have hnonce : (k.GetTopicRewardNonce t).1 = k.rewardNonce t := by
        simp [Keeper.GetTopicRewardNonce, hf.1]
      rw [if_neg hn, if_neg hn, hnonce]
      simp only [hready, if_true]
      rcases hpe : GenerateRewardsDistributionByTopicParticipant X k t (some topicReward)
          (k.rewardNonce t) moduleParams with ⟨e | ⟨dist, rr⟩, k1⟩
      · simp
      · simp only [Dec.Add]
        rcases hpye : payoutRewards X.AccAddressFromBech32 (k1.mark (Event.payoutRewards t))
            dist with ⟨payoutErrors, k2⟩
        dsimp only
        by_cases hlen : payoutErrors.length > 0
        · rw [if_pos hlen, if_pos hlen]
        · rw [if_neg hlen, if_neg hlen]
          rcases hpre : pruneRecordsAfterRewards (k2.mark (Event.pruneRecordsAfterRewards t))
              moduleParams.MinEpochLengthRecordLimit t (k.rewardNonce t) with ⟨_ | e, k3⟩
          · rfl
          · rfl

/-- C22 (counterexample): at block 200, on the monthly boundary, with the
weights 3 and 1 and the total reward 400, the topic rewards are 300 and 100 and
the reputer task rewards 150 and 50. The payout of topic 1 returns an error
(`AddStake` fails) and its pruning is skipped, yet `EmitRewards` returns nil
and stores the percentage (150 + 50) / 400 = 1/2, not 50 / 400: the reputer
reward of topic 1 is in the total. -/
theorem EmitRewards_total_counts_failed_payout :
    (GenerateRewardsDistributionByTopic exampleExternal.SkimTopTopicsByWeightDesc
        payoutFailsKeeper payoutFailsKeeper.params.MaxTopicsPerBlock 200 400
        [(1, 3), (2, 1)] (GetSortedKeys [(1, 3), (2, 1)]) 4 0).1
      = .ok (some [(2, 100), (1, 300)])
    ∧ (GenerateRewardsDistributionByTopicParticipant exampleExternal
        (GenerateRewardsDistributionByTopic exampleExternal.SkimTopTopicsByWeightDesc
          payoutFailsKeeper payoutFailsKeeper.params.MaxTopicsPerBlock 200 400
          [(1, 3), (2, 1)] (GetSortedKeys [(1, 3), (2, 1)]) 4 0).2
        1 (some 300) 10 payoutFailsKeeper.params).1
      = .ok ([{ Address := "r", Reward := 150, TopicId := 1,
                RewardType := TaskRewardType.ReputerRewardType },
              { Address := "w", Reward := 150, TopicId := 1,
                RewardType := TaskRewardType.WorkerInferenceRewardType }], 150)
    ∧ (payoutRewards exampleExternal.AccAddressFromBech32
        ((GenerateRewardsDistributionByTopicParticipant exampleExternal
          (GenerateRewardsDistributionByTopic exampleExternal.SkimTopTopicsByWeightDesc
            payoutFailsKeeper payoutFailsKeeper.params.MaxTopicsPerBlock 200 400
            [(1, 3), (2, 1)] (GetSortedKeys [(1, 3), (2, 1)]) 4 0).2
          1 (some 300) 10 payoutFailsKeeper.params).2.mark (Event.payoutRewards 1))
        [{ Address := "r", Reward := 150, TopicId := 1,
           RewardType := TaskRewardType.ReputerRewardType },
         { Address := "w", Reward := 150, TopicId := 1,
           RewardType := TaskRewardType.WorkerInferenceRewardType }]).1
      = [Err.keeper (Call.AddStake 1 "r" 150)]
    ∧ Event.payoutRewards 1 ∈ payoutFailsKeeper.since
        (EmitRewards exampleExternal payoutFailsKeeper 200 [(1, 3), (2, 1)] 4 0).2
    ∧ Event.pruneRecordsAfterRewards 1 ∉ payoutFailsKeeper.since
        (EmitRewards exampleExternal payoutFailsKeeper 200 [(1, 3), (2, 1)] 4 0).2
    ∧ Event.pruneRecordsAfterRewards 2 ∈ payoutFailsKeeper.since
        (EmitRewards exampleExternal payoutFailsKeeper 200 [(1, 3), (2, 1)] 4 0).2
    ∧ (EmitRewards.loop exampleExternal payoutFailsKeeper.params [(2, 100), (1, 300)]
        (GetSortedKeys [(1, 3), (2, 1)]) 0
        (GenerateRewardsDistributionByTopic exampleExternal.SkimTopTopicsByWeightDesc
          payoutFailsKeeper payoutFailsKeeper.params.MaxTopicsPerBlock 200 400
          [(1, 3), (2, 1)] (GetSortedKeys [(1, 3), (2, 1)]) 4 0).2).1 = .ok 200
    ∧ (EmitRewards exampleExternal payoutFailsKeeper 200 [(1, 3), (2, 1)] 4 0).1 = .ok ()
    ∧ (EmitRewards exampleExternal payoutFailsKeeper 200 [(1, 3), (2, 1)] 4
        0).2.previousPercentageRewardToStakedReputers = (150 + 50) / 400
    ∧ (EmitRewards exampleExternal payoutFailsKeeper 200 [(1, 3), (2, 1)] 4
        0).2.previousPercentageRewardToStakedReputers ≠ 50 / 400 := by
  refine ⟨by decide!, by decide!, by decide!, by decide!, by decide!, by decide!, by decide!,
    by decide!, by decide!, by decide!⟩

/-- C22 (amended): the running total that the loop of `EmitRewards` returns,
which is the one used for the monthly percentage, is the sum over the topics of
the list, in order, of the reputer task reward of each topic that has a reward,
a readable non-zero reward nonce and whose participant rewards are generated;
the reward is added before the payout and the pruning, whatever they return,
and a topic without a reward, without a ready nonce or whose participant
rewards are not generated adds nothing. -/
theorem EmitRewards_loop_reputer_total (X : External) (moduleParams : Params)
    (topicRewards : DecMap) :
    (∀ (ts : List TopicId) (total : Dec) (k : Keeper),
      (EmitRewards.loop X moduleParams topicRewards ts total k).1
        = .ok (total + accumulatedReputerRewards X moduleParams topicRewards ts k))
    ∧ (∀ (t : TopicId) (rest : List TopicId) (total : Dec) (k : Keeper),
        EmitRewards.loop X moduleParams topicRewards (t :: rest) total k
          = EmitRewards.loop X moduleParams topicRewards rest
              (total + reputerRewardOf X moduleParams topicRewards t k)
              (EmitRewards.loop X moduleParams topicRewards [t] 0 k).2)
    ∧ (∀ (t : TopicId) (k : Keeper) (topicReward : Dec) (dist : List TaskRewards) (rr : Dec),
        topicRewards.get t = some topicReward → k.nonceReady t = true →
        (GenerateRewardsDistributionByTopicParticipant X k t (some topicReward)
          (k.rewardNonce t) moduleParams).1 = .ok (dist, rr) →
        reputerRewardOf X moduleParams topicRewards t k = rr)
    ∧ (∀ (t : TopicId) (k : Keeper),
        (topicRewards.get t = none ∨ k.nonceReady t = false
          ∨ ∃ topicReward e, topicRewards.get t = some topicReward
            ∧ (GenerateRewardsDistributionByTopicParticipant X k t (some topicReward)
              (k.rewardNonce t) moduleParams).1 = .error e) →
        reputerRewardOf X moduleParams topicRewards t k = 0) := by
  refine ⟨?_, EmitRewards.loop_cons_total X moduleParams topicRewards, ?_, ?_⟩
  · intro ts
    induction ts with
    | nil => intro total k; simp [EmitRewards.loop, accumulatedReputerRewards]
    | cons t rest ih =>
      intro total k
      rw [EmitRewards.loop_cons_total, ih, accumulatedReputerRewards, add_assoc]
  · intro t k topicReward dist rr hr hn hg
    simp [reputerRewardOf, hr, hn, hg]
  · intro t k h
    rcases h with h | h | ⟨topicReward, e, hr, hg⟩
    · simp [reputerRewardOf, h]
    · unfold reputerRewardOf
      split
      · rfl
      · simp [h]
    · unfold reputerRewardOf
      rw [hr]
      dsimp only
      split
      · rw [hg]
      · rfl

/-! ### Errors of the participant rewards -/

/-- C23 (counterexample): the computation of the reputer task reward of every
topic fails with a division by zero; `EmitRewards` returns nil, not an error:
the resets of the fee revenue of the two winners stay, and no payout and no
pruning is run. -/
theorem EmitRewards_arithmetic_error_returns_nil :
    (GenerateRewardsDistributionByTopicParticipant divideByZeroExternal exampleKeeper 1
        (some 300) (exampleKeeper.rewardNonce 1) exampleKeeper.params).1
      = .error Err.divideByZero
    ∧ (GenerateRewardsDistributionByTopicParticipant divideByZeroExternal exampleKeeper 2
        (some 100) (exampleKeeper.rewardNonce 2) exampleKeeper.params).1
      = .error Err.divideByZero
    ∧ (EmitRewards divideByZeroExternal exampleKeeper 5 [(1, 3), (2, 1)] 4 0).1 = .ok ()
    ∧ exampleKeeper.since (EmitRewards divideByZeroExternal exampleKeeper 5 [(1, 3), (2, 1)] 4 0).2
      = [Event.write (Call.ResetTopicFeeRevenue 1 5),
         Event.write (Call.ResetTopicFeeRevenue 2 5)]
    ∧ (EmitRewards divideByZeroExternal exampleKeeper 5 [(1, 3), (2, 1)] 4 0).2.feeRevenue 1
      = { Epoch := 5, Revenue := 0 } := by
  refine ⟨by decide!, by decide!, by decide!, by decide!, by decide!⟩

theorem GenerateRewardsDistributionByTopic_error_propagates (X : External) (k : Keeper)
    (blockHeight : BlockHeight) (weights : DecMap) (sumWeight : Dec) (totalRevenue : Int)
    (totalReward : Dec) (e : Err)
    (htotal : k.GetTotalRewardToDistribute = .ok totalReward) (hne : totalReward ≠ 0)
    (hparams : k.fails Call.GetParams = false)
    (herr : (GenerateRewardsDistributionByTopic X.SkimTopTopicsByWeightDesc k
      k.params.MaxTopicsPerBlock blockHeight totalReward weights (GetSortedKeys weights)
      sumWeight totalRevenue).1 = .error e) :
    (EmitRewards X k blockHeight weights sumWeight totalRevenue).1 = .error e := by
  unfold EmitRewards
  rw [htotal]
  simp only [if_neg hne, Keeper.GetParams_ok k hparams]
  rcases hG : GenerateRewardsDistributionByTopic X.SkimTopTopicsByWeightDesc k
      k.params.MaxTopicsPerBlock blockHeight totalReward weights (GetSortedKeys weights)
      sumWeight totalRevenue with ⟨e1 | _ | topicRewards, k1⟩
  · rw [hG] at herr
    dsimp only at herr ⊢
    cases herr
    rfl
  · rw [hG] at herr
    cases herr
  · rw [hG] at herr
    cases herr

theorem EmitRewards.loop_total_eq (X : External) (moduleParams : Params)
    (topicRewards : DecMap) (ts : List TopicId) :
    ∀ (total : Dec) (k : Keeper),
      (EmitRewards.loop X moduleParams topicRewards ts total k).1
        = .ok (total + accumulatedReputerRewards X moduleParams topicRewards ts k) := by
  induction ts with
  | nil => intro total k; simp [EmitRewards.loop, accumulatedReputerRewards]
  | cons t rest ih =>
    intro total k
    rw [EmitRewards.loop_cons_total, ih, accumulatedReputerRewards, add_assoc]

/-- C23 (amended): an error of the selection of the topics
(`GenerateRewardsDistributionByTopic`, with its weight and reward arithmetic)
is returned by `EmitRewards`; an error of
`GenerateRewardsDistributionByTopicParticipant` on a topic with a reward and a
ready nonce, arithmetic or not, is not: the loop goes on with the rest of the
topics with the same running total, from a keeper that differs at most in the
decimal records, with no payout and no pruning for the topic, and the loop
itself never returns an error. -/
theorem EmitRewards_generation_error_skips_topic (X : External) (moduleParams : Params)
    (topicRewards : DecMap) (T : TopicId) (rest : List TopicId) (total : Dec) (k : Keeper)
    (topicReward : Dec) (e : Err)
    (hreward : topicRewards.get T = some topicReward)
    (hready : k.nonceReady T = true)
    (hgen : (GenerateRewardsDistributionByTopicParticipant X k T (some topicReward)
      (k.rewardNonce T) moduleParams).1 = .error e) :
    EmitRewards.loop X moduleParams topicRewards (T :: rest) total k
      = EmitRewards.loop X moduleParams topicRewards rest total
          (GenerateRewardsDistributionByTopicParticipant X k T (some topicReward)
            (k.rewardNonce T) moduleParams).2
    ∧ (∃ s, (GenerateRewardsDistributionByTopicParticipant X k T (some topicReward)
          (k.rewardNonce T) moduleParams).2 = { k with scores := s })
    ∧ (∃ total1, (EmitRewards.loop X moduleParams topicRewards (T :: rest) total k).1
        = .ok total1)
    ∧ ∀ (k0 : Keeper) (blockHeight : BlockHeight) (weights : DecMap) (sumWeight : Dec)
        (totalRevenue : Int) (totalReward : Dec) (e0 : Err),
        k0.GetTotalRewardToDistribute = .ok totalReward → totalReward ≠ 0 →
        k0.fails Call.GetParams = false →
        (GenerateRewardsDistributionByTopic X.SkimTopTopicsByWeightDesc k0
          k0.params.MaxTopicsPerBlock blockHeight totalReward weights (GetSortedKeys weights)
          sumWeight totalRevenue).1 = .error e0 →
        (EmitRewards X k0 blockHeight weights sumWeight totalRevenue).1 = .error e0 := by
  have hf : k.fails (Call.GetTopicRewardNonce T) = false ∧ k.rewardNonce T ≠ 0 := by
    simpa [Keeper.nonceReady] using hready
  have hnonce : k.GetTopicRewardNonce T = (k.rewardNonce T, none) := by
    simp [Keeper.GetTopicRewardNonce, hf.1]
  have hscores := GenerateRewardsDistributionByTopicParticipant_onlyScores X k T
    (some topicReward) (k.rewardNonce T) moduleParams
  refine ⟨?_, hscores, ?_, fun k0 blockHeight weights sumWeight totalRevenue totalReward e0
    h1 h2 h3 h4 => GenerateRewardsDistributionByTopic_error_propagates X k0 blockHeight
      weights sumWeight totalRevenue totalReward e0 h1 h2 h3 h4⟩
  · rcases hfull : GenerateRewardsDistributionByTopicParticipant X k T (some topicReward)
        (k.rewardNonce T) moduleParams with ⟨res, k1⟩
    rw [hfull] at hgen
    dsimp only at hgen
    subst hgen
    simp only [EmitRewards.loop, hreward, hnonce]
    have hn : ¬ ((none : Option Err).isSome = true ∨ k.rewardNonce T = 0) := by
      simp [hf.2]
    rw [if_neg hn, hfull]
  · exact ⟨_, EmitRewards.loop_total_eq X moduleParams topicRewards (T :: rest) total k⟩

theorem EmitRewards_generation_error_skips_topic_witness :
    DecMap.get [(2, 100), (1, 300)] 1 = some 300
    ∧ exampleKeeper.nonceReady 1 = true
    ∧ (GenerateRewardsDistributionByTopicParticipant divideByZeroExternal exampleKeeper 1
        (some 300) (exampleKeeper.rewardNonce 1) exampleParams).1 = .error Err.divideByZero
    ∧ EmitRewards.loop divideByZeroExternal exampleParams [(2, 100), (1, 300)] (1 :: [2]) 0
        exampleKeeper
      = EmitRewards.loop divideByZeroExternal exampleParams [(2, 100), (1, 300)] [2] 0
          (GenerateRewardsDistributionByTopicParticipant divideByZeroExternal exampleKeeper 1
            (some 300) (exampleKeeper.rewardNonce 1) exampleParams).2
    ∧ (EmitRewards.loop divideByZeroExternal exampleParams [(2, 100), (1, 300)] (1 :: [2]) 0
        exampleKeeper).1 = .ok 0
    ∧ exampleKeeper.since
        (EmitRewards.loop divideByZeroExternal exampleParams [(2, 100), (1, 300)] (1 :: [2]) 0
          exampleKeeper).2 = [] := by
  have h := EmitRewards_generation_error_skips_topic divideByZeroExternal exampleParams
    [(2, 100), (1, 300)] 1 [2] 0 exampleKeeper 300 Err.divideByZero (by decide!) (by decide!)
    (by decide!)
  exact ⟨by decide!, by decide!, by decide!, h.1, by decide!, by decide!⟩

/-! ### Emission of the mint module -/

theorem Dec.TruncateInt_eq_floor (x : Dec) (hx : 0 ≤ x) : Dec.TruncateInt x = ⌊x⌋ :=
  Dec.SdkIntTrim_eq_floor x hx

/-- C26: for a non-negative emission per unit of staked token and a
non-negative number of staked tokens, `GetTotalEmissionPerTimestep` is their
product as an integer: it is the product itself when the product is an integer
(as for a whole emission rate), and otherwise the product truncated, not
negative, at most the product and less than one below it. -/
theorem GetTotalEmissionPerTimestep_product (rewardEmissionPerUnitStakedToken : Dec)
    (numStakedTokens : Int) (he : 0 ≤ rewardEmissionPerUnitStakedToken)
    (hn : 0 ≤ numStakedTokens) :
    (∀ m : Int, rewardEmissionPerUnitStakedToken * (numStakedTokens : Dec) = (m : Dec) →
      GetTotalEmissionPerTimestep rewardEmissionPerUnitStakedToken numStakedTokens = m)
    ∧ (∀ e : Int, rewardEmissionPerUnitStakedToken = (e : Dec) →
      GetTotalEmissionPerTimestep rewardEmissionPerUnitStakedToken numStakedTokens
        = e * numStakedTokens)
    ∧ 0 ≤ GetTotalEmissionPerTimestep rewardEmissionPerUnitStakedToken numStakedTokens
    ∧ ((GetTotalEmissionPerTimestep rewardEmissionPerUnitStakedToken numStakedTokens : Int)
        : Dec) ≤ rewardEmissionPerUnitStakedToken * (numStakedTokens : Dec)
    ∧ rewardEmissionPerUnitStakedToken * (numStakedTokens : Dec)
      < ((GetTotalEmissionPerTimestep rewardEmissionPerUnitStakedToken numStakedTokens : Int)
        : Dec) + 1 := by
  have hprod : (0 : Dec) ≤ rewardEmissionPerUnitStakedToken * (numStakedTokens : Dec) :=
    mul_nonneg he (by exact_mod_cast hn)
  have hfloor : GetTotalEmissionPerTimestep rewardEmissionPerUnitStakedToken numStakedTokens
      = ⌊rewardEmissionPerUnitStakedToken * (numStakedTokens : Dec)⌋ :=
    Dec.TruncateInt_eq_floor _ hprod
  have hint : ∀ m : Int, rewardEmissionPerUnitStakedToken * (numStakedTokens : Dec) = (m : Dec) →
      GetTotalEmissionPerTimestep rewardEmissionPerUnitStakedToken numStakedTokens = m := by
    intro m hm
    rw [hfloor, hm, Int.floor_intCast]
  refine ⟨hint, ?_, ?_, ?_, ?_⟩
  · intro e hE
    apply hint
    rw [hE]
    push_cast
    rfl
  · rw [hfloor]
    exact Int.floor_nonneg.mpr hprod
  · rw [hfloor]
    exact Int.floor_le _
  · rw [hfloor]
    exact Int.lt_floor_add_one _

theorem GetTotalEmissionPerTimestep_product_witness :
    (0 : Dec) ≤ 5 ∧ (0 : Int) ≤ 100
    ∧ GetTotalEmissionPerTimestep 5 100 = 500
    ∧ GetTotalEmissionPerTimestep (5 / 2) 3 = 7
    ∧ (∀ e : Int, (5 : Dec) = (e : Dec) → GetTotalEmissionPerTimestep 5 100 = e * 100) :=
  ⟨by decide!, by decide, by decide!, by decide!,
    (GetTotalEmissionPerTimestep_product 5 100 (by decide!) (by decide)).2.1⟩

/-! ### Order of the payout list -/

theorem andThen_ok {α β : Type} (r : Except Err α × Keeper)
    (f : α → Keeper → Except Err β × Keeper) (b : β)
    (h : (andThen r f).1 = .ok b) :
    ∃ a, r.1 = .ok a ∧ (f a r.2).1 = .ok b := by
  rcases r with ⟨e | a, k⟩
  · simp [andThen] at h
  · exact ⟨a, rfl, h⟩

/-- C27: when `GenerateRewardsDistributionByTopicParticipant` succeeds, the
list it returns is the list returned by `GetRewardPerReputer`, followed by the
list returned by `GetRewardPerWorker` for the inference task, followed by the
list returned by `GetRewardPerWorker` for the forecasting task, each as it was
returned, and the second result is the reputer task reward that
`GetRewardPerReputer` was given. -/
theorem GenerateRewardsDistributionByTopicParticipant_order (X : External) (k : Keeper)
    (topicId : TopicId) (topicReward : Dec) (blockHeight : BlockHeight)
    (moduleParams : Params) (dist : List TaskRewards) (rr : Dec)
    (h : (GenerateRewardsDistributionByTopicParticipant X k topicId (some topicReward)
      blockHeight moduleParams).1 = .ok (dist, rr)) :
    ∃ (kr : Keeper) (reputers inferers forecasters : List String)
      (reputersRewardFractions inferersRewardFractions forecastersRewardFractions : List Dec)
      (taskInferenceReward taskForecastingReward : Dec)
      (reputerRewards inferenceRewards forecastRewards : List TaskRewards),
      (X.GetRewardPerReputer kr topicId rr reputers reputersRewardFractions).1
        = .ok reputerRewards
      ∧ X.GetRewardPerWorker topicId TaskRewardType.WorkerInferenceRewardType
          taskInferenceReward inferers inferersRewardFractions = .ok inferenceRewards
      ∧ X.GetRewardPerWorker topicId TaskRewardType.WorkerForecastRewardType
          taskForecastingReward forecasters forecastersRewardFractions = .ok forecastRewards
      ∧ dist = reputerRewards ++ inferenceRewards ++ forecastRewards
      ∧ dist.take reputerRewards.length = reputerRewards
      ∧ (dist.drop reputerRewards.length).take inferenceRewards.length = inferenceRewards
      ∧ dist.drop (reputerRewards.length + inferenceRewards.length) = forecastRewards := by
  unfold GenerateRewardsDistributionByTopicParticipant at h
  dsimp only at h
  obtain ⟨bundles, -, h⟩ := andThen_ok _ _ _ h
  obtain ⟨lossBundles, -, h⟩ := andThen_ok _ _ _ h
  obtain ⟨reputerScores, -, h⟩ := andThen_ok _ _ _ h
  obtain ⟨infererScores, -, h⟩ := andThen_ok _ _ _ h
  obtain ⟨forecasterScores, -, h⟩ := andThen_ok _ _ _ h
  obtain ⟨reputersAndFractions, -, h⟩ := andThen_ok _ _ _ h
  obtain ⟨reputerEntropy, -, h⟩ := andThen_ok _ _ _ h
  obtain ⟨inferersAndFractions, -, h⟩ := andThen_ok _ _ _ h
  obtain ⟨inferenceEntropy, -, h⟩ := andThen_ok _ _ _ h
  obtain ⟨forecastersAndFractions, -, h⟩ := andThen_ok _ _ _ h
  obtain ⟨forecastingEntropy, -, h⟩ := andThen_ok _ _ _ h
  obtain ⟨taskReputerReward, -, h⟩ := andThen_ok _ _ _ h
  obtain ⟨taskInferenceReward, -, h⟩ := andThen_ok _ _ _ h
  obtain ⟨taskForecastingReward, -, h⟩ := andThen_ok _ _ _ h
  obtain ⟨reputerRewards, hrep, h⟩ := andThen_ok _ _ _ h
  obtain ⟨inferenceRewards, hinf, h⟩ := andThen_ok _ _ _ h
  obtain ⟨forecastRewards, hfor, h⟩ := andThen_ok _ _ _ h
  dsimp only at h hrep hinf hfor
  have hpair := Except.ok.inj h
  have hd : dist = reputerRewards ++ inferenceRewards ++ forecastRewards := by
    have := congrArg Prod.fst hpair
    simpa using this.symm
  have hr : taskReputerReward = rr := congrArg Prod.snd hpair
  subst hr
  refine ⟨_, _, _, _, _, _, _, _, _, reputerRewards, inferenceRewards, forecastRewards,
    hrep, hinf, hfor, hd, ?_, ?_, ?_⟩
  · rw [hd, List.append_assoc, List.take_left]
  · rw [hd, List.append_assoc, List.drop_left, List.take_left]
  · rw [hd, ← List.length_append, List.drop_left]

theorem GenerateRewardsDistributionByTopicParticipant_order_witness :
    (GenerateRewardsDistributionByTopicParticipant forecastExternal exampleKeeper 1 (some 20)
        10 exampleParams).1
      = .ok ([exampleReputerReward,
          { Address := "w", Reward := 10, TopicId := 1,
            RewardType := TaskRewardType.WorkerInferenceRewardType },
          { Address := "f", Reward := 5, TopicId := 1,
            RewardType := TaskRewardType.WorkerForecastRewardType }], 10)
    ∧ ∃ (kr : Keeper) (reputers inferers forecasters : List String)
      (reputersRewardFractions inferersRewardFractions forecastersRewardFractions : List Dec)
      (taskInferenceReward taskForecastingReward : Dec)
      (reputerRewards inferenceRewards forecastRewards : List TaskRewards),
      (forecastExternal.GetRewardPerReputer kr 1 10 reputers reputersRewardFractions).1
        = .ok reputerRewards
      ∧ forecastExternal.GetRewardPerWorker 1 TaskRewardType.WorkerInferenceRewardType
          taskInferenceReward inferers inferersRewardFractions = .ok inferenceRewards
      ∧ forecastExternal.GetRewardPerWorker 1 TaskRewardType.WorkerForecastRewardType
          taskForecastingReward forecasters forecastersRewardFractions = .ok forecastRewards
      ∧ [exampleReputerReward,
          { Address := "w", Reward := 10, TopicId := 1,
            RewardType := TaskRewardType.WorkerInferenceRewardType },
          { Address := "f", Reward := 5, TopicId := 1,
            RewardType := TaskRewardType.WorkerForecastRewardType }]
        = reputerRewards ++ inferenceRewards ++ forecastRewards
      ∧ ([exampleReputerReward,
          { Address := "w", Reward := 10, TopicId := 1,
            RewardType := TaskRewardType.WorkerInferenceRewardType },
          { Address := "f", Reward := 5, TopicId := 1,
            RewardType := TaskRewardType.WorkerForecastRewardType }] : List TaskRewards).take
            reputerRewards.length = reputerRewards
      ∧ (([exampleReputerReward,
          { Address := "w", Reward := 10, TopicId := 1,
            RewardType := TaskRewardType.WorkerInferenceRewardType },
          { Address := "f", Reward := 5, TopicId := 1,
            RewardType := TaskRewardType.WorkerForecastRewardType }] : List TaskRewards).drop
            reputerRewards.length).take inferenceRewards.length = inferenceRewards
      ∧ ([exampleReputerReward,
          { Address := "w", Reward := 10, TopicId := 1,
            RewardType := TaskRewardType.WorkerInferenceRewardType },
          { Address := "f", Reward := 5, TopicId := 1,
            RewardType := TaskRewardType.WorkerForecastRewardType }] : List TaskRewards).drop
            (reputerRewards.length + inferenceRewards.length) = forecastRewards :=
  ⟨by decide!,
    GenerateRewardsDistributionByTopicParticipant_order forecastExternal exampleKeeper 1 20 10
      exampleParams _ 10 (by decide!)⟩

/-! ### Negative amounts -/

theorem payoutRewards.loop_cons_abs (decode : String → Except Err String)
    (reward : TaskRewards) (rest : List TaskRewards) (ret : List Err) (k : Keeper) :
    payoutRewards.loop decode (reward :: rest) ret k
      = payoutRewards.loop decode ({ reward with Reward := |reward.Reward| } :: rest) ret k := by
  simp only [payoutRewards.loop, abs_abs, abs_eq_zero]

/-- C29: for an entry with a negative amount `r`, the loop of `payoutRewards`
does what it does for the same entry with the amount `|r| = -r`: the entry is
not skipped, the integer amount of its calls is `-r` truncated, a Reputer entry
invokes the transfer to the staking account (and `AddStake` when the transfer
succeeds), another entry whose address decodes invokes the transfer to the
address, and the entry records an error only when its address does not decode
or one of its calls fails. -/
theorem payoutRewards_pays_absolute_value (decode : String → Except Err String)
    (reward : TaskRewards) (rest : List TaskRewards) (ret : List Err) (k : Keeper)
    (hneg : reward.Reward < 0) :
    payoutRewards.loop decode (reward :: rest) ret k
      = payoutRewards.loop decode ({ reward with Reward := -reward.Reward } :: rest) ret k
    ∧ (reward.RewardType = TaskRewardType.ReputerRewardType →
        Event.write (Call.SendCoinsFromModuleToModule AlloraRewardsAccountName
            AlloraStakingAccountName (Dec.SdkIntTrim (-reward.Reward)))
          ∈ k.since (payoutRewards decode k [reward]).2
        ∧ (k.fails (Call.SendCoinsFromModuleToModule AlloraRewardsAccountName
              AlloraStakingAccountName (Dec.SdkIntTrim (-reward.Reward))) = false →
            Event.write (Call.AddStake reward.TopicId reward.Address
                (Dec.SdkIntTrim (-reward.Reward)))
              ∈ k.since (payoutRewards decode k [reward]).2
            ∧ (k.fails (Call.AddStake reward.TopicId reward.Address
                (Dec.SdkIntTrim (-reward.Reward))) = false →
              (payoutRewards decode k [reward]).1 = []
              ∧ (payoutRewards decode k [reward]).2.stake reward.TopicId reward.Address
                = k.stake reward.TopicId reward.Address + Dec.SdkIntTrim (-reward.Reward))))
    ∧ (reward.RewardType ≠ TaskRewardType.ReputerRewardType →
        ∀ accAddress, decode reward.Address = .ok accAddress →
          Event.write (Call.SendCoinsFromModuleToAccount AlloraRewardsAccountName accAddress
              (Dec.SdkIntTrim (-reward.Reward)))
            ∈ k.since (payoutRewards decode k [reward]).2
          ∧ (k.fails (Call.SendCoinsFromModuleToAccount AlloraRewardsAccountName accAddress
                (Dec.SdkIntTrim (-reward.Reward))) = false →
              (payoutRewards decode k [reward]).1 = []))
    ∧ k.balance (Account.module AlloraRewardsAccountName)
        - (payoutRewards decode k [reward]).2.balance (Account.module AlloraRewardsAccountName)
      = entryPaid decode k.fails reward
    ∧ (entryPaid decode k.fails reward = 0
      ∨ entryPaid decode k.fails reward = Dec.SdkIntTrim (-reward.Reward)) := by
  have hne : reward.Reward ≠ 0 := ne_of_lt hneg
  have habs : |reward.Reward| = -reward.Reward := abs_of_neg hneg
  have hspec := payoutRewards.loop_spec decode [reward] [] k
  have hsince : k.since (payoutRewards decode k [reward]).2
      = entryEvents decode k.fails reward := by
    unfold payoutRewards
    rw [Keeper.since_of_append hspec.2.1]
    simp
  have herrs : (payoutRewards decode k [reward]).1
      = (entryError decode k.fails reward).toList := by
    unfold payoutRewards
    rw [hspec.1]
    rcases he : entryError decode k.fails reward with _ | e <;> simp [List.filterMap, he]
  refine ⟨?_, ?_, ?_, ?_, ?_⟩
  · rw [payoutRewards.loop_cons_abs, habs]
  · intro hty
    rw [hsince, herrs]
    refine ⟨?_, fun hf => ⟨?_, fun hs => ⟨?_, ?_⟩⟩⟩
    · unfold entryEvents
      simp only [hne, if_false, hty, if_true, rewardInt, habs]
      split <;> simp
    · simp [entryEvents, hne, hty, rewardInt, habs, hf]
    · simp [entryError, hne, hty, rewardInt, habs, hf, hs]
    · have h := payoutRewards.loop_cons_reputer_ok decode reward [] [] k hne hty
        (by simpa [rewardInt, habs] using hf) (by simpa [rewardInt, habs] using hs)
      unfold payoutRewards
      rw [h]
      simp [payoutRewards.loop, rewardInt, habs]
  · intro hty accAddress hd
    rw [hsince, herrs]
    refine ⟨?_, fun hf => ?_⟩
    · simp [entryEvents, hne, hty, hd, rewardInt, habs]
    · simp [entryError, hne, hty, hd, rewardInt, habs, hf]
  · unfold payoutRewards
    rw [hspec.2.2.2]
    simp
  · have hc := (entryPaid_cases decode k.fails reward).1
    simpa [rewardInt, habs] using hc

theorem payoutRewards_pays_absolute_value_witness :
    negativeReputerReward.Reward < 0
    ∧ payoutRewards.loop exampleDecode (negativeReputerReward :: [exampleWorkerReward]) []
        exampleKeeper
      = payoutRewards.loop exampleDecode
          ({ negativeReputerReward with Reward := -negativeReputerReward.Reward }
            :: [exampleWorkerReward]) [] exampleKeeper
    ∧ ({ negativeReputerReward with Reward := -negativeReputerReward.Reward } : TaskRewards)
      = exampleReputerReward
    ∧ (payoutRewards exampleDecode exampleKeeper [negativeReputerReward]).1 = []
    ∧ exampleKeeper.since (payoutRewards exampleDecode exampleKeeper [negativeReputerReward]).2
      = [Event.write (Call.SendCoinsFromModuleToModule AlloraRewardsAccountName
          AlloraStakingAccountName 10), Event.write (Call.AddStake 1 "r" 10)]
    ∧ (payoutRewards exampleDecode exampleKeeper [negativeReputerReward]).2.stake 1 "r" = 10
    ∧ (payoutRewards exampleDecode exampleKeeper [negativeReputerReward]).2.balance
        (Account.module AlloraRewardsAccountName) = 990
    ∧ (payoutRewards exampleDecode exampleKeeper [negativeReputerReward]).2.balance
        (Account.module AlloraStakingAccountName) = 10 := by
  have h := payoutRewards_pays_absolute_value exampleDecode negativeReputerReward
    [exampleWorkerReward] [] exampleKeeper (by decide!)
  exact ⟨by decide!, h.1, by decide!, by decide!, by decide!, by decide!, by decide!,
    by decide!⟩

/-! ### Failures of the pruning -/

theorem pruneRecordsAfterRewards_delete_fail (k : Keeper) (minEpochLengthRecordLimit : Int)
    (topicId : TopicId) (topicRewardNonce : BlockHeight)
    (hd : k.fails (Call.DeleteTopicRewardNonce topicId) = true) :
    pruneRecordsAfterRewards k minEpochLengthRecordLimit topicId topicRewardNonce
      = (some (Err.keeper (Call.DeleteTopicRewardNonce topicId)),
        { k with transcript := k.transcript
            ++ [Event.write (Call.DeleteTopicRewardNonce topicId)] }) := by
  unfold pruneRecordsAfterRewards
  simp [Keeper.DeleteTopicRewardNonce, Keeper.write, hd]

theorem pruneRecordsAfterRewards_nonces_fail (k : Keeper) (minEpochLengthRecordLimit : Int)
    (topicId : TopicId) (topicRewardNonce : BlockHeight)
    (hd : k.fails (Call.DeleteTopicRewardNonce topicId) = false)
    (hu : k.fails (Call.GetUnfulfilledReputerNonces topicId) = true) :
    pruneRecordsAfterRewards k minEpochLengthRecordLimit topicId topicRewardNonce
      = (some (Err.keeper (Call.GetUnfulfilledReputerNonces topicId)),
        { k with
          transcript := k.transcript ++ [Event.write (Call.DeleteTopicRewardNonce topicId)]
          rewardNonce := fun t => if t = topicId then 0 else k.rewardNonce t }) := by
  unfold pruneRecordsAfterRewards
  simp [Keeper.DeleteTopicRewardNonce, Keeper.write, hd, Keeper.GetUnfulfilledReputerNonces,
    Keeper.read, hu]

theorem pruneRecordsAfterRewards_topic_fail (k : Keeper) (minEpochLengthRecordLimit : Int)
    (topicId : TopicId) (topicRewardNonce : BlockHeight)
    (hd : k.fails (Call.DeleteTopicRewardNonce topicId) = false)
    (hu : k.fails (Call.GetUnfulfilledReputerNonces topicId) = false)
    (ht : k.fails (Call.GetTopic topicId) = true) :
    pruneRecordsAfterRewards k minEpochLengthRecordLimit topicId topicRewardNonce
      = (some (Err.keeper (Call.GetTopic topicId)),
        { k with
          transcript := k.transcript ++ [Event.write (Call.DeleteTopicRewardNonce topicId)]
          rewardNonce := fun t => if t = topicId then 0 else k.rewardNonce t }) := by
  unfold pruneRecordsAfterRewards
  simp [Keeper.DeleteTopicRewardNonce, Keeper.write, hd, Keeper.GetUnfulfilledReputerNonces,
    Keeper.GetTopic, Keeper.read, hu, ht]

theorem pruneRecordsAfterRewards_prune_fail (k : Keeper) (minEpochLengthRecordLimit : Int)
    (topicId : TopicId) (topicRewardNonce : BlockHeight)
    (hd : k.fails (Call.DeleteTopicRewardNonce topicId) = false)
    (hu : k.fails (Call.GetUnfulfilledReputerNonces topicId) = false)
    (ht : k.fails (Call.GetTopic topicId) = false)
    (hp : k.fails (Call.PruneRecordsAfterRewards topicId
      (wrapInt64 (pruneRecordsAfterRewards.oldest topicRewardNonce
          (k.unfulfilledNonces topicId)
        - wrapInt64 (minEpochLengthRecordLimit * (k.topic topicId).EpochLength)))) = true) :
    pruneRecordsAfterRewards k minEpochLengthRecordLimit topicId topicRewardNonce
      = (some (Err.keeper (Call.PruneRecordsAfterRewards topicId
          (wrapInt64 (pruneRecordsAfterRewards.oldest topicRewardNonce
              (k.unfulfilledNonces topicId)
            - wrapInt64 (minEpochLengthRecordLimit * (k.topic topicId).EpochLength))))),
        { k with
          transcript := k.transcript ++ [Event.write (Call.DeleteTopicRewardNonce topicId)]
            ++ [Event.write (Call.PruneRecordsAfterRewards topicId
              (wrapInt64 (pruneRecordsAfterRewards.oldest topicRewardNonce
                  (k.unfulfilledNonces topicId)
                - wrapInt64 (minEpochLengthRecordLimit * (k.topic topicId).EpochLength))))]
          rewardNonce := fun t => if t = topicId then 0 else k.rewardNonce t }) := by
  rw [pruneRecordsAfterRewards_reads_ok k minEpochLengthRecordLimit topicId topicRewardNonce
    hd hu ht]
  unfold Keeper.PruneRecordsAfterRewards Keeper.write
  simp [hp]

/-- A round of the loop of `EmitRewards` on a topic with a reward and a ready
nonce whose participant rewards were generated and whose payout returned no
error: the pruning is run, and the loop goes on with the rest of the topics
from the keeper that the pruning left, whatever the pruning returned. -/
theorem EmitRewards.loop_cons_payout_ok (X : External) (moduleParams : Params)
    (topicRewards : DecMap) (T : TopicId) (rest : List TopicId) (total : Dec) (k : Keeper)
    (topicReward : Dec) (dist : List TaskRewards) (rr : Dec)
    (hreward : topicRewards.get T = some topicReward)
    (hready : k.nonceReady T = true)
    (hgen : (GenerateRewardsDistributionByTopicParticipant X k T (some topicReward)
      (k.rewardNonce T) moduleParams).1 = .ok (dist, rr))
    (hpaid : (payoutRewards X.AccAddressFromBech32
      ((GenerateRewardsDistributionByTopicParticipant X k T (some topicReward)
        (k.rewardNonce T) moduleParams).2.mark (Event.payoutRewards T)) dist).1 = []) :
    EmitRewards.loop X moduleParams topicRewards (T :: rest) total k
      = EmitRewards.loop X moduleParams topicRewards rest (total + rr)
          (pruneRecordsAfterRewards
            ((payoutRewards X.AccAddressFromBech32
              ((GenerateRewardsDistributionByTopicParticipant X k T (some topicReward)
                (k.rewardNonce T) moduleParams).2.mark (Event.payoutRewards T)) dist).2.mark
              (Event.pruneRecordsAfterRewards T))
            moduleParams.MinEpochLengthRecordLimit T (k.rewardNonce T)).2
    ∧ ((payoutRewards X.AccAddressFromBech32
        ((GenerateRewardsDistributionByTopicParticipant X k T (some topicReward)
          (k.rewardNonce T) moduleParams).2.mark (Event.payoutRewards T)) dist).2.mark
        (Event.pruneRecordsAfterRewards T)).fails = k.fails := by
  have hf : k.fails (Call.GetTopicRewardNonce T) = false ∧ k.rewardNonce T ≠ 0 := by
    simpa [Keeper.nonceReady] using hready
  have hnonce : k.GetTopicRewardNonce T = (k.rewardNonce T, none) := by
    simp [Keeper.GetTopicRewardNonce, hf.1]
  have hscores := GenerateRewardsDistributionByTopicParticipant_onlyScores X k T
    (some topicReward) (k.rewardNonce T) moduleParams
  rcases hfull : GenerateRewardsDistributionByTopicParticipant X k T (some topicReward)
      (k.rewardNonce T) moduleParams with ⟨res, k1⟩
  rw [hfull] at hgen hpaid hscores
  dsimp only at hgen hpaid hscores
  subst hgen
  have hfails := (payoutRewards.loop_spec X.AccAddressFromBech32 dist []
    (k1.mark (Event.payoutRewards T))).2.2.1
  rcases hpye : payoutRewards X.AccAddressFromBech32 (k1.mark (Event.payoutRewards T))
      dist with ⟨payoutErrors, k2⟩
  rw [hpye] at hpaid
  dsimp only at hpaid
  subst hpaid
  refine ⟨?_, ?_⟩
  · simp only [EmitRewards.loop, hreward, hnonce]
    have hn : ¬ ((none : Option Err).isSome = true ∨ k.rewardNonce T = 0) := by
      simp [hf.2]
    rw [if_neg hn, hfull]
    simp only [Dec.Add, hpye]
    have hlen : ¬ (([] : List Err).length > 0) := by simp
    rw [if_neg hlen]
    rcases pruneRecordsAfterRewards (k2.mark (Event.pruneRecordsAfterRewards T))
        moduleParams.MinEpochLengthRecordLimit T (k.rewardNonce T) with ⟨_ | e, k3⟩
    · rfl
    · rfl
  · unfold payoutRewards at hpye
    rw [hpye] at hfails
    obtain ⟨s, rfl⟩ := hscores
    exact hfails

theorem pruneRecordsAfterRewards_rewardNonce (k : Keeper) (minEpochLengthRecordLimit : Int)
    (topicId : TopicId) (topicRewardNonce : BlockHeight)
    (hd : k.fails (Call.DeleteTopicRewardNonce topicId) = false) :
    (pruneRecordsAfterRewards k minEpochLengthRecordLimit topicId
      topicRewardNonce).2.rewardNonce topicId = 0 := by
  by_cases hu : k.fails (Call.GetUnfulfilledReputerNonces topicId) = true
  · rw [pruneRecordsAfterRewards_nonces_fail k _ _ _ hd hu]
    simp
  · have hu1 : k.fails (Call.GetUnfulfilledReputerNonces topicId) = false := by simpa using hu
    by_cases ht : k.fails (Call.GetTopic topicId) = true
    · rw [pruneRecordsAfterRewards_topic_fail k _ _ _ hd hu1 ht]
      simp
    · have ht1 : k.fails (Call.GetTopic topicId) = false := by simpa using ht
      rw [pruneRecordsAfterRewards_reads_ok k _ _ _ hd hu1 ht1]
      unfold Keeper.PruneRecordsAfterRewards Keeper.write
      split <;> simp

/-- C30: `pruneRecordsAfterRewards` is not atomic. When
`DeleteTopicRewardNonce` fails, it returns that error and the only change of
the keeper is the invocation in the transcript. When it succeeds and the read
of the unfulfilled nonces, the read of the topic or `PruneRecordsAfterRewards`
fails, it returns that error from a keeper in which the reward nonce of the
topic is deleted and no record is pruned. In the loop of `EmitRewards`, after
a payout without error the loop goes on with the rest of the topics from the
keeper that the pruning left, whatever the pruning returned, and when the topic
does not occur again in the list and the deletion did not fail, its reward
nonce is still deleted at the end of the loop. -/
theorem pruneRecordsAfterRewards_not_atomic (X : External) (moduleParams : Params)
    (topicRewards : DecMap) (T : TopicId) (rest : List TopicId) (total : Dec) (k : Keeper)
    (topicReward : Dec) (dist : List TaskRewards) (rr : Dec)
    (hreward : topicRewards.get T = some topicReward)
    (hready : k.nonceReady T = true)
    (hgen : (GenerateRewardsDistributionByTopicParticipant X k T (some topicReward)
      (k.rewardNonce T) moduleParams).1 = .ok (dist, rr))
    (hpaid : (payoutRewards X.AccAddressFromBech32
      ((GenerateRewardsDistributionByTopicParticipant X k T (some topicReward)
        (k.rewardNonce T) moduleParams).2.mark (Event.payoutRewards T)) dist).1 = []) :
    EmitRewards.loop X moduleParams topicRewards (T :: rest) total k
      = EmitRewards.loop X moduleParams topicRewards rest (total + rr)
          (pruneRecordsAfterRewards
            ((payoutRewards X.AccAddressFromBech32
              ((GenerateRewardsDistributionByTopicParticipant X k T (some topicReward)
                (k.rewardNonce T) moduleParams).2.mark (Event.payoutRewards T)) dist).2.mark
              (Event.pruneRecordsAfterRewards T))
            moduleParams.MinEpochLengthRecordLimit T (k.rewardNonce T)).2
    ∧ (T ∉ rest → k.fails (Call.DeleteTopicRewardNonce T) = false →
        (EmitRewards.loop X moduleParams topicRewards (T :: rest) total k).2.rewardNonce T = 0)
    ∧ ∀ (k0 : Keeper) (minEpochLengthRecordLimit : Int) (topicRewardNonce : BlockHeight),
        (k0.fails (Call.DeleteTopicRewardNonce T) = true →
          pruneRecordsAfterRewards k0 minEpochLengthRecordLimit T topicRewardNonce
            = (some (Err.keeper (Call.DeleteTopicRewardNonce T)),
              { k0 with transcript := k0.transcript
                  ++ [Event.write (Call.DeleteTopicRewardNonce T)] }))
        ∧ (k0.fails (Call.DeleteTopicRewardNonce T) = false →
          k0.fails (Call.GetUnfulfilledReputerNonces T) = true →
          pruneRecordsAfterRewards k0 minEpochLengthRecordLimit T topicRewardNonce
            = (some (Err.keeper (Call.GetUnfulfilledReputerNonces T)),
              { k0 with
                transcript := k0.transcript ++ [Event.write (Call.DeleteTopicRewardNonce T)]
                rewardNonce := fun t => if t = T then 0 else k0.rewardNonce t }))
        ∧ (k0.fails (Call.DeleteTopicRewardNonce T) = false →
          k0.fails (Call.GetUnfulfilledReputerNonces T) = false →
          k0.fails (Call.GetTopic T) = true →
          pruneRecordsAfterRewards k0 minEpochLengthRecordLimit T topicRewardNonce
            = (some (Err.keeper (Call.GetTopic T)),
              { k0 with
                transcript := k0.transcript ++ [Event.write (Call.DeleteTopicRewardNonce T)]
                rewardNonce := fun t => if t = T then 0 else k0.rewardNonce t }))
        ∧ (k0.fails (Call.DeleteTopicRewardNonce T) = false →
          k0.fails (Call.GetUnfulfilledReputerNonces T) = false →
          k0.fails (Call.GetTopic T) = false →
          k0.fails (Call.PruneRecordsAfterRewards T
            (wrapInt64 (pruneRecordsAfterRewards.oldest topicRewardNonce
                (k0.unfulfilledNonces T)
              - wrapInt64 (minEpochLengthRecordLimit * (k0.topic T).EpochLength)))) = true →
          pruneRecordsAfterRewards k0 minEpochLengthRecordLimit T topicRewardNonce
            = (some (Err.keeper (Call.PruneRecordsAfterRewards T
                (wrapInt64 (pruneRecordsAfterRewards.oldest topicRewardNonce
                    (k0.unfulfilledNonces T)
                  - wrapInt64 (minEpochLengthRecordLimit * (k0.topic T).EpochLength))))),
              { k0 with
                transcript := k0.transcript ++ [Event.write (Call.DeleteTopicRewardNonce T)]
                  ++ [Event.write (Call.PruneRecordsAfterRewards T
                    (wrapInt64 (pruneRecordsAfterRewards.oldest topicRewardNonce
                        (k0.unfulfilledNonces T)
                      - wrapInt64 (minEpochLengthRecordLimit * (k0.topic T).EpochLength))))]
                rewardNonce := fun t => if t = T then 0 else k0.rewardNonce t })) := by
  obtain ⟨heq, hfails⟩ := EmitRewards.loop_cons_payout_ok X moduleParams topicRewards T rest
    total k topicReward dist rr hreward hready hgen hpaid
  refine ⟨heq, fun hT hd => ?_, fun k0 mel n =>
    ⟨pruneRecordsAfterRewards_delete_fail k0 mel T n,
      pruneRecordsAfterRewards_nonces_fail k0 mel T n,
      pruneRecordsAfterRewards_topic_fail k0 mel T n,
      pruneRecordsAfterRewards_prune_fail k0 mel T n⟩⟩
  rw [heq, EmitRewards.loop_rewardNonce X moduleParams topicRewards T rest _ _ hT]
  exact pruneRecordsAfterRewards_rewardNonce _ _ _ _ (by rw [hfails]; exact hd)

theorem pruneRecordsAfterRewards_not_atomic_witness :
    DecMap.get [(1, 20), (2, 20)] 1 = some 20
    ∧ topicReadFailsKeeper.nonceReady 1 = true
    ∧ (GenerateRewardsDistributionByTopicParticipant exampleExternal topicReadFailsKeeper 1
        (some 20) (topicReadFailsKeeper.rewardNonce 1) exampleParams).1
      = .ok ([exampleReputerReward,
          { Address := "w", Reward := 10, TopicId := 1,
            RewardType := TaskRewardType.WorkerInferenceRewardType }], 10)
    ∧ (payoutRewards exampleExternal.AccAddressFromBech32
        ((GenerateRewardsDistributionByTopicParticipant exampleExternal topicReadFailsKeeper 1
          (some 20) (topicReadFailsKeeper.rewardNonce 1) exampleParams).2.mark
            (Event.payoutRewards 1))
        [exampleReputerReward,
          { Address := "w", Reward := 10, TopicId := 1,
            RewardType := TaskRewardType.WorkerInferenceRewardType }]).1 = []
    ∧ topicReadFailsKeeper.rewardNonce 1 = 10
    ∧ (pruneRecordsAfterRewards topicReadFailsKeeper 3 1 10).1
      = some (Err.keeper (Call.GetTopic 1))
    ∧ (EmitRewards.loop exampleExternal exampleParams [(1, 20), (2, 20)] (1 :: [2]) 0
        topicReadFailsKeeper).1 = .ok 20
    ∧ (EmitRewards.loop exampleExternal exampleParams [(1, 20), (2, 20)] (1 :: [2]) 0
        topicReadFailsKeeper).2.rewardNonce 1 = 0
    ∧ (EmitRewards.loop exampleExternal exampleParams [(1, 20), (2, 20)] (1 :: [2]) 0
        topicReadFailsKeeper).2.networkLossBundle 1 0 = some exampleBundle
    ∧ Event.write (Call.DeleteTopicRewardNonce 1) ∈ topicReadFailsKeeper.since
        (EmitRewards.loop exampleExternal exampleParams [(1, 20), (2, 20)] (1 :: [2]) 0
          topicReadFailsKeeper).2
    ∧ (∀ b, Event.write (Call.PruneRecordsAfterRewards 1 b) ∉ topicReadFailsKeeper.since
        (EmitRewards.loop exampleExternal exampleParams [(1, 20), (2, 20)] (1 :: [2]) 0
          topicReadFailsKeeper).2)
    ∧ Event.write (Call.PruneRecordsAfterRewards 2 (-290)) ∈ topicReadFailsKeeper.since
        (EmitRewards.loop exampleExternal exampleParams [(1, 20), (2, 20)] (1 :: [2]) 0
          topicReadFailsKeeper).2 := by
  have h := pruneRecordsAfterRewards_not_atomic exampleExternal exampleParams
    [(1, 20), (2, 20)] 1 [2] 0 topicReadFailsKeeper 20
    [exampleReputerReward,
      { Address := "w", Reward := 10, TopicId := 1,
        RewardType := TaskRewardType.WorkerInferenceRewardType }] 10
    (by decide!) (by decide!) (by decide!) (by decide!)
  refine ⟨by decide!, by decide!, by decide!, by decide!, by decide!, by decide!, by decide!,
    h.2.1 (by decide!) (by decide!), by decide!, by decide!, ?_, by decide!⟩
  intro b hb
  have hs : topicReadFailsKeeper.since
      (EmitRewards.loop exampleExternal exampleParams [(1, 20), (2, 20)] (1 :: [2]) 0
        topicReadFailsKeeper).2
      = [Event.payoutRewards 1,
        Event.write (Call.SendCoinsFromModuleToModule AlloraRewardsAccountName
          AlloraStakingAccountName 10),
        Event.write (Call.AddStake 1 "r" 10),
        Event.write (Call.SendCoinsFromModuleToAccount AlloraRewardsAccountName "w" 10),
        Event.pruneRecordsAfterRewards 1,
        Event.write (Call.DeleteTopicRewardNonce 1),
        Event.payoutRewards 2,
        Event.write (Call.SendCoinsFromModuleToModule AlloraRewardsAccountName
          AlloraStakingAccountName 10),
        Event.write (Call.AddStake 2 "r" 10),
        Event.write (Call.SendCoinsFromModuleToAccount AlloraRewardsAccountName "w" 10),
        Event.pruneRecordsAfterRewards 2,
        Event.write (Call.DeleteTopicRewardNonce 2),
        Event.write (Call.PruneRecordsAfterRewards 2 (-290))] := by decide!
  rw [hs] at hb
  simp at hb

/-! ### Order of the effects -/

theorem Rounds.empty (round : TopicId → List Event → Prop) (h : ∀ t, round t [])
    (ts : List TopicId) : Rounds round ts [] := by
  induction ts with
  | nil => exact Rounds.nil
  | cons t rest ih =>
    have := Rounds.cons (h t) ih
    simpa using this

theorem Rounds.single (round : TopicId → List Event → Prop) (h : ∀ t, round t [])
    (t : TopicId) (rest : List TopicId) (e : List Event) (he : round t e) :
    Rounds round (t :: rest) e := by
  have := Rounds.cons he (Rounds.empty round h rest)
  simpa using this

theorem Rounds.filterMap_sublist {round : TopicId → List Event → Prop}
    (p : Event → Option TopicId) (hp : ∀ t e, round t e → (e.filterMap p).Sublist [t])
    {ts : List TopicId} {evs : List Event} (h : Rounds round ts evs) :
    (evs.filterMap p).Sublist ts := by
  induction h with
  | nil => simp
  | cons he _ ih =>
    rw [List.filterMap_append]
    exact (hp _ _ he).append ih

theorem Rounds.mem_of_mem {round : TopicId → List Event → Prop} {ts : List TopicId}
    {evs : List Event} (h : Rounds round ts evs) {x : Event} (hx : x ∈ evs) :
    ∃ t ∈ ts, ∃ e, round t e ∧ x ∈ e := by
  induction h with
  | nil => cases hx
  | cons he _ ih =>
    rcases List.mem_append.mp hx with h1 | h1
    · exact ⟨_, List.mem_cons_self _ _, _, he, h1⟩
    · obtain ⟨t, ht, e, hr, hm⟩ := ih h1
      exact ⟨t, List.mem_cons_of_mem _ ht, e, hr, hm⟩

theorem Keeper.InactivateTopic_transcript (k : Keeper) (t : TopicId) :
    (k.InactivateTopic t).2.transcript
      = k.transcript ++ [Event.write (Call.InactivateTopic t)] := by
  rw [Keeper.InactivateTopic_eq]
  split <;> rfl

theorem Keeper.ResetTopicFeeRevenue_transcript (k : Keeper) (t : TopicId) (b : BlockHeight) :
    (k.ResetTopicFeeRevenue t b).2.transcript
      = k.transcript ++ [Event.write (Call.ResetTopicFeeRevenue t b)] := by
  rw [Keeper.ResetTopicFeeRevenue_eq]
  split <;> rfl

/-- The writes of the loop of the filter are, topic after topic in the order
of the list, the inactivation of the topic and the reset of its fee revenue, or
nothing. -/
theorem FilterAndInactivateTopicsUpdatingSums.filter_loop_rounds (weights : DecMap)
    (MinTopicWeight : Dec) (blockHeight : BlockHeight) (ts : List TopicId) :
    ∀ (act : DecMap) (s : Dec) (k : Keeper),
      ∃ evs,
        (FilterAndInactivateTopicsUpdatingSums.loop weights MinTopicWeight blockHeight ts
          act s k).2.transcript = k.transcript ++ evs
        ∧ Rounds (filterRound blockHeight) ts evs := by
  have hempty : ∀ t, filterRound blockHeight t [] := fun t => Or.inl rfl
  induction ts with
  | nil => intro act s k; exact ⟨[], by simp [FilterAndInactivateTopicsUpdatingSums.loop], Rounds.nil⟩
  | cons t rest ih =>
    intro act s k
    have hskip : ∀ (a : DecMap) (s1 : Dec),
        ∃ evs,
          (FilterAndInactivateTopicsUpdatingSums.loop weights MinTopicWeight blockHeight rest
            a s1 k).2.transcript = k.transcript ++ evs
          ∧ Rounds (filterRound blockHeight) (t :: rest) evs := by
      intro a s1
      obtain ⟨evs, h1, h2⟩ := ih a s1 k
      refine ⟨evs, h1, ?_⟩
      have := Rounds.cons (hempty t) h2
      simpa using this
    rcases hw : weights.get t with _ | w
    · rw [FilterAndInactivateTopicsUpdatingSums.loop_cons_none rest act s k hw]
      exact ⟨[], by simp, Rounds.empty _ hempty _⟩
    · by_cases hlt : w < MinTopicWeight
      · rw [FilterAndInactivateTopicsUpdatingSums.loop_cons_below rest act s k hw hlt]
        have hI := Keeper.InactivateTopic_transcript k t
        rcases hk1 : k.InactivateTopic t with ⟨_ | e, k1⟩
        · rw [hk1] at hI
          dsimp only at hI ⊢
          have hR := Keeper.ResetTopicFeeRevenue_transcript k1 t blockHeight
          rcases hk2 : k1.ResetTopicFeeRevenue t blockHeight with ⟨_ | e, k2⟩
          · rw [hk2] at hR
            dsimp only at hR ⊢
            obtain ⟨evs, h1, h2⟩ := ih act (s - w) k2
            refine ⟨[Event.write (Call.InactivateTopic t),
              Event.write (Call.ResetTopicFeeRevenue t blockHeight)] ++ evs, ?_,
              Rounds.cons (Or.inr (Or.inr rfl)) h2⟩
            rw [h1, hR, hI]
            simp
          · rw [hk2] at hR
            dsimp only at hR ⊢
            refine ⟨[Event.write (Call.InactivateTopic t),
              Event.write (Call.ResetTopicFeeRevenue t blockHeight)], ?_,
              Rounds.single _ hempty t rest _ (Or.inr (Or.inr rfl))⟩
            rw [hR, hI]
            simp
        · rw [hk1] at hI
          dsimp only at hI ⊢
          exact ⟨[Event.write (Call.InactivateTopic t)], hI,
            Rounds.single _ hempty t rest _ (Or.inr (Or.inl rfl))⟩
      · rcases hr : k.nonceReady t with _ | _
        · rw [FilterAndInactivateTopicsUpdatingSums.loop_cons_notReady rest act s k hw hlt hr]
          exact hskip act (s - w)
        · rw [FilterAndInactivateTopicsUpdatingSums.loop_cons_keep rest act s k hw hlt hr]
          exact hskip (act.set t w) s

/-- The writes of the loop of `GenerateRewardsDistributionByTopic` are, topic
after topic in the order of the list, the reset of the fee revenue of the
topic, or nothing. -/
theorem GenerateRewardsDistributionByTopic.topic_loop_rounds (weights act top : DecMap)
    (blockHeight : BlockHeight) (ts : List TopicId) :
    ∀ (rev : Int) (w : Dec) (k : Keeper),
      ∃ evs,
        (GenerateRewardsDistributionByTopic.loop weights act top blockHeight ts rev w
          k).2.transcript = k.transcript ++ evs
        ∧ Rounds (winnerRound blockHeight) ts evs := by
  have hempty : ∀ t, winnerRound blockHeight t [] := fun t => Or.inl rfl
  induction ts with
  | nil => intro rev w k; exact ⟨[], by simp [GenerateRewardsDistributionByTopic.loop], Rounds.nil⟩
  | cons t rest ih =>
    intro rev w k
    have hskip : ∀ (rev1 : Int) (w1 : Dec),
        ∃ evs,
          (GenerateRewardsDistributionByTopic.loop weights act top blockHeight rest rev1 w1
            k).2.transcript = k.transcript ++ evs
          ∧ Rounds (winnerRound blockHeight) (t :: rest) evs := by
      intro rev1 w1
      obtain ⟨evs, h1, h2⟩ := ih rev1 w1 k
      refine ⟨evs, h1, ?_⟩
      have := Rounds.cons (hempty t) h2
      simpa using this
    rcases isWinner_or_isBottom_or act top t with h | h | h
    · rw [GenerateRewardsDistributionByTopic.loop_cons_other rest rev w k h]
      exact hskip rev w
    · rw [GenerateRewardsDistributionByTopic.loop_cons_winner rest rev w k h]
      have hR := Keeper.ResetTopicFeeRevenue_transcript k t blockHeight
      rcases hk1 : k.ResetTopicFeeRevenue t blockHeight with ⟨_ | e, k1⟩
      · rw [hk1] at hR
        dsimp only at hR ⊢
        obtain ⟨evs, h1, h2⟩ := ih rev w k1
        refine ⟨[Event.write (Call.ResetTopicFeeRevenue t blockHeight)] ++ evs, ?_,
          Rounds.cons (Or.inr rfl) h2⟩
        rw [h1, hR]
        simp
      · rw [hk1] at hR
        dsimp only at hR ⊢
        exact ⟨[Event.write (Call.ResetTopicFeeRevenue t blockHeight)], hR,
          Rounds.single _ hempty t rest _ (Or.inr rfl)⟩
    · rw [GenerateRewardsDistributionByTopic.loop_cons_bottom rest rev w k h]
      rcases k.GetTopicFeeRevenue t with e | fr
      · exact ⟨[], by simp, Rounds.empty _ hempty _⟩
      · rcases weights.get t with _ | wt
        · exact ⟨[], by simp, Rounds.empty _ hempty _⟩
        · exact hskip _ _

theorem entryEvents_payoutWrite (decode : String → Except Err String) (fails : Call → Bool)
    (reward : TaskRewards) : ∀ x ∈ entryEvents decode fails reward, payoutWrite x := by
  intro x hx
  unfold entryEvents at hx
  split at hx
  · cases hx
  · split at hx
    · split at hx
      · simp only [List.mem_singleton] at hx
        exact Or.inl ⟨_, _, _, hx⟩
      · simp only [List.mem_cons, List.mem_singleton, List.not_mem_nil, or_false] at hx
        rcases hx with hx | hx
        · exact Or.inl ⟨_, _, _, hx⟩
        · exact Or.inr (Or.inr ⟨_, _, _, hx⟩)
    · split at hx
      · cases hx
      · simp only [List.mem_singleton] at hx
        exact Or.inr (Or.inl ⟨_, _, _, hx⟩)

theorem payoutRewards_transcript (decode : String → Except Err String) (k : Keeper)
    (rewards : List TaskRewards) :
    ∃ pay, (payoutRewards decode k rewards).2.transcript = k.transcript ++ pay
      ∧ ∀ x ∈ pay, payoutWrite x := by
  refine ⟨rewards.flatMap (entryEvents decode k.fails),
    (payoutRewards.loop_spec decode rewards [] k).2.1, ?_⟩
  intro x hx
  obtain ⟨r, -, hr⟩ := List.mem_flatMap.mp hx
  exact entryEvents_payoutWrite decode k.fails r x hr

theorem pruneRecordsAfterRewards_transcript (k : Keeper) (minEpochLengthRecordLimit : Int)
    (t : TopicId) (topicRewardNonce : BlockHeight) :
    (pruneRecordsAfterRewards k minEpochLengthRecordLimit t topicRewardNonce).2.transcript
        = k.transcript ++ [Event.write (Call.DeleteTopicRewardNonce t)]
    ∨ ∃ b, (pruneRecordsAfterRewards k minEpochLengthRecordLimit t
        topicRewardNonce).2.transcript
        = k.transcript ++ [Event.write (Call.DeleteTopicRewardNonce t),
            Event.write (Call.PruneRecordsAfterRewards t b)] := by
  by_cases hd : k.fails (Call.DeleteTopicRewardNonce t) = true
  · rw [pruneRecordsAfterRewards_delete_fail k _ _ _ hd]
    exact Or.inl rfl
  · have hd1 : k.fails (Call.DeleteTopicRewardNonce t) = false := by simpa using hd
    by_cases hu : k.fails (Call.GetUnfulfilledReputerNonces t) = true
    · rw [pruneRecordsAfterRewards_nonces_fail k _ _ _ hd1 hu]
      exact Or.inl rfl
    · have hu1 : k.fails (Call.GetUnfulfilledReputerNonces t) = false := by simpa using hu
      by_cases ht : k.fails (Call.GetTopic t) = true
      · rw [pruneRecordsAfterRewards_topic_fail k _ _ _ hd1 hu1 ht]
        exact Or.inl rfl
      · have ht1 : k.fails (Call.GetTopic t) = false := by simpa using ht
        rw [pruneRecordsAfterRewards_reads_ok k _ _ _ hd1 hu1 ht1]
        refine Or.inr ⟨wrapInt64 (pruneRecordsAfterRewards.oldest topicRewardNonce
            (k.unfulfilledNonces t)
          - wrapInt64 (minEpochLengthRecordLimit * (k.topic t).EpochLength)), ?_⟩
        unfold Keeper.PruneRecordsAfterRewards Keeper.write
        split <;> simp

/-- The steps of a round of the loop of `EmitRewards` on a topic are the
payout of the topic, followed or not by its pruning, or nothing. -/
theorem EmitRewards.loop_cons_round (X : External) (moduleParams : Params)
    (topicRewards : DecMap) (t : TopicId) (rest : List TopicId) (total : Dec) (k : Keeper) :
    ∃ total1 k1 e,
      EmitRewards.loop X moduleParams topicRewards (t :: rest) total k
        = EmitRewards.loop X moduleParams topicRewards rest total1 k1
      ∧ k1.transcript = k.transcript ++ e
      ∧ driverRound t e := by
  simp only [EmitRewards.loop]
  rcases hr : topicRewards.get t with _ | topicReward
  · exact ⟨total, k, [], rfl, by simp, Or.inl rfl⟩
  · dsimp only
    by_cases hn : (k.GetTopicRewardNonce t).2.isSome = true ∨ (k.GetTopicRewardNonce t).1 = 0
    · rw [if_pos hn]
      exact ⟨total, k, [], rfl, by simp, Or.inl rfl⟩
    · rw [if_neg hn]
      have hp := GenerateRewardsDistributionByTopicParticipant_onlyScores X k t
        (some topicReward) (k.GetTopicRewardNonce t).1 moduleParams
      rcases hpe : GenerateRewardsDistributionByTopicParticipant X k t (some topicReward)
          (k.GetTopicRewardNonce t).1 moduleParams with ⟨e | ⟨dist, rr⟩, k1⟩
      · rw [hpe] at hp
        obtain ⟨s, hs⟩ := hp
        dsimp only at hs
        exact ⟨total, k1, [], rfl, by rw [hs]; simp, Or.inl rfl⟩
      · rw [hpe] at hp
        obtain ⟨s, hs⟩ := hp
        dsimp only at hs
        simp only [Dec.Add]
        obtain ⟨pay, hpay, hall⟩ := payoutRewards_transcript X.AccAddressFromBech32
          (k1.mark (Event.payoutRewards t)) dist
        have hk1 : (k1.mark (Event.payoutRewards t)).transcript
            = k.transcript ++ [Event.payoutRewards t] := by
          rw [hs]; rfl
        rw [hk1] at hpay
        rcases hpye : payoutRewards X.AccAddressFromBech32 (k1.mark (Event.payoutRewards t))
            dist with ⟨payoutErrors, k2⟩
        rw [hpye] at hpay
        dsimp only at hpay ⊢
        by_cases hlen : payoutErrors.length > 0
        · rw [if_pos hlen]
          refine ⟨_, k2, Event.payoutRewards t :: pay, rfl, ?_, Or.inr ⟨pay, hall, Or.inl rfl⟩⟩
          rw [hpay]
          simp
        · rw [if_neg hlen]
          have hpr := pruneRecordsAfterRewards_transcript
            (k2.mark (Event.pruneRecordsAfterRewards t)) moduleParams.MinEpochLengthRecordLimit
            t (k.GetTopicRewardNonce t).1
          have hk2 : (k2.mark (Event.pruneRecordsAfterRewards t)).transcript
              = k.transcript ++ (Event.payoutRewards t :: pay)
                ++ [Event.pruneRecordsAfterRewards t] := by
            show k2.transcript ++ [Event.pruneRecordsAfterRewards t] = _
            rw [hpay]
            simp
          rw [hk2] at hpr
          have hres : ∃ k3 e, (∀ tot,
              (match pruneRecordsAfterRewards (k2.mark (Event.pruneRecordsAfterRewards t))
                  moduleParams.MinEpochLengthRecordLimit t (k.GetTopicRewardNonce t).1 with
              | (some _, k3) => EmitRewards.loop X moduleParams topicRewards rest tot k3
              | (none, k3) => EmitRewards.loop X moduleParams topicRewards rest tot k3)
              = EmitRewards.loop X moduleParams topicRewards rest tot k3)
              ∧ k3.transcript = k.transcript ++ e ∧ driverRound t e := by
            rcases hpre : pruneRecordsAfterRewards (k2.mark (Event.pruneRecordsAfterRewards t))
                moduleParams.MinEpochLengthRecordLimit t (k.GetTopicRewardNonce t).1
              with ⟨err, k3⟩
            rw [hpre] at hpr
            dsimp only at hpr
            have hsame : ∀ tot,
                (match ((err, k3) : Option Err × Keeper) with
                | (some _, k3) => EmitRewards.loop X moduleParams topicRewards rest tot k3
                | (none, k3) => EmitRewards.loop X moduleParams topicRewards rest tot k3)
                = EmitRewards.loop X moduleParams topicRewards rest tot k3 := by
              intro tot
              cases err <;> rfl
            rcases hpr with h1 | ⟨b, h1⟩
            · refine ⟨k3, Event.payoutRewards t :: pay
                ++ [Event.pruneRecordsAfterRewards t,
                  Event.write (Call.DeleteTopicRewardNonce t)], hsame, ?_,
                Or.inr ⟨pay, hall, Or.inr (Or.inl rfl)⟩⟩
              rw [h1]
              simp
            · refine ⟨k3, Event.payoutRewards t :: pay
                ++ [Event.pruneRecordsAfterRewards t,
                  Event.write (Call.DeleteTopicRewardNonce t),
                  Event.write (Call.PruneRecordsAfterRewards t b)], hsame, ?_,
                Or.inr ⟨pay, hall, Or.inr (Or.inr ⟨b, rfl⟩)⟩⟩
              rw [h1]
              simp
          obtain ⟨k3, e, hsame, htr, hround⟩ := hres
          exact ⟨_, k3, e, hsame _, htr, hround⟩

/-- The steps of the loop of `EmitRewards` are, topic after topic in the order
of the list, the payout and the pruning of the topic, or nothing. -/
theorem EmitRewards.driver_loop_rounds (X : External) (moduleParams : Params)
    (topicRewards : DecMap) (ts : List TopicId) :
    ∀ (total : Dec) (k : Keeper),
      ∃ evs,
        (EmitRewards.loop X moduleParams topicRewards ts total k).2.transcript
          = k.transcript ++ evs
        ∧ Rounds driverRound ts evs := by
  induction ts with
  | nil => intro total k; exact ⟨[], by simp [EmitRewards.loop], Rounds.nil⟩
  | cons t rest ih =>
    intro total k
    obtain ⟨total1, k1, e, heq, htr, hround⟩ := EmitRewards.loop_cons_round X moduleParams
      topicRewards t rest total k
    obtain ⟨evs, h1, h2⟩ := ih total1 k1
    refine ⟨e ++ evs, ?_, Rounds.cons hround h2⟩
    rw [heq, h1, htr, List.append_assoc]

theorem FilterAndInactivateTopicsUpdatingSums_rounds (k : Keeper) (weights : DecMap)
    (sortedTopics : List TopicId) (sumWeight totalReward : Dec) (blockHeight : BlockHeight) :
    ∃ evs,
      (FilterAndInactivateTopicsUpdatingSums k weights sortedTopics sumWeight totalReward
        blockHeight).2.transcript = k.transcript ++ evs
      ∧ Rounds (filterRound blockHeight) sortedTopics evs := by
  unfold FilterAndInactivateTopicsUpdatingSums
  rcases k.GetParams with e | moduleParams
  · exact ⟨[], by simp, Rounds.empty _ (fun t => Or.inl rfl) _⟩
  · exact FilterAndInactivateTopicsUpdatingSums.filter_loop_rounds weights
      moduleParams.MinTopicWeight blockHeight sortedTopics [] sumWeight k

/-- The writes of `GenerateRewardsDistributionByTopic` are the rounds of the
filter over the sorted topics followed by the rounds of the resets of the
winners over the sorted topics. -/
theorem GenerateRewardsDistributionByTopic_rounds
    (skim : DecMap → Nat → BlockHeight → DecMap) (k : Keeper) (N : Nat)
    (blockHeight : BlockHeight) (totalReward : Dec) (weights : DecMap)
    (sortedTopics : List TopicId) (sumWeight : Dec) (totalRevenue : Int) :
    ∃ ef ew,
      (GenerateRewardsDistributionByTopic skim k N blockHeight totalReward weights
        sortedTopics sumWeight totalRevenue).2.transcript = k.transcript ++ ef ++ ew
      ∧ Rounds (filterRound blockHeight) sortedTopics ef
      ∧ Rounds (winnerRound blockHeight) sortedTopics ew := by
  have hwe : Rounds (winnerRound blockHeight) sortedTopics [] :=
    Rounds.empty _ (fun t => Or.inl rfl) _
  unfold GenerateRewardsDistributionByTopic
  split
  · exact ⟨[], [], by simp, Rounds.empty _ (fun t => Or.inl rfl) _, hwe⟩
  · obtain ⟨ef, hf, hfr⟩ := FilterAndInactivateTopicsUpdatingSums_rounds k weights
      sortedTopics sumWeight totalReward blockHeight
    rcases hF : FilterAndInactivateTopicsUpdatingSums k weights sortedTopics sumWeight
        totalReward blockHeight with ⟨e | ⟨act, s1⟩, k1⟩
    · rw [hF] at hf
      exact ⟨ef, [], by simpa using hf, hfr, hwe⟩
    · rw [hF] at hf
      dsimp only at hf ⊢
      split
      · exact ⟨ef, [], by simpa using hf, hfr, hwe⟩
      · obtain ⟨ew, hw, hwr⟩ := GenerateRewardsDistributionByTopic.topic_loop_rounds weights
          act (skim act N blockHeight) blockHeight sortedTopics 0 0 k1
        have hfin : ∀ k2 : Keeper, k2.transcript = k1.transcript ++ ew →
            k2.transcript = k.transcript ++ ef ++ ew := by
          intro k2 h2
          rw [h2, hf]
        rcases hL : GenerateRewardsDistributionByTopic.loop weights act
            (skim act N blockHeight) blockHeight sortedTopics 0 0 k1 with ⟨e | ⟨rev, wb⟩, k2⟩
        · rw [hL] at hw
          exact ⟨ef, ew, hfin k2 hw, hfr, hwr⟩
        · rw [hL] at hw
          dsimp only at hw ⊢
          simp only [Dec.Sub]
          rcases CalcTopicRewards (skim act N blockHeight)
              (GetSortedKeys (skim act N blockHeight)) (s1 - wb) totalReward with e | tr
          · exact ⟨ef, ew, hfin k2 hw, hfr, hwr⟩
          · exact ⟨ef, ew, hfin k2 hw, hfr, hwr⟩

/-- The transcript of `EmitRewards`: the rounds of the filter, the rounds of
the resets of the winners, the rounds of the payout and pruning, each over the
sorted topics and in their order, and the write of the monthly percentage. -/
theorem EmitRewards_rounds (X : External) (k : Keeper) (blockHeight : BlockHeight)
    (weights : DecMap) (sumWeight : Dec) (totalRevenue : Int) :
    ∃ ef ew ed em,
      k.since (EmitRewards X k blockHeight weights sumWeight totalRevenue).2
        = ef ++ ew ++ ed ++ em
      ∧ Rounds (filterRound blockHeight) (GetSortedKeys weights) ef
      ∧ Rounds (winnerRound blockHeight) (GetSortedKeys weights) ew
      ∧ Rounds driverRound (GetSortedKeys weights) ed
      ∧ ∀ e ∈ em, ∃ d, e = Event.write (Call.SetPreviousPercentageRewardToStakedReputers d) := by
  have hfe : Rounds (filterRound blockHeight) (GetSortedKeys weights) [] :=
    Rounds.empty _ (fun t => Or.inl rfl) _
  have hwe : Rounds (winnerRound blockHeight) (GetSortedKeys weights) [] :=
    Rounds.empty _ (fun t => Or.inl rfl) _
  have hde : Rounds driverRound (GetSortedKeys weights) [] :=
    Rounds.empty _ (fun t => Or.inl rfl) _
  have hnone : ∃ ef ew ed em, k.since k = ef ++ ew ++ ed ++ em
      ∧ Rounds (filterRound blockHeight) (GetSortedKeys weights) ef
      ∧ Rounds (winnerRound blockHeight) (GetSortedKeys weights) ew
      ∧ Rounds driverRound (GetSortedKeys weights) ed
      ∧ ∀ e ∈ em, ∃ d, e = Event.write (Call.SetPreviousPercentageRewardToStakedReputers d) :=
    ⟨[], [], [], [], by simp [Keeper.since_self], hfe, hwe, hde, by simp⟩
  unfold EmitRewards
  rcases k.GetTotalRewardToDistribute with e | totalReward
  · exact hnone
  · dsimp only
    split
    · exact hnone
    · rcases k.GetParams with e | moduleParams
      · exact hnone
      · dsimp only
        obtain ⟨ef, ew, hG, hfr, hwr⟩ := GenerateRewardsDistributionByTopic_rounds
          X.SkimTopTopicsByWeightDesc k moduleParams.MaxTopicsPerBlock blockHeight totalReward
          weights (GetSortedKeys weights) sumWeight totalRevenue
        rcases hGe : GenerateRewardsDistributionByTopic X.SkimTopTopicsByWeightDesc k
            moduleParams.MaxTopicsPerBlock blockHeight totalReward weights
            (GetSortedKeys weights) sumWeight totalRevenue with ⟨e | _ | topicRewards, k1⟩
        · rw [hGe] at hG
          exact ⟨ef, ew, [], [], by rw [Keeper.since_of_append (by simpa using hG)]; simp,
            hfr, hwr, hde, by simp⟩
        · rw [hGe] at hG
          exact ⟨ef, ew, [], [], by rw [Keeper.since_of_append (by simpa using hG)]; simp,
            hfr, hwr, hde, by simp⟩
        · rw [hGe] at hG
          dsimp only at hG ⊢
          obtain ⟨ed, hL, hdr⟩ := EmitRewards.driver_loop_rounds X moduleParams topicRewards
            (GetSortedKeys weights) 0 k1
          rcases hLe : EmitRewards.loop X moduleParams topicRewards (GetSortedKeys weights) 0 k1
            with ⟨e | total, k2⟩
          · rw [hLe] at hL
            dsimp only at hL ⊢
            refine ⟨ef, ew, ed, [], ?_, hfr, hwr, hdr, by simp⟩
            have htr : k2.transcript = k.transcript ++ (ef ++ ew ++ ed) := by
              rw [hL, hG]
              simp only [List.append_assoc]
            rw [Keeper.since_of_append htr]
            simp
          · rw [hLe] at hL
            dsimp only at hL ⊢
            obtain ⟨em, hM, hmr⟩ := EmitRewards.monthly_appends k2 moduleParams blockHeight
              totalReward total
            refine ⟨ef, ew, ed, em, ?_, hfr, hwr, hdr, hmr⟩
            have htr : (EmitRewards.monthly k2 moduleParams blockHeight totalReward
                total).2.transcript = k.transcript ++ (ef ++ ew ++ ed ++ em) := by
              rw [hM, hL, hG]
              simp only [List.append_assoc]
            rw [Keeper.since_of_append htr]

theorem Rounds.filterMap_nil {round : TopicId → List Event → Prop}
    (p : Event → Option TopicId) (hp : ∀ t e, round t e → e.filterMap p = [])
    {ts : List TopicId} {evs : List Event} (h : Rounds round ts evs) :
    evs.filterMap p = [] := by
  induction h with
  | nil => rfl
  | cons he _ ih => rw [List.filterMap_append, hp _ _ he, ih]; rfl

theorem payoutWrite_filterMap (p : Event → Option TopicId)
    (hp : ∀ x, payoutWrite x → p x = none) (pay : List Event)
    (hall : ∀ x ∈ pay, payoutWrite x) : pay.filterMap p = [] := by
  induction pay with
  | nil => rfl
  | cons x rest ih =>
    rw [List.filterMap_cons, hp x (hall x (List.mem_cons_self _ _))]
    exact ih (fun y hy => hall y (List.mem_cons_of_mem _ hy))

theorem driverRound_filterMap (p : Event → Option TopicId)
    (hp : ∀ x, payoutWrite x → p x = none) (t : TopicId)
    (hfour : ∀ b, ([Event.payoutRewards t, Event.pruneRecordsAfterRewards t,
      Event.write (Call.DeleteTopicRewardNonce t),
      Event.write (Call.PruneRecordsAfterRewards t b)].filterMap p).Sublist [t])
    (e : List Event) (h : driverRound t e) : (e.filterMap p).Sublist [t] := by
  have hsub : ∀ (l : List Event) (b : BlockHeight),
      l.Sublist [Event.payoutRewards t, Event.pruneRecordsAfterRewards t,
        Event.write (Call.DeleteTopicRewardNonce t),
        Event.write (Call.PruneRecordsAfterRewards t b)] →
      (l.filterMap p).Sublist [t] :=
    fun l b hl => (hl.filterMap p).trans (hfour b)
  rcases h with rfl | ⟨pay, hall, h | h | ⟨b, h⟩⟩
  · simp
  · have hpay := payoutWrite_filterMap p hp pay hall
    have key : (Event.payoutRewards t :: pay).filterMap p
        = [Event.payoutRewards t].filterMap p := by
      rw [List.filterMap_cons, List.filterMap_cons, hpay, List.filterMap_nil]
    rw [h, key]
    exact hsub _ 0 (by simp)
  · have hpay := payoutWrite_filterMap p hp pay hall
    have key : (Event.payoutRewards t :: pay
          ++ [Event.pruneRecordsAfterRewards t,
            Event.write (Call.DeleteTopicRewardNonce t)]).filterMap p
        = [Event.payoutRewards t, Event.pruneRecordsAfterRewards t,
            Event.write (Call.DeleteTopicRewardNonce t)].filterMap p := by
      simp only [List.cons_append, List.filterMap_cons, List.filterMap_append, hpay,
        List.nil_append]
    rw [h, key]
    exact hsub _ 0 (by simp)
  · have hpay := payoutWrite_filterMap p hp pay hall
    have key : (Event.payoutRewards t :: pay
          ++ [Event.pruneRecordsAfterRewards t,
            Event.write (Call.DeleteTopicRewardNonce t),
            Event.write (Call.PruneRecordsAfterRewards t b)]).filterMap p
        = [Event.payoutRewards t, Event.pruneRecordsAfterRewards t,
            Event.write (Call.DeleteTopicRewardNonce t),
            Event.write (Call.PruneRecordsAfterRewards t b)].filterMap p := by
      simp only [List.cons_append, List.filterMap_cons, List.filterMap_append, hpay,
        List.nil_append]
    rw [h, key]
    exact hsub _ b (List.Sublist.refl _)

theorem filterMap_none {α β : Type} (p : α → Option β) (l : List α)
    (h : ∀ x ∈ l, p x = none) : l.filterMap p = [] := by
  induction l with
  | nil => rfl
  | cons x rest ih =>
    rw [List.filterMap_cons, h x (List.mem_cons_self _ _)]
    exact ih (fun y hy => h y (List.mem_cons_of_mem _ hy))

theorem Rounds.filterMap_none_of_mem {round : TopicId → List Event → Prop}
    (p : Event → Option TopicId) (hp : ∀ t e, round t e → ∀ x ∈ e, p x = none)
    {ts : List TopicId} {evs : List Event} (h : Rounds round ts evs) :
    evs.filterMap p = [] := by
  apply filterMap_none
  intro x hx
  obtain ⟨t, -, e, hr, hm⟩ := h.mem_of_mem hx
  exact hp t e hr x hm

theorem filterRound_mem {blockHeight : BlockHeight} {t : TopicId} {e : List Event}
    (h : filterRound blockHeight t e) {x : Event} (hx : x ∈ e) :
    x = Event.write (Call.InactivateTopic t)
      ∨ x = Event.write (Call.ResetTopicFeeRevenue t blockHeight) := by
  rcases h with rfl | rfl | rfl
  · cases hx
  · simp only [List.mem_singleton] at hx
    exact Or.inl hx
  · simp only [List.mem_cons, List.mem_singleton, List.not_mem_nil, or_false] at hx
    exact hx

theorem winnerRound_mem {blockHeight : BlockHeight} {t : TopicId} {e : List Event}
    (h : winnerRound blockHeight t e) {x : Event} (hx : x ∈ e) :
    x = Event.write (Call.ResetTopicFeeRevenue t blockHeight) := by
  rcases h with rfl | rfl
  · cases hx
  · simpa using hx

theorem driverRound_mem {t : TopicId} {e : List Event} (h : driverRound t e) {x : Event}
    (hx : x ∈ e) :
    payoutWrite x ∨ x = Event.payoutRewards t ∨ x = Event.pruneRecordsAfterRewards t
      ∨ x = Event.write (Call.DeleteTopicRewardNonce t)
      ∨ ∃ b, x = Event.write (Call.PruneRecordsAfterRewards t b) := by
  rcases h with rfl | ⟨pay, hall, h | h | ⟨b, h⟩⟩
  · cases hx
  · subst h
    rcases List.mem_cons.mp hx with h1 | h1
    · exact Or.inr (Or.inl h1)
    · exact Or.inl (hall x h1)
  · subst h
    simp only [List.cons_append, List.mem_cons, List.mem_append, List.mem_singleton,
      List.not_mem_nil, or_false] at hx
    rcases hx with h1 | h1 | h1 | h1
    · exact Or.inr (Or.inl h1)
    · exact Or.inl (hall x h1)
    · exact Or.inr (Or.inr (Or.inl h1))
    · exact Or.inr (Or.inr (Or.inr (Or.inl h1)))
  · subst h
    simp only [List.cons_append, List.mem_cons, List.mem_append, List.mem_singleton,
      List.not_mem_nil, or_false] at hx
    rcases hx with h1 | h1 | h1 | h1 | h1
    · exact Or.inr (Or.inl h1)
    · exact Or.inl (hall x h1)
    · exact Or.inr (Or.inr (Or.inl h1))
    · exact Or.inr (Or.inr (Or.inr (Or.inl h1)))
    · exact Or.inr (Or.inr (Or.inr (Or.inr ⟨b, h1⟩)))

/-- The projection `p` sees none of the writes of the selection of the topics. -/
theorem selection_silent (p : Event → Option TopicId)
    (hI : ∀ t, p (Event.write (Call.InactivateTopic t)) = none)
    (hR : ∀ t b, p (Event.write (Call.ResetTopicFeeRevenue t b)) = none)
    (blockHeight : BlockHeight) (ts : List TopicId) (ef ew : List Event)
    (hf : Rounds (filterRound blockHeight) ts ef)
    (hw : Rounds (winnerRound blockHeight) ts ew) :
    ef.filterMap p = [] ∧ ew.filterMap p = [] := by
  constructor
  · refine Rounds.filterMap_none_of_mem p (fun t e hr x hx => ?_) hf
    rcases filterRound_mem hr hx with h | h
    · rw [h]; exact hI t
    · rw [h]; exact hR t blockHeight
  · refine Rounds.filterMap_none_of_mem p (fun t e hr x hx => ?_) hw
    rw [winnerRound_mem hr hx]
    exact hR t blockHeight

/-- The projection `p` sees none of the steps of the loop of the driver. -/
theorem driver_silent (p : Event → Option TopicId)
    (hpw : ∀ x, payoutWrite x → p x = none)
    (h1 : ∀ t, p (Event.payoutRewards t) = none)
    (h2 : ∀ t, p (Event.pruneRecordsAfterRewards t) = none)
    (h3 : ∀ t, p (Event.write (Call.DeleteTopicRewardNonce t)) = none)
    (h4 : ∀ t b, p (Event.write (Call.PruneRecordsAfterRewards t b)) = none)
    (ts : List TopicId) (ed : List Event) (hd : Rounds driverRound ts ed) :
    ed.filterMap p = [] := by
  refine Rounds.filterMap_none_of_mem p (fun t e hr x hx => ?_) hd
  rcases driverRound_mem hr hx with h | h | h | h | ⟨b, h⟩
  · exact hpw x h
  · rw [h]; exact h1 t
  · rw [h]; exact h2 t
  · rw [h]; exact h3 t
  · rw [h]; exact h4 t b

theorem monthly_silent (p : Event → Option TopicId)
    (hS : ∀ d, p (Event.write (Call.SetPreviousPercentageRewardToStakedReputers d)) = none)
    (em : List Event)
    (hm : ∀ e ∈ em, ∃ d, e = Event.write (Call.SetPreviousPercentageRewardToStakedReputers d)) :
    em.filterMap p = [] := by
  apply filterMap_none
  intro x hx
  obtain ⟨d, rfl⟩ := hm x hx
  exact hS d

/-- The topics that a projection of the steps of the driver sees in the
transcript of `EmitRewards` form a sublist of the sorted topics. -/
theorem EmitRewards_driver_projection (p : Event → Option TopicId)
    (hI : ∀ t, p (Event.write (Call.InactivateTopic t)) = none)
    (hR : ∀ t b, p (Event.write (Call.ResetTopicFeeRevenue t b)) = none)
    (hS : ∀ d, p (Event.write (Call.SetPreviousPercentageRewardToStakedReputers d)) = none)
    (hpw : ∀ x, payoutWrite x → p x = none)
    (hfour : ∀ t b, ([Event.payoutRewards t, Event.pruneRecordsAfterRewards t,
      Event.write (Call.DeleteTopicRewardNonce t),
      Event.write (Call.PruneRecordsAfterRewards t b)].filterMap p).Sublist [t])
    (X : External) (k : Keeper) (blockHeight : BlockHeight) (weights : DecMap)
    (sumWeight : Dec) (totalRevenue : Int) :
    ((k.since (EmitRewards X k blockHeight weights sumWeight totalRevenue).2).filterMap
      p).Sublist (GetSortedKeys weights) := by
  obtain ⟨ef, ew, ed, em, hS1, hf, hw, hd, hm⟩ := EmitRewards_rounds X k blockHeight weights
    sumWeight totalRevenue
  obtain ⟨h1, h2⟩ := selection_silent p hI hR blockHeight _ ef ew hf hw
  rw [hS1, List.filterMap_append, List.filterMap_append, List.filterMap_append, h1, h2,
    monthly_silent p hS em hm, List.nil_append, List.nil_append, List.append_nil]
  exact Rounds.filterMap_sublist p (fun t e hr => driverRound_filterMap p hpw t (hfour t) e hr)
    hd

/-- C28 (counterexample): the sorted keys of the weights are 1, 2; topic 2 is
below the minimum weight and topic 1 wins. The filter resets the fee revenue
of topic 2, and the loop over the winners then resets the fee revenue of topic
1: the topics whose fee revenue is reset are, in the order of the resets, 2 and
then 1. -/
theorem EmitRewards_resets_not_ascending :
    GetSortedKeys [(1, 3), (2, 1 / 1000)] = [1, 2]
    ∧ (GetSortedKeys [(1, 3), (2, 1 / 1000)]).Sorted (· < ·)
    ∧ (EmitRewards exampleExternal exampleKeeper 5 [(1, 3), (2, 1 / 1000)] (3 + 1 / 1000)
        0).1 = .ok ()
    ∧ exampleKeeper.since
        (EmitRewards exampleExternal exampleKeeper 5 [(1, 3), (2, 1 / 1000)] (3 + 1 / 1000) 0).2
      = [Event.write (Call.InactivateTopic 2), Event.write (Call.ResetTopicFeeRevenue 2 5),
        Event.write (Call.ResetTopicFeeRevenue 1 5), Event.payoutRewards 1,
        Event.write (Call.SendCoinsFromModuleToModule AlloraRewardsAccountName
          AlloraStakingAccountName 200),
        Event.write (Call.AddStake 1 "r" 200),
        Event.write (Call.SendCoinsFromModuleToAccount AlloraRewardsAccountName "w" 200),
        Event.pruneRecordsAfterRewards 1, Event.write (Call.DeleteTopicRewardNonce 1),
        Event.write (Call.PruneRecordsAfterRewards 1 (-290))]
    ∧ resetTopics (exampleKeeper.since
        (EmitRewards exampleExternal exampleKeeper 5 [(1, 3), (2, 1 / 1000)] (3 + 1 / 1000)
          0).2) = [2, 1]
    ∧ ¬ (resetTopics (exampleKeeper.since
        (EmitRewards exampleExternal exampleKeeper 5 [(1, 3), (2, 1 / 1000)] (3 + 1 / 1000)
          0).2)).Sorted (· < ·) := by
  refine ⟨by decide!, by decide!, by decide!, by decide!, by decide!, by decide!⟩

/-- C28 (amended): given that `GetSortedKeys` returns the keys of the weights
in strictly ascending order, the transcript of `EmitRewards` starts with the
rounds of the filter over the sorted topics, followed by the rounds of the
resets of the winners over the sorted topics. The topics inactivated, the
topics whose fee revenue is reset by the filter, the winners whose fee revenue
is reset afterwards, the topics for which `payoutRewards` is run, the topics
for which the pruning is run, those whose reward nonce is deleted and those
whose records are pruned are each strictly increasing in `TopicId`, so each
topic occurs at most once in each; the resets of `EmitRewards` are the resets
of the filter followed by the resets of the winners. -/
theorem EmitRewards_effects_in_topic_order (X : External) (k : Keeper)
    (blockHeight : BlockHeight) (weights : DecMap) (sumWeight : Dec) (totalRevenue : Int)
    (hsorted : (GetSortedKeys weights).Sorted (· < ·)) :
    ∃ ef ew rest,
      k.since (EmitRewards X k blockHeight weights sumWeight totalRevenue).2
        = ef ++ ew ++ rest
      ∧ Rounds (filterRound blockHeight) (GetSortedKeys weights) ef
      ∧ Rounds (winnerRound blockHeight) (GetSortedKeys weights) ew
      ∧ inactivatedTopics
          (k.since (EmitRewards X k blockHeight weights sumWeight totalRevenue).2)
        = inactivatedTopics ef
      ∧ (inactivatedTopics
          (k.since (EmitRewards X k blockHeight weights sumWeight totalRevenue).2)).Sorted
            (· < ·)
      ∧ resetTopics (k.since (EmitRewards X k blockHeight weights sumWeight totalRevenue).2)
        = resetTopics ef ++ resetTopics ew
      ∧ (resetTopics ef).Sorted (· < ·)
      ∧ (resetTopics ew).Sorted (· < ·)
      ∧ (payoutTopics
          (k.since (EmitRewards X k blockHeight weights sumWeight totalRevenue).2)).Sorted
            (· < ·)
      ∧ (prunedTopics
          (k.since (EmitRewards X k blockHeight weights sumWeight totalRevenue).2)).Sorted
            (· < ·)
      ∧ (deletedNonceTopics
          (k.since (EmitRewards X k blockHeight weights sumWeight totalRevenue).2)).Sorted
            (· < ·)
      ∧ (prunedRecordTopics
          (k.since (EmitRewards X k blockHeight weights sumWeight totalRevenue).2)).Sorted
            (· < ·) := by
  have hsub : ∀ l : List TopicId, l.Sublist (GetSortedKeys weights) → l.Sorted (· < ·) :=
    fun l hl => List.Pairwise.sublist hl hsorted
  have hpw : ∀ (p : Event → Option TopicId),
      (∀ c, p (Event.write c) = none ∨ (∃ t, c = Call.InactivateTopic t)
        ∨ (∃ t b, c = Call.ResetTopicFeeRevenue t b) ∨ (∃ t, c = Call.DeleteTopicRewardNonce t)
        ∨ (∃ t b, c = Call.PruneRecordsAfterRewards t b)) →
      ∀ x, payoutWrite x → p x = none := by
    intro p hp x hx
    rcases hx with ⟨a, b, n, rfl⟩ | ⟨a, b, n, rfl⟩ | ⟨a, b, n, rfl⟩
    · rcases hp (Call.SendCoinsFromModuleToModule a b n) with h | ⟨t, h⟩ | ⟨t, b1, h⟩
        | ⟨t, h⟩ | ⟨t, b1, h⟩
      · exact h
      all_goals cases h
    · rcases hp (Call.SendCoinsFromModuleToAccount a b n) with h | ⟨t, h⟩ | ⟨t, b1, h⟩
        | ⟨t, h⟩ | ⟨t, b1, h⟩
      · exact h
      all_goals cases h
    · rcases hp (Call.AddStake a b n) with h | ⟨t, h⟩ | ⟨t, b1, h⟩ | ⟨t, h⟩ | ⟨t, b1, h⟩
      · exact h
      all_goals cases h
  have hpayout := EmitRewards_driver_projection
    (fun e => match e with
      | Event.payoutRewards t => some t
      | _ => none)
    (fun _ => rfl) (fun _ _ => rfl) (fun _ => rfl)
    (hpw _ (fun c => Or.inl rfl)) (fun t b => by simp) X k blockHeight weights sumWeight
    totalRevenue
  have hpruned := EmitRewards_driver_projection
    (fun e => match e with
      | Event.pruneRecordsAfterRewards t => some t
      | _ => none)
    (fun _ => rfl) (fun _ _ => rfl) (fun _ => rfl)
    (hpw _ (fun c => Or.inl rfl)) (fun t b => by simp) X k blockHeight weights sumWeight
    totalRevenue
  have hdeleted := EmitRewards_driver_projection
    (fun e => match e with
      | Event.write (Call.DeleteTopicRewardNonce t) => some t
      | _ => none)
    (fun _ => rfl) (fun _ _ => rfl) (fun _ => rfl)
    (by
      rintro x (⟨a, b, n, rfl⟩ | ⟨a, b, n, rfl⟩ | ⟨a, b, n, rfl⟩) <;> rfl)
    (fun t b => by simp) X k blockHeight weights sumWeight totalRevenue
  have hrecords := EmitRewards_driver_projection
    (fun e => match e with
      | Event.write (Call.PruneRecordsAfterRewards t _) => some t
      | _ => none)
    (fun _ => rfl) (fun _ _ => rfl) (fun _ => rfl)
    (by
      rintro x (⟨a, b, n, rfl⟩ | ⟨a, b, n, rfl⟩ | ⟨a, b, n, rfl⟩) <;> rfl)
    (fun t b => by simp) X k blockHeight weights sumWeight totalRevenue
  obtain ⟨ef, ew, ed, em, hS, hf, hw, hd, hm⟩ := EmitRewards_rounds X k blockHeight weights
    sumWeight totalRevenue
  have hinactF : (inactivatedTopics ef).Sublist (GetSortedKeys weights) := by
    unfold inactivatedTopics
    refine Rounds.filterMap_sublist _ (fun t e hr => ?_) hf
    rcases hr with rfl | rfl | rfl <;> simp
  have hinactW : inactivatedTopics ew = [] := by
    unfold inactivatedTopics
    refine Rounds.filterMap_none_of_mem _ (fun t e hr x hx => ?_) hw
    rw [winnerRound_mem hr hx]
  have hinactD : inactivatedTopics ed = [] := by
    unfold inactivatedTopics
    exact driver_silent _
      (by rintro x (⟨a, b, n, rfl⟩ | ⟨a, b, n, rfl⟩ | ⟨a, b, n, rfl⟩) <;> rfl)
      (fun _ => rfl) (fun _ => rfl) (fun _ => rfl) (fun _ _ => rfl) _ ed hd
  have hinactM : inactivatedTopics em = [] := by
    unfold inactivatedTopics
    exact monthly_silent _ (fun _ => rfl) em hm
  have hresetF : (resetTopics ef).Sublist (GetSortedKeys weights) := by
    unfold resetTopics
    refine Rounds.filterMap_sublist _ (fun t e hr => ?_) hf
    rcases hr with rfl | rfl | rfl <;> simp
  have hresetW : (resetTopics ew).Sublist (GetSortedKeys weights) := by
    unfold resetTopics
    refine Rounds.filterMap_sublist _ (fun t e hr => ?_) hw
    rcases hr with rfl | rfl <;> simp
  have hresetD : resetTopics ed = [] := by
    unfold resetTopics
    exact driver_silent _
      (by rintro x (⟨a, b, n, rfl⟩ | ⟨a, b, n, rfl⟩ | ⟨a, b, n, rfl⟩) <;> rfl)
      (fun _ => rfl) (fun _ => rfl) (fun _ => rfl) (fun _ _ => rfl) _ ed hd
  have hresetM : resetTopics em = [] := by
    unfold resetTopics
    exact monthly_silent _ (fun _ => rfl) em hm
  have hinact : inactivatedTopics
      (k.since (EmitRewards X k blockHeight weights sumWeight totalRevenue).2)
      = inactivatedTopics ef := by
    rw [hS]
    unfold inactivatedTopics at hinactW hinactD hinactM ⊢
    rw [List.filterMap_append, List.filterMap_append, List.filterMap_append, hinactW,
      hinactD, hinactM]
    simp
  have hreset : resetTopics
      (k.since (EmitRewards X k blockHeight weights sumWeight totalRevenue).2)
      = resetTopics ef ++ resetTopics ew := by
    rw [hS]
    unfold resetTopics at hresetD hresetM ⊢
    rw [List.filterMap_append, List.filterMap_append, List.filterMap_append, hresetD,
      hresetM]
    simp
  refine ⟨ef, ew, ed ++ em, by rw [hS, List.append_assoc], hf, hw, hinact, ?_, hreset,
    hsub _ hresetF, hsub _ hresetW, hsub _ hpayout, hsub _ hpruned, hsub _ hdeleted,
    hsub _ hrecords⟩
  rw [hinact]
  exact hsub _ hinactF

theorem EmitRewards_effects_in_topic_order_witness :
    (GetSortedKeys [(3, 1 / 1000), (1, 3), (2, 1)]).Sorted (· < ·)
    ∧ GetSortedKeys [(3, 1 / 1000), (1, 3), (2, 1)] = [1, 2, 3]
    ∧ inactivatedTopics (exampleKeeper.since
        (EmitRewards exampleExternal exampleKeeper 5 [(3, 1 / 1000), (1, 3), (2, 1)]
          (4 + 1 / 1000) 0).2) = [3]
    ∧ resetTopics (exampleKeeper.since
        (EmitRewards exampleExternal exampleKeeper 5 [(3, 1 / 1000), (1, 3), (2, 1)]
          (4 + 1 / 1000) 0).2) = [3, 1, 2]
    ∧ payoutTopics (exampleKeeper.since
        (EmitRewards exampleExternal exampleKeeper 5 [(3, 1 / 1000), (1, 3), (2, 1)]
          (4 + 1 / 1000) 0).2) = [1, 2]
    ∧ prunedTopics (exampleKeeper.since
        (EmitRewards exampleExternal exampleKeeper 5 [(3, 1 / 1000), (1, 3), (2, 1)]
          (4 + 1 / 1000) 0).2) = [1, 2]
    ∧ (inactivatedTopics (exampleKeeper.since
        (EmitRewards exampleExternal exampleKeeper 5 [(3, 1 / 1000), (1, 3), (2, 1)]
          (4 + 1 / 1000) 0).2)).Sorted (· < ·)
    ∧ (payoutTopics (exampleKeeper.since
        (EmitRewards exampleExternal exampleKeeper 5 [(3, 1 / 1000), (1, 3), (2, 1)]
          (4 + 1 / 1000) 0).2)).Sorted (· < ·)
    ∧ (prunedTopics (exampleKeeper.since
        (EmitRewards exampleExternal exampleKeeper 5 [(3, 1 / 1000), (1, 3), (2, 1)]
          (4 + 1 / 1000) 0).2)).Sorted (· < ·)
    ∧ (deletedNonceTopics (exampleKeeper.since
        (EmitRewards exampleExternal exampleKeeper 5 [(3, 1 / 1000), (1, 3), (2, 1)]
          (4 + 1 / 1000) 0).2)).Sorted (· < ·)
    ∧ (prunedRecordTopics (exampleKeeper.since
        (EmitRewards exampleExternal exampleKeeper 5 [(3, 1 / 1000), (1, 3), (2, 1)]
          (4 + 1 / 1000) 0).2)).Sorted (· < ·) := by
  obtain ⟨ef, ew, rest, -, -, -, -, h1, -, -, -, h2, h3, h4, h5⟩ :=
    EmitRewards_effects_in_topic_order exampleExternal exampleKeeper 5
      [(3, 1 / 1000), (1, 3), (2, 1)] (4 + 1 / 1000) 0 (by decide!)
  exact ⟨by decide!, by decide!, by decide!, by decide!, by decide!, by decide!, h1, h2, h3,
    h4, h5⟩

/-- C19 (counterexample): with the epoch length 2^62, the record limit 3 and the
single unfulfilled nonce 1000, the product `3 * 2^62` wraps around in `int64`
to `-2^62`, so `pruneRecordsAfterRewards` passes the cutoff `1000 + 2^62` to the
keeper, which is above `1000 - 3 * 2^62`, and the loss bundle at the oldest
unfulfilled nonce 1000 is deleted. -/
theorem pruneRecordsAfterRewards_overflow_prunes_recent :
    longEpochKeeper.unfulfilledNonces 1 = [1000]
      ∧ (longEpochKeeper.topic 1).EpochLength = 2 ^ 62
      ∧ wrapInt64 (3 * (longEpochKeeper.topic 1).EpochLength) = -2 ^ 62
      ∧ (pruneRecordsAfterRewards longEpochKeeper 3 1 900).1 = none
      ∧ longEpochKeeper.since (pruneRecordsAfterRewards longEpochKeeper 3 1 900).2
          = [Event.write (Call.DeleteTopicRewardNonce 1),
             Event.write (Call.PruneRecordsAfterRewards 1 (1000 + 2 ^ 62))]
      ∧ ¬ ((1000 : Int) + 2 ^ 62 ≤ 1000 - 3 * (longEpochKeeper.topic 1).EpochLength)
      ∧ (1000 : Int) - 3 * (longEpochKeeper.topic 1).EpochLength ≤ 1000
      ∧ longEpochKeeper.networkLossBundle 1 1000 = some exampleBundle
      ∧ (pruneRecordsAfterRewards longEpochKeeper 3 1 900).2.networkLossBundle 1 1000 = none
      ∧ ¬ (∀ t cutoff, Event.write (Call.PruneRecordsAfterRewards t cutoff)
            ∈ longEpochKeeper.since (pruneRecordsAfterRewards longEpochKeeper 3 1 900).2 →
          ∀ n ∈ longEpochKeeper.unfulfilledNonces 1,
            cutoff ≤ n - 3 * (longEpochKeeper.topic 1).EpochLength) := by
  refine ⟨by decide!, by decide!, by decide!, by decide!, by decide!, by decide!, by decide!,
    by decide!, by decide!, fun h => ?_⟩
  exact absurd (h 1 (1000 + 2 ^ 62) (by decide!) 1000 (by decide!)) (by decide!)

end Allora
